import Mathlib

/-!
DRAMSim2 memory controller with the SecMC-NI scheduler

A shallow embedding of `src/MemoryController.cpp`.

* The controller object is the record `MemoryController`; every member function is a
  function on that record.  Functions that can abort (`exit`, `abort`, `assert`) or that
  read from an empty container return `Except Err`.
* The collaborators that are not part of the sources (command queue, ranks, the clock
  driver, the upward callbacks) appear as inputs and outputs: what the command queue
  answers in a cycle is a `CycleInput`, every call the controller makes on a collaborator
  is appended to the field `trace`, stamped with the clock.
* Clocks and deadlines are 64-bit in the source and are natural numbers here (no
  wrap-around below 2^64 cycles).  The two bus countdowns and the write-data countdowns
  are decremented without a guard in the source and wrap at 2^32 here.  The refresh
  countdowns are integers, so that an underflow would show as a negative value.
* The energy and statistics accumulators (`burstEnergy`, `actpreEnergy`, `refreshEnergy`,
  `backgroundEnergy`, `totalReads`, `totalWrites`, `totalPrefReads`, `totalTransactions`)
  are only ever added to and never read by the control flow; they are not part of the
  record.  The latency accumulators that `insertHistogram` writes (`totalLatency`,
  `totalLatencyPref`, `latencies`) are part of it.
-/

namespace DRAMSim

/-! ## Data model -/

inductive TransactionType where
  | DATA_READ
  | DATA_WRITE
  | RETURN_DATA
deriving DecidableEq, Repr

inductive BusPacketType where
  | READ
  | READ_P
  | WRITE
  | WRITE_P
  | ACTIVATE
  | PRECHARGE
  | REFRESH
  | DATA
deriving DecidableEq, Repr

inductive CurrentBankState where
  | Idle
  | RowActive
  | Precharging
  | Refreshing
  | PowerDown
deriving DecidableEq, Repr

/-- A memory request.  `data` is the payload pointer (0 for NULL), carried opaquely. -/
structure Transaction where
  transactionType : TransactionType
  address : Nat
  data : Nat
  core : Nat
  isPrefetch : Bool
  timeAdded : Nat
deriving DecidableEq, Repr

/-- One bus-level event, with the fields the controller reads and writes. -/
structure BusPacket where
  busPacketType : BusPacketType
  physicalAddress : Nat
  column : Nat
  row : Nat
  rank : Nat
  bank : Nat
  data : Nat
deriving DecidableEq, Repr

/-- Per-bank record, with the fields that `MemoryController.cpp` reads and writes. -/
structure BankState where
  currentBankState : CurrentBankState
  openRowAddress : Nat
  lastCommand : BusPacketType
  stateChangeCountdown : Nat
  nextRead : Nat
  nextWrite : Nat
  nextActivate : Nat
  nextPrecharge : Nat
  nextPowerUp : Nat
deriving DecidableEq, Repr

/-- Output of `addressMapping(addr, chan, rank, bank, row, col)`. -/
structure MappedAddress where
  chan : Nat
  rank : Nat
  bank : Nat
  row : Nat
  col : Nat
deriving DecidableEq, Repr

/-- The tuning constants the controller reads (they are declared outside
`MemoryController.cpp`), and the pure function `addressMapping`.
`REFRESH_PERIOD_CYCLES` stands for the value of `REFRESH_PERIOD/tCK` truncated to an
integer. -/
structure Config where
  NUM_RANKS : Nat
  NUM_BANKS : Nat
  NUM_CPU : Nat
  TRANS_QUEUE_DEPTH : Nat
  CYCLE_LENGTH : Nat
  T_RANK : Nat
  BL : Nat
  WL : Nat
  AL : Nat
  tCMD : Nat
  tRC : Nat
  tRAS : Nat
  tRCD : Nat
  tRP : Nat
  tRFC : Nat
  tRRD : Nat
  tCCD : Nat
  tRTRS : Nat
  tXP : Nat
  tCKE : Nat
  READ_TO_PRE_DELAY : Nat
  READ_AUTOPRE_DELAY : Nat
  WRITE_TO_PRE_DELAY : Nat
  WRITE_AUTOPRE_DELAY : Nat
  READ_TO_WRITE_DELAY : Nat
  WRITE_TO_READ_DELAY_B : Nat
  WRITE_TO_READ_DELAY_R : Nat
  REFRESH_PERIOD_CYCLES : Nat
  USE_LOW_POWER : Bool
  HISTOGRAM_BIN_SIZE : Nat
  addressMapping : Nat → MappedAddress

/-- The macro `RB_MAX`, that is `max(NUM_RANKS, NUM_BANKS) + 1`. -/
def RB_MAX (cfg : Config) : Nat := max cfg.NUM_RANKS cfg.NUM_BANKS + 1

/-- The ways in which the controller stops the simulation. -/
inductive Err where
  | nonDataPacket
  | dataBusCollision
  | cmdBusCollision
  | unknownCommand
  | noMatchingTransaction
  | assertionFailed
  | badTransactionType
  | emptyContainer
  | divisionByZero
deriving DecidableEq, Repr

/-- A call of the controller on one of its collaborators. -/
inductive ExtCall where
  | needRefresh (rank : Nat)
  | setRefreshWaiting (rank : Nat)
  | enqueue (p : BusPacket)
  | rankReceiveFromBus (rank : Nat) (p : BusPacket)
  | rankPowerDown (rank : Nat)
  | rankPowerUp (rank : Nat)
  | returnReadData (address : Nat)
  | writeDataDone (address : Nat)
deriving DecidableEq, Repr

/-- What the command queue answers during one `update()`: the result of `pop`, of
`hasRoomFor(n, rank, bank)` and of `isEmpty(rank)`. -/
structure CycleInput where
  popped : Option BusPacket
  hasRoomFor : Nat → Nat → Nat → Bool
  isEmpty : Nat → Bool

/-- The fields of the controller object.  `refreshWaiting` is the flag of the same name
of each rank object, which the controller sets and reads.  `totalLatency` and
`totalLatencyPref` are vectors of `double` in the source that only ever receive sums of
integer latencies (exact below 2^53) and are natural numbers here; `latencies` is the
histogram map, an absent key reading as 0.  `trace` lists the calls made on collaborators
so far, each with the clock at which it was made. -/
structure MemoryController where
  currentClockCycle : Nat
  bankStates : Nat → Nat → BankState
  outgoingCmdPacket : Option BusPacket
  outgoingDataPacket : Option BusPacket
  cmdCyclesLeft : Nat
  dataCyclesLeft : Nat
  writeDataToSend : List BusPacket
  writeDataCountdown : List Nat
  refreshCountdown : Nat → Int
  refreshRank : Nat
  powerDown : Nat → Bool
  refreshWaiting : Nat → Bool
  transactionQueue : List Transaction
  pendingReadTransactions : List Transaction
  returnTransaction : List Transaction
  rankQ : Nat → Nat → List Transaction
  sch : Nat → Nat → Nat
  prevSch : Nat → Nat → Nat
  turn : Nat
  epochStart : Nat
  dispatchTick : Nat
  rankIndx : Nat
  bankIndx : Nat
  totalLatency : Nat → Nat
  totalLatencyPref : Nat → Nat
  latencies : Nat → Nat
  trace : List (Nat × ExtCall)

/-- What the constructor takes from outside `MemoryController.cpp`: the value the
`BankState` constructor gives every bank, the initial `refreshWaiting` flag of the ranks,
and the content of `prevSch`, which the constructor leaves uninitialised. -/
structure Boot where
  bank0 : BankState
  refreshWaiting0 : Nat → Bool
  prevSch0 : Nat → Nat → Nat

/-! ## Small helpers for loops and tables -/

/-- The loop `for (i = 0; i < n; i++) s = body i s`. -/
def forLoop {σ : Type} (body : Nat → σ → σ) : Nat → σ → σ
  | 0, s => s
  | n + 1, s => body n (forLoop body n s)

/-- The loop `for (i = 0; i < n; i++) t[i] = f i t[i]` over a vector: iteration `i` reads
and writes the entry `i` only. -/
def mapRange1 {α : Type} (n : Nat) (f : Nat → α → α) (t : Nat → α) : Nat → α :=
  fun a => if a < n then f a (t a) else t a

/-- The loops `for (i = 0; i < n; i++) for (j = 0; j < m; j++) t[i][j] = f i j t[i][j]` over
a table: iteration `(i, j)` reads and writes the entry `(i, j)` only. -/
def mapRange2 {α : Type} (n m : Nat) (f : Nat → Nat → α → α) (t : Nat → Nat → α) :
    Nat → Nat → α :=
  fun a b => if a < n ∧ b < m then f a b (t a b) else t a b

/-- Assignment `t[i][j] = v` on a two-dimensional table. -/
def set2 {α : Type} (t : Nat → Nat → α) (i j : Nat) (v : α) : Nat → Nat → α :=
  fun a b => if a = i ∧ b = j then v else t a b

/-- Assignment `t[i] = v` on a vector. -/
def set1 {α : Type} (t : Nat → α) (i : Nat) (v : α) : Nat → α :=
  fun a => if a = i then v else t a

/-- A front-to-back scan `for (i = start; i < start + l.size(); i++)` that stops at the
first element accepted by `ok`; the result is its index and the element. -/
def scanFirst {α : Type} (ok : α → Bool) : List α → Nat → Option (Nat × α)
  | [], _ => none
  | x :: xs, i => if ok x then some (i, x) else scanFirst ok xs (i + 1)

/-- Decrement `n--` of an `unsigned` counter: 0 wraps to 2^32 - 1. -/
def dec32 (n : Nat) : Nat := if n = 0 then 4294967295 else n - 1

/-- Append calls on collaborators to the trace, stamped with the current clock. -/
def MemoryController.emit (mc : MemoryController) (cs : List ExtCall) : MemoryController :=
  { mc with trace := mc.trace ++ cs.map (fun c => (mc.currentClockCycle, c)) }

/-! ## Constructor and upward interface -/

/-- The constructor `MemoryController::MemoryController`. -/
def MemoryController.init (cfg : Config) (boot : Boot) : MemoryController :=
  { currentClockCycle := 0
    bankStates := fun _ _ => boot.bank0
    outgoingCmdPacket := none
    outgoingDataPacket := none
    cmdCyclesLeft := 0
    dataCyclesLeft := 0
    writeDataToSend := []
    writeDataCountdown := []
    refreshCountdown := fun i =>
      if i < cfg.NUM_RANKS then
        ((cfg.REFRESH_PERIOD_CYCLES / cfg.NUM_RANKS * (i + 1) : Nat) : Int)
      else 0
    refreshRank := 0
    powerDown := fun _ => false
    refreshWaiting := boot.refreshWaiting0
    transactionQueue := []
    pendingReadTransactions := []
    returnTransaction := []
    rankQ := fun _ _ => []
    sch := fun _ _ => RB_MAX cfg
    prevSch := boot.prevSch0
    turn := 0
    epochStart := 0
    dispatchTick := 0
    rankIndx := 0
    bankIndx := 1
    totalLatency := fun _ => 0
    totalLatencyPref := fun _ => 0
    latencies := fun _ => 0
    trace := [] }

/-- `MemoryController::WillAcceptTransaction`. -/
def WillAcceptTransaction (cfg : Config) (mc : MemoryController) : Bool :=
  decide (mc.transactionQueue.length < cfg.TRANS_QUEUE_DEPTH)

/-- `MemoryController::addTransaction`: the returned boolean, the controller afterwards
and the transaction object afterwards (the caller's object is stamped in place). -/
def addTransaction (cfg : Config) (mc : MemoryController) (trans : Transaction) :
    Bool × MemoryController × Transaction :=
  if WillAcceptTransaction cfg mc then
    let trans1 := { trans with timeAdded := mc.currentClockCycle }
    (true, { mc with transactionQueue := mc.transactionQueue ++ [trans1] }, trans1)
  else
    (false, mc, trans)

/-- `MemoryController::receiveFromBus`: a DATA packet from a rank becomes a RETURN_DATA
transaction at the tail of `returnTransaction`; any other packet stops the simulation.
The fields of the new transaction other than type, address and data are not read. -/
def receiveFromBus (mc : MemoryController) (bpacket : BusPacket) : Except Err MemoryController :=
  if bpacket.busPacketType ≠ BusPacketType.DATA then
    Except.error Err.nonDataPacket
  else
    Except.ok { mc with
      returnTransaction := mc.returnTransaction ++
        [{ transactionType := TransactionType.RETURN_DATA, address := bpacket.physicalAddress,
           data := bpacket.data, core := 0, isPrefetch := false, timeAdded := 0 }] }

/-! ## The SecMC-NI schedule: `noBankViolation`, `constructSchedule`, `dispatchReq` -/

/-- The first loop of `noBankViolation`, `for (i = bankIndx-1; i > 0; i--)`, entered with
`i` as the loop variable: `false` as soon as `bank == sch[rankIndx][i]`. -/
def sameSchLoop (sch : Nat → Nat → Nat) (rankIndx bank : Nat) : Nat → Bool
  | 0 => true
  | i + 1 => if bank = sch rankIndx (i + 1) then false else sameSchLoop sch rankIndx bank i

/-- The second loop of `noBankViolation`, `for (i = bankIndx+1; i <= 3; i++)`, entered
with `i` as the loop variable and `n` iterations left. -/
def prevSchLoop (prevSch : Nat → Nat → Nat) (rankIndx bank : Nat) : Nat → Nat → Bool
  | 0, _ => true
  | n + 1, i =>
    if bank = prevSch rankIndx i then false else prevSchLoop prevSch rankIndx bank n (i + 1)

/-- `MemoryController::noBankViolation`. -/
def noBankViolation (mc : MemoryController) (bank : Nat) : Bool :=
  if sameSchLoop mc.sch mc.rankIndx bank (mc.bankIndx - 1) = false then false
  else if mc.sch mc.rankIndx 0 ≠ mc.prevSch mc.rankIndx 0 then true
  else prevSchLoop mc.prevSch mc.rankIndx bank (3 - mc.bankIndx) (mc.bankIndx + 1)

/-- The drain loop of `constructSchedule` over `transactionQueue`: a transaction of core
`turn` that is not a prefetch is pushed on `rankQ[turn][rank]` and erased from the queue,
any other stays. The result is the queue and the per-rank queues of `turn` afterwards. -/
def drainLoop (cfg : Config) (turn : Nat) :
    List Transaction → (Nat → List Transaction) → List Transaction × (Nat → List Transaction)
  | [], rq => ([], rq)
  | t :: ts, rq =>
    if t.core = turn ∧ t.isPrefetch = false then
      let r := (cfg.addressMapping t.address).rank
      drainLoop cfg turn ts (set1 rq r (rq r ++ [t]))
    else
      let res := drainLoop cfg turn ts rq
      (t :: res.1, res.2)

/-- The order of `std::pair<double,int>` used by the priority queue (pending count first,
rank index second).  Counts are far below 2^53, so the conversion to `double` is exact. -/
def pairLess (a b : Nat × Nat) : Bool :=
  decide (a.1 < b.1) || (decide (a.1 = b.1) && decide (a.2 < b.2))

/-- `q.top()`: the greatest pair of the priority queue (the pairs are pairwise different,
so it does not depend on the layout of the heap); `none` on an empty queue. -/
def pqTop : List (Nat × Nat) → Option (Nat × Nat)
  | [] => none
  | x :: xs =>
    match pqTop xs with
    | none => some x
    | some m => if pairLess m x then some x else some m

/-- The loop `for (i = 0; i < 3; i++) { topThree.push_back(q.top().second); q.pop(); }`
with `n` iterations left. -/
def topThreeLoop : Nat → List (Nat × Nat) → Except Err (List Nat)
  | 0, _ => Except.ok []
  | n + 1, q =>
    match pqTop q with
    | none => Except.error Err.emptyContainer
    | some m =>
      match topThreeLoop n (q.erase m) with
      | Except.error e => Except.error e
      | Except.ok l => Except.ok (m.2 :: l)

/-- The vector `topThree` that `constructSchedule` computes from `pktsInRank`. -/
def selectTopThree (cfg : Config) (pktsInRank : Nat → Nat) : Except Err (List Nat) :=
  topThreeLoop 3 ((List.range cfg.NUM_RANKS).map (fun i => (pktsInRank i, i)))

/-- The inner loop of the rank re-ordering: scan `topThree` for the first element equal to
`prev`; the result is that element and the vector after its erasure. -/
def stickyScan (prev : Nat) : List Nat → Option (Nat × List Nat)
  | [] => none
  | x :: xs =>
    if prev = x then some (x, xs)
    else
      match stickyScan prev xs with
      | none => none
      | some (y, rest) => some (y, x :: rest)

/-- One iteration (row `i`) of the rank re-ordering loop. -/
def stickyRow (prevSch : Nat → Nat → Nat) (i : Nat)
    (st : (Nat → Nat → Nat) × List Nat) : (Nat → Nat → Nat) × List Nat :=
  match stickyScan (prevSch i 0) st.2 with
  | none => st
  | some (y, rest) => (set2 st.1 i 0 y, rest)

/-- One iteration (row `j`) of the inner loop of the fill pass. -/
def fillRow (rbMax : Nat) (j : Nat)
    (st : (Nat → Nat → Nat) × List Nat) : Except Err ((Nat → Nat → Nat) × List Nat) :=
  if st.1 j 0 = rbMax then
    match st.2 with
    | [] => Except.error Err.emptyContainer
    | x :: rest => Except.ok (set2 st.1 j 0 x, rest)
  else Except.ok st

/-- The inner loop `for (j = 0; j < 3; j++)` of the fill pass. -/
def fillInner (rbMax : Nat) (st : (Nat → Nat → Nat) × List Nat) :
    Except Err ((Nat → Nat → Nat) × List Nat) :=
  match fillRow rbMax 0 st with
  | Except.error e => Except.error e
  | Except.ok st0 =>
    match fillRow rbMax 1 st0 with
    | Except.error e => Except.error e
    | Except.ok st1 => fillRow rbMax 2 st1

/-- The outer loop `for (i = 0; i < topThree.size(); i++)` of the fill pass, entered with
`i` as the loop variable; `n` bounds the number of iterations left (the vector never
grows, so its initial size is enough). -/
def fillOuter (rbMax : Nat) : Nat → Nat → (Nat → Nat → Nat) × List Nat →
    Except Err ((Nat → Nat → Nat) × List Nat)
  | 0, _, st => Except.ok st
  | n + 1, i, st =>
    if i < st.2.length then
      match fillInner rbMax st with
      | Except.error e => Except.error e
      | Except.ok st1 => fillOuter rbMax n (i + 1) st1
    else Except.ok st

/-- The first part of `constructSchedule` after the guard: advance `epochStart`, copy
`sch` into `prevSch`, reset `sch`, change `turn`. -/
def epochAdvance (cfg : Config) (mc : MemoryController) (curClock : Nat) : MemoryController :=
  { mc with
    epochStart := curClock + cfg.CYCLE_LENGTH
    prevSch := mapRange2 3 4 (fun i j _ => mc.sch i j) mc.prevSch
    sch := mapRange2 3 4 (fun _ _ _ => RB_MAX cfg) mc.sch
    turn := if mc.turn = cfg.NUM_CPU - 1 then 0 else mc.turn + 1 }

/-- The drain of `constructSchedule`, for the owner `mc.turn`. -/
def drain (cfg : Config) (mc : MemoryController) : MemoryController :=
  let res := drainLoop cfg mc.turn mc.transactionQueue (mc.rankQ mc.turn)
  { mc with transactionQueue := res.1, rankQ := set1 mc.rankQ mc.turn res.2 }

/-- The vector `pktsInRank` of `constructSchedule`. -/
def pktsInRank (cfg : Config) (mc : MemoryController) : Nat → Nat :=
  mapRange1 cfg.NUM_RANKS (fun i _ => (mc.rankQ mc.turn i).length) (fun _ => 0)

/-- The rank re-ordering (stickiness) loop followed by the fill loop, on the pair of the
table `sch` and the vector `topThree`. -/
def placeRanks (cfg : Config) (prevSch : Nat → Nat → Nat)
    (st : (Nat → Nat → Nat) × List Nat) : Except Err ((Nat → Nat → Nat) × List Nat) :=
  let st1 := forLoop (stickyRow prevSch) 3 st
  fillOuter (RB_MAX cfg) st1.2.length 0 st1

/-- `MemoryController::constructSchedule`. -/
def constructSchedule (cfg : Config) (mc : MemoryController) (curClock : Nat) :
    Except Err MemoryController :=
  if curClock ≠ mc.epochStart then Except.ok mc
  else
    let mc1 := drain cfg (epochAdvance cfg mc curClock)
    match selectTopThree cfg (pktsInRank cfg mc1) with
    | Except.error e => Except.error e
    | Except.ok topThree =>
      match placeRanks cfg mc1.prevSch (mc1.sch, topThree) with
      | Except.error e => Except.error e
      | Except.ok st => Except.ok { mc1 with sch := st.1 }

/-- Modelled from the spec: `Transaction::getBusPacketType` (Transaction.cpp is not part
of the sources).  The dispatcher enqueues "the READ/WRITE variant derived from the
transaction kind (plain, not auto-precharge)"; a transaction that is neither a read nor a
write has no such variant. -/
def getBusPacketType (t : Transaction) : Except Err BusPacketType :=
  match t.transactionType with
  | TransactionType.DATA_READ => Except.ok BusPacketType.READ
  | TransactionType.DATA_WRITE => Except.ok BusPacketType.WRITE
  | TransactionType.RETURN_DATA => Except.error Err.badTransactionType

/-- The ACTIVATE packet and the column packet of type `bpType` built for a transaction. -/
def commandPair (cfg : Config) (t : Transaction) (bpType : BusPacketType) : List ExtCall :=
  let m := cfg.addressMapping t.address
  [ ExtCall.enqueue { busPacketType := BusPacketType.ACTIVATE, physicalAddress := t.address,
                      column := m.col, row := m.row, rank := m.rank, bank := m.bank, data := 0 },
    ExtCall.enqueue { busPacketType := bpType, physicalAddress := t.address,
                      column := m.col, row := m.row, rank := m.rank, bank := m.bank,
                      data := t.data } ]

/-- The demand loop of `dispatchReq` (lines 974-1030); the boolean is `emptySlot`. -/
def dispatchDemand (cfg : Config) (inp : CycleInput) (mc : MemoryController) :
    Except Err (Bool × MemoryController) :=
  let r := mc.sch mc.rankIndx 0
  let ok := fun (t : Transaction) =>
    let m := cfg.addressMapping t.address
    noBankViolation mc m.bank && inp.hasRoomFor 2 m.rank m.bank
  match scanFirst ok (mc.rankQ mc.turn r) 0 with
  | none => Except.ok (true, mc)
  | some (i, t) =>
    if t.isPrefetch then Except.error Err.assertionFailed
    else
      let sch1 := set2 mc.sch mc.rankIndx mc.bankIndx (cfg.addressMapping t.address).bank
      let r1 := sch1 mc.rankIndx 0
      let rankQ1 := set2 mc.rankQ mc.turn r1 ((mc.rankQ mc.turn r1).eraseIdx i)
      match getBusPacketType t with
      | Except.error e => Except.error e
      | Except.ok bpType =>
        let mc1 := { mc with sch := sch1, rankQ := rankQ1 }
        let mc2 := mc1.emit (commandPair cfg t bpType)
        Except.ok (false,
          if t.transactionType = TransactionType.DATA_READ then
            { mc2 with pendingReadTransactions := mc2.pendingReadTransactions ++ [t] }
          else mc2)

/-- The prefetch loop of `dispatchReq` (lines 1036-1084). -/
def dispatchPrefetch (cfg : Config) (inp : CycleInput) (mc : MemoryController) :
    Except Err MemoryController :=
  let ok := fun (t : Transaction) =>
    let m := cfg.addressMapping t.address
    inp.hasRoomFor 2 m.rank m.bank && t.isPrefetch
  match scanFirst ok mc.transactionQueue 0 with
  | none => Except.ok mc
  | some (i, t) =>
    match getBusPacketType t with
    | Except.error e => Except.error e
    | Except.ok bpType =>
      let mc1 := { mc with transactionQueue := mc.transactionQueue.eraseIdx i }
      let mc2 := mc1.emit (commandPair cfg t bpType)
      Except.ok
        (if t.transactionType = TransactionType.DATA_READ then
          { mc2 with pendingReadTransactions := mc2.pendingReadTransactions ++ [t] }
        else mc2)

/-- The end of `dispatchReq` (lines 1087-1099): move the slot cursor and schedule the next
dispatch. -/
def advanceSlot (cfg : Config) (mc : MemoryController) : MemoryController :=
  { mc with
    rankIndx := if mc.rankIndx = 2 then 0 else mc.rankIndx + 1
    bankIndx := if mc.rankIndx = 2 then (if mc.bankIndx = 3 then 1 else mc.bankIndx + 1)
                else mc.bankIndx
    dispatchTick := mc.dispatchTick + cfg.T_RANK }

/-- `MemoryController::dispatchReq`. -/
def dispatchReq (cfg : Config) (inp : CycleInput) (mc : MemoryController) (curClock : Nat) :
    Except Err MemoryController :=
  if curClock ≠ mc.dispatchTick then Except.ok mc
  else
    match dispatchDemand cfg inp mc with
    | Except.error e => Except.error e
    | Except.ok (emptySlot, mc1) =>
      if emptySlot then
        match dispatchPrefetch cfg inp mc1 with
        | Except.error e => Except.error e
        | Except.ok mc2 => Except.ok (advanceSlot cfg mc2)
      else Except.ok (advanceSlot cfg mc1)

/-! ## `update()`: the phases of one clock cycle, in source order -/

/-- The body of the bank-state loop of `update` (lines 191-217) for one bank. -/
def stepBankState (cfg : Config) (b : BankState) : BankState :=
  if b.stateChangeCountdown > 0 then
    let b1 := { b with stateChangeCountdown := b.stateChangeCountdown - 1 }
    if b1.stateChangeCountdown = 0 then
      match b1.lastCommand with
      | BusPacketType.WRITE_P =>
        { b1 with currentBankState := CurrentBankState.Precharging,
                  lastCommand := BusPacketType.PRECHARGE, stateChangeCountdown := cfg.tRP }
      | BusPacketType.READ_P =>
        { b1 with currentBankState := CurrentBankState.Precharging,
                  lastCommand := BusPacketType.PRECHARGE, stateChangeCountdown := cfg.tRP }
      | BusPacketType.REFRESH => { b1 with currentBankState := CurrentBankState.Idle }
      | BusPacketType.PRECHARGE => { b1 with currentBankState := CurrentBankState.Idle }
      | _ => b1
    else b1
  else b

/-- The two nested loops `for i < NUM_RANKS, for j < NUM_BANKS` applying `f i j` to
`bankStates[i][j]`. -/
def forBanks (cfg : Config) (f : Nat → Nat → BankState → BankState)
    (bs : Nat → Nat → BankState) : Nat → Nat → BankState :=
  mapRange2 cfg.NUM_RANKS cfg.NUM_BANKS f bs

/-- The loop `for i < NUM_BANKS` applying `f i` to `bankStates[rank][i]`. -/
def forBanksOfRank (cfg : Config) (rank : Nat) (f : Nat → BankState → BankState)
    (bs : Nat → Nat → BankState) : Nat → Nat → BankState :=
  fun a => if a = rank then mapRange1 cfg.NUM_BANKS f (bs rank) else bs a

/-- Lines 186-219: update bank states. -/
def updateBankStates (cfg : Config) (mc : MemoryController) : MemoryController :=
  { mc with bankStates := forBanks cfg (fun _ _ b => stepBankState cfg b) mc.bankStates }

/-- Lines 222-231: the command bus countdown. -/
def cmdBusCountdown (mc : MemoryController) : MemoryController :=
  match mc.outgoingCmdPacket with
  | none => mc
  | some p =>
    let mc1 := { mc with cmdCyclesLeft := dec32 mc.cmdCyclesLeft }
    if mc1.cmdCyclesLeft = 0 then
      { mc1.emit [ExtCall.rankReceiveFromBus p.rank p] with outgoingCmdPacket := none }
    else mc1

/-- Lines 233-248: the data bus countdown (the `WriteDataDone` callback is recorded as
made; the source makes it when one is registered). -/
def dataBusCountdown (mc : MemoryController) : MemoryController :=
  match mc.outgoingDataPacket with
  | none => mc
  | some p =>
    let mc1 := { mc with dataCyclesLeft := dec32 mc.dataCyclesLeft }
    if mc1.dataCyclesLeft = 0 then
      { mc1.emit [ExtCall.writeDataDone p.physicalAddress, ExtCall.rankReceiveFromBus p.rank p]
        with outgoingDataPacket := none }
    else mc1

/-- Lines 251-288: the write-data FIFO. -/
def writeDataStep (cfg : Config) (mc : MemoryController) : Except Err MemoryController :=
  if mc.writeDataCountdown.length > 0 then
    let cd := mc.writeDataCountdown.map dec32
    let mc1 := { mc with writeDataCountdown := cd }
    if cd.head? = some 0 then
      if mc1.outgoingDataPacket ≠ none then Except.error Err.dataBusCollision
      else
        match mc1.writeDataToSend with
        | [] => Except.error Err.emptyContainer
        | p :: rest =>
          Except.ok { mc1 with outgoingDataPacket := some p, dataCyclesLeft := cfg.BL / 2,
                               writeDataCountdown := cd.tail, writeDataToSend := rest }
    else Except.ok mc1
  else Except.ok mc

/-- Lines 290-307: refresh insertion for the rank under the round-robin cursor. -/
def refreshStep (cfg : Config) (mc : MemoryController) : MemoryController :=
  if mc.refreshCountdown mc.refreshRank = 0 then
    let mc1 := mc.emit [ExtCall.needRefresh mc.refreshRank, ExtCall.setRefreshWaiting mc.refreshRank]
    { mc1 with
      refreshWaiting := set1 mc.refreshWaiting mc.refreshRank true
      refreshCountdown := set1 mc.refreshCountdown mc.refreshRank (cfg.REFRESH_PERIOD_CYCLES : Int)
      refreshRank := if mc.refreshRank + 1 = cfg.NUM_RANKS then 0 else mc.refreshRank + 1 }
  else if mc.powerDown mc.refreshRank ∧ mc.refreshCountdown mc.refreshRank ≤ (cfg.tXP : Int) then
    { mc.emit [ExtCall.setRefreshWaiting mc.refreshRank] with
      refreshWaiting := set1 mc.refreshWaiting mc.refreshRank true }
  else mc

/-- The loop of the READ/READ_P case (lines 356-377) for bank `j` of rank `i`. -/
def readOthers (cfg : Config) (clk rank : Nat) (i : Nat) (b : BankState) : BankState :=
  if i ≠ rank then
    if b.currentBankState = CurrentBankState.RowActive then
      { b with nextRead := max (clk + cfg.BL / 2 + cfg.tRTRS) b.nextRead,
               nextWrite := max (clk + cfg.READ_TO_WRITE_DELAY) b.nextWrite }
    else b
  else
    { b with nextRead := max (clk + max cfg.tCCD (cfg.BL / 2)) b.nextRead,
             nextWrite := max (clk + cfg.READ_TO_WRITE_DELAY) b.nextWrite }

/-- The loop of the WRITE/WRITE_P case (lines 413-433) for bank `j` of rank `i`. -/
def writeOthers (cfg : Config) (clk rank : Nat) (i : Nat) (b : BankState) : BankState :=
  if i ≠ rank then
    if b.currentBankState = CurrentBankState.RowActive then
      { b with nextWrite := max (clk + cfg.BL / 2 + cfg.tRTRS) b.nextWrite,
               nextRead := max (clk + cfg.WRITE_TO_READ_DELAY_R) b.nextRead }
    else b
  else
    { b with nextWrite := max (clk + max (cfg.BL / 2) cfg.tCCD) b.nextWrite,
             nextRead := max (clk + cfg.WRITE_TO_READ_DELAY_B) b.nextRead }

/-- The statements of the READ/READ_P case before the loop (lines 339-354). -/
def readSame (cfg : Config) (clk : Nat) (ty : BusPacketType) (b : BankState) : BankState :=
  if ty = BusPacketType.READ_P then
    { b with nextActivate := max (clk + cfg.READ_AUTOPRE_DELAY) b.nextActivate,
             lastCommand := BusPacketType.READ_P,
             stateChangeCountdown := cfg.READ_TO_PRE_DELAY }
  else if ty = BusPacketType.READ then
    { b with nextPrecharge := max (clk + cfg.READ_TO_PRE_DELAY) b.nextPrecharge,
             lastCommand := BusPacketType.READ }
  else b

/-- The statements of the WRITE/WRITE_P case before the loop (lines 391-403). -/
def writeSame (cfg : Config) (clk : Nat) (ty : BusPacketType) (b : BankState) : BankState :=
  if ty = BusPacketType.WRITE_P then
    { b with nextActivate := max (clk + cfg.WRITE_AUTOPRE_DELAY) b.nextActivate,
             lastCommand := BusPacketType.WRITE_P,
             stateChangeCountdown := cfg.WRITE_TO_PRE_DELAY }
  else if ty = BusPacketType.WRITE then
    { b with nextPrecharge := max (clk + cfg.WRITE_TO_PRE_DELAY) b.nextPrecharge,
             lastCommand := BusPacketType.WRITE }
  else b

/-- The clamp after the loop for READ_P and WRITE_P (lines 379-386 and 438-442). -/
def clampToActivate (b : BankState) : BankState :=
  { b with nextRead := b.nextActivate, nextWrite := b.nextActivate }

/-- The timing updater: the `switch (poppedBusPacket->busPacketType)` of `update` (lines
329-500), on the table `bankStates`, for the packet `p` popped at clock `clk`. -/
def timingUpdate (cfg : Config) (clk : Nat) (p : BusPacket) (bs : Nat → Nat → BankState) :
    Except Err (Nat → Nat → BankState) :=
  let rank := p.rank
  let bank := p.bank
  match p.busPacketType with
  | BusPacketType.READ_P =>
    let bs1 := set2 bs rank bank (readSame cfg clk BusPacketType.READ_P (bs rank bank))
    let bs2 := forBanks cfg (fun i _ b => readOthers cfg clk rank i b) bs1
    Except.ok (set2 bs2 rank bank (clampToActivate (bs2 rank bank)))
  | BusPacketType.READ =>
    let bs1 := set2 bs rank bank (readSame cfg clk BusPacketType.READ (bs rank bank))
    Except.ok (forBanks cfg (fun i _ b => readOthers cfg clk rank i b) bs1)
  | BusPacketType.WRITE_P =>
    let bs1 := set2 bs rank bank (writeSame cfg clk BusPacketType.WRITE_P (bs rank bank))
    let bs2 := forBanks cfg (fun i _ b => writeOthers cfg clk rank i b) bs1
    Except.ok (set2 bs2 rank bank (clampToActivate (bs2 rank bank)))
  | BusPacketType.WRITE =>
    let bs1 := set2 bs rank bank (writeSame cfg clk BusPacketType.WRITE (bs rank bank))
    Except.ok (forBanks cfg (fun i _ b => writeOthers cfg clk rank i b) bs1)
  | BusPacketType.ACTIVATE =>
    let b := bs rank bank
    let bs1 := set2 bs rank bank
      { b with currentBankState := CurrentBankState.RowActive,
               lastCommand := BusPacketType.ACTIVATE,
               openRowAddress := p.row,
               nextActivate := max (clk + cfg.tRC) b.nextActivate,
               nextPrecharge := max (clk + cfg.tRAS) b.nextPrecharge,
               nextRead := max (clk + (cfg.tRCD - cfg.AL)) b.nextRead,
               nextWrite := max (clk + (cfg.tRCD - cfg.AL)) b.nextWrite }
    Except.ok (forBanksOfRank cfg rank
      (fun i b1 => if i ≠ bank then { b1 with nextActivate := max (clk + cfg.tRRD) b1.nextActivate }
                   else b1) bs1)
  | BusPacketType.PRECHARGE =>
    let b := bs rank bank
    Except.ok (set2 bs rank bank
      { b with currentBankState := CurrentBankState.Precharging,
               lastCommand := BusPacketType.PRECHARGE,
               stateChangeCountdown := cfg.tRP,
               nextActivate := max (clk + cfg.tRP) b.nextActivate })
  | BusPacketType.REFRESH =>
    Except.ok (forBanksOfRank cfg rank
      (fun _ b1 => { b1 with nextActivate := clk + cfg.tRFC,
                             currentBankState := CurrentBankState.Refreshing,
                             lastCommand := BusPacketType.REFRESH,
                             stateChangeCountdown := cfg.tRFC }) bs)
  | BusPacketType.DATA => Except.error Err.unknownCommand

/-- Lines 314-321: a popped WRITE or WRITE_P puts a DATA packet and the countdown `WL` at
the tail of the write-data FIFO. -/
def pushWriteData (cfg : Config) (p : BusPacket) (mc : MemoryController) : MemoryController :=
  if p.busPacketType = BusPacketType.WRITE ∨ p.busPacketType = BusPacketType.WRITE_P then
    { mc with
      writeDataToSend := mc.writeDataToSend ++
        [{ busPacketType := BusPacketType.DATA, physicalAddress := p.physicalAddress,
           column := p.column, row := p.row, rank := p.rank, bank := p.bank,
           data := p.data }]
      writeDataCountdown := mc.writeDataCountdown ++ [cfg.WL] }
  else mc

/-- Lines 309-518: what `update` does with the answer of `commandQueue.pop`. -/
def popStep (cfg : Config) (inp : CycleInput) (mc : MemoryController) :
    Except Err MemoryController :=
  match inp.popped with
  | none => Except.ok mc
  | some p =>
    match timingUpdate cfg mc.currentClockCycle p mc.bankStates with
    | Except.error e => Except.error e
    | Except.ok bs =>
      if mc.outgoingCmdPacket ≠ none then Except.error Err.cmdBusCollision
      else Except.ok { pushWriteData cfg p mc with bankStates := bs, outgoingCmdPacket := some p,
                                                   cmdCyclesLeft := cfg.tCMD }

/-- The test `allIdle` of the power-state governor (lines 536-544). -/
def allIdle (cfg : Config) (mc : MemoryController) (i : Nat) : Bool :=
  forLoop (fun j acc => acc && decide ((mc.bankStates i j).currentBankState = CurrentBankState.Idle))
    cfg.NUM_BANKS true

/-- The body of the per-rank loop of lines 528-569 (the low-power part; the background
energy of lines 571-611 goes to accumulators that are not modelled). -/
def powerRank (cfg : Config) (inp : CycleInput) (i : Nat) (mc : MemoryController) :
    MemoryController :=
  if cfg.USE_LOW_POWER then
    if inp.isEmpty i ∧ mc.refreshWaiting i = false then
      if allIdle cfg mc i then
        { mc.emit [ExtCall.rankPowerDown i] with
          powerDown := set1 mc.powerDown i true
          bankStates := forBanksOfRank cfg i
            (fun _ b => { b with currentBankState := CurrentBankState.PowerDown,
                                 nextPowerUp := mc.currentClockCycle + cfg.tCKE }) mc.bankStates }
      else mc
    else if mc.currentClockCycle ≥ (mc.bankStates i 0).nextPowerUp ∧ mc.powerDown i then
      { mc.emit [ExtCall.rankPowerUp i] with
        powerDown := set1 mc.powerDown i false
        bankStates := forBanksOfRank cfg i
          (fun _ b => { b with currentBankState := CurrentBankState.Idle,
                               nextActivate := mc.currentClockCycle + cfg.tXP }) mc.bankStates }
    else mc
  else mc

/-- Lines 526-612: the loop over the ranks of the power-state governor. -/
def powerStep (cfg : Config) (inp : CycleInput) (mc : MemoryController) : MemoryController :=
  forLoop (powerRank cfg inp) cfg.NUM_RANKS mc

/-- The argument `currentClockCycle - pendingReadTransactions[i]->timeAdded` of
`insertHistogram`: a difference of 64-bit clocks received in a parameter of type
`unsigned`, that is, the difference modulo 2^32. -/
def latencyValue (clk timeAdded : Nat) : Nat :=
  (clk + (4294967296 - timeAdded % 4294967296)) % 4294967296

/-- `MemoryController::insertHistogram` (lines 819-832).  The parameters `rank` and `bank`
are not read by the body.  The bin is computed with the integer division of line 831,
which has no result for `HISTOGRAM_BIN_SIZE = 0`: the call then fails, after the latency
total has been written. -/
def insertHistogram (cfg : Config) (mc : MemoryController) (latency : Nat) (_rank _bank : Nat)
    (core : Nat) (isPrefetch : Bool) : Except Err MemoryController :=
  let mc1 :=
    if isPrefetch then
      { mc with totalLatencyPref := set1 mc.totalLatencyPref core
                  (mc.totalLatencyPref core + latency) }
    else
      { mc with totalLatency := set1 mc.totalLatency core (mc.totalLatency core + latency) }
  if cfg.HISTOGRAM_BIN_SIZE = 0 then Except.error Err.divisionByZero
  else
    let bin := latency / cfg.HISTOGRAM_BIN_SIZE * cfg.HISTOGRAM_BIN_SIZE
    Except.ok
      { mc1 with latencies := set1 mc1.latencies bin ((mc1.latencies bin + 1) % 4294967296) }

/-- Lines 614-653: return read data to the CPU (the `ReturnReadData` callback is recorded
as made). -/
def returnStep (cfg : Config) (mc : MemoryController) : Except Err MemoryController :=
  match mc.returnTransaction with
  | [] => Except.ok mc
  | h :: rest =>
    match scanFirst (fun (t : Transaction) => decide (t.address = h.address))
        mc.pendingReadTransactions 0 with
    | none => Except.error Err.noMatchingTransaction
    | some (i, t) =>
      let m := cfg.addressMapping h.address
      match insertHistogram cfg mc (latencyValue mc.currentClockCycle t.timeAdded)
          m.rank m.bank t.core t.isPrefetch with
      | Except.error e => Except.error e
      | Except.ok mc1 =>
        Except.ok { mc1.emit [ExtCall.returnReadData t.address] with
                    pendingReadTransactions := mc.pendingReadTransactions.eraseIdx i
                    returnTransaction := rest }

/-- Lines 655-659: decrement the refresh counters. -/
def refreshDecrement (cfg : Config) (mc : MemoryController) : MemoryController :=
  { mc with refreshCountdown :=
      mapRange1 cfg.NUM_RANKS (fun _ c => c - 1) mc.refreshCountdown }

/-- `MemoryController::update`. -/
def update (cfg : Config) (inp : CycleInput) (mc : MemoryController) :
    Except Err MemoryController :=
  let mc1 := dataBusCountdown (cmdBusCountdown (updateBankStates cfg mc))
  match writeDataStep cfg mc1 with
  | Except.error e => Except.error e
  | Except.ok mc2 =>
    match popStep cfg inp (refreshStep cfg mc2) with
    | Except.error e => Except.error e
    | Except.ok mc3 =>
      match constructSchedule cfg mc3 mc3.currentClockCycle with
      | Except.error e => Except.error e
      | Except.ok mc4 =>
        match dispatchReq cfg inp mc4 mc4.currentClockCycle with
        | Except.error e => Except.error e
        | Except.ok mc5 =>
          match returnStep cfg (powerStep cfg inp mc5) with
          | Except.error e => Except.error e
          | Except.ok mc6 => Except.ok (refreshDecrement cfg mc6)

/-! ## The environment of the controller -/

/-- Modelled from the spec: the clock driver and the other callers of the controller,
which are not part of the sources.  "Control flow is driven by a single `update()` tick
invoked once per DRAM clock cycle"; an external agent calls `addTransaction`; ranks
deliver packets through `receiveFromBus` and clear their `refreshWaiting` flag ("set by
controller, cleared by rank"). -/
inductive Event where
  | addTransaction (t : Transaction)
  | receiveFromBus (p : BusPacket)
  | rankClearsRefreshWaiting (rank : Nat)
  | cycle (inp : CycleInput)

/-- Modelled from the spec: the effect of one event of the environment; a cycle is one
`update()` followed by the advance of the clock. -/
def applyEvent (cfg : Config) (mc : MemoryController) : Event → Except Err MemoryController
  | Event.addTransaction t => Except.ok (addTransaction cfg mc t).2.1
  | Event.receiveFromBus p => receiveFromBus mc p
  | Event.rankClearsRefreshWaiting r =>
    Except.ok { mc with refreshWaiting := set1 mc.refreshWaiting r false }
  | Event.cycle inp =>
    match update cfg inp mc with
    | Except.error e => Except.error e
    | Except.ok mc1 => Except.ok { mc1 with currentClockCycle := mc1.currentClockCycle + 1 }

/-- Modelled from the spec: a run of the controller over a list of events. -/
def run (cfg : Config) : MemoryController → List Event → Except Err MemoryController
  | mc, [] => Except.ok mc
  | mc, e :: es =>
    match applyEvent cfg mc e with
    | Except.error err => Except.error err
    | Except.ok mc1 => run cfg mc1 es

/-- The states the controller can be in: those a run from the constructor ends in. -/
def Reachable (cfg : Config) (boot : Boot) (mc : MemoryController) : Prop :=
  ∃ es : List Event, run cfg (MemoryController.init cfg boot) es = Except.ok mc

/-! ## Views of the controller used in the proofs -/

/-- The fields of the controller that the scheduler reads and writes. -/
def schedView (mc : MemoryController) :=
  (mc.currentClockCycle, mc.epochStart, mc.dispatchTick, mc.rankIndx, mc.bankIndx, mc.turn,
   mc.sch, mc.prevSch, mc.rankQ, mc.transactionQueue)

/-- Epoch invariant: `epochStart` is the `m`-th multiple of `CYCLE_LENGTH`, `turn` is
`m mod NUM_CPU`, and the clock lies in the epoch that ends at `epochStart`. -/
def EpochInv (cfg : Config) (mc : MemoryController) : Prop :=
  ∃ m, mc.epochStart = cfg.CYCLE_LENGTH * m ∧ mc.turn = m % cfg.NUM_CPU ∧
    mc.currentClockCycle ≤ cfg.CYCLE_LENGTH * m ∧
    (1 ≤ m → cfg.CYCLE_LENGTH * (m - 1) < mc.currentClockCycle)

/-- In every row of `sch` the bank entries that are set are pairwise different. -/
def RowsDistinct (cfg : Config) (sch : Nat → Nat → Nat) : Prop :=
  ∀ i k1 k2, i < 3 → 1 ≤ k1 → k1 ≤ 3 → 1 ≤ k2 → k2 ≤ 3 → k1 ≠ k2 →
    sch i k1 ≠ RB_MAX cfg → sch i k2 ≠ RB_MAX cfg → sch i k1 ≠ sch i k2

/-- Slot invariant for an epoch of nine dispatch slots: `m` slots of the current epoch have
fired, the cursor points at slot `m`, the cells of the slots that have not fired yet are
unset, and no row repeats a bank.  `d` shifts the clock: it is 1 between two cycles and 2
at the end of `update()`, before the clock advances. -/
def SlotInv (cfg : Config) (d : Nat) (mc : MemoryController) : Prop :=
  ∃ m, m ≤ 9 ∧ mc.epochStart = mc.dispatchTick + (9 - m) * cfg.T_RANK ∧
    mc.currentClockCycle + d ≤ mc.dispatchTick + 1 ∧
    mc.rankIndx = m % 3 ∧ mc.bankIndx = 1 + (m / 3) % 3 ∧
    (∀ i k, i < 3 → 1 ≤ k → k ≤ 3 → m ≤ 3 * (k - 1) + i → mc.sch i k = RB_MAX cfg) ∧
    RowsDistinct cfg mc.sch

/-- The calls of the refresh clock: `needRefresh` and the setting of `refreshWaiting`. -/
def isRefreshCall : ExtCall → Bool
  | ExtCall.needRefresh _ => true
  | ExtCall.setRefreshWaiting _ => true
  | _ => false

/-- The part of the trace made of the calls of the refresh clock. -/
def refreshCalls (mc : MemoryController) : List (Nat × ExtCall) :=
  mc.trace.filter (fun e => isRefreshCall e.2)

/-- The fields of the controller that the refresh clock reads and writes, apart from
`powerDown`. -/
def refreshView (mc : MemoryController) :=
  (mc.currentClockCycle, mc.refreshCountdown, mc.refreshRank, refreshCalls mc)

/-- The fields of the controller that the bank-state machine and the power-state governor
write. -/
def bankView (mc : MemoryController) :=
  (mc.currentClockCycle, mc.bankStates, mc.powerDown)

/-- The cycle `(P/N) * (i + 1) + k * P` at which rank `i` is due for its `k`-th refresh,
with `P` for `REFRESH_PERIOD/tCK` and `N` for `NUM_RANKS`. -/
def refreshCycle (cfg : Config) (i k : Nat) : Nat :=
  cfg.REFRESH_PERIOD_CYCLES / cfg.NUM_RANKS * (i + 1) + k * cfg.REFRESH_PERIOD_CYCLES

/-- Invariant of the refresh clock after `c` cycles: the cursor is at rank `j` in round `k`,
every countdown is the distance to the next due cycle of its rank, all earlier due cycles
are in the past, and the trace holds a `needRefresh` for exactly the due cycles before
`c`. -/
def RefreshInv (cfg : Config) (c : Nat) (mc : MemoryController) : Prop :=
  ∃ k j, j < cfg.NUM_RANKS ∧ mc.refreshRank = j ∧ c ≤ refreshCycle cfg j k ∧
    (∀ i, i < cfg.NUM_RANKS →
      mc.refreshCountdown i = (refreshCycle cfg i (if i < j then k + 1 else k) : Int) - c) ∧
    (∀ i, cfg.NUM_RANKS ≤ i → mc.refreshCountdown i = 0) ∧
    (∀ i k1, i < cfg.NUM_RANKS → (k1 < k ∨ (k1 = k ∧ i < j)) → refreshCycle cfg i k1 < c) ∧
    (∀ c1 i, (c1, ExtCall.needRefresh i) ∈ refreshCalls mc ↔
      (i < cfg.NUM_RANKS ∧ c1 < c ∧ ∃ k1, c1 = refreshCycle cfg i k1)) ∧
    (∀ c1 i, (c1, ExtCall.needRefresh i) ∈ refreshCalls mc →
      (c1, ExtCall.setRefreshWaiting i) ∈ refreshCalls mc) ∧
    (cfg.USE_LOW_POWER = false → ∀ c1 i, (c1, ExtCall.setRefreshWaiting i) ∈ refreshCalls mc →
      (c1, ExtCall.needRefresh i) ∈ refreshCalls mc)

/-- The demand of core `owner` waiting in a transaction queue: its transactions that are
not prefetches, in queue order. -/
def ownerDemand (owner : Nat) (tq : List Transaction) : List Transaction :=
  tq.filter (fun t => decide (t.core = owner) && !t.isPrefetch)

/-- The core that owns the epoch started by the next `constructSchedule` that fires: the
value of `turn` after the change of lines 854-857. -/
def nextOwner (cfg : Config) (mc : MemoryController) : Nat :=
  if mc.turn = cfg.NUM_CPU - 1 then 0 else mc.turn + 1

/-- Modelled from the spec: the issue rule of the command queue (`CommandQueue` is not part
of the sources), as far as bank states go: "a command X is issuable only if ... the bank
is in the precondition state for X", on the bank states `bs` that the queue shares with
the controller.  An ACTIVATE needs its bank
idle, a column command or a PRECHARGE needs its bank open, a REFRESH needs every bank of
its rank idle; the packet names a bank that exists. -/
def issuable (cfg : Config) (bs : Nat → Nat → BankState) (p : BusPacket) : Bool :=
  decide (p.rank < cfg.NUM_RANKS) &&
  match p.busPacketType with
  | BusPacketType.ACTIVATE =>
    decide (p.bank < cfg.NUM_BANKS) &&
    decide ((bs p.rank p.bank).currentBankState = CurrentBankState.Idle)
  | BusPacketType.REFRESH =>
    (List.range cfg.NUM_BANKS).all
      (fun j => decide ((bs p.rank j).currentBankState = CurrentBankState.Idle))
  | BusPacketType.DATA => false
  | _ =>
    decide (p.bank < cfg.NUM_BANKS) &&
    decide ((bs p.rank p.bank).currentBankState = CurrentBankState.RowActive)

/-- Modelled from the spec: `CommandQueue::pop` (not part of the sources) obeys the issue
rule in a cycle when the command it hands out, if any, is issuable on the bank states of
the moment of the call, which are those left by the countdown phase of this `update()`. -/
def obeysIssueRule (cfg : Config) (mc : MemoryController) (inp : CycleInput) : Bool :=
  match inp.popped with
  | none => true
  | some p => issuable cfg (updateBankStates cfg mc).bankStates p

/-- The property `P` holds in every cycle of the run of `es` from `mc`, of the state in
which the cycle begins and of the input of the cycle. -/
def alongRun (cfg : Config) (P : MemoryController → CycleInput → Bool) :
    MemoryController → List Event → Bool
  | _, [] => true
  | mc, e :: es =>
    (match e with
     | Event.cycle inp => P mc inp
     | _ => true) &&
    (match applyEvent cfg mc e with
     | Except.ok mc1 => alongRun cfg P mc1 es
     | Except.error _ => true)

/-- None of the events that close the row of bank `(r, b)` happens in the cycle: no
PRECHARGE is popped for the bank, no REFRESH is popped for its rank, and no auto-precharge
countdown (after READ_P or WRITE_P) of the bank expires, that is, reaches zero in the
countdown phase of this cycle. -/
def keepsOpen (r b : Nat) (mc : MemoryController) (inp : CycleInput) : Bool :=
  (match inp.popped with
   | none => true
   | some p =>
     !(decide (p.busPacketType = BusPacketType.PRECHARGE ∧ p.rank = r ∧ p.bank = b) ||
       decide (p.busPacketType = BusPacketType.REFRESH ∧ p.rank = r))) &&
  !(decide ((mc.bankStates r b).stateChangeCountdown = 1) &&
    (decide ((mc.bankStates r b).lastCommand = BusPacketType.READ_P) ||
     decide ((mc.bankStates r b).lastCommand = BusPacketType.WRITE_P)))

/-- Bank invariant: the banks of a powered-down rank are in state PowerDown, and a bank
that is idle or powered down has no state change pending. -/
def BankInv (cfg : Config) (pd : Nat → Bool) (bs : Nat → Nat → BankState) : Prop :=
  (∀ i j, j < cfg.NUM_BANKS → pd i = true →
    (bs i j).currentBankState = CurrentBankState.PowerDown) ∧
  (∀ i j, ((bs i j).currentBankState = CurrentBankState.Idle ∨
           (bs i j).currentBankState = CurrentBankState.PowerDown) →
    (bs i j).stateChangeCountdown = 0)

/-- Row `R` is open in bank `(r, b)`, and the last command of the bank is neither a
PRECHARGE nor a REFRESH. -/
def RowOpen (r b R : Nat) (bs : Nat → Nat → BankState) : Prop :=
  (bs r b).currentBankState = CurrentBankState.RowActive ∧ (bs r b).openRowAddress = R ∧
  (bs r b).lastCommand ≠ BusPacketType.PRECHARGE ∧ (bs r b).lastCommand ≠ BusPacketType.REFRESH

/-- The four deadlines of a bank do not decrease from `a` to `b`. -/
def DeadlinesLe (a b : BankState) : Prop :=
  a.nextRead ≤ b.nextRead ∧ a.nextWrite ≤ b.nextWrite ∧ a.nextActivate ≤ b.nextActivate ∧
  a.nextPrecharge ≤ b.nextPrecharge

/-- The number of rows of the schedule whose rank entry (column 0) is unset. -/
def unsetRows (rb : Nat) (s : Nat → Nat → Nat) : Nat :=
  (if s 0 0 = rb then 1 else 0) + (if s 1 0 = rb then 1 else 0) + (if s 2 0 = rb then 1 else 0)

/-- Epoch clock invariant: `epochStart` is the `m`-th multiple of `CYCLE_LENGTH` and the
clock lies in the epoch that ends at `epochStart`. -/
def EpochClock (cfg : Config) (mc : MemoryController) : Prop :=
  ∃ m, mc.epochStart = cfg.CYCLE_LENGTH * m ∧ mc.currentClockCycle ≤ cfg.CYCLE_LENGTH * m ∧
    (1 ≤ m → cfg.CYCLE_LENGTH * (m - 1) < mc.currentClockCycle)

/-- The two bus slots and the write-data FIFO. -/
def wireView (mc : MemoryController) :=
  (mc.outgoingCmdPacket, mc.cmdCyclesLeft, mc.outgoingDataPacket, mc.dataCyclesLeft,
   mc.writeDataToSend, mc.writeDataCountdown)

/-- The DATA packet that lines 316-318 build for a popped WRITE or WRITE_P. -/
def dataPacketOf (p : BusPacket) : BusPacket :=
  { busPacketType := BusPacketType.DATA, physicalAddress := p.physicalAddress,
    column := p.column, row := p.row, rank := p.rank, bank := p.bank, data := p.data }

/-- The DATA packets queued by the pop of a cycle: one for a WRITE or WRITE_P, none
otherwise. -/
def poppedWrite (inp : CycleInput) : List BusPacket :=
  match inp.popped with
  | none => []
  | some p =>
    if p.busPacketType = BusPacketType.WRITE ∨ p.busPacketType = BusPacketType.WRITE_P then
      [dataPacketOf p]
    else []

/-- The number of cycles in a list of events. -/
def cycleCount : List Event → Nat
  | [] => 0
  | Event.cycle _ :: es => cycleCount es + 1
  | Event.addTransaction _ :: es => cycleCount es
  | Event.receiveFromBus _ :: es => cycleCount es
  | Event.rankClearsRefreshWaiting _ :: es => cycleCount es

/-- Every transaction stored in `rankQ[c][r]` has core `c`, is not a prefetch, and has an
address that maps to rank `r`. -/
def RankQInv (cfg : Config) (mc : MemoryController) : Prop :=
  ∀ c r t, t ∈ mc.rankQ c r →
    t.core = c ∧ t.isPrefetch = false ∧ (cfg.addressMapping t.address).rank = r

/-- The DATA packet that the write-data step (lines 251-288) of the `update()` run from
`mc` takes from the head of `writeDataToSend` to put it on the data bus: the head of
`writeDataCountdown` reaches zero in this cycle. -/
def placedNow (mc : MemoryController) : List BusPacket :=
  if (mc.writeDataCountdown.map dec32).head? = some 0 then mc.writeDataToSend.take 1 else []

/-- The DATA packet put on the data bus by an event from `mc`: none unless the event is a
cycle. -/
def placedIn (mc : MemoryController) : Event → List BusPacket
  | Event.cycle _ => placedNow mc
  | _ => []

/-- The DATA packets put on the data bus by the updates of a run, in the order of the
updates. -/
def dataPlaced (cfg : Config) : MemoryController → List Event → List BusPacket
  | _, [] => []
  | mc, e :: es =>
    match applyEvent cfg mc e with
    | Except.error _ => []
    | Except.ok mc1 => placedIn mc e ++ dataPlaced cfg mc1 es

/-- The DATA packets of the WRITE and WRITE_P commands popped in a run, in the order of the
pops. -/
def writesPopped : List Event → List BusPacket
  | [] => []
  | Event.cycle inp :: es => poppedWrite inp ++ writesPopped es
  | _ :: es => writesPopped es

/-- The write-data FIFO between two updates: both vectors have the same length, and the
countdowns are strictly increasing values between 1 and `WL`. -/
def FifoInv (cfg : Config) (mc : MemoryController) : Prop :=
  mc.writeDataCountdown.length = mc.writeDataToSend.length ∧
  mc.writeDataCountdown.Pairwise (fun a b => a < b) ∧
  ∀ x ∈ mc.writeDataCountdown, 1 ≤ x ∧ x ≤ cfg.WL

/-- The packets popped from the command queue in the cycles of a run, in order. -/
def popsOf : List Event → List BusPacket
  | [] => []
  | Event.cycle inp :: es => inp.popped.toList ++ popsOf es
  | _ :: es => popsOf es

/-- Where a bank stands `k` updates after the update that popped a READ_P or WRITE_P (of
type `ty`, with precharge delay `D`) for it: counting down the delay, then precharging for
`tRP` cycles, then idle. -/
def AutoPre (cfg : Config) (D : Nat) (ty : BusPacketType) (k : Nat) (b : BankState) : Prop :=
  (k < D → b.stateChangeCountdown = D - k ∧ b.lastCommand = ty) ∧
  (D ≤ k → k < D + cfg.tRP →
    b.currentBankState = CurrentBankState.Precharging ∧
    b.lastCommand = BusPacketType.PRECHARGE ∧ b.stateChangeCountdown = D + cfg.tRP - k) ∧
  (k = D + cfg.tRP →
    b.currentBankState = CurrentBankState.Idle ∧ b.stateChangeCountdown = 0)

/-- The delay that the timing updater loads into the countdown for a READ_P or WRITE_P. -/
def preDelay (cfg : Config) (ty : BusPacketType) : Nat :=
  match ty with
  | BusPacketType.READ_P => cfg.READ_TO_PRE_DELAY
  | BusPacketType.WRITE_P => cfg.WRITE_TO_PRE_DELAY
  | _ => 0

/-- Whether a call is `powerDown()` or `powerUp()` on a rank. -/
def isPowerCall : ExtCall → Bool
  | ExtCall.rankPowerDown _ => true
  | ExtCall.rankPowerUp _ => true
  | _ => false

/-- Whether `dispatchReq` fires in the `update()` that an event runs from `mc`: the event
is a cycle and the clock equals `dispatchTick`. -/
def firesIn (mc : MemoryController) : Event → Nat
  | Event.cycle _ => if mc.currentClockCycle = mc.dispatchTick then 1 else 0
  | _ => 0

/-- The number of firings of `dispatchReq` in a run. -/
def firings (cfg : Config) : MemoryController → List Event → Nat
  | _, [] => 0
  | mc, e :: es =>
    match applyEvent cfg mc e with
    | Except.error _ => 0
    | Except.ok mc1 => firesIn mc e + firings cfg mc1 es

/-- The cursor after `n` firings from the constructor, with the dispatch tick. -/
def CursorAt (cfg : Config) (n : Nat) (mc : MemoryController) : Prop :=
  mc.rankIndx = n % 3 ∧ mc.bankIndx = 1 + (n / 3) % 3 ∧ mc.dispatchTick = n * cfg.T_RANK

/-- The queue `rankQ[turn][sch[rankIndx][0]]` that the demand loop of `dispatchReq` scans. -/
def demandQueue (mc : MemoryController) : List Transaction :=
  mc.rankQ mc.turn (mc.sch mc.rankIndx 0)

/-- The test of the demand loop of `dispatchReq` (line 984) on a transaction:
`noBankViolation(bank) && commandQueue.hasRoomFor(2, rank, bank)`. -/
def accepts (cfg : Config) (inp : CycleInput) (mc : MemoryController) (t : Transaction) :
    Bool :=
  noBankViolation mc (cfg.addressMapping t.address).bank &&
    inp.hasRoomFor 2 (cfg.addressMapping t.address).rank (cfg.addressMapping t.address).bank

/-- The test of the prefetch loop of `dispatchReq` (line 1040) on a transaction:
`commandQueue.hasRoomFor(2, rank, bank) && isPrefetch`. -/
def backfills (cfg : Config) (inp : CycleInput) (t : Transaction) : Bool :=
  inp.hasRoomFor 2 (cfg.addressMapping t.address).rank (cfg.addressMapping t.address).bank &&
    t.isPrefetch

/-- The ACTIVATE packet built for a transaction (lines 991-993 and 1047-1049). -/
def activateOf (cfg : Config) (t : Transaction) : BusPacket :=
  { busPacketType := BusPacketType.ACTIVATE, physicalAddress := t.address,
    column := (cfg.addressMapping t.address).col, row := (cfg.addressMapping t.address).row,
    rank := (cfg.addressMapping t.address).rank, bank := (cfg.addressMapping t.address).bank,
    data := 0 }

/-- The column packet of type `bp` built for a transaction (lines 997-999 and 1054-1056). -/
def columnOf (cfg : Config) (t : Transaction) (bp : BusPacketType) : BusPacket :=
  { busPacketType := bp, physicalAddress := t.address,
    column := (cfg.addressMapping t.address).col, row := (cfg.addressMapping t.address).row,
    rank := (cfg.addressMapping t.address).rank, bank := (cfg.addressMapping t.address).bank,
    data := t.data }

/-- The order of the specification on rank indices: `a` comes before `b` when it has more
pending transactions, or as many and a higher (or the same) index. -/
def rankBefore (count : Nat → Nat) (a b : Nat) : Bool :=
  decide (count b < count a) || (decide (count b = count a) && decide (b ≤ a))

/-- The top-3 of the specification: the first three of the rank indices
`0..numRanks-1` sorted by descending pending count and, among equal counts, by descending
rank index. -/
def topThreeSpec (numRanks : Nat) (count : Nat → Nat) : List Nat :=
  ((List.range numRanks).insertionSort (fun a b => rankBefore count a b = true)).take 3

/-- The ranks placed so far in column 0 of the schedule, by increasing row. -/
def placedRanks (rb : Nat) (s : Nat → Nat → Nat) : List Nat :=
  (if s 0 0 = rb then [] else [s 0 0]) ++ (if s 1 0 = rb then [] else [s 1 0]) ++
    (if s 2 0 = rb then [] else [s 2 0])

/-- The rows of the schedule whose column 0 is unset, in increasing order. -/
def unsetRowList (rb : Nat) (s : Nat → Nat → Nat) : List Nat :=
  [0, 1, 2].filter (fun j => decide (s j 0 = rb))

/-- The rank entries (column 0) of two different rows of the schedule are different, unless
they are unset; and the cursor is not on column 0. -/
def ColInv (cfg : Config) (mc : MemoryController) : Prop :=
  (∀ i j, i < 3 → j < 3 → i ≠ j → mc.sch i 0 = mc.sch j 0 → mc.sch i 0 = RB_MAX cfg) ∧
  1 ≤ mc.bankIndx

/-- The WRITE and WRITE_P pops of a run are at least `B` cycles apart; `g` is the number of
cycles from the last such pop before the run to the first cycle of the run (`B` or more if
there was none). -/
def spaced (B : Nat) : List Event → Nat → Bool
  | [], _ => true
  | Event.cycle inp :: es, g =>
    if (poppedWrite inp).isEmpty then spaced B es (g + 1) else decide (B ≤ g) && spaced B es 1
  | _ :: es, g => spaced B es g

/-- Invariant of the write-data FIFO and the data bus between two updates, `g` cycles after
the last WRITE or WRITE_P pop: the countdowns are at least `BL/2` apart, between 1 and
`WL + 1 - g`, as many as the packets waiting; a packet on the data bus has between 1 and
`BL/2` cycles left, no more than any countdown and no more than `BL/2 + WL + 1 - g`. -/
def BusInv (cfg : Config) (g : Nat) (mc : MemoryController) : Prop :=
  mc.writeDataCountdown.length = mc.writeDataToSend.length ∧
  mc.writeDataCountdown.Pairwise (fun a b => a + cfg.BL / 2 ≤ b) ∧
  (∀ c ∈ mc.writeDataCountdown, 1 ≤ c ∧ c + g ≤ cfg.WL + 1) ∧
  (mc.outgoingDataPacket ≠ none →
    1 ≤ mc.dataCyclesLeft ∧ mc.dataCyclesLeft ≤ cfg.BL / 2 ∧
    (∀ c ∈ mc.writeDataCountdown, mc.dataCyclesLeft ≤ c) ∧
    mc.dataCyclesLeft + g ≤ cfg.BL / 2 + cfg.WL + 1)

/-! ## Concrete configurations, inputs and runs used as witnesses and counterexamples -/

/-- An address mapping that slices the address into bank, rank and row. -/
def sliceMapping (numRanks numBanks : Nat) (a : Nat) : MappedAddress :=
  { chan := 0, rank := (a / numBanks) % numRanks, bank := a % numBanks,
    row := a / (numBanks * numRanks), col := 0 }

/-- The configuration of the scenarios of the specification: 4 ranks, 8 banks, 3 cores,
`CYCLE_LENGTH = 100`, `REFRESH_PERIOD/tCK = 7800`, with one dispatch slot per cycle. -/
def exampleConfig : Config :=
  { NUM_RANKS := 4, NUM_BANKS := 8, NUM_CPU := 3, TRANS_QUEUE_DEPTH := 32,
    CYCLE_LENGTH := 100, T_RANK := 1, BL := 8, WL := 5, AL := 0, tCMD := 1, tRC := 34,
    tRAS := 24, tRCD := 10, tRP := 10, tRFC := 107, tRRD := 4, tCCD := 4, tRTRS := 1,
    tXP := 4, tCKE := 4, READ_TO_PRE_DELAY := 5, READ_AUTOPRE_DELAY := 15,
    WRITE_TO_PRE_DELAY := 19, WRITE_AUTOPRE_DELAY := 29, READ_TO_WRITE_DELAY := 8,
    WRITE_TO_READ_DELAY_B := 14, WRITE_TO_READ_DELAY_R := 6, REFRESH_PERIOD_CYCLES := 7800,
    USE_LOW_POWER := false, HISTOGRAM_BIN_SIZE := 10, addressMapping := sliceMapping 4 8 }

/-- The same with epochs of exactly nine dispatch slots. -/
def alignedConfig : Config := { exampleConfig with CYCLE_LENGTH := 9 }

/-- The same with low power on and a refresh period of 8 cycles. -/
def lowPowerConfig : Config :=
  { exampleConfig with USE_LOW_POWER := true, REFRESH_PERIOD_CYCLES := 8 }

/-- Six ranks and epochs of nine cycles, for the stickiness scenario. -/
def sixRankConfig : Config :=
  { exampleConfig with NUM_RANKS := 6, CYCLE_LENGTH := 9, addressMapping := sliceMapping 6 8 }

/-- Banks start idle with all deadlines at zero, no rank waits for a refresh. -/
def exampleBoot : Boot :=
  { bank0 := { currentBankState := CurrentBankState.Idle, openRowAddress := 0,
               lastCommand := BusPacketType.READ, stateChangeCountdown := 0, nextRead := 0,
               nextWrite := 0, nextActivate := 0, nextPrecharge := 0, nextPowerUp := 0 },
    refreshWaiting0 := fun _ => false,
    prevSch0 := fun _ _ => 0 }

/-- A cycle in which the command queue pops nothing, has room everywhere and is empty. -/
def quietInput : CycleInput :=
  { popped := none, hasRoomFor := fun _ _ _ => true, isEmpty := fun _ => true }

/-- A cycle in which the command queue pops nothing and has no room anywhere. -/
def fullInput : CycleInput :=
  { popped := none, hasRoomFor := fun _ _ _ => false, isEmpty := fun _ => false }

/-- A demand read of `core` at `address`. -/
def demandRead (address core : Nat) : Transaction :=
  { transactionType := TransactionType.DATA_READ, address := address, data := 0, core := core,
    isPrefetch := false, timeAdded := 0 }

/-- The state in which a run from the constructor ends (the constructed state if the run
aborts). -/
def stateAfter (cfg : Config) (boot : Boot) (es : List Event) : MemoryController :=
  match run cfg (MemoryController.init cfg boot) es with
  | Except.ok mc => mc
  | Except.error _ => MemoryController.init cfg boot

/-- The state after a successful `update()` (the state before if it aborts). -/
def updated (cfg : Config) (inp : CycleInput) (mc : MemoryController) : MemoryController :=
  match update cfg inp mc with
  | Except.ok mc1 => mc1
  | Except.error _ => mc

/-- The state after a successful `constructSchedule(curClock)` (the state before if it
aborts). -/
def scheduled (cfg : Config) (mc : MemoryController) (curClock : Nat) : MemoryController :=
  match constructSchedule cfg mc curClock with
  | Except.ok mc1 => mc1
  | Except.error _ => mc

/-- Three demand reads of core 1 to rank 2 (banks 5, 3 and 3) followed by ten quiet
cycles. -/
def repeatRun : List Event :=
  [Event.addTransaction (demandRead 21 1), Event.addTransaction (demandRead 19 1),
   Event.addTransaction (demandRead 51 1)] ++ List.replicate 10 (Event.cycle quietInput)

/-- Demand of core 1 on ranks 2, 1, 0 and of core 2 on ranks 2, 5, 1, followed by the nine
cycles of the first epoch. -/
def stickyRun : List Event :=
  [Event.addTransaction (demandRead 16 1), Event.addTransaction (demandRead 17 1),
   Event.addTransaction (demandRead 18 1), Event.addTransaction (demandRead 8 1),
   Event.addTransaction (demandRead 9 1), Event.addTransaction (demandRead 0 1),
   Event.addTransaction (demandRead 16 2), Event.addTransaction (demandRead 17 2),
   Event.addTransaction (demandRead 18 2), Event.addTransaction (demandRead 40 2),
   Event.addTransaction (demandRead 41 2), Event.addTransaction (demandRead 8 2)] ++
  List.replicate 9 (Event.cycle quietInput)

/-- A packet of type `ty` for bank 2 of rank 1, row 7. -/
def examplePacket (ty : BusPacketType) : BusPacket :=
  { busPacketType := ty, physicalAddress := 0, column := 0, row := 7, rank := 1, bank := 2,
    data := 0 }

/-- Demand of core 1 on ranks 2, 4, 3 and of core 2 on ranks 2, 5, 1, followed by the nine
cycles of the first epoch. -/
def stickyWitnessRun : List Event :=
  [Event.addTransaction (demandRead 16 1), Event.addTransaction (demandRead 17 1),
   Event.addTransaction (demandRead 18 1), Event.addTransaction (demandRead 32 1),
   Event.addTransaction (demandRead 33 1), Event.addTransaction (demandRead 24 1),
   Event.addTransaction (demandRead 16 2), Event.addTransaction (demandRead 17 2),
   Event.addTransaction (demandRead 18 2), Event.addTransaction (demandRead 40 2),
   Event.addTransaction (demandRead 41 2), Event.addTransaction (demandRead 8 2)] ++
  List.replicate 9 (Event.cycle quietInput)

/-- The constructed state with one demand read of core 1 (bank 5 of rank 2) waiting in the
transaction queue. -/
def oneDemand : MemoryController :=
  stateAfter exampleConfig exampleBoot [Event.addTransaction (demandRead 21 1)]

/-- The same with, in addition, a demand read of core 2 and a prefetch of core 0 waiting. -/
def busyDemand : MemoryController :=
  stateAfter exampleConfig exampleBoot
    [Event.addTransaction (demandRead 3 2), Event.addTransaction (demandRead 21 1),
     Event.addTransaction { demandRead 40 0 with isPrefetch := true }]

/-- A cycle in which the command queue pops `p` and is otherwise quiet. -/
def popInput (p : BusPacket) : CycleInput := { quietInput with popped := some p }

/-- After the cycle that pops an ACTIVATE for bank 2 of rank 1: a quiet cycle, a cycle that
pops a READ for the bank, and another quiet cycle. -/
def openRowRun : List Event :=
  [Event.cycle quietInput, Event.cycle (popInput (examplePacket BusPacketType.READ)),
   Event.cycle quietInput]

/-- The same as `exampleConfig` with epochs of five cycles. -/
def fiveCycleConfig : Config := { exampleConfig with CYCLE_LENGTH := 5 }

/-- Three demand reads of core 1 to rank 2 (banks 3, 3 and 5), `n` cycles in which the
command queue has no room, so that the reads wait in the per-rank queue of core 1, and `k`
quiet cycles. -/
def heldRun (n k : Nat) : List Event :=
  [Event.addTransaction (demandRead 19 1), Event.addTransaction (demandRead 51 1),
   Event.addTransaction (demandRead 21 1)] ++ List.replicate n (Event.cycle fullInput) ++
  List.replicate k (Event.cycle quietInput)

/-- The rows of a 3 x 4 schedule table. -/
def schRows (t : Nat → Nat → Nat) : List (List Nat) :=
  (List.range 3).map (fun i => (List.range 4).map (fun j => t i j))

/-- A bank with late deadlines: `nextActivate = 500`, `nextRead = nextWrite = 900`. -/
def lateBank : BankState :=
  { exampleBoot.bank0 with nextActivate := 500, nextRead := 900, nextWrite := 900 }

/-- The table `bankStates` after a successful timing update (the table before if the
updater stops the simulation). -/
def timed (cfg : Config) (clk : Nat) (p : BusPacket) (bs : Nat → Nat → BankState) :
    Nat → Nat → BankState :=
  match timingUpdate cfg clk p bs with
  | Except.ok bs1 => bs1
  | Except.error _ => bs

/-- A bank for which the auto-precharge countdown of a READ_P is about to expire. -/
def expiringBank : BankState :=
  { exampleBoot.bank0 with currentBankState := CurrentBankState.RowActive,
                           lastCommand := BusPacketType.READ_P, stateChangeCountdown := 1 }

/-- The constructed controller with every bank replaced by `expiringBank`. -/
def expiringController : MemoryController :=
  { MemoryController.init exampleConfig exampleBoot with bankStates := fun _ _ => expiringBank }

/-- A controller at clock 50 with three pending reads of core 1 (addresses 5, 7 and 7,
accepted at cycle 10) and one returned DATA transaction for address 7. -/
def returningController : MemoryController :=
  { MemoryController.init exampleConfig exampleBoot with
    currentClockCycle := 50
    pendingReadTransactions :=
      [{ demandRead 5 1 with timeAdded := 10 }, { demandRead 7 1 with timeAdded := 10 },
       { demandRead 7 1 with timeAdded := 10, data := 3 }]
    returnTransaction :=
      [{ transactionType := TransactionType.RETURN_DATA, address := 7, data := 0, core := 0,
         isPrefetch := false, timeAdded := 0 }] }

/-- The example configuration with a command bus latency of three cycles. -/
def threeCmdConfig : Config := { exampleConfig with tCMD := 3 }

/-- The cycle that pops an ACTIVATE for bank 2 of rank 1, followed by `k` quiet cycles. -/
def busRun (k : Nat) : List Event :=
  Event.cycle (popInput (examplePacket BusPacketType.ACTIVATE)) ::
    List.replicate k (Event.cycle quietInput)

/-- The cycle that pops a WRITE for bank 2 of rank 1, followed by `k` quiet cycles. -/
def writeRun (k : Nat) : List Event :=
  Event.cycle (popInput (examplePacket BusPacketType.WRITE)) ::
    List.replicate k (Event.cycle quietInput)

/-- The cycle that pops a READ_P for bank 2 of rank 1, followed by `k` quiet cycles. -/
def autoPreRun (k : Nat) : List Event :=
  Event.cycle (popInput (examplePacket BusPacketType.READ_P)) ::
    List.replicate k (Event.cycle quietInput)

/-- The state after the write-data step of the `update()` run from `mc` (the state before
if it aborts). -/
def afterWriteData (cfg : Config) (mc : MemoryController) : MemoryController :=
  match writeDataStep cfg (dataBusCountdown (cmdBusCountdown (updateBankStates cfg mc))) with
  | Except.ok m => m
  | Except.error _ => mc

/-- The state after the pop of the `update()` run from `mc` (the state before if it
aborts). -/
def afterPop (cfg : Config) (inp : CycleInput) (mc : MemoryController) : MemoryController :=
  match popStep cfg inp (refreshStep cfg (afterWriteData cfg mc)) with
  | Except.ok m => m
  | Except.error _ => mc

/-- The state on which the `update()` run from `mc` calls `dispatchReq`. -/
def atDispatch (cfg : Config) (inp : CycleInput) (mc : MemoryController) : MemoryController :=
  scheduled cfg (afterPop cfg inp mc) (afterPop cfg inp mc).currentClockCycle

/-- The state in which `dispatchReq` leaves the `update()` run from `mc` (the state before
if it aborts). -/
def dispatched (cfg : Config) (inp : CycleInput) (mc : MemoryController) : MemoryController :=
  match dispatchReq cfg inp (atDispatch cfg inp mc) (atDispatch cfg inp mc).currentClockCycle with
  | Except.ok m => m
  | Except.error _ => mc

/-- The state in which a firing of `dispatchReq` on `mc` ends (`mc` itself if it aborts). -/
def fired (cfg : Config) (inp : CycleInput) (mc : MemoryController) : MemoryController :=
  match dispatchReq cfg inp mc mc.dispatchTick with
  | Except.ok m => m
  | Except.error _ => mc

/-- The example configuration with low power on (and the refresh period of 7800 cycles). -/
def idleLowPowerConfig : Config := { exampleConfig with USE_LOW_POWER := true }

/-- The state after `k` quiet cycles from the constructor with low power on. -/
def idleAfter (k : Nat) : MemoryController :=
  stateAfter idleLowPowerConfig exampleBoot (List.replicate k (Event.cycle quietInput))

theorem sameSchLoop_iff (sch : Nat → Nat → Nat) (r b : Nat) (n : Nat) :
    sameSchLoop sch r b n = true ↔ ∀ k, 1 ≤ k → k ≤ n → b ≠ sch r k := by
  induction n with
  | zero =>
    simp [sameSchLoop]
    intro k h1 h2
    omega
  | succ n ih =>
    simp only [sameSchLoop]
    split
    · rename_i h
      simp only [Bool.false_eq_true, false_iff, not_forall]
      exact ⟨n + 1, by omega, le_refl _, fun hne => hne h⟩
    · rename_i h
      rw [ih]
      constructor
      · intro hk k h1 h2
        rcases Nat.lt_or_ge k (n + 1) with hlt | hge
        · exact hk k h1 (by omega)
        · have : k = n + 1 := by omega
          subst this
          exact h
      · intro hk k h1 h2
        exact hk k h1 (by omega)

theorem prevSchLoop_iff (prevSch : Nat → Nat → Nat) (r b : Nat) (n i : Nat) :
    prevSchLoop prevSch r b n i = true ↔ ∀ k, i ≤ k → k < i + n → b ≠ prevSch r k := by
  induction n generalizing i with
  | zero =>
    simp [prevSchLoop]
    intro k h1 h2
    omega
  | succ n ih =>
    simp only [prevSchLoop]
    split
    · rename_i h
      simp only [Bool.false_eq_true, false_iff, not_forall]
      exact ⟨i, le_refl _, by omega, fun hne => hne h⟩
    · rename_i h
      rw [ih]
      constructor
      · intro hk k h1 h2
        rcases Nat.eq_or_lt_of_le h1 with heq | hlt
        · subst heq
          exact h
        · exact hk k (by omega) (by omega)
      · intro hk k h1 h2
        exact hk k (by omega) (by omega)

theorem noBankViolation_iff (mc : MemoryController) (b : Nat) :
    noBankViolation mc b = true ↔
      (∀ k, 1 ≤ k → k ≤ mc.bankIndx - 1 → b ≠ mc.sch mc.rankIndx k) ∧
      (mc.sch mc.rankIndx 0 ≠ mc.prevSch mc.rankIndx 0 ∨
        ∀ k, mc.bankIndx + 1 ≤ k → k ≤ 3 → b ≠ mc.prevSch mc.rankIndx k) := by
  unfold noBankViolation
  rw [← sameSchLoop_iff]
  by_cases h1 : sameSchLoop mc.sch mc.rankIndx b (mc.bankIndx - 1) = true
  · simp only [h1, Bool.true_eq_false, if_false, true_and]
    by_cases h2 : mc.sch mc.rankIndx 0 = mc.prevSch mc.rankIndx 0
    · simp only [h2, ne_eq, not_true_eq_false, if_false, false_or]
      rw [prevSchLoop_iff]
      constructor
      · intro hk k h3 h4
        exact hk k h3 (by omega)
      · intro hk k h3 h4
        exact hk k h3 (by omega)
    · simp [h2]
  · have h1f : sameSchLoop mc.sch mc.rankIndx b (mc.bankIndx - 1) = false := by
      simpa using h1
    simp [h1f]

/-! ## The timing updater -/

theorem timingUpdate_READ_eq (cfg : Config) (c : Nat) (p : BusPacket)
    (bs : Nat → Nat → BankState) (hty : p.busPacketType = BusPacketType.READ) :
    timingUpdate cfg c p bs = Except.ok
      (forBanks cfg (fun i _ b => readOthers cfg c p.rank i b)
        (set2 bs p.rank p.bank (readSame cfg c BusPacketType.READ (bs p.rank p.bank)))) := by
  simp only [timingUpdate, hty]

theorem timingUpdate_READ_P_eq (cfg : Config) (c : Nat) (p : BusPacket)
    (bs : Nat → Nat → BankState) (hty : p.busPacketType = BusPacketType.READ_P) :
    timingUpdate cfg c p bs = Except.ok
      (set2
        (forBanks cfg (fun i _ b => readOthers cfg c p.rank i b)
          (set2 bs p.rank p.bank (readSame cfg c BusPacketType.READ_P (bs p.rank p.bank))))
        p.rank p.bank
        (clampToActivate
          (forBanks cfg (fun i _ b => readOthers cfg c p.rank i b)
            (set2 bs p.rank p.bank (readSame cfg c BusPacketType.READ_P (bs p.rank p.bank)))
            p.rank p.bank))) := by
  simp only [timingUpdate, hty]

theorem timingUpdate_WRITE_P_eq (cfg : Config) (c : Nat) (p : BusPacket)
    (bs : Nat → Nat → BankState) (hty : p.busPacketType = BusPacketType.WRITE_P) :
    timingUpdate cfg c p bs = Except.ok
      (set2
        (forBanks cfg (fun i _ b => writeOthers cfg c p.rank i b)
          (set2 bs p.rank p.bank (writeSame cfg c BusPacketType.WRITE_P (bs p.rank p.bank))))
        p.rank p.bank
        (clampToActivate
          (forBanks cfg (fun i _ b => writeOthers cfg c p.rank i b)
            (set2 bs p.rank p.bank (writeSame cfg c BusPacketType.WRITE_P (bs p.rank p.bank)))
            p.rank p.bank))) := by
  simp only [timingUpdate, hty]

theorem set2_same {α : Type} (t : Nat → Nat → α) (i j : Nat) (v : α) : set2 t i j v i j = v := by
  simp [set2]

theorem mapRange2_proj {α β : Type} (g : α → β) (n m : Nat) (f : Nat → Nat → α → α)
    (t : Nat → Nat → α) (hf : ∀ i j x, g (f i j x) = g x) (a b : Nat) :
    g (mapRange2 n m f t a b) = g (t a b) := by
  unfold mapRange2
  split
  · exact hf a b _
  · rfl

theorem readOthers_keeps (cfg : Config) (c r i : Nat) (b : BankState) :
    (readOthers cfg c r i b).nextActivate = b.nextActivate ∧
    (readOthers cfg c r i b).lastCommand = b.lastCommand ∧
    (readOthers cfg c r i b).stateChangeCountdown = b.stateChangeCountdown ∧
    (readOthers cfg c r i b).currentBankState = b.currentBankState ∧
    (readOthers cfg c r i b).openRowAddress = b.openRowAddress ∧
    (readOthers cfg c r i b).nextPrecharge = b.nextPrecharge ∧
    (readOthers cfg c r i b).nextPowerUp = b.nextPowerUp := by
  unfold readOthers
  split
  · split <;> simp
  · simp

theorem writeOthers_keeps (cfg : Config) (c r i : Nat) (b : BankState) :
    (writeOthers cfg c r i b).nextActivate = b.nextActivate ∧
    (writeOthers cfg c r i b).lastCommand = b.lastCommand ∧
    (writeOthers cfg c r i b).stateChangeCountdown = b.stateChangeCountdown ∧
    (writeOthers cfg c r i b).currentBankState = b.currentBankState ∧
    (writeOthers cfg c r i b).openRowAddress = b.openRowAddress ∧
    (writeOthers cfg c r i b).nextPrecharge = b.nextPrecharge ∧
    (writeOthers cfg c r i b).nextPowerUp = b.nextPowerUp := by
  unfold writeOthers
  split
  · split <;> simp
  · simp

/-! ## Rank placement in `constructSchedule` -/

theorem pqTop_mem : ∀ (q : List (Nat × Nat)) (m : Nat × Nat), pqTop q = some m → m ∈ q
  | [], m, h => by simp [pqTop] at h
  | x :: xs, m, h => by
    simp only [pqTop] at h
    split at h
    · simp only [Option.some.injEq] at h
      simp [h]
    · rename_i m1 hm1
      have ih := pqTop_mem xs m1 hm1
      split at h
      · simp only [Option.some.injEq] at h
        simp [h]
      · simp only [Option.some.injEq] at h
        subst h
        exact List.mem_cons_of_mem _ ih

theorem topThreeLoop_mem : ∀ (n : Nat) (q : List (Nat × Nat)) (l : List Nat),
    topThreeLoop n q = Except.ok l → ∀ x ∈ l, ∃ m ∈ q, m.2 = x
  | 0, q, l, h => by
    simp only [topThreeLoop, Except.ok.injEq] at h
    subst h
    simp
  | n + 1, q, l, h => by
    simp only [topThreeLoop] at h
    split at h
    · cases h
    · rename_i m hm
      split at h
      · cases h
      · rename_i l1 hl1
        simp only [Except.ok.injEq] at h
        subst h
        intro x hx
        rcases List.mem_cons.mp hx with hx | hx
        · exact ⟨m, pqTop_mem q m hm, hx.symm⟩
        · obtain ⟨m2, hm2, hx2⟩ := topThreeLoop_mem n (q.erase m) l1 hl1 x hx
          exact ⟨m2, List.mem_of_mem_erase hm2, hx2⟩

theorem selectTopThree_lt (cfg : Config) (pk : Nat → Nat) (l : List Nat)
    (h : selectTopThree cfg pk = Except.ok l) : ∀ x ∈ l, x < cfg.NUM_RANKS := by
  intro x hx
  obtain ⟨m, hm, hmx⟩ := topThreeLoop_mem 3 _ l h x hx
  simp only [List.mem_map, List.mem_range] at hm
  obtain ⟨i, hi, him⟩ := hm
  subst him
  simpa [← hmx] using hi

theorem lt_ranks_ne_RB_MAX (cfg : Config) (x : Nat) (h : x < cfg.NUM_RANKS) : x ≠ RB_MAX cfg := by
  unfold RB_MAX
  have := le_max_left cfg.NUM_RANKS cfg.NUM_BANKS
  omega

theorem placeRanks_251 (cfg : Config) (prevSch sch : Nat → Nat → Nat)
    (h2 : 2 ≠ RB_MAX cfg) (h5 : 5 ≠ RB_MAX cfg) (h1 : 1 ≠ RB_MAX cfg)
    (hs : ∀ i, i < 3 → sch i 0 = RB_MAX cfg)
    (hp0 : prevSch 0 0 = 2) (hp1 : prevSch 1 0 ≠ 1) (hp2 : prevSch 2 0 ≠ 5) :
    ∃ st, placeRanks cfg prevSch (sch, [2, 5, 1]) = Except.ok st ∧
      st.1 0 0 = 2 ∧ st.1 1 0 = 5 ∧ st.1 2 0 = 1 := by
  have hs0 := hs 0 (by omega)
  have hs1 := hs 1 (by omega)
  have hs2 := hs 2 (by omega)
  have e2 : ¬ (RB_MAX cfg = 2) := fun h => h2 h.symm
  have e5 : ¬ (RB_MAX cfg = 5) := fun h => h5 h.symm
  have e1 : ¬ (RB_MAX cfg = 1) := fun h => h1 h.symm
  by_cases c1 : prevSch 1 0 = 5
  · by_cases c2 : prevSch 2 0 = 1
    · refine ⟨(set2 (set2 (set2 sch 0 0 2) 1 0 5) 2 0 1, []), ?_, ?_⟩
      · simp [placeRanks, forLoop, stickyRow, stickyScan, hp0, c1, c2, fillOuter]
      · simp [set2]
    · refine ⟨(set2 (set2 (set2 sch 0 0 2) 1 0 5) 2 0 1, []), ?_, ?_⟩
      · simp [placeRanks, forLoop, stickyRow, stickyScan, hp0, c1, c2, fillOuter, fillInner,
          fillRow, set2, hs2, e2, e5, e1, h2, h5, h1]
      · simp [set2]
  · by_cases c2 : prevSch 2 0 = 1
    · refine ⟨(set2 (set2 (set2 sch 0 0 2) 2 0 1) 1 0 5, []), ?_, ?_⟩
      · simp [placeRanks, forLoop, stickyRow, stickyScan, hp0, hp1, c1, c2, fillOuter, fillInner,
          fillRow, set2, hs1, e2, e5, e1, h2, h5, h1]
      · simp [set2]
    · refine ⟨(set2 (set2 (set2 sch 0 0 2) 1 0 5) 2 0 1, []), ?_, ?_⟩
      · simp [placeRanks, forLoop, stickyRow, stickyScan, hp0, hp1, hp2, c1, c2, fillOuter,
          fillInner, fillRow, set2, hs1, hs2, e2, e5, e1, h2, h5, h1]
      · simp [set2]

/-! ## The phases of `update()` and the scheduler fields -/

theorem schedView_updateBankStates (cfg : Config) (mc : MemoryController) :
    schedView (updateBankStates cfg mc) = schedView mc := rfl

theorem schedView_emit (mc : MemoryController) (cs : List ExtCall) :
    schedView (mc.emit cs) = schedView mc := rfl

theorem schedView_cmdBusCountdown (mc : MemoryController) :
    schedView (cmdBusCountdown mc) = schedView mc := by
  unfold cmdBusCountdown
  dsimp only
  split
  · rfl
  · split <;> simp [schedView, MemoryController.emit]

theorem schedView_dataBusCountdown (mc : MemoryController) :
    schedView (dataBusCountdown mc) = schedView mc := by
  unfold dataBusCountdown
  dsimp only
  split
  · rfl
  · split <;> simp [schedView, MemoryController.emit]

theorem schedView_writeDataStep (cfg : Config) (mc mc1 : MemoryController)
    (h : writeDataStep cfg mc = Except.ok mc1) : schedView mc1 = schedView mc := by
  unfold writeDataStep at h
  dsimp only at h
  split at h
  · split at h
    · split at h
      · cases h
      · split at h
        · cases h
        · cases h
          rfl
    · cases h
      rfl
  · cases h
    rfl

theorem schedView_refreshStep (cfg : Config) (mc : MemoryController) :
    schedView (refreshStep cfg mc) = schedView mc := by
  unfold refreshStep
  dsimp only
  split
  · rfl
  · split <;> rfl

theorem schedView_pushWriteData (cfg : Config) (p : BusPacket) (mc : MemoryController) :
    schedView (pushWriteData cfg p mc) = schedView mc := by
  unfold pushWriteData
  split <;> rfl

theorem schedView_popStep (cfg : Config) (inp : CycleInput) (mc mc1 : MemoryController)
    (h : popStep cfg inp mc = Except.ok mc1) : schedView mc1 = schedView mc := by
  unfold popStep at h
  split at h
  · cases h
    rfl
  · split at h
    · cases h
    · split at h
      · cases h
      · cases h
        exact schedView_pushWriteData cfg _ mc

theorem schedView_powerRank (cfg : Config) (inp : CycleInput) (i : Nat) (mc : MemoryController) :
    schedView (powerRank cfg inp i mc) = schedView mc := by
  unfold powerRank
  dsimp only
  split
  · split
    · split <;> rfl
    · split <;> rfl
  · rfl

theorem schedView_powerStep (cfg : Config) (inp : CycleInput) (mc : MemoryController) :
    schedView (powerStep cfg inp mc) = schedView mc := by
  unfold powerStep
  induction cfg.NUM_RANKS with
  | zero => rfl
  | succ n ih => simp only [forLoop, schedView_powerRank, ih]

/-- A call of `insertHistogram` that returns has a bin size other than zero and writes the
three latency accumulators only. -/
theorem insertHistogram_ok (cfg : Config) (mc mc1 : MemoryController) (latency rank bank : Nat)
    (core : Nat) (pf : Bool)
    (h : insertHistogram cfg mc latency rank bank core pf = Except.ok mc1) :
    cfg.HISTOGRAM_BIN_SIZE ≠ 0 ∧
    mc1 = { mc with totalLatency := mc1.totalLatency, totalLatencyPref := mc1.totalLatencyPref,
                    latencies := mc1.latencies } ∧
    (pf = false →
      mc1.totalLatency = set1 mc.totalLatency core (mc.totalLatency core + latency) ∧
      mc1.totalLatencyPref = mc.totalLatencyPref) ∧
    (pf = true →
      mc1.totalLatencyPref = set1 mc.totalLatencyPref core (mc.totalLatencyPref core + latency) ∧
      mc1.totalLatency = mc.totalLatency) := by
  unfold insertHistogram at h
  dsimp only at h
  split at h
  · cases h
  · rename_i hz
    cases h
    cases pf
    · refine ⟨hz, rfl, ?_, ?_⟩
      · intro _
        exact ⟨rfl, rfl⟩
      · intro e
        cases e
    · refine ⟨hz, rfl, ?_, ?_⟩
      · intro e
        cases e
      · intro _
        exact ⟨rfl, rfl⟩

/-- A return phase that completes after a match completed its call of `insertHistogram`. -/
theorem returnStep_ok (cfg : Config) (mc mc1 : MemoryController)
    (h : returnStep cfg mc = Except.ok mc1) :
    (mc.returnTransaction = [] ∧ mc1 = mc) ∨
    ∃ hd rest i t m, mc.returnTransaction = hd :: rest ∧
      scanFirst (fun (t : Transaction) => decide (t.address = hd.address))
        mc.pendingReadTransactions 0 = some (i, t) ∧
      insertHistogram cfg mc (latencyValue mc.currentClockCycle t.timeAdded)
        (cfg.addressMapping hd.address).rank (cfg.addressMapping hd.address).bank t.core
        t.isPrefetch = Except.ok m ∧
      mc1 = { m.emit [ExtCall.returnReadData t.address] with
              pendingReadTransactions := mc.pendingReadTransactions.eraseIdx i
              returnTransaction := rest } := by
  unfold returnStep at h
  split at h
  · rename_i hr
    cases h
    exact Or.inl ⟨hr, rfl⟩
  · rename_i hd rest hr
    split at h
    · cases h
    · rename_i i t hs
      dsimp only at h
      split at h
      · cases h
      · rename_i m hm
        cases h
        exact Or.inr ⟨hd, rest, i, t, m, hr, hs, hm, rfl⟩

theorem schedView_returnStep (cfg : Config) (mc mc1 : MemoryController)
    (h : returnStep cfg mc = Except.ok mc1) : schedView mc1 = schedView mc := by
  rcases returnStep_ok cfg mc mc1 h with ⟨_, rfl⟩ | ⟨hd, rest, i, t, m, _, _, hm, rfl⟩
  · rfl
  · obtain ⟨_, e, _⟩ := insertHistogram_ok cfg mc m _ _ _ _ _ hm
    rw [e]
    rfl

theorem schedView_refreshDecrement (cfg : Config) (mc : MemoryController) :
    schedView (refreshDecrement cfg mc) = schedView mc := rfl

/-- Decomposition of a successful `update()` into its phases. -/
theorem update_ok (cfg : Config) (inp : CycleInput) (mc mc' : MemoryController)
    (h : update cfg inp mc = Except.ok mc') :
    ∃ mc2 mc3 mc4 mc5 mc6,
      writeDataStep cfg (dataBusCountdown (cmdBusCountdown (updateBankStates cfg mc)))
        = Except.ok mc2 ∧
      popStep cfg inp (refreshStep cfg mc2) = Except.ok mc3 ∧
      constructSchedule cfg mc3 mc3.currentClockCycle = Except.ok mc4 ∧
      dispatchReq cfg inp mc4 mc4.currentClockCycle = Except.ok mc5 ∧
      returnStep cfg (powerStep cfg inp mc5) = Except.ok mc6 ∧
      mc' = refreshDecrement cfg mc6 := by
  unfold update at h
  simp only at h
  split at h
  · cases h
  · rename_i mc2 h2
    split at h
    · cases h
    · rename_i mc3 h3
      split at h
      · cases h
      · rename_i mc4 h4
        split at h
        · cases h
        · rename_i mc5 h5
          split at h
          · cases h
          · rename_i mc6 h6
            cases h
            exact ⟨mc2, mc3, mc4, mc5, mc6, h2, h3, h4, h5, h6, rfl⟩

/-- For the scheduler fields, a successful `update()` is `constructSchedule` followed by
`dispatchReq`. -/
theorem update_sched (cfg : Config) (inp : CycleInput) (mc mc' : MemoryController)
    (h : update cfg inp mc = Except.ok mc') :
    ∃ mc3 mc4 mc5, schedView mc3 = schedView mc ∧
      constructSchedule cfg mc3 mc3.currentClockCycle = Except.ok mc4 ∧
      dispatchReq cfg inp mc4 mc4.currentClockCycle = Except.ok mc5 ∧
      schedView mc' = schedView mc5 := by
  obtain ⟨mc2, mc3, mc4, mc5, mc6, h2, h3, h4, h5, h6, rfl⟩ := update_ok cfg inp mc mc' h
  refine ⟨mc3, mc4, mc5, ?_, h4, h5, ?_⟩
  · rw [schedView_popStep cfg inp _ _ h3, schedView_refreshStep, schedView_writeDataStep cfg _ _ h2,
      schedView_dataBusCountdown, schedView_cmdBusCountdown, schedView_updateBankStates]
  · rw [schedView_refreshDecrement, schedView_returnStep cfg _ _ h6, schedView_powerStep]

/-! ## Effect of `dispatchReq` and `constructSchedule` on the schedule -/

theorem scanFirst_ok {α : Type} (ok : α → Bool) :
    ∀ (l : List α) (s i : Nat) (x : α), scanFirst ok l s = some (i, x) → ok x = true
  | [], s, i, x, h => by simp [scanFirst] at h
  | y :: ys, s, i, x, h => by
    simp only [scanFirst] at h
    split at h
    · rename_i hy
      simp only [Option.some.injEq, Prod.mk.injEq] at h
      rw [← h.2]
      exact hy
    · exact scanFirst_ok ok ys (s + 1) i x h

/-- What a firing demand loop does to the schedule fields. -/
theorem dispatchDemand_ok (cfg : Config) (inp : CycleInput) (mc mc1 : MemoryController)
    (e : Bool) (h : dispatchDemand cfg inp mc = Except.ok (e, mc1)) :
    mc1.currentClockCycle = mc.currentClockCycle ∧ mc1.epochStart = mc.epochStart ∧
    mc1.dispatchTick = mc.dispatchTick ∧ mc1.rankIndx = mc.rankIndx ∧
    mc1.bankIndx = mc.bankIndx ∧ mc1.turn = mc.turn ∧ mc1.prevSch = mc.prevSch ∧
    mc1.transactionQueue = mc.transactionQueue ∧
    (mc1.sch = mc.sch ∨
      ∃ b, noBankViolation mc b = true ∧ mc1.sch = set2 mc.sch mc.rankIndx mc.bankIndx b) := by
  unfold dispatchDemand at h
  dsimp only at h
  split at h
  · cases h
    simp
  · rename_i i t hscan
    have hok := scanFirst_ok _ _ _ _ _ hscan
    simp only [Bool.and_eq_true] at hok
    split at h
    · cases h
    · split at h
      · cases h
      · simp only [Except.ok.injEq, Prod.mk.injEq] at h
        obtain ⟨_, h⟩ := h
        subst h
        refine ⟨?_, ?_, ?_, ?_, ?_, ?_, ?_, ?_, Or.inr ⟨_, hok.1, ?_⟩⟩ <;>
          (split <;> rfl)

theorem dispatchPrefetch_ok (cfg : Config) (inp : CycleInput) (mc mc1 : MemoryController)
    (h : dispatchPrefetch cfg inp mc = Except.ok mc1) :
    mc1.currentClockCycle = mc.currentClockCycle ∧ mc1.epochStart = mc.epochStart ∧
    mc1.dispatchTick = mc.dispatchTick ∧ mc1.rankIndx = mc.rankIndx ∧
    mc1.bankIndx = mc.bankIndx ∧ mc1.turn = mc.turn ∧ mc1.prevSch = mc.prevSch ∧
    mc1.sch = mc.sch ∧ mc1.rankQ = mc.rankQ := by
  unfold dispatchPrefetch at h
  dsimp only at h
  split at h
  · cases h
    simp
  · split at h
    · cases h
    · simp only [Except.ok.injEq] at h
      subst h
      refine ⟨?_, ?_, ?_, ?_, ?_, ?_, ?_, ?_, ?_⟩ <;> (split <;> rfl)

/-- What `dispatchReq` does to the schedule fields. -/
theorem dispatchReq_ok (cfg : Config) (inp : CycleInput) (mc mc1 : MemoryController) (clk : Nat)
    (h : dispatchReq cfg inp mc clk = Except.ok mc1) :
    mc1.currentClockCycle = mc.currentClockCycle ∧ mc1.epochStart = mc.epochStart ∧
    mc1.turn = mc.turn ∧ mc1.prevSch = mc.prevSch ∧
    (clk ≠ mc.dispatchTick → mc1 = mc) ∧
    (clk = mc.dispatchTick →
      mc1.dispatchTick = mc.dispatchTick + cfg.T_RANK ∧
      mc1.rankIndx = (if mc.rankIndx = 2 then 0 else mc.rankIndx + 1) ∧
      mc1.bankIndx = (if mc.rankIndx = 2 then (if mc.bankIndx = 3 then 1 else mc.bankIndx + 1)
                      else mc.bankIndx) ∧
      (mc1.sch = mc.sch ∨
        ∃ b, noBankViolation mc b = true ∧ mc1.sch = set2 mc.sch mc.rankIndx mc.bankIndx b)) := by
  unfold dispatchReq at h
  split at h
  · rename_i hne
    cases h
    simp [hne]
  · rename_i heq
    simp only [ne_eq, not_not] at heq
    split at h
    · cases h
    · rename_i e mcd hd
      obtain ⟨d1, d2, d3, d4, d5, d6, d7, d8, d9⟩ := dispatchDemand_ok cfg inp mc mcd e hd
      split at h
      · split at h
        · cases h
        · rename_i mcp hp
          obtain ⟨p1, p2, p3, p4, p5, p6, p7, p8, p9⟩ := dispatchPrefetch_ok cfg inp mcd mcp hp
          cases h
          simp only [advanceSlot, heq, ne_eq, not_true_eq_false, false_implies, true_implies,
            p1, p2, p3, p4, p5, p6, p7, p8, d1, d2, d3, d4, d5, d6, d7, true_and]
          exact d9
      · cases h
        simp only [advanceSlot, heq, ne_eq, not_true_eq_false, false_implies, true_implies,
          d1, d2, d3, d4, d5, d6, d7, true_and]
        exact d9


theorem stickyRow_col (prevSch : Nat → Nat → Nat) (i : Nat) (st : (Nat → Nat → Nat) × List Nat)
    (a b : Nat) (hb : b ≠ 0) : (stickyRow prevSch i st).1 a b = st.1 a b := by
  unfold stickyRow
  split
  · rfl
  · simp [set2, hb]

theorem fillRow_col (rbMax j : Nat) (st st1 : (Nat → Nat → Nat) × List Nat)
    (h : fillRow rbMax j st = Except.ok st1) (a b : Nat) (hb : b ≠ 0) : st1.1 a b = st.1 a b := by
  unfold fillRow at h
  split at h
  · split at h
    · cases h
    · cases h
      simp [set2, hb]
  · cases h
    rfl

theorem fillInner_col (rbMax : Nat) (st st1 : (Nat → Nat → Nat) × List Nat)
    (h : fillInner rbMax st = Except.ok st1) (a b : Nat) (hb : b ≠ 0) : st1.1 a b = st.1 a b := by
  unfold fillInner at h
  split at h
  · cases h
  · rename_i s0 h0
    split at h
    · cases h
    · rename_i s1 h1
      rw [fillRow_col rbMax 2 s1 st1 h a b hb, fillRow_col rbMax 1 s0 s1 h1 a b hb,
        fillRow_col rbMax 0 st s0 h0 a b hb]

theorem fillOuter_col (rbMax : Nat) : ∀ (n i : Nat) (st st1 : (Nat → Nat → Nat) × List Nat),
    fillOuter rbMax n i st = Except.ok st1 → ∀ (a b : Nat), b ≠ 0 → st1.1 a b = st.1 a b
  | 0, i, st, st1, h, a, b, hb => by
    simp only [fillOuter, Except.ok.injEq] at h
    rw [h]
  | n + 1, i, st, st1, h, a, b, hb => by
    simp only [fillOuter] at h
    split at h
    · split at h
      · cases h
      · rename_i s1 h1
        rw [fillOuter_col rbMax n (i + 1) s1 st1 h a b hb, fillInner_col rbMax st s1 h1 a b hb]
    · cases h
      rfl

theorem placeRanks_col (cfg : Config) (prevSch : Nat → Nat → Nat)
    (st st1 : (Nat → Nat → Nat) × List Nat) (h : placeRanks cfg prevSch st = Except.ok st1)
    (a b : Nat) (hb : b ≠ 0) : st1.1 a b = st.1 a b := by
  unfold placeRanks at h
  dsimp only at h
  rw [fillOuter_col (RB_MAX cfg) _ _ _ _ h a b hb]
  simp only [forLoop]
  rw [stickyRow_col _ _ _ _ _ hb, stickyRow_col _ _ _ _ _ hb, stickyRow_col _ _ _ _ _ hb]

/-- What `constructSchedule` does to the schedule fields. -/
theorem constructSchedule_ok (cfg : Config) (mc mc1 : MemoryController) (clk : Nat)
    (h : constructSchedule cfg mc clk = Except.ok mc1) :
    mc1.currentClockCycle = mc.currentClockCycle ∧ mc1.dispatchTick = mc.dispatchTick ∧
    mc1.rankIndx = mc.rankIndx ∧ mc1.bankIndx = mc.bankIndx ∧
    (clk ≠ mc.epochStart → mc1 = mc) ∧
    (clk = mc.epochStart →
      mc1.epochStart = clk + cfg.CYCLE_LENGTH ∧
      mc1.turn = (if mc.turn = cfg.NUM_CPU - 1 then 0 else mc.turn + 1) ∧
      mc1.prevSch = mapRange2 3 4 (fun i j _ => mc.sch i j) mc.prevSch ∧
      (∀ i j, i < 3 → 1 ≤ j → j < 4 → mc1.sch i j = RB_MAX cfg)) := by
  unfold constructSchedule at h
  split at h
  · rename_i hne
    cases h
    simp [hne]
  · rename_i heq
    simp only [ne_eq, not_not] at heq
    dsimp only at h
    split at h
    · cases h
    · rename_i top htop
      split at h
      · cases h
      · rename_i st hst
        cases h
        refine ⟨rfl, rfl, rfl, rfl, fun hne => absurd heq hne, fun _ => ⟨rfl, rfl, rfl, ?_⟩⟩
        intro i j hi hj1 hj4
        have := placeRanks_col cfg _ _ _ hst i j (by omega)
        show st.1 i j = RB_MAX cfg
        rw [this]
        simp [drain, epochAdvance, mapRange2, hi, hj4]

/-! ## Runs, reachable states and the epoch invariant -/

/-- Induction over the runs of the controller. -/
theorem run_induction (cfg : Config) (P : MemoryController → Prop)
    (hstep : ∀ mc e mc1, P mc → applyEvent cfg mc e = Except.ok mc1 → P mc1) :
    ∀ (es : List Event) (mc mc1 : MemoryController), P mc → run cfg mc es = Except.ok mc1 → P mc1
  | [], mc, mc1, hP, h => by
    simp only [run, Except.ok.injEq] at h
    rw [← h]
    exact hP
  | e :: es, mc, mc1, hP, h => by
    simp only [run] at h
    split at h
    · cases h
    · rename_i mc2 h2
      exact run_induction cfg P hstep es mc2 mc1 (hstep mc e mc2 hP h2) h

/-- An invariant that holds after the constructor and is kept by every event holds in every
reachable state. -/
theorem reachable_induction (cfg : Config) (boot : Boot) (P : MemoryController → Prop)
    (hinit : P (MemoryController.init cfg boot))
    (hstep : ∀ mc e mc1, P mc → applyEvent cfg mc e = Except.ok mc1 → P mc1)
    (mc : MemoryController) (h : Reachable cfg boot mc) : P mc := by
  obtain ⟨es, hes⟩ := h
  exact run_induction cfg P hstep es _ mc hinit hes

/-- An event is a cycle, or leaves everything but the three input queues and flags as it is. -/
theorem applyEvent_ok (cfg : Config) (mc mc1 : MemoryController) (e : Event)
    (h : applyEvent cfg mc e = Except.ok mc1) :
    (∃ inp mc2, e = Event.cycle inp ∧ update cfg inp mc = Except.ok mc2 ∧
      mc1 = { mc2 with currentClockCycle := mc2.currentClockCycle + 1 }) ∨
    (∃ tq rt rw, mc1 = { mc with transactionQueue := tq, returnTransaction := rt,
                                 refreshWaiting := rw }) := by
  cases e with
  | addTransaction t =>
    right
    simp only [applyEvent, Except.ok.injEq] at h
    rw [← h]
    unfold addTransaction
    split
    · exact ⟨_, _, _, rfl⟩
    · exact ⟨_, _, _, rfl⟩
  | receiveFromBus p =>
    right
    simp only [applyEvent, receiveFromBus] at h
    split at h
    · cases h
    · cases h
      exact ⟨_, _, _, rfl⟩
  | rankClearsRefreshWaiting r =>
    right
    simp only [applyEvent, Except.ok.injEq] at h
    rw [← h]
    exact ⟨_, _, _, rfl⟩
  | cycle inp =>
    left
    simp only [applyEvent] at h
    split at h
    · cases h
    · rename_i mc2 h2
      cases h
      exact ⟨inp, mc2, rfl, h2, rfl⟩

theorem next_turn (n m : Nat) (hn : 1 ≤ n) :
    (if m % n = n - 1 then 0 else m % n + 1) = (m + 1) % n := by
  have hlt : m % n < n := Nat.mod_lt _ (by omega)
  rw [Nat.add_mod]
  split
  · rename_i h
    rw [h]
    rcases Nat.lt_or_ge 1 n with h1 | h1
    · rw [Nat.mod_eq_of_lt h1]
      have : n - 1 + 1 = n := by omega
      rw [this, Nat.mod_self]
    · have : n = 1 := by omega
      subst this
      simp
  · rename_i h
    rcases Nat.lt_or_ge 1 n with h1 | h1
    · have h2 : m % n + 1 < n := by omega
      rw [Nat.mod_eq_of_lt h1]
      exact (Nat.mod_eq_of_lt h2).symm
    · have : n = 1 := by omega
      subst this
      omega

theorem EpochInv_init (cfg : Config) (boot : Boot) : EpochInv cfg (MemoryController.init cfg boot) :=
  ⟨0, by simp [MemoryController.init], by simp [MemoryController.init],
    by simp [MemoryController.init], by omega⟩

/-- The epoch fields after a successful `update()`. -/
theorem update_epoch (cfg : Config) (inp : CycleInput) (mc mc1 : MemoryController)
    (h : update cfg inp mc = Except.ok mc1) :
    mc1.currentClockCycle = mc.currentClockCycle ∧
    (mc.currentClockCycle ≠ mc.epochStart → mc1.epochStart = mc.epochStart ∧ mc1.turn = mc.turn) ∧
    (mc.currentClockCycle = mc.epochStart →
      mc1.epochStart = mc.currentClockCycle + cfg.CYCLE_LENGTH ∧
      mc1.turn = (if mc.turn = cfg.NUM_CPU - 1 then 0 else mc.turn + 1)) := by
  obtain ⟨mc3, mc4, mc5, hv, hc, hd, hv1⟩ := update_sched cfg inp mc mc1 h
  simp only [schedView, Prod.mk.injEq] at hv hv1
  obtain ⟨c1, c2, c3, c4, c5, c6⟩ := constructSchedule_ok cfg mc3 mc4 _ hc
  obtain ⟨d1, d2, d3, d4, d5, d6⟩ := dispatchReq_ok cfg inp mc4 mc5 _ hd
  refine ⟨by rw [hv1.1, d1, c1, hv.1], ?_, ?_⟩
  · intro hne
    have := c5 (by rw [hv.1, hv.2.1]; exact hne)
    subst this
    rw [hv1.2.1, hv1.2.2.2.2.2.1, d2, d3, hv.2.1, hv.2.2.2.2.2.1]
    exact ⟨rfl, rfl⟩
  · intro heq
    have := c6 (by rw [hv.1, hv.2.1]; exact heq)
    rw [hv1.2.1, hv1.2.2.2.2.2.1, d2, d3, this.1, this.2.1, hv.1, hv.2.2.2.2.2.1]
    exact ⟨rfl, rfl⟩

theorem EpochInv_step (cfg : Config) (hn : 1 ≤ cfg.NUM_CPU) (hl : 1 ≤ cfg.CYCLE_LENGTH)
    (mc : MemoryController) (e : Event) (mc1 : MemoryController)
    (hI : EpochInv cfg mc) (h : applyEvent cfg mc e = Except.ok mc1) : EpochInv cfg mc1 := by
  rcases applyEvent_ok cfg mc mc1 e h with ⟨inp, mc2, _, hu, rfl⟩ | ⟨tq, rt, rw, rfl⟩
  · obtain ⟨m, h1, h2, h3, h4⟩ := hI
    obtain ⟨u1, u2, u3⟩ := update_epoch cfg inp mc mc2 hu
    by_cases hc : mc.currentClockCycle = mc.epochStart
    · obtain ⟨e1, e2⟩ := u3 hc
      refine ⟨m + 1, ?_, ?_, ?_, ?_⟩
      · show mc2.epochStart = _
        rw [e1, hc, h1, Nat.mul_succ]
      · show mc2.turn = _
        rw [e2, h2, next_turn _ _ hn]
      · show mc2.currentClockCycle + 1 ≤ _
        rw [u1, hc, h1, Nat.mul_succ]
        omega
      · intro _
        show _ < mc2.currentClockCycle + 1
        rw [u1, hc, h1]
        simp
    · obtain ⟨e1, e2⟩ := u2 hc
      refine ⟨m, ?_, ?_, ?_, ?_⟩
      · show mc2.epochStart = _
        rw [e1, h1]
      · show mc2.turn = _
        rw [e2, h2]
      · show mc2.currentClockCycle + 1 ≤ _
        rw [u1]
        rw [h1] at hc
        omega
      · intro hm
        show _ < mc2.currentClockCycle + 1
        rw [u1]
        have := h4 hm
        omega
  · exact hI

theorem EpochInv_reachable (cfg : Config) (boot : Boot) (hn : 1 ≤ cfg.NUM_CPU)
    (hl : 1 ≤ cfg.CYCLE_LENGTH) (mc : MemoryController) (h : Reachable cfg boot mc) :
    EpochInv cfg mc :=
  reachable_induction cfg boot (EpochInv cfg) (EpochInv_init cfg boot)
    (fun mc e mc1 hI he => EpochInv_step cfg hn hl mc e mc1 hI he) mc h

/-- Every epoch start is at a multiple of `CYCLE_LENGTH`, and the owner selected at the
epoch start of cycle `CYCLE_LENGTH * k` is `(k + 1) mod NUM_CPU`. -/
theorem epoch_owner (cfg : Config) (boot : Boot) (hn : 1 ≤ cfg.NUM_CPU)
    (hl : 1 ≤ cfg.CYCLE_LENGTH) (mc mc1 : MemoryController) (inp : CycleInput) (k : Nat)
    (hr : Reachable cfg boot mc) (hc : mc.currentClockCycle = cfg.CYCLE_LENGTH * k)
    (hu : update cfg inp mc = Except.ok mc1) :
    mc.epochStart = mc.currentClockCycle ∧ mc1.turn = (k + 1) % cfg.NUM_CPU ∧
    mc1.epochStart = cfg.CYCLE_LENGTH * (k + 1) := by
  obtain ⟨m, h1, h2, h3, h4⟩ := EpochInv_reachable cfg boot hn hl mc hr
  have hmk : m = k := by
    rw [hc] at h3 h4
    have a1 : k ≤ m := Nat.le_of_mul_le_mul_left h3 (by omega)
    rcases Nat.eq_or_lt_of_le a1 with heq | hlt
    · exact heq.symm
    · have := h4 (by omega)
      have a2 : m - 1 < k := Nat.lt_of_mul_lt_mul_left this
      omega
  subst hmk
  have hes : mc.currentClockCycle = mc.epochStart := by rw [hc, h1]
  obtain ⟨u1, u2, u3⟩ := update_epoch cfg inp mc mc1 hu
  obtain ⟨e1, e2⟩ := u3 hes
  refine ⟨hes.symm, ?_, ?_⟩
  · rw [e2, h2, next_turn _ _ hn]
  · rw [e1, hc, Nat.mul_succ]

/-! ## The slot invariant of aligned epochs -/

theorem SlotInv_congr (cfg : Config) (d : Nat) (a b : MemoryController)
    (h : schedView a = schedView b) (hI : SlotInv cfg d a) : SlotInv cfg d b := by
  simp only [schedView, Prod.mk.injEq] at h
  obtain ⟨h1, h2, h3, h4, h5, h6, h7, h8, h9, h10⟩ := h
  unfold SlotInv at hI ⊢
  rw [← h1, ← h2, ← h3, ← h4, ← h5, ← h7]
  exact hI

theorem SlotInv_init (cfg : Config) (boot : Boot) :
    SlotInv cfg 1 (MemoryController.init cfg boot) := by
  refine ⟨9, le_refl _, ?_, ?_, ?_, ?_, ?_, ?_⟩
  · simp [MemoryController.init]
  · simp [MemoryController.init]
  · simp [MemoryController.init]
  · simp [MemoryController.init]
  · intro i k hi hk1 hk3 hm
    omega
  · intro i k1 k2 _ _ _ _ _ _ h1 _
    simp [MemoryController.init] at h1

/-- `constructSchedule` keeps the slot invariant and leaves the clock before the next epoch
start. -/
theorem SlotInv_constructSchedule (cfg : Config) (hT : 1 ≤ cfg.T_RANK)
    (hL : cfg.CYCLE_LENGTH = 9 * cfg.T_RANK) (mc mc1 : MemoryController)
    (hI : SlotInv cfg 1 mc) (h : constructSchedule cfg mc mc.currentClockCycle = Except.ok mc1) :
    SlotInv cfg 1 mc1 ∧ mc1.currentClockCycle ≠ mc1.epochStart := by
  obtain ⟨c1, c2, c3, c4, c5, c6⟩ := constructSchedule_ok cfg mc mc1 _ h
  obtain ⟨m, hm, i1, i2, i3, i4, i5, i6⟩ := hI
  by_cases hc : mc.currentClockCycle = mc.epochStart
  · obtain ⟨e1, e2, e3, e4⟩ := c6 hc
    have hT0 : (9 - m) * cfg.T_RANK = 0 := by omega
    have hm9 : m = 9 := by
      rcases Nat.mul_eq_zero.mp hT0 with h0 | h0
      · omega
      · omega
    subst hm9
    refine ⟨⟨0, by omega, ?_, ?_, ?_, ?_, ?_, ?_⟩, ?_⟩
    · rw [e1, c2, hL]
      omega
    · rw [c1, c2]
      exact i2
    · rw [c3, i3]
    · rw [c4, i4]
    · intro i k hi hk1 hk3 _
      exact e4 i k hi hk1 (by omega)
    · intro i k1 k2 hi h11 h13 _ _ _ hne _
      exact absurd (e4 i k1 hi h11 (by omega)) hne
    · rw [e1, c1]
      omega
  · have := c5 hc
    subst this
    exact ⟨⟨m, hm, i1, i2, i3, i4, i5, i6⟩, hc⟩

/-- `dispatchReq` keeps the slot invariant. -/
theorem SlotInv_dispatchReq (cfg : Config) (inp : CycleInput) (hT : 1 ≤ cfg.T_RANK)
    (mc mc1 : MemoryController) (hI : SlotInv cfg 1 mc)
    (hne : mc.currentClockCycle ≠ mc.epochStart)
    (h : dispatchReq cfg inp mc mc.currentClockCycle = Except.ok mc1) :
    SlotInv cfg 2 mc1 := by
  obtain ⟨d1, d2, d3, d4, d5, d6⟩ := dispatchReq_ok cfg inp mc mc1 _ h
  obtain ⟨m, hm, i1, i2, i3, i4, i5, i6⟩ := hI
  by_cases hc : mc.currentClockCycle = mc.dispatchTick
  · obtain ⟨f1, f2, f3, f4⟩ := d6 hc
    have hm9 : m < 9 := by
      rcases Nat.lt_or_ge m 9 with hlt | hge
      · exact hlt
      · exfalso
        have : m = 9 := by omega
        subst this
        apply hne
        rw [hc, i1]
        simp
    have hmul : (9 - m) * cfg.T_RANK = (9 - (m + 1)) * cfg.T_RANK + cfg.T_RANK := by
      have : 9 - m = (9 - (m + 1)) + 1 := by omega
      rw [this, Nat.add_mul, Nat.one_mul]
    refine ⟨m + 1, by omega, ?_, ?_, ?_, ?_, ?_, ?_⟩
    · rw [d2, f1, i1, hmul]
      omega
    · rw [d1, f1]
      omega
    · rw [f2, i3]
      split <;> omega
    · rw [f3, i3, i4]
      split
      · split <;> omega
      · omega
    · intro i k hi hk1 hk3 hslot
      rcases f4 with hs | ⟨b, _, hs⟩
      · rw [hs]
        exact i5 i k hi hk1 hk3 (by omega)
      · rw [hs]
        have hcell : ¬ (i = mc.rankIndx ∧ k = mc.bankIndx) := by
          rw [i3, i4]
          omega
        simp only [set2, hcell, if_false]
        exact i5 i k hi hk1 hk3 (by omega)
    · rcases f4 with hs | ⟨b, hb, hs⟩
      · rw [hs]
        exact i6
      · rw [hs]
        have hnb := (noBankViolation_iff mc b).mp hb
        intro i k1 k2 hi h11 h13 h21 h23 hk12 hn1 hn2
        by_cases e1 : i = mc.rankIndx ∧ k1 = mc.bankIndx
        · obtain ⟨rfl, rfl⟩ := e1
          have e2 : ¬ (k2 = mc.bankIndx) := fun e2 => hk12 e2.symm
          simp only [set2, e2, if_true, if_false, and_self, and_false] at hn1 hn2 ⊢
          rcases Nat.lt_or_ge k2 mc.bankIndx with hlt | hge
          · exact hnb.1 k2 h21 (by omega)
          · exfalso
            apply hn2
            apply i5 mc.rankIndx k2 hi h21 h23
            omega
        · by_cases e2 : i = mc.rankIndx ∧ k2 = mc.bankIndx
          · obtain ⟨rfl, rfl⟩ := e2
            have e1' : ¬ (k1 = mc.bankIndx) := fun e => hk12 e
            simp only [set2, e1', if_true, if_false, and_self, and_false] at hn1 hn2 ⊢
            rcases Nat.lt_or_ge k1 mc.bankIndx with hlt | hge
            · exact fun heq => hnb.1 k1 h11 (by omega) heq.symm
            · exfalso
              apply hn1
              apply i5 mc.rankIndx k1 hi h11 h13
              omega
          · simp only [set2, e1, e2, if_false] at hn1 hn2 ⊢
            exact i6 i k1 k2 hi h11 h13 h21 h23 hk12 hn1 hn2
  · have := d5 hc
    subst this
    exact ⟨m, hm, i1, by omega, i3, i4, i5, i6⟩

theorem SlotInv_step (cfg : Config) (hT : 1 ≤ cfg.T_RANK) (hL : cfg.CYCLE_LENGTH = 9 * cfg.T_RANK)
    (mc : MemoryController) (e : Event) (mc1 : MemoryController)
    (hI : SlotInv cfg 1 mc) (h : applyEvent cfg mc e = Except.ok mc1) : SlotInv cfg 1 mc1 := by
  rcases applyEvent_ok cfg mc mc1 e h with ⟨inp, mc2, _, hu, rfl⟩ | ⟨tq, rt, rw, rfl⟩
  · obtain ⟨mc3, mc4, mc5, hv, hc, hd, hv1⟩ := update_sched cfg inp mc mc2 hu
    have h3 := SlotInv_congr cfg 1 mc mc3 hv.symm hI
    obtain ⟨h4, hne⟩ := SlotInv_constructSchedule cfg hT hL mc3 mc4 h3 hc
    have h5 := SlotInv_dispatchReq cfg inp hT mc4 mc5 h4 hne hd
    obtain ⟨m, hm, i1, i2, i3, i4, i5, i6⟩ := SlotInv_congr cfg 2 mc5 mc2 hv1.symm h5
    have i2' : mc2.currentClockCycle + 1 + 1 ≤ mc2.dispatchTick + 1 := by omega
    exact ⟨m, hm, i1, i2', i3, i4, i5, i6⟩
  · exact hI

/-! ## The phases of `update()` and the bank fields -/

theorem bankView_cmdBusCountdown (mc : MemoryController) :
    bankView (cmdBusCountdown mc) = bankView mc := by
  unfold cmdBusCountdown
  dsimp only
  split
  · rfl
  · split <;> rfl

theorem bankView_dataBusCountdown (mc : MemoryController) :
    bankView (dataBusCountdown mc) = bankView mc := by
  unfold dataBusCountdown
  dsimp only
  split
  · rfl
  · split <;> rfl

theorem bankView_writeDataStep (cfg : Config) (mc mc1 : MemoryController)
    (h : writeDataStep cfg mc = Except.ok mc1) : bankView mc1 = bankView mc := by
  unfold writeDataStep at h
  dsimp only at h
  split at h
  · split at h
    · split at h
      · cases h
      · split at h
        · cases h
        · cases h
          rfl
    · cases h
      rfl
  · cases h
    rfl

theorem bankView_refreshStep (cfg : Config) (mc : MemoryController) :
    bankView (refreshStep cfg mc) = bankView mc := by
  unfold refreshStep
  dsimp only
  split
  · rfl
  · split <;> rfl

theorem bankView_constructSchedule (cfg : Config) (mc mc1 : MemoryController) (clk : Nat)
    (h : constructSchedule cfg mc clk = Except.ok mc1) : bankView mc1 = bankView mc := by
  unfold constructSchedule at h
  split at h
  · cases h
    rfl
  · dsimp only at h
    split at h
    · cases h
    · split at h
      · cases h
      · cases h
        rfl

theorem bankView_dispatchDemand (cfg : Config) (inp : CycleInput) (mc mc1 : MemoryController)
    (e : Bool) (h : dispatchDemand cfg inp mc = Except.ok (e, mc1)) :
    bankView mc1 = bankView mc := by
  unfold dispatchDemand at h
  dsimp only at h
  split at h
  · cases h
    rfl
  · split at h
    · cases h
    · split at h
      · cases h
      · simp only [Except.ok.injEq, Prod.mk.injEq] at h
        obtain ⟨_, h⟩ := h
        subst h
        split <;> rfl

theorem bankView_dispatchPrefetch (cfg : Config) (inp : CycleInput)
    (mc mc1 : MemoryController) (h : dispatchPrefetch cfg inp mc = Except.ok mc1) :
    bankView mc1 = bankView mc := by
  unfold dispatchPrefetch at h
  dsimp only at h
  split at h
  · cases h
    rfl
  · split at h
    · cases h
    · simp only [Except.ok.injEq] at h
      subst h
      split <;> rfl

theorem bankView_dispatchReq (cfg : Config) (inp : CycleInput) (mc mc1 : MemoryController)
    (clk : Nat) (h : dispatchReq cfg inp mc clk = Except.ok mc1) :
    bankView mc1 = bankView mc := by
  unfold dispatchReq at h
  split at h
  · cases h
    rfl
  · split at h
    · cases h
    · rename_i e mcd hd
      have h1 := bankView_dispatchDemand cfg inp mc mcd e hd
      split at h
      · split at h
        · cases h
        · rename_i mcp hp
          have h2 := bankView_dispatchPrefetch cfg inp mcd mcp hp
          cases h
          rw [← h1, ← h2]
          rfl
      · cases h
        rw [← h1]
        rfl

theorem bankView_returnStep (cfg : Config) (mc mc1 : MemoryController)
    (h : returnStep cfg mc = Except.ok mc1) : bankView mc1 = bankView mc := by
  rcases returnStep_ok cfg mc mc1 h with ⟨_, rfl⟩ | ⟨hd, rest, i, t, m, _, _, hm, rfl⟩
  · rfl
  · obtain ⟨_, e, _⟩ := insertHistogram_ok cfg mc m _ _ _ _ _ hm
    rw [e]
    rfl

theorem powerDown_popStep (cfg : Config) (inp : CycleInput) (mc mc1 : MemoryController)
    (h : popStep cfg inp mc = Except.ok mc1) :
    mc1.powerDown = mc.powerDown ∧ mc1.currentClockCycle = mc.currentClockCycle := by
  unfold popStep at h
  split at h
  · cases h
    exact ⟨rfl, rfl⟩
  · split at h
    · cases h
    · split at h
      · cases h
      · cases h
        unfold pushWriteData
        split <;> exact ⟨rfl, rfl⟩

theorem powerStep_off (cfg : Config) (inp : CycleInput) (mc : MemoryController)
    (h : cfg.USE_LOW_POWER = false) : powerStep cfg inp mc = mc := by
  unfold powerStep
  induction cfg.NUM_RANKS with
  | zero => rfl
  | succ n ih =>
    simp only [forLoop, ih]
    simp [powerRank, h]

/-! ## The phases of `update()` and the refresh clock -/

theorem refreshCalls_emit (mc : MemoryController) (cs : List ExtCall) :
    refreshCalls (mc.emit cs) =
      refreshCalls mc ++ (cs.filter isRefreshCall).map (fun c => (mc.currentClockCycle, c)) := by
  simp only [refreshCalls, MemoryController.emit, List.filter_append, List.filter_map]
  rfl

theorem refreshView_emit (mc : MemoryController) (cs : List ExtCall)
    (h : cs.filter isRefreshCall = []) : refreshView (mc.emit cs) = refreshView mc := by
  simp only [refreshView, refreshCalls_emit, h, List.map_nil, List.append_nil]
  rfl

theorem refreshView_eq (a b : MemoryController)
    (h1 : a.currentClockCycle = b.currentClockCycle)
    (h2 : a.refreshCountdown = b.refreshCountdown) (h3 : a.refreshRank = b.refreshRank)
    (h4 : a.trace.filter (fun e => isRefreshCall e.2) = b.trace.filter (fun e => isRefreshCall e.2)) :
    refreshView a = refreshView b := by
  simp only [refreshView, refreshCalls, h1, h2, h3, h4]

theorem refreshView_updateBankStates (cfg : Config) (mc : MemoryController) :
    refreshView (updateBankStates cfg mc) = refreshView mc := rfl

theorem refreshView_cmdBusCountdown (mc : MemoryController) :
    refreshView (cmdBusCountdown mc) = refreshView mc := by
  unfold cmdBusCountdown
  dsimp only
  split
  · rfl
  · split
    · refine refreshView_eq _ _ ?_ ?_ ?_ ?_ <;> simp [MemoryController.emit, isRefreshCall]
    · rfl

theorem refreshView_dataBusCountdown (mc : MemoryController) :
    refreshView (dataBusCountdown mc) = refreshView mc := by
  unfold dataBusCountdown
  dsimp only
  split
  · rfl
  · split
    · refine refreshView_eq _ _ ?_ ?_ ?_ ?_ <;> simp [MemoryController.emit, isRefreshCall]
    · rfl

theorem refreshView_writeDataStep (cfg : Config) (mc mc1 : MemoryController)
    (h : writeDataStep cfg mc = Except.ok mc1) : refreshView mc1 = refreshView mc := by
  unfold writeDataStep at h
  dsimp only at h
  split at h
  · split at h
    · split at h
      · cases h
      · split at h
        · cases h
        · cases h
          rfl
    · cases h
      rfl
  · cases h
    rfl

theorem refreshView_pushWriteData (cfg : Config) (p : BusPacket) (mc : MemoryController) :
    refreshView (pushWriteData cfg p mc) = refreshView mc := by
  unfold pushWriteData
  split <;> rfl

theorem refreshView_popStep (cfg : Config) (inp : CycleInput) (mc mc1 : MemoryController)
    (h : popStep cfg inp mc = Except.ok mc1) : refreshView mc1 = refreshView mc := by
  unfold popStep at h
  split at h
  · cases h
    rfl
  · split at h
    · cases h
    · split at h
      · cases h
      · cases h
        exact refreshView_pushWriteData cfg _ mc

theorem refreshView_constructSchedule (cfg : Config) (mc mc1 : MemoryController) (clk : Nat)
    (h : constructSchedule cfg mc clk = Except.ok mc1) : refreshView mc1 = refreshView mc := by
  unfold constructSchedule at h
  split at h
  · cases h
    rfl
  · dsimp only at h
    split at h
    · cases h
    · split at h
      · cases h
      · cases h
        rfl

theorem refreshView_dispatchDemand (cfg : Config) (inp : CycleInput) (mc mc1 : MemoryController)
    (e : Bool) (h : dispatchDemand cfg inp mc = Except.ok (e, mc1)) :
    refreshView mc1 = refreshView mc := by
  unfold dispatchDemand at h
  dsimp only at h
  split at h
  · cases h
    rfl
  · split at h
    · cases h
    · split at h
      · cases h
      · simp only [Except.ok.injEq, Prod.mk.injEq] at h
        obtain ⟨_, h⟩ := h
        subst h
        split <;>
          (refine refreshView_eq _ _ ?_ ?_ ?_ ?_ <;>
            simp [MemoryController.emit, isRefreshCall, commandPair])

theorem refreshView_dispatchPrefetch (cfg : Config) (inp : CycleInput)
    (mc mc1 : MemoryController) (h : dispatchPrefetch cfg inp mc = Except.ok mc1) :
    refreshView mc1 = refreshView mc := by
  unfold dispatchPrefetch at h
  dsimp only at h
  split at h
  · cases h
    rfl
  · split at h
    · cases h
    · simp only [Except.ok.injEq] at h
      subst h
      split <;>
        (refine refreshView_eq _ _ ?_ ?_ ?_ ?_ <;>
          simp [MemoryController.emit, isRefreshCall, commandPair])

theorem refreshView_dispatchReq (cfg : Config) (inp : CycleInput) (mc mc1 : MemoryController)
    (clk : Nat) (h : dispatchReq cfg inp mc clk = Except.ok mc1) :
    refreshView mc1 = refreshView mc := by
  unfold dispatchReq at h
  split at h
  · cases h
    rfl
  · split at h
    · cases h
    · rename_i e mcd hd
      have h1 := refreshView_dispatchDemand cfg inp mc mcd e hd
      split at h
      · split at h
        · cases h
        · rename_i mcp hp
          have h2 := refreshView_dispatchPrefetch cfg inp mcd mcp hp
          cases h
          rw [← h1, ← h2]
          rfl
      · cases h
        rw [← h1]
        rfl

theorem refreshView_powerRank (cfg : Config) (inp : CycleInput) (i : Nat) (mc : MemoryController) :
    refreshView (powerRank cfg inp i mc) = refreshView mc := by
  unfold powerRank
  dsimp only
  split
  · split
    · split
      · refine refreshView_eq _ _ ?_ ?_ ?_ ?_ <;> simp [MemoryController.emit, isRefreshCall]
      · rfl
    · split
      · refine refreshView_eq _ _ ?_ ?_ ?_ ?_ <;> simp [MemoryController.emit, isRefreshCall]
      · rfl
  · rfl

theorem refreshView_powerStep (cfg : Config) (inp : CycleInput) (mc : MemoryController) :
    refreshView (powerStep cfg inp mc) = refreshView mc := by
  unfold powerStep
  induction cfg.NUM_RANKS with
  | zero => rfl
  | succ n ih => simp only [forLoop, refreshView_powerRank, ih]

theorem refreshView_returnStep (cfg : Config) (mc mc1 : MemoryController)
    (h : returnStep cfg mc = Except.ok mc1) : refreshView mc1 = refreshView mc := by
  rcases returnStep_ok cfg mc mc1 h with ⟨_, rfl⟩ | ⟨hd, rest, i, t, m, _, _, hm, rfl⟩
  · rfl
  · obtain ⟨_, e, _⟩ := insertHistogram_ok cfg mc m _ _ _ _ _ hm
    rw [e]
    refine refreshView_eq _ _ ?_ ?_ ?_ ?_ <;> simp [MemoryController.emit, isRefreshCall]

/-- The refresh clock only depends on its own fields. -/
theorem refreshView_refreshDecrement (cfg : Config) (a b : MemoryController)
    (h : refreshView a = refreshView b) :
    refreshView (refreshDecrement cfg a) = refreshView (refreshDecrement cfg b) := by
  simp only [refreshView, Prod.mk.injEq] at h
  obtain ⟨h1, h2, h3, h4⟩ := h
  simp only [refreshView, refreshDecrement, refreshCalls] at h4 ⊢
  rw [h1, h2, h3, h4]

/-- For the refresh clock, a successful `update()` is `refreshStep` followed by
`refreshDecrement`. -/
theorem update_refresh (cfg : Config) (inp : CycleInput) (mc mc1 : MemoryController)
    (h : update cfg inp mc = Except.ok mc1) :
    ∃ mc2, refreshView mc2 = refreshView mc ∧ mc2.powerDown = mc.powerDown ∧
      refreshView mc1 = refreshView (refreshDecrement cfg (refreshStep cfg mc2)) := by
  obtain ⟨mc2, mc3, mc4, mc5, mc6, h2, h3, h4, h5, h6, rfl⟩ := update_ok cfg inp mc mc1 h
  refine ⟨mc2, ?_, ?_, ?_⟩
  · rw [refreshView_writeDataStep cfg _ _ h2, refreshView_dataBusCountdown,
      refreshView_cmdBusCountdown, refreshView_updateBankStates]
  · have e1 := bankView_writeDataStep cfg _ _ h2
    rw [bankView_dataBusCountdown, bankView_cmdBusCountdown] at e1
    simp only [bankView, Prod.mk.injEq] at e1
    exact e1.2.2
  · apply refreshView_refreshDecrement
    rw [refreshView_returnStep cfg _ _ h6, refreshView_powerStep,
      refreshView_dispatchReq cfg inp _ _ _ h5, refreshView_constructSchedule cfg _ _ _ h4,
      refreshView_popStep cfg inp _ _ h3]

/-! ## The invariant of the refresh clock -/

/-- The due cycles are strictly increasing in the order of rounds and, inside a round, of
ranks. -/
theorem refreshCycle_lt (cfg : Config) (hQ : 1 ≤ cfg.REFRESH_PERIOD_CYCLES / cfg.NUM_RANKS)
    (i j k1 k : Nat) (hj : j < cfg.NUM_RANKS)
    (h : k < k1 ∨ (k1 = k ∧ j < i)) : refreshCycle cfg j k < refreshCycle cfg i k1 := by
  unfold refreshCycle
  have hQN : cfg.REFRESH_PERIOD_CYCLES / cfg.NUM_RANKS * cfg.NUM_RANKS ≤ cfg.REFRESH_PERIOD_CYCLES :=
    Nat.div_mul_le_self _ _
  generalize cfg.REFRESH_PERIOD_CYCLES / cfg.NUM_RANKS = Q at hQ hQN ⊢
  generalize cfg.REFRESH_PERIOD_CYCLES = P at hQN ⊢
  generalize cfg.NUM_RANKS = N at hj hQN
  rcases h with h | ⟨rfl, h⟩
  · have h1 : Q * (j + 1) ≤ Q * N := Nat.mul_le_mul_left Q (by omega)
    have h2 : (k + 1) * P ≤ k1 * P := Nat.mul_le_mul_right P (by omega)
    have h3 : 1 ≤ Q * (i + 1) := Nat.mul_pos (by omega) (by omega)
    rw [Nat.add_mul, Nat.one_mul] at h2
    omega
  · have h1 : Q * (j + 1) < Q * (i + 1) := Nat.mul_lt_mul_of_pos_left (by omega) (by omega)
    omega

theorem refreshCalls_mem_trace (mc : MemoryController) (c i : Nat) :
    ((c, ExtCall.needRefresh i) ∈ refreshCalls mc ↔ (c, ExtCall.needRefresh i) ∈ mc.trace) ∧
    ((c, ExtCall.setRefreshWaiting i) ∈ refreshCalls mc ↔
      (c, ExtCall.setRefreshWaiting i) ∈ mc.trace) := by
  simp [refreshCalls, isRefreshCall]

theorem RefreshInv_congr (cfg : Config) (c : Nat) (a b : MemoryController)
    (h2 : a.refreshCountdown = b.refreshCountdown) (h3 : a.refreshRank = b.refreshRank)
    (h4 : refreshCalls a = refreshCalls b) (hI : RefreshInv cfg c a) : RefreshInv cfg c b := by
  unfold RefreshInv at hI ⊢
  rw [← h2, ← h3, ← h4]
  exact hI

theorem RefreshInv_init (cfg : Config) (boot : Boot)
    (hQ : 1 ≤ cfg.REFRESH_PERIOD_CYCLES / cfg.NUM_RANKS) :
    RefreshInv cfg 0 (MemoryController.init cfg boot) := by
  have hN : 0 < cfg.NUM_RANKS := by
    rcases Nat.eq_zero_or_pos cfg.NUM_RANKS with h0 | h0
    · rw [h0, Nat.div_zero] at hQ
      omega
    · exact h0
  refine ⟨0, 0, hN, rfl, Nat.zero_le _, ?_, ?_, ?_, ?_, ?_, ?_⟩
  · intro i hi
    simp [MemoryController.init, hi, refreshCycle]
  · intro i hi
    have : ¬ i < cfg.NUM_RANKS := by omega
    simp [MemoryController.init, this]
  · intro i k1 _ h
    omega
  · intro c1 i
    simp [refreshCalls, MemoryController.init]
  · intro c1 i h
    simp [refreshCalls, MemoryController.init] at h
  · intro _ c1 i h
    simp [refreshCalls, MemoryController.init] at h

theorem refreshStep_fired (cfg : Config) (mc : MemoryController)
    (h : mc.refreshCountdown mc.refreshRank = 0) :
    refreshCalls (refreshStep cfg mc) = refreshCalls mc ++
      [(mc.currentClockCycle, ExtCall.needRefresh mc.refreshRank),
       (mc.currentClockCycle, ExtCall.setRefreshWaiting mc.refreshRank)] ∧
    (refreshStep cfg mc).refreshCountdown =
      set1 mc.refreshCountdown mc.refreshRank (cfg.REFRESH_PERIOD_CYCLES : Int) ∧
    (refreshStep cfg mc).refreshRank =
      (if mc.refreshRank + 1 = cfg.NUM_RANKS then 0 else mc.refreshRank + 1) := by
  unfold refreshStep
  simp [h, refreshCalls, MemoryController.emit, isRefreshCall]

theorem refreshStep_idle (cfg : Config) (mc : MemoryController)
    (h : mc.refreshCountdown mc.refreshRank ≠ 0) :
    (refreshStep cfg mc).refreshCountdown = mc.refreshCountdown ∧
    (refreshStep cfg mc).refreshRank = mc.refreshRank ∧
    (refreshCalls (refreshStep cfg mc) = refreshCalls mc ∨
      (mc.powerDown mc.refreshRank = true ∧
        refreshCalls (refreshStep cfg mc) = refreshCalls mc ++
          [(mc.currentClockCycle, ExtCall.setRefreshWaiting mc.refreshRank)])) := by
  unfold refreshStep
  simp only [h, if_false]
  split
  · rename_i hp
    refine ⟨rfl, rfl, Or.inr ⟨hp.1, ?_⟩⟩
    simp [refreshCalls, MemoryController.emit, isRefreshCall]
  · exact ⟨rfl, rfl, Or.inl rfl⟩

/-- The due cycle met by the clock is the one under the cursor. -/
theorem refreshCycle_unique (cfg : Config) (hQ : 1 ≤ cfg.REFRESH_PERIOD_CYCLES / cfg.NUM_RANKS)
    (c k j i k1 : Nat) (hj : j < cfg.NUM_RANKS) (hi : i < cfg.NUM_RANKS)
    (r2 : c ≤ refreshCycle cfg j k)
    (r4 : ∀ i k1, i < cfg.NUM_RANKS → (k1 < k ∨ (k1 = k ∧ i < j)) → refreshCycle cfg i k1 < c)
    (h : c = refreshCycle cfg i k1) : i = j ∧ k1 = k := by
  by_cases h1 : k1 < k ∨ (k1 = k ∧ i < j)
  · have := r4 i k1 hi h1
    omega
  · by_cases h2 : k < k1 ∨ (k1 = k ∧ j < i)
    · have := refreshCycle_lt cfg hQ i j k1 k hj h2
      omega
    · omega

/-- The trace part of the invariant after a cycle in which the refresh of rank `j` is
inserted. -/
theorem refreshTrace_fired (cfg : Config) (c j : Nat) (calls calls1 : List (Nat × ExtCall))
    (hj : j < cfg.NUM_RANKS)
    (hcalls : calls1 = calls ++ [(c, ExtCall.needRefresh j), (c, ExtCall.setRefreshWaiting j)])
    (hdue : ∃ k1, c = refreshCycle cfg j k1)
    (huniq : ∀ i k1, i < cfg.NUM_RANKS → c = refreshCycle cfg i k1 → i = j)
    (t1 : ∀ c1 i, (c1, ExtCall.needRefresh i) ∈ calls ↔
      (i < cfg.NUM_RANKS ∧ c1 < c ∧ ∃ k1, c1 = refreshCycle cfg i k1))
    (t2 : ∀ c1 i, (c1, ExtCall.needRefresh i) ∈ calls → (c1, ExtCall.setRefreshWaiting i) ∈ calls)
    (t3 : cfg.USE_LOW_POWER = false → ∀ c1 i, (c1, ExtCall.setRefreshWaiting i) ∈ calls →
      (c1, ExtCall.needRefresh i) ∈ calls) :
    (∀ c1 i, (c1, ExtCall.needRefresh i) ∈ calls1 ↔
      (i < cfg.NUM_RANKS ∧ c1 < c + 1 ∧ ∃ k1, c1 = refreshCycle cfg i k1)) ∧
    (∀ c1 i, (c1, ExtCall.needRefresh i) ∈ calls1 →
      (c1, ExtCall.setRefreshWaiting i) ∈ calls1) ∧
    (cfg.USE_LOW_POWER = false → ∀ c1 i, (c1, ExtCall.setRefreshWaiting i) ∈ calls1 →
      (c1, ExtCall.needRefresh i) ∈ calls1) := by
  subst hcalls
  refine ⟨?_, ?_, ?_⟩
  · intro c1 i
    simp only [List.mem_append, List.mem_cons, Prod.mk.injEq, ExtCall.needRefresh.injEq,
      List.mem_singleton, reduceCtorEq, and_false, or_false, List.not_mem_nil]
    constructor
    · rintro (h | ⟨rfl, rfl⟩)
      · obtain ⟨a, b, d⟩ := (t1 c1 i).mp h
        exact ⟨a, by omega, d⟩
      · exact ⟨hj, by omega, hdue⟩
    · rintro ⟨a, b, k1, d⟩
      rcases Nat.lt_or_ge c1 c with hlt | hge
      · exact Or.inl ((t1 c1 i).mpr ⟨a, hlt, k1, d⟩)
      · have hc1 : c1 = c := by omega
        subst hc1
        exact Or.inr ⟨rfl, huniq i k1 a d⟩
  · intro c1 i
    simp only [List.mem_append, List.mem_cons, Prod.mk.injEq, ExtCall.needRefresh.injEq,
      ExtCall.setRefreshWaiting.injEq, List.mem_singleton, reduceCtorEq, and_false, or_false,
      false_or, List.not_mem_nil]
    rintro (h | ⟨rfl, rfl⟩)
    · exact Or.inl (t2 c1 i h)
    · exact Or.inr ⟨rfl, rfl⟩
  · intro hlp c1 i
    simp only [List.mem_append, List.mem_cons, Prod.mk.injEq, ExtCall.needRefresh.injEq,
      ExtCall.setRefreshWaiting.injEq, List.mem_singleton, reduceCtorEq, and_false, or_false,
      false_or, List.not_mem_nil]
    rintro (h | ⟨rfl, rfl⟩)
    · exact Or.inl (t3 hlp c1 i h)
    · exact Or.inr ⟨rfl, rfl⟩

/-- The trace part of the invariant after a cycle without a refresh insertion. -/
theorem refreshTrace_idle (cfg : Config) (c j : Nat) (calls calls1 : List (Nat × ExtCall))
    (hcalls : calls1 = calls ∨
      (cfg.USE_LOW_POWER = true ∧ calls1 = calls ++ [(c, ExtCall.setRefreshWaiting j)]))
    (hnot : ∀ i k1, i < cfg.NUM_RANKS → c ≠ refreshCycle cfg i k1)
    (t1 : ∀ c1 i, (c1, ExtCall.needRefresh i) ∈ calls ↔
      (i < cfg.NUM_RANKS ∧ c1 < c ∧ ∃ k1, c1 = refreshCycle cfg i k1))
    (t2 : ∀ c1 i, (c1, ExtCall.needRefresh i) ∈ calls → (c1, ExtCall.setRefreshWaiting i) ∈ calls)
    (t3 : cfg.USE_LOW_POWER = false → ∀ c1 i, (c1, ExtCall.setRefreshWaiting i) ∈ calls →
      (c1, ExtCall.needRefresh i) ∈ calls) :
    (∀ c1 i, (c1, ExtCall.needRefresh i) ∈ calls1 ↔
      (i < cfg.NUM_RANKS ∧ c1 < c + 1 ∧ ∃ k1, c1 = refreshCycle cfg i k1)) ∧
    (∀ c1 i, (c1, ExtCall.needRefresh i) ∈ calls1 →
      (c1, ExtCall.setRefreshWaiting i) ∈ calls1) ∧
    (cfg.USE_LOW_POWER = false → ∀ c1 i, (c1, ExtCall.setRefreshWaiting i) ∈ calls1 →
      (c1, ExtCall.needRefresh i) ∈ calls1) := by
  have key : ∀ c1 i, (i < cfg.NUM_RANKS ∧ c1 < c + 1 ∧ ∃ k1, c1 = refreshCycle cfg i k1) ↔
      (i < cfg.NUM_RANKS ∧ c1 < c ∧ ∃ k1, c1 = refreshCycle cfg i k1) := by
    intro c1 i
    constructor
    · rintro ⟨a, b, k1, d⟩
      refine ⟨a, ?_, k1, d⟩
      rcases Nat.lt_or_ge c1 c with hlt | hge
      · exact hlt
      · have hc1 : c1 = c := by omega
        subst hc1
        exact absurd d (hnot i k1 a)
    · rintro ⟨a, b, d⟩
      exact ⟨a, by omega, d⟩
  rcases hcalls with rfl | ⟨hlp, rfl⟩
  · exact ⟨fun c1 i => (t1 c1 i).trans (key c1 i).symm, t2, t3⟩
  · refine ⟨?_, ?_, ?_⟩
    · intro c1 i
      rw [key]
      simp only [List.mem_append, List.mem_cons, Prod.mk.injEq, List.mem_singleton, reduceCtorEq,
        and_false, or_false, List.not_mem_nil]
      exact t1 c1 i
    · intro c1 i
      simp only [List.mem_append, List.mem_cons, Prod.mk.injEq, List.mem_singleton, reduceCtorEq,
        and_false, or_false, List.not_mem_nil]
      intro h
      exact Or.inl (t2 c1 i h)
    · intro hoff
      rw [hlp] at hoff
      cases hoff

/-- One cycle of the refresh clock keeps its invariant. -/
theorem RefreshInv_refresh (cfg : Config) (hQ : 1 ≤ cfg.REFRESH_PERIOD_CYCLES / cfg.NUM_RANKS)
    (mc : MemoryController) (c : Nat) (hI : RefreshInv cfg c mc)
    (hc : mc.currentClockCycle = c)
    (hpd : cfg.USE_LOW_POWER = false → mc.powerDown mc.refreshRank = false) :
    RefreshInv cfg (c + 1) (refreshDecrement cfg (refreshStep cfg mc)) := by
  obtain ⟨k, j, hj, r1, r2, r3, r5, r4, t1, t2, t3⟩ := hI
  have hcd : mc.refreshCountdown j = (refreshCycle cfg j k : Int) - c := by
    have := r3 j hj
    simpa using this
  have hcalls : refreshCalls (refreshDecrement cfg (refreshStep cfg mc))
      = refreshCalls (refreshStep cfg mc) := rfl
  by_cases hf : mc.refreshCountdown mc.refreshRank = 0
  · -- the refresh of rank `j` is inserted in this cycle
    obtain ⟨f1, f2, f3⟩ := refreshStep_fired cfg mc hf
    have hcj : c = refreshCycle cfg j k := by
      rw [r1, hcd] at hf
      omega
    rw [hc, r1] at f1
    obtain ⟨n1, n2, n3⟩ := refreshTrace_fired cfg c j _ _ hj f1 ⟨k, hcj⟩
      (fun i k1 hi h => (refreshCycle_unique cfg hQ c k j i k1 hj hi r2 r4 h).1) t1 t2 t3
    by_cases hw : j + 1 = cfg.NUM_RANKS
    · refine ⟨k + 1, 0, by omega, ?_, ?_, ?_, ?_, ?_, ?_, ?_, ?_⟩
      · show (refreshStep cfg mc).refreshRank = 0
        rw [f3, r1, if_pos hw]
      · have := refreshCycle_lt cfg hQ 0 j (k + 1) k hj (Or.inl (by omega))
        omega
      · intro i hi
        show mapRange1 cfg.NUM_RANKS (fun _ x => x - 1) (refreshStep cfg mc).refreshCountdown i = _
        rw [f2, r1]
        simp only [mapRange1, hi, if_true, set1, Nat.not_lt_zero, if_false]
        by_cases hij : i = j
        · subst hij
          simp only [if_true]
          rw [hcj]
          unfold refreshCycle
          push_cast
          ring
        · simp only [hij, if_false]
          rw [r3 i hi]
          have : i < j := by omega
          simp only [this, if_true]
          push_cast
          ring
      · intro i hi
        show mapRange1 cfg.NUM_RANKS (fun _ x => x - 1) (refreshStep cfg mc).refreshCountdown i = _
        rw [f2, r1]
        have h1 : ¬ i < cfg.NUM_RANKS := by omega
        have h2 : ¬ i = j := by omega
        simp only [mapRange1, h1, if_false, set1, h2]
        exact r5 i hi
      · intro i k1 hi h
        rcases h with h | ⟨_, h⟩
        · by_cases hkj : k1 = k ∧ i = j
          · rw [hkj.1, hkj.2, ← hcj]
            omega
          · have := r4 i k1 hi (by omega)
            omega
        · omega
      · rw [hcalls]
        exact n1
      · rw [hcalls]
        exact n2
      · rw [hcalls]
        exact n3
    · refine ⟨k, j + 1, by omega, ?_, ?_, ?_, ?_, ?_, ?_, ?_, ?_⟩
      · show (refreshStep cfg mc).refreshRank = j + 1
        rw [f3, r1, if_neg hw]
      · have := refreshCycle_lt cfg hQ (j + 1) j k k hj (Or.inr ⟨rfl, by omega⟩)
        omega
      · intro i hi
        show mapRange1 cfg.NUM_RANKS (fun _ x => x - 1) (refreshStep cfg mc).refreshCountdown i = _
        rw [f2, r1]
        simp only [mapRange1, hi, if_true, set1]
        by_cases hij : i = j
        · subst hij
          simp only [if_true, Nat.lt_succ_self]
          rw [hcj]
          unfold refreshCycle
          push_cast
          ring
        · simp only [hij, if_false]
          rw [r3 i hi]
          by_cases hlt : i < j
          · have h2 : i < j + 1 := by omega
            simp only [hlt, h2, if_true]
            push_cast
            ring
          · have h2 : ¬ i < j + 1 := by omega
            simp only [hlt, h2, if_false]
            push_cast
            ring
      · intro i hi
        show mapRange1 cfg.NUM_RANKS (fun _ x => x - 1) (refreshStep cfg mc).refreshCountdown i = _
        rw [f2, r1]
        have h1 : ¬ i < cfg.NUM_RANKS := by omega
        have h2 : ¬ i = j := by omega
        simp only [mapRange1, h1, if_false, set1, h2]
        exact r5 i hi
      · intro i k1 hi h
        by_cases hkj : k1 = k ∧ i = j
        · rw [hkj.1, hkj.2, ← hcj]
          omega
        · have := r4 i k1 hi (by omega)
          omega
      · rw [hcalls]
        exact n1
      · rw [hcalls]
        exact n2
      · rw [hcalls]
        exact n3
  · -- no refresh is inserted in this cycle
    obtain ⟨f1, f2, f3⟩ := refreshStep_idle cfg mc hf
    have hlt : c < refreshCycle cfg j k := by
      rw [r1, hcd] at hf
      omega
    have f3' : refreshCalls (refreshStep cfg mc) = refreshCalls mc ∨
        (cfg.USE_LOW_POWER = true ∧
          refreshCalls (refreshStep cfg mc) = refreshCalls mc ++ [(c, ExtCall.setRefreshWaiting j)]) := by
      rcases f3 with f3 | ⟨hp, f3⟩
      · exact Or.inl f3
      · right
        rw [hc, r1] at f3
        refine ⟨?_, f3⟩
        cases hlp : cfg.USE_LOW_POWER
        · rw [hpd hlp] at hp
          cases hp
        · rfl
    obtain ⟨n1, n2, n3⟩ := refreshTrace_idle cfg c j _ _ f3'
      (fun i k1 hi h => by
        have := (refreshCycle_unique cfg hQ c k j i k1 hj hi r2 r4 h)
        rw [this.1, this.2] at h
        omega) t1 t2 t3
    refine ⟨k, j, hj, ?_, by omega, ?_, ?_, ?_, ?_, ?_, ?_⟩
    · show (refreshStep cfg mc).refreshRank = j
      rw [f2, r1]
    · intro i hi
      show mapRange1 cfg.NUM_RANKS (fun _ x => x - 1) (refreshStep cfg mc).refreshCountdown i = _
      rw [f1]
      simp only [mapRange1, hi, if_true]
      rw [r3 i hi]
      push_cast
      ring
    · intro i hi
      show mapRange1 cfg.NUM_RANKS (fun _ x => x - 1) (refreshStep cfg mc).refreshCountdown i = _
      rw [f1]
      have h1 : ¬ i < cfg.NUM_RANKS := by omega
      simp only [mapRange1, h1, if_false]
      exact r5 i hi
    · intro i k1 hi h
      have := r4 i k1 hi h
      omega
    · rw [hcalls]
      exact n1
    · rw [hcalls]
      exact n2
    · rw [hcalls]
      exact n3

/-- With `USE_LOW_POWER` off, `update()` leaves `powerDown` as it is. -/
theorem update_powerDown_off (cfg : Config) (inp : CycleInput) (mc mc1 : MemoryController)
    (hoff : cfg.USE_LOW_POWER = false) (h : update cfg inp mc = Except.ok mc1) :
    mc1.powerDown = mc.powerDown := by
  obtain ⟨mc2, mc3, mc4, mc5, mc6, h2, h3, h4, h5, h6, rfl⟩ := update_ok cfg inp mc mc1 h
  have e1 := bankView_writeDataStep cfg _ _ h2
  rw [bankView_dataBusCountdown, bankView_cmdBusCountdown] at e1
  have e3 := (powerDown_popStep cfg inp _ _ h3).1
  have e4 := bankView_constructSchedule cfg _ _ _ h4
  have e5 := bankView_dispatchReq cfg inp _ _ _ h5
  have e6 := bankView_returnStep cfg _ _ h6
  rw [powerStep_off cfg inp mc5 hoff] at e6
  have e2 := bankView_refreshStep cfg mc2
  simp only [bankView, Prod.mk.injEq] at e1 e2 e4 e5 e6
  show mc6.powerDown = mc.powerDown
  rw [e6.2.2, e5.2.2, e4.2.2, e3, e2.2.2, e1.2.2]
  rfl

/-- The refresh invariant together with the fact that no rank is powered down while
`USE_LOW_POWER` is off. -/
theorem RefreshInv_step (cfg : Config) (hQ : 1 ≤ cfg.REFRESH_PERIOD_CYCLES / cfg.NUM_RANKS)
    (mc : MemoryController) (e : Event) (mc1 : MemoryController)
    (hI : RefreshInv cfg mc.currentClockCycle mc ∧
      (cfg.USE_LOW_POWER = false → ∀ i, mc.powerDown i = false))
    (h : applyEvent cfg mc e = Except.ok mc1) :
    RefreshInv cfg mc1.currentClockCycle mc1 ∧
      (cfg.USE_LOW_POWER = false → ∀ i, mc1.powerDown i = false) := by
  rcases applyEvent_ok cfg mc mc1 e h with ⟨inp, mc2, _, hu, rfl⟩ | ⟨tq, rt, rw, rfl⟩
  · obtain ⟨mc3, v1, v2, v3⟩ := update_refresh cfg inp mc mc2 hu
    simp only [refreshView, Prod.mk.injEq] at v1 v3
    have h3 : RefreshInv cfg mc3.currentClockCycle mc3 := by
      rw [v1.1]
      exact RefreshInv_congr cfg _ mc mc3 v1.2.1.symm v1.2.2.1.symm v1.2.2.2.symm hI.1
    have hpd : cfg.USE_LOW_POWER = false → mc3.powerDown mc3.refreshRank = false := by
      intro hoff
      rw [v2]
      exact hI.2 hoff _
    have h4 := RefreshInv_refresh cfg hQ mc3 _ h3 rfl hpd
    have hclk : mc2.currentClockCycle = mc3.currentClockCycle := by
      rw [v3.1]
      have e := bankView_refreshStep cfg mc3
      simp only [bankView, Prod.mk.injEq] at e
      exact e.1
    constructor
    · show RefreshInv cfg (mc2.currentClockCycle + 1) _
      rw [hclk]
      exact RefreshInv_congr cfg _ _ _ v3.2.1.symm v3.2.2.1.symm v3.2.2.2.symm h4
    · intro hoff i
      show mc2.powerDown i = false
      rw [update_powerDown_off cfg inp mc mc2 hoff hu]
      exact hI.2 hoff i
  · exact hI

theorem RefreshInv_reachable (cfg : Config) (boot : Boot)
    (hQ : 1 ≤ cfg.REFRESH_PERIOD_CYCLES / cfg.NUM_RANKS) (mc : MemoryController)
    (h : Reachable cfg boot mc) : RefreshInv cfg mc.currentClockCycle mc :=
  (reachable_induction cfg boot
    (fun m => RefreshInv cfg m.currentClockCycle m ∧
      (cfg.USE_LOW_POWER = false → ∀ i, m.powerDown i = false))
    ⟨RefreshInv_init cfg boot hQ, fun _ _ => rfl⟩
    (fun mc e mc1 hI he => RefreshInv_step cfg hQ mc e mc1 hI he) mc h).1

/-- No countdown of the refresh clock is negative. -/
theorem RefreshInv_nonneg (cfg : Config) (hQ : 1 ≤ cfg.REFRESH_PERIOD_CYCLES / cfg.NUM_RANKS)
    (mc : MemoryController) (c : Nat) (hI : RefreshInv cfg c mc) (i : Nat) :
    0 ≤ mc.refreshCountdown i := by
  obtain ⟨k, j, hj, r1, r2, r3, r5, r4, t1, t2, t3⟩ := hI
  rcases Nat.lt_or_ge i cfg.NUM_RANKS with hi | hi
  · rw [r3 i hi]
    by_cases hij : i < j
    · have := refreshCycle_lt cfg hQ i j (k + 1) k hj (Or.inl (by omega))
      simp only [hij, if_true]
      omega
    · simp only [hij, if_false]
      rcases Nat.eq_or_lt_of_le (Nat.le_of_not_lt hij) with heq | hlt
      · subst heq
        omega
      · have := refreshCycle_lt cfg hQ i j k k hj (Or.inr ⟨rfl, hlt⟩)
        omega
  · rw [r5 i hi]

/-! ## Two runs of an epoch -/

theorem noBankViolation_congr (a b : MemoryController) (h1 : a.sch = b.sch)
    (h2 : a.prevSch = b.prevSch) (h3 : a.rankIndx = b.rankIndx) (h4 : a.bankIndx = b.bankIndx)
    (bank : Nat) : noBankViolation a bank = noBankViolation b bank := by
  unfold noBankViolation
  rw [h1, h2, h3, h4]

/-- The per-rank queues after the drain are the queues before followed by the owner's
demand of each rank. -/
theorem drainLoop_queues (cfg : Config) (turn : Nat) :
    ∀ (tq : List Transaction) (rq : Nat → List Transaction),
      (drainLoop cfg turn tq rq).2 = fun r => rq r ++
        (ownerDemand turn tq).filter (fun t => decide ((cfg.addressMapping t.address).rank = r))
  | [], rq => by
    funext r
    simp [drainLoop, ownerDemand]
  | t :: ts, rq => by
    simp only [drainLoop]
    split
    · rename_i h
      rw [drainLoop_queues cfg turn ts]
      funext r
      have ht : (decide (t.core = turn) && !t.isPrefetch) = true := by simp [h.1, h.2]
      simp only [ownerDemand, List.filter_cons, ht, if_true, set1]
      by_cases hr : r = (cfg.addressMapping t.address).rank
      · subst hr
        simp
      · have hr' : ¬ ((cfg.addressMapping t.address).rank = r) := fun e => hr e.symm
        simp [hr, hr']
    · rename_i h
      rw [drainLoop_queues cfg turn ts]
      have ht : (decide (t.core = turn) && !t.isPrefetch) = false := by
        rcases Decidable.not_and_iff_or_not.mp h with h1 | h1
        · simp [h1]
        · cases hp : t.isPrefetch
          · exact absurd hp h1
          · simp
      simp only [ownerDemand, List.filter_cons, ht]
      rfl

/-- What an accepting demand loop does, field by field. -/
theorem dispatchDemand_fields (cfg : Config) (inp : CycleInput) (mc mc1 : MemoryController)
    (e : Bool) (h : dispatchDemand cfg inp mc = Except.ok (e, mc1)) :
    (scanFirst (fun (t : Transaction) =>
        noBankViolation mc (cfg.addressMapping t.address).bank &&
          inp.hasRoomFor 2 (cfg.addressMapping t.address).rank (cfg.addressMapping t.address).bank)
        (mc.rankQ mc.turn (mc.sch mc.rankIndx 0)) 0 = none ∧ e = true ∧ mc1 = mc) ∨
    (∃ i t, scanFirst (fun (t : Transaction) =>
        noBankViolation mc (cfg.addressMapping t.address).bank &&
          inp.hasRoomFor 2 (cfg.addressMapping t.address).rank (cfg.addressMapping t.address).bank)
        (mc.rankQ mc.turn (mc.sch mc.rankIndx 0)) 0 = some (i, t) ∧ e = false ∧
      mc1.sch = set2 mc.sch mc.rankIndx mc.bankIndx (cfg.addressMapping t.address).bank ∧
      mc1.rankQ = set2 mc.rankQ mc.turn
        (set2 mc.sch mc.rankIndx mc.bankIndx (cfg.addressMapping t.address).bank mc.rankIndx 0)
        ((mc.rankQ mc.turn
          (set2 mc.sch mc.rankIndx mc.bankIndx (cfg.addressMapping t.address).bank
            mc.rankIndx 0)).eraseIdx i)) := by
  unfold dispatchDemand at h
  dsimp only at h
  split at h
  · rename_i hs
    simp only [Except.ok.injEq, Prod.mk.injEq] at h
    exact Or.inl ⟨hs, h.1.symm, h.2.symm⟩
  · rename_i i t hs
    split at h
    · cases h
    · split at h
      · cases h
      · simp only [Except.ok.injEq, Prod.mk.injEq] at h
        obtain ⟨h1, h2⟩ := h
        subst h2
        refine Or.inr ⟨i, t, hs, h1.symm, ?_, ?_⟩ <;> (split <;> rfl)

/-- An event other than a cycle leaves the clock and the scheduler fields as they are. -/
theorem applyEvent_other (cfg : Config) (mc mc1 : MemoryController) (e : Event)
    (hne : ∀ inp, e ≠ Event.cycle inp) (h : applyEvent cfg mc e = Except.ok mc1) :
    mc1.currentClockCycle = mc.currentClockCycle ∧ mc1.epochStart = mc.epochStart ∧
    mc1.dispatchTick = mc.dispatchTick ∧ mc1.rankIndx = mc.rankIndx ∧
    mc1.bankIndx = mc.bankIndx ∧ mc1.turn = mc.turn ∧ mc1.sch = mc.sch ∧
    mc1.prevSch = mc.prevSch ∧ mc1.rankQ = mc.rankQ := by
  rcases applyEvent_ok cfg mc mc1 e h with ⟨inp, _, he, _⟩ | ⟨tq, rt, rw, rfl⟩
  · exact absurd he (hne inp)
  · exact ⟨rfl, rfl, rfl, rfl, rfl, rfl, rfl, rfl, rfl⟩

theorem cycle_or_other (e : Event) : (∃ inp, e = Event.cycle inp) ∨ (∀ inp, e ≠ Event.cycle inp) := by
  cases e with
  | cycle inp => exact Or.inl ⟨inp, rfl⟩
  | addTransaction t => right; intro inp h; cases h
  | receiveFromBus p => right; intro inp h; cases h
  | rankClearsRefreshWaiting r => right; intro inp h; cases h

theorem run_cons_ok (cfg : Config) (mc mc1 : MemoryController) (e : Event) (es : List Event)
    (h : run cfg mc (e :: es) = Except.ok mc1) :
    ∃ mc2, applyEvent cfg mc e = Except.ok mc2 ∧ run cfg mc2 es = Except.ok mc1 := by
  simp only [run] at h
  split at h
  · cases h
  · rename_i mc2 h2
    exact ⟨mc2, h2, h⟩

theorem applyEvent_cycle_ok (cfg : Config) (mc mc1 : MemoryController) (inp : CycleInput)
    (h : applyEvent cfg mc (Event.cycle inp) = Except.ok mc1) :
    ∃ mc2, update cfg inp mc = Except.ok mc2 ∧
      mc1 = { mc2 with currentClockCycle := mc2.currentClockCycle + 1 } := by
  simp only [applyEvent] at h
  split at h
  · cases h
  · rename_i mc2 h2
    cases h
    exact ⟨mc2, h2, rfl⟩
/-! ## Open rows: the bank-state machine under the issue rule -/

theorem stepBankState_zero (cfg : Config) (b : BankState) (h : b.stateChangeCountdown = 0) :
    stepBankState cfg b = b := by
  unfold stepBankState
  simp [h]

/-- What the countdown phase does to one bank. -/
theorem stepBankState_cases (cfg : Config) (b : BankState) :
    (b.stateChangeCountdown = 0 ∧ stepBankState cfg b = b) ∨
    (1 < b.stateChangeCountdown ∧
      stepBankState cfg b = { b with stateChangeCountdown := b.stateChangeCountdown - 1 }) ∨
    (b.stateChangeCountdown = 1 ∧
      (b.lastCommand = BusPacketType.READ_P ∨ b.lastCommand = BusPacketType.WRITE_P) ∧
      stepBankState cfg b = { b with currentBankState := CurrentBankState.Precharging,
                                     lastCommand := BusPacketType.PRECHARGE,
                                     stateChangeCountdown := cfg.tRP }) ∨
    (b.stateChangeCountdown = 1 ∧
      (b.lastCommand = BusPacketType.REFRESH ∨ b.lastCommand = BusPacketType.PRECHARGE) ∧
      stepBankState cfg b = { b with currentBankState := CurrentBankState.Idle,
                                     stateChangeCountdown := 0 }) ∨
    (b.stateChangeCountdown = 1 ∧ b.lastCommand ≠ BusPacketType.READ_P ∧
      b.lastCommand ≠ BusPacketType.WRITE_P ∧ b.lastCommand ≠ BusPacketType.REFRESH ∧
      b.lastCommand ≠ BusPacketType.PRECHARGE ∧
      stepBankState cfg b = { b with stateChangeCountdown := 0 }) := by
  rcases Nat.lt_trichotomy b.stateChangeCountdown 1 with h | h | h
  · left
    have h0 : b.stateChangeCountdown = 0 := by omega
    exact ⟨h0, stepBankState_zero cfg b h0⟩
  · right; right
    unfold stepBankState
    cases hl : b.lastCommand <;> simp [h, hl]
  · right; left
    refine ⟨h, ?_⟩
    unfold stepBankState
    have h1 : b.stateChangeCountdown > 0 := by omega
    have h2 : ¬ (b.stateChangeCountdown - 1 = 0) := by omega
    simp [h1, h2]

theorem BankInv_updateBankStates (cfg : Config) (pd : Nat → Bool) (bs : Nat → Nat → BankState)
    (h : BankInv cfg pd bs) :
    BankInv cfg pd (forBanks cfg (fun _ _ b => stepBankState cfg b) bs) := by
  obtain ⟨h1, h2⟩ := h
  constructor
  · intro i j hj hp
    have e := h1 i j hj hp
    have e0 := h2 i j (Or.inr e)
    simp only [forBanks, mapRange2]
    split
    · rw [stepBankState_zero cfg _ e0]
      exact e
    · exact e
  · intro i j
    simp only [forBanks, mapRange2]
    split
    · have e2 := h2 i j
      rcases stepBankState_cases cfg (bs i j) with ⟨_, e⟩ | ⟨c, e⟩ | ⟨_, _, e⟩ | ⟨_, _, e⟩ |
          ⟨_, _, _, _, _, e⟩
      · rw [e]
        exact e2
      · rw [e]
        intro hs
        have := e2 hs
        omega
      · rw [e]
        intro hs
        simp at hs
      · rw [e]
        intro _
        rfl
      · rw [e]
        intro _
        rfl
    · exact h2 i j

theorem RowOpen_updateBankStates (cfg : Config) (r b R : Nat) (bs : Nat → Nat → BankState)
    (h : RowOpen r b R bs)
    (hq : ¬ ((bs r b).stateChangeCountdown = 1 ∧
      ((bs r b).lastCommand = BusPacketType.READ_P ∨
       (bs r b).lastCommand = BusPacketType.WRITE_P))) :
    RowOpen r b R (forBanks cfg (fun _ _ b => stepBankState cfg b) bs) := by
  obtain ⟨k1, k2, k3, k4⟩ := h
  simp only [RowOpen, forBanks, mapRange2]
  split
  · rcases stepBankState_cases cfg (bs r b) with ⟨_, e⟩ | ⟨c, e⟩ | ⟨c, l, e⟩ | ⟨_, l, e⟩ |
        ⟨_, _, _, _, _, e⟩
    · rw [e]
      exact ⟨k1, k2, k3, k4⟩
    · rw [e]
      exact ⟨k1, k2, k3, k4⟩
    · exact absurd ⟨c, l⟩ hq
    · rcases l with l | l
      · exact absurd l k4
      · exact absurd l k3
    · rw [e]
      exact ⟨k1, k2, k3, k4⟩
  · exact ⟨k1, k2, k3, k4⟩

/-- The timing updater leaves state, open row, last command and countdown of every bank
other than the addressed one (for a REFRESH: of every bank outside the rank) as they are. -/
theorem timingUpdate_other (cfg : Config) (c : Nat) (p : BusPacket)
    (bs bs1 : Nat → Nat → BankState) (ht : timingUpdate cfg c p bs = Except.ok bs1)
    (i j : Nat)
    (hij : i ≠ p.rank ∨ (j ≠ p.bank ∧ p.busPacketType ≠ BusPacketType.REFRESH)) :
    (bs1 i j).currentBankState = (bs i j).currentBankState ∧
    (bs1 i j).openRowAddress = (bs i j).openRowAddress ∧
    (bs1 i j).lastCommand = (bs i j).lastCommand ∧
    (bs1 i j).stateChangeCountdown = (bs i j).stateChangeCountdown := by
  have hne : ¬ (i = p.rank ∧ j = p.bank) := by
    rintro ⟨h1, h2⟩
    rcases hij with h | h
    · exact h h1
    · exact h.1 h2
  unfold timingUpdate at ht
  dsimp only at ht
  cases hty : p.busPacketType <;> simp only [hty] at ht
  all_goals cases ht
  all_goals
    simp only [forBanks, forBanksOfRank, mapRange1, mapRange2, set2, readOthers, writeOthers,
      clampToActivate]
    repeat' split
    all_goals try simp only [mapRange1, set2]
    repeat' split
    all_goals simp_all

/-- What the timing updater does to state, open row and last command of the addressed
bank (for a REFRESH: of the banks of the rank). -/
theorem timingUpdate_target (cfg : Config) (c : Nat) (p : BusPacket)
    (bs bs1 : Nat → Nat → BankState) (ht : timingUpdate cfg c p bs = Except.ok bs1) :
    ((p.busPacketType = BusPacketType.READ ∨ p.busPacketType = BusPacketType.READ_P ∨
      p.busPacketType = BusPacketType.WRITE ∨ p.busPacketType = BusPacketType.WRITE_P) →
      (bs1 p.rank p.bank).currentBankState = (bs p.rank p.bank).currentBankState ∧
      (bs1 p.rank p.bank).openRowAddress = (bs p.rank p.bank).openRowAddress ∧
      (bs1 p.rank p.bank).lastCommand = p.busPacketType) ∧
    (p.busPacketType = BusPacketType.ACTIVATE →
      (bs1 p.rank p.bank).currentBankState = CurrentBankState.RowActive ∧
      (bs1 p.rank p.bank).openRowAddress = p.row ∧
      (bs1 p.rank p.bank).lastCommand = BusPacketType.ACTIVATE) ∧
    (p.busPacketType = BusPacketType.PRECHARGE →
      (bs1 p.rank p.bank).currentBankState = CurrentBankState.Precharging) ∧
    (p.busPacketType = BusPacketType.REFRESH → ∀ j,
      (j < cfg.NUM_BANKS → (bs1 p.rank j).currentBankState = CurrentBankState.Refreshing) ∧
      (cfg.NUM_BANKS ≤ j → bs1 p.rank j = bs p.rank j)) := by
  unfold timingUpdate at ht
  dsimp only at ht
  cases hty : p.busPacketType <;> simp only [hty] at ht
  all_goals cases ht
  all_goals
    simp only [forBanks, forBanksOfRank, mapRange1, mapRange2, set2, readOthers, writeOthers,
      readSame, writeSame, clampToActivate]
    refine ⟨?_, ?_, ?_, ?_⟩
  all_goals intro h
  all_goals try (simp at h; done)
  all_goals try intro j
  all_goals repeat' split
  all_goals try simp only [mapRange1, set2]
  all_goals repeat' split
  all_goals simp_all

theorem issuable_cases (cfg : Config) (bs : Nat → Nat → BankState) (p : BusPacket)
    (h : issuable cfg bs p = true) :
    p.rank < cfg.NUM_RANKS ∧ p.busPacketType ≠ BusPacketType.DATA ∧
    (p.busPacketType = BusPacketType.ACTIVATE →
      p.bank < cfg.NUM_BANKS ∧
      (bs p.rank p.bank).currentBankState = CurrentBankState.Idle) ∧
    (p.busPacketType = BusPacketType.REFRESH →
      ∀ j, j < cfg.NUM_BANKS → (bs p.rank j).currentBankState = CurrentBankState.Idle) ∧
    (p.busPacketType ≠ BusPacketType.ACTIVATE → p.busPacketType ≠ BusPacketType.REFRESH →
      p.bank < cfg.NUM_BANKS ∧
      (bs p.rank p.bank).currentBankState = CurrentBankState.RowActive) := by
  unfold issuable at h
  cases hty : p.busPacketType <;> simp only [hty] at h <;>
    simp only [Bool.and_eq_true, decide_eq_true_eq, List.all_eq_true, List.mem_range] at h <;>
    simp_all

/-- A popped command that obeys the issue rule never addresses a powered-down rank. -/
theorem issuable_powered (cfg : Config) (pd : Nat → Bool) (bs : Nat → Nat → BankState)
    (p : BusPacket) (hinv : BankInv cfg pd bs) (h : issuable cfg bs p = true)
    (hn : 0 < cfg.NUM_BANKS) : pd p.rank = false := by
  obtain ⟨_, hd, ha, hr, ho⟩ := issuable_cases cfg bs p h
  cases hpd : pd p.rank
  · rfl
  · exfalso
    by_cases e1 : p.busPacketType = BusPacketType.ACTIVATE
    · obtain ⟨hb, hs⟩ := ha e1
      have := hinv.1 p.rank p.bank hb hpd
      rw [hs] at this
      cases this
    · by_cases e2 : p.busPacketType = BusPacketType.REFRESH
      · have hs := hr e2 0 hn
        have := hinv.1 p.rank 0 hn hpd
        rw [hs] at this
        cases this
      · obtain ⟨hb, hs⟩ := ho e1 e2
        have := hinv.1 p.rank p.bank hb hpd
        rw [hs] at this
        cases this

theorem BankInv_timingUpdate (cfg : Config) (pd : Nat → Bool) (c : Nat) (p : BusPacket)
    (bs bs1 : Nat → Nat → BankState) (hinv : BankInv cfg pd bs)
    (hiss : issuable cfg bs p = true) (ht : timingUpdate cfg c p bs = Except.ok bs1) :
    BankInv cfg pd bs1 := by
  obtain ⟨_, hd, ha, hr, ho⟩ := issuable_cases cfg bs p hiss
  obtain ⟨t1, t2, t3, t4⟩ := timingUpdate_target cfg c p bs bs1 ht
  constructor
  · intro i j hj hp
    have hne : i ≠ p.rank := by
      intro e
      have := issuable_powered cfg pd bs p hinv hiss (by omega)
      rw [← e, hp] at this
      cases this
    rw [(timingUpdate_other cfg c p bs bs1 ht i j (Or.inl hne)).1]
    exact hinv.1 i j hj hp
  · intro i j hs
    by_cases hne : i ≠ p.rank ∨ (j ≠ p.bank ∧ p.busPacketType ≠ BusPacketType.REFRESH)
    · obtain ⟨o1, _, _, o4⟩ := timingUpdate_other cfg c p bs bs1 ht i j hne
      rw [o4]
      rw [o1] at hs
      exact hinv.2 i j hs
    · have hi : i = p.rank := by
        by_contra e
        exact hne (Or.inl e)
      subst hi
      by_cases e2 : p.busPacketType = BusPacketType.REFRESH
      · rcases Nat.lt_or_ge j cfg.NUM_BANKS with hj | hj
        · rw [((t4 e2) j).1 hj] at hs
          rcases hs with hs | hs <;> cases hs
        · rw [((t4 e2) j).2 hj] at hs ⊢
          exact hinv.2 _ j hs
      · have hj : j = p.bank := by
          by_contra e
          exact hne (Or.inr ⟨e, e2⟩)
        subst hj
        exfalso
        by_cases e1 : p.busPacketType = BusPacketType.ACTIVATE
        · rw [(t2 e1).1] at hs
          rcases hs with hs | hs <;> cases hs
        · by_cases e3 : p.busPacketType = BusPacketType.PRECHARGE
          · rw [t3 e3] at hs
            rcases hs with hs | hs <;> cases hs
          · have e4 : p.busPacketType = BusPacketType.READ ∨
                p.busPacketType = BusPacketType.READ_P ∨
                p.busPacketType = BusPacketType.WRITE ∨
                p.busPacketType = BusPacketType.WRITE_P := by
              cases hty : p.busPacketType <;> simp_all
            rw [(t1 e4).1, (ho e1 e2).2] at hs
            rcases hs with hs | hs <;> cases hs

theorem RowOpen_timingUpdate (cfg : Config) (r b R c : Nat) (p : BusPacket)
    (bs bs1 : Nat → Nat → BankState) (hopen : RowOpen r b R bs)
    (hiss : issuable cfg bs p = true) (ht : timingUpdate cfg c p bs = Except.ok bs1)
    (h1 : ¬ (p.busPacketType = BusPacketType.PRECHARGE ∧ p.rank = r ∧ p.bank = b))
    (h2 : ¬ (p.busPacketType = BusPacketType.REFRESH ∧ p.rank = r)) :
    RowOpen r b R bs1 := by
  obtain ⟨_, hd, ha, hr, ho⟩ := issuable_cases cfg bs p hiss
  obtain ⟨t1, t2, t3, t4⟩ := timingUpdate_target cfg c p bs bs1 ht
  obtain ⟨k1, k2, k3, k4⟩ := hopen
  by_cases hne : r ≠ p.rank ∨ (b ≠ p.bank ∧ p.busPacketType ≠ BusPacketType.REFRESH)
  · obtain ⟨o1, o2, o3, o4⟩ := timingUpdate_other cfg c p bs bs1 ht r b hne
    exact ⟨by rw [o1, k1], by rw [o2, k2], by rw [o3]; exact k3, by rw [o3]; exact k4⟩
  · have hi : r = p.rank := by
      by_contra e
      exact hne (Or.inl e)
    subst hi
    have e2 : p.busPacketType ≠ BusPacketType.REFRESH := fun e => h2 ⟨e, rfl⟩
    have hj : b = p.bank := by
      by_contra e
      exact hne (Or.inr ⟨e, e2⟩)
    subst hj
    have e3 : p.busPacketType ≠ BusPacketType.PRECHARGE := fun e => h1 ⟨e, rfl, rfl⟩
    have e1 : p.busPacketType ≠ BusPacketType.ACTIVATE := by
      intro e
      have := (ha e).2
      rw [k1] at this
      cases this
    have e4 : p.busPacketType = BusPacketType.READ ∨
        p.busPacketType = BusPacketType.READ_P ∨
        p.busPacketType = BusPacketType.WRITE ∨
        p.busPacketType = BusPacketType.WRITE_P := by
      cases hty : p.busPacketType <;> simp_all
    obtain ⟨u1, u2, u3⟩ := t1 e4
    exact ⟨by rw [u1, k1], by rw [u2, k2], by rw [u3]; exact e3, by rw [u3]; exact e2⟩

theorem RowOpen_activate (cfg : Config) (c : Nat) (p : BusPacket)
    (bs bs1 : Nat → Nat → BankState) (hty : p.busPacketType = BusPacketType.ACTIVATE)
    (ht : timingUpdate cfg c p bs = Except.ok bs1) :
    RowOpen p.rank p.bank p.row bs1 := by
  obtain ⟨_, t2, _, _⟩ := timingUpdate_target cfg c p bs bs1 ht
  obtain ⟨u1, u2, u3⟩ := t2 hty
  exact ⟨u1, u2, by rw [u3]; decide, by rw [u3]; decide⟩

theorem allIdle_loop (bs : Nat → BankState) : ∀ (n : Nat),
    forLoop (fun j acc => acc && decide ((bs j).currentBankState = CurrentBankState.Idle))
      n true = true → ∀ j, j < n → (bs j).currentBankState = CurrentBankState.Idle
  | 0, _, j, hj => absurd hj (Nat.not_lt_zero j)
  | n + 1, h, j, hj => by
    simp only [forLoop, Bool.and_eq_true, decide_eq_true_eq] at h
    rcases Nat.lt_or_ge j n with h1 | h1
    · exact allIdle_loop bs n h.1 j h1
    · have : j = n := by omega
      rw [this]
      exact h.2

theorem allIdle_true (cfg : Config) (mc : MemoryController) (i : Nat)
    (h : allIdle cfg mc i = true) (j : Nat) (hj : j < cfg.NUM_BANKS) :
    (mc.bankStates i j).currentBankState = CurrentBankState.Idle :=
  allIdle_loop (mc.bankStates i) cfg.NUM_BANKS h j hj

/-- What the power-state governor does for one rank. -/
theorem powerRank_cases (cfg : Config) (inp : CycleInput) (i : Nat) (mc : MemoryController) :
    (bankView (powerRank cfg inp i mc) = bankView mc) ∨
    (allIdle cfg mc i = true ∧
      (powerRank cfg inp i mc).currentClockCycle = mc.currentClockCycle ∧
      (powerRank cfg inp i mc).powerDown = set1 mc.powerDown i true ∧
      (powerRank cfg inp i mc).bankStates = forBanksOfRank cfg i
        (fun _ b => { b with currentBankState := CurrentBankState.PowerDown,
                             nextPowerUp := mc.currentClockCycle + cfg.tCKE }) mc.bankStates) ∨
    (mc.powerDown i = true ∧
      (powerRank cfg inp i mc).currentClockCycle = mc.currentClockCycle ∧
      (powerRank cfg inp i mc).powerDown = set1 mc.powerDown i false ∧
      (powerRank cfg inp i mc).bankStates = forBanksOfRank cfg i
        (fun _ b => { b with currentBankState := CurrentBankState.Idle,
                             nextActivate := mc.currentClockCycle + cfg.tXP }) mc.bankStates) := by
  unfold powerRank
  split
  · split
    · split
      · rename_i h
        right; left
        exact ⟨h, rfl, rfl, rfl⟩
      · left; rfl
    · split
      · rename_i h
        right; right
        exact ⟨h.2, rfl, rfl, rfl⟩
      · left; rfl
  · left; rfl

theorem forBanksOfRank_apply (cfg : Config) (r : Nat) (f : Nat → BankState → BankState)
    (bs : Nat → Nat → BankState) (a j : Nat) :
    forBanksOfRank cfg r f bs a j
      = if a = r then (if j < cfg.NUM_BANKS then f j (bs r j) else bs r j) else bs a j := by
  unfold forBanksOfRank
  split
  · rfl
  · rfl

theorem BankInv_powerRank (cfg : Config) (inp : CycleInput) (i : Nat) (mc : MemoryController)
    (h : BankInv cfg mc.powerDown mc.bankStates) :
    BankInv cfg (powerRank cfg inp i mc).powerDown (powerRank cfg inp i mc).bankStates := by
  rcases powerRank_cases cfg inp i mc with e | ⟨hidle, _, e1, e2⟩ | ⟨hpd, _, e1, e2⟩
  · simp only [bankView, Prod.mk.injEq] at e
    rw [e.2.1, e.2.2]
    exact h
  · rw [e1, e2]
    constructor
    · intro a j hj hp
      simp only [forBanksOfRank_apply, set1] at hp ⊢
      by_cases ha : a = i
      · simp [ha, hj]
      · simp only [ha, if_false] at hp ⊢
        exact h.1 a j hj hp
    · intro a j hs
      simp only [forBanksOfRank_apply] at hs ⊢
      by_cases ha : a = i
      · simp only [ha, if_true] at hs ⊢
        by_cases hj : j < cfg.NUM_BANKS
        · simp only [hj, if_true]
          exact h.2 i j (Or.inl (allIdle_true cfg mc i hidle j hj))
        · simp only [hj, if_false] at hs ⊢
          exact h.2 i j hs
      · simp only [ha, if_false] at hs ⊢
        exact h.2 a j hs
  · rw [e1, e2]
    constructor
    · intro a j hj hp
      simp only [forBanksOfRank_apply, set1] at hp ⊢
      by_cases ha : a = i
      · simp [ha] at hp
      · simp only [ha, if_false] at hp ⊢
        exact h.1 a j hj hp
    · intro a j hs
      simp only [forBanksOfRank_apply] at hs ⊢
      by_cases ha : a = i
      · simp only [ha, if_true] at hs ⊢
        by_cases hj : j < cfg.NUM_BANKS
        · simp only [hj, if_true]
          exact h.2 i j (Or.inr (h.1 i j hj hpd))
        · simp only [hj, if_false] at hs ⊢
          exact h.2 i j hs
      · simp only [ha, if_false] at hs ⊢
        exact h.2 a j hs

theorem RowOpen_powerRank (cfg : Config) (inp : CycleInput) (i r b R : Nat)
    (mc : MemoryController) (h : BankInv cfg mc.powerDown mc.bankStates)
    (hb : b < cfg.NUM_BANKS) (hopen : RowOpen r b R mc.bankStates) :
    RowOpen r b R (powerRank cfg inp i mc).bankStates := by
  rcases powerRank_cases cfg inp i mc with e | ⟨hidle, _, e1, e2⟩ | ⟨hpd, _, e1, e2⟩
  · simp only [bankView, Prod.mk.injEq] at e
    rw [e.2.1]
    exact hopen
  · rw [e2]
    have hne : r ≠ i := by
      intro e
      have := allIdle_true cfg mc i hidle b hb
      rw [← e, hopen.1] at this
      cases this
    simp only [RowOpen, forBanksOfRank_apply, hne, if_false]
    exact hopen
  · rw [e2]
    have hne : r ≠ i := by
      intro e
      have := h.1 i b hb hpd
      rw [← e, hopen.1] at this
      cases this
    simp only [RowOpen, forBanksOfRank_apply, hne, if_false]
    exact hopen

theorem BankInv_powerStep (cfg : Config) (inp : CycleInput) (mc : MemoryController)
    (h : BankInv cfg mc.powerDown mc.bankStates) :
    BankInv cfg (powerStep cfg inp mc).powerDown (powerStep cfg inp mc).bankStates := by
  unfold powerStep
  induction cfg.NUM_RANKS with
  | zero => exact h
  | succ n ih => exact BankInv_powerRank cfg inp n _ ih

theorem RowOpen_powerStep (cfg : Config) (inp : CycleInput) (r b R : Nat)
    (mc : MemoryController) (h : BankInv cfg mc.powerDown mc.bankStates)
    (hb : b < cfg.NUM_BANKS) (hopen : RowOpen r b R mc.bankStates) :
    RowOpen r b R (powerStep cfg inp mc).bankStates := by
  unfold powerStep
  have key : ∀ n, BankInv cfg (forLoop (powerRank cfg inp) n mc).powerDown
      (forLoop (powerRank cfg inp) n mc).bankStates ∧
      RowOpen r b R (forLoop (powerRank cfg inp) n mc).bankStates := by
    intro n
    induction n with
    | zero => exact ⟨h, hopen⟩
    | succ n ih =>
      exact ⟨BankInv_powerRank cfg inp n _ ih.1, RowOpen_powerRank cfg inp n r b R _ ih.1 hb ih.2⟩
  exact (key cfg.NUM_RANKS).2

theorem popStep_bank (cfg : Config) (inp : CycleInput) (mc mc1 : MemoryController)
    (h : popStep cfg inp mc = Except.ok mc1) :
    (inp.popped = none ∧ mc1.bankStates = mc.bankStates) ∨
    (∃ p, inp.popped = some p ∧
      timingUpdate cfg mc.currentClockCycle p mc.bankStates = Except.ok mc1.bankStates) := by
  unfold popStep at h
  split at h
  · rename_i hp
    cases h
    exact Or.inl ⟨hp, rfl⟩
  · rename_i p hp
    split at h
    · cases h
    · rename_i bs hbs
      split at h
      · cases h
      · cases h
        exact Or.inr ⟨p, hp, hbs⟩

/-- The bank fields through one `update()`: the countdown phase, the timing updater on the
popped command, and the power-state governor. -/
theorem update_bank (cfg : Config) (inp : CycleInput) (mc mc1 : MemoryController)
    (h : update cfg inp mc = Except.ok mc1) :
    ∃ m3 m5 : MemoryController,
      ((inp.popped = none ∧ m3.bankStates = (updateBankStates cfg mc).bankStates) ∨
       (∃ p, inp.popped = some p ∧
         timingUpdate cfg mc.currentClockCycle p (updateBankStates cfg mc).bankStates
           = Except.ok m3.bankStates)) ∧
      m3.powerDown = mc.powerDown ∧
      m5.bankStates = m3.bankStates ∧ m5.powerDown = m3.powerDown ∧
      mc1.bankStates = (powerStep cfg inp m5).bankStates ∧
      mc1.powerDown = (powerStep cfg inp m5).powerDown := by
  obtain ⟨mc2, mc3, mc4, mc5, mc6, h2, h3, h4, h5, h6, rfl⟩ := update_ok cfg inp mc mc1 h
  have v2 : bankView (refreshStep cfg mc2) = bankView (updateBankStates cfg mc) := by
    rw [bankView_refreshStep, bankView_writeDataStep cfg _ _ h2, bankView_dataBusCountdown,
      bankView_cmdBusCountdown]
  simp only [bankView, Prod.mk.injEq] at v2
  obtain ⟨v21, v22, v23⟩ := v2
  have v5 : bankView mc5 = bankView mc3 := by
    rw [bankView_dispatchReq cfg inp _ _ _ h5, bankView_constructSchedule cfg _ _ _ h4]
  simp only [bankView, Prod.mk.injEq] at v5
  have v6 := bankView_returnStep cfg _ _ h6
  simp only [bankView, Prod.mk.injEq] at v6
  have hp := powerDown_popStep cfg inp _ _ h3
  refine ⟨mc3, mc5, ?_, ?_, v5.2.1, v5.2.2, ?_, ?_⟩
  · rcases popStep_bank cfg inp _ _ h3 with ⟨e1, e2⟩ | ⟨p, e1, e2⟩
    · left
      exact ⟨e1, by rw [e2, v22]⟩
    · right
      refine ⟨p, e1, ?_⟩
      rw [v21, v22] at e2
      exact e2
  · rw [hp.1, v23]
    rfl
  · show mc6.bankStates = _
    exact v6.2.1
  · show mc6.powerDown = _
    exact v6.2.2

theorem BankInv_update (cfg : Config) (inp : CycleInput) (mc mc1 : MemoryController)
    (hinv : BankInv cfg mc.powerDown mc.bankStates)
    (hobey : obeysIssueRule cfg mc inp = true)
    (h : update cfg inp mc = Except.ok mc1) : BankInv cfg mc1.powerDown mc1.bankStates := by
  obtain ⟨m3, m5, hpop, hp3, hb5, hp5, e1, e2⟩ := update_bank cfg inp mc mc1 h
  have i1 : BankInv cfg mc.powerDown (updateBankStates cfg mc).bankStates :=
    BankInv_updateBankStates cfg _ _ hinv
  have i3 : BankInv cfg m3.powerDown m3.bankStates := by
    rw [hp3]
    rcases hpop with ⟨_, e⟩ | ⟨p, hp, e⟩
    · rw [e]
      exact i1
    · unfold obeysIssueRule at hobey
      rw [hp] at hobey
      exact BankInv_timingUpdate cfg _ _ p _ _ i1 hobey e
  have i5 : BankInv cfg m5.powerDown m5.bankStates := by
    rw [hb5, hp5]
    exact i3
  rw [e1, e2]
  exact BankInv_powerStep cfg inp m5 i5

theorem RowOpen_update (cfg : Config) (inp : CycleInput) (r b R : Nat)
    (mc mc1 : MemoryController) (hinv : BankInv cfg mc.powerDown mc.bankStates)
    (hobey : obeysIssueRule cfg mc inp = true) (hkeep : keepsOpen r b mc inp = true)
    (hb : b < cfg.NUM_BANKS) (hopen : RowOpen r b R mc.bankStates)
    (h : update cfg inp mc = Except.ok mc1) : RowOpen r b R mc1.bankStates := by
  obtain ⟨m3, m5, hpop, hp3, hb5, hp5, e1, e2⟩ := update_bank cfg inp mc mc1 h
  unfold keepsOpen at hkeep
  simp only [Bool.and_eq_true, Bool.not_eq_true', Bool.and_eq_false_imp,
    decide_eq_true_eq, Bool.or_eq_false_iff, decide_eq_false_iff_not] at hkeep
  obtain ⟨hk1, hk2⟩ := hkeep
  have i1 : BankInv cfg mc.powerDown (updateBankStates cfg mc).bankStates :=
    BankInv_updateBankStates cfg _ _ hinv
  have o1 : RowOpen r b R (updateBankStates cfg mc).bankStates := by
    refine RowOpen_updateBankStates cfg r b R _ hopen ?_
    rintro ⟨c1, c2⟩
    have := hk2 c1
    rcases c2 with c2 | c2
    · exact this.1 c2
    · exact this.2 c2
  have i3 : BankInv cfg m3.powerDown m3.bankStates ∧ RowOpen r b R m3.bankStates := by
    rw [hp3]
    rcases hpop with ⟨_, e⟩ | ⟨p, hp, e⟩
    · rw [e]
      exact ⟨i1, o1⟩
    · unfold obeysIssueRule at hobey
      rw [hp] at hobey
      rw [hp] at hk1
      simp only [Bool.not_eq_true', Bool.or_eq_false_iff, decide_eq_false_iff_not] at hk1
      exact ⟨BankInv_timingUpdate cfg _ _ p _ _ i1 hobey e,
        RowOpen_timingUpdate cfg r b R _ p _ _ o1 hobey e hk1.1 hk1.2⟩
  have i5 : BankInv cfg m5.powerDown m5.bankStates ∧ RowOpen r b R m5.bankStates := by
    rw [hb5, hp5]
    exact i3
  rw [e1]
  exact RowOpen_powerStep cfg inp r b R m5 i5.1 hb i5.2

theorem RowOpen_update_activate (cfg : Config) (inp : CycleInput) (p : BusPacket)
    (mc mc1 : MemoryController) (hinv : BankInv cfg mc.powerDown mc.bankStates)
    (hobey : obeysIssueRule cfg mc inp = true) (hpop : inp.popped = some p)
    (hty : p.busPacketType = BusPacketType.ACTIVATE)
    (h : update cfg inp mc = Except.ok mc1) :
    p.bank < cfg.NUM_BANKS ∧ RowOpen p.rank p.bank p.row mc1.bankStates := by
  obtain ⟨m3, m5, hpop3, hp3, hb5, hp5, e1, e2⟩ := update_bank cfg inp mc mc1 h
  have i1 : BankInv cfg mc.powerDown (updateBankStates cfg mc).bankStates :=
    BankInv_updateBankStates cfg _ _ hinv
  unfold obeysIssueRule at hobey
  rw [hpop] at hobey
  have hb := ((issuable_cases cfg _ p hobey).2.2.1 hty).1
  rcases hpop3 with ⟨e, _⟩ | ⟨q, hq, e⟩
  · rw [hpop] at e
    cases e
  · rw [hpop] at hq
    cases hq
    have i3 : BankInv cfg m3.powerDown m3.bankStates := by
      rw [hp3]
      exact BankInv_timingUpdate cfg _ _ p _ _ i1 hobey e
    have o3 : RowOpen p.rank p.bank p.row m3.bankStates := RowOpen_activate cfg _ p _ _ hty e
    have i5 : BankInv cfg m5.powerDown m5.bankStates ∧
        RowOpen p.rank p.bank p.row m5.bankStates := by
      rw [hb5, hp5]
      exact ⟨i3, o3⟩
    rw [e1]
    exact ⟨hb, RowOpen_powerStep cfg inp _ _ _ m5 i5.1 hb i5.2⟩

theorem applyEvent_other_bank (cfg : Config) (mc mc1 : MemoryController) (e : Event)
    (hne : ∀ inp, e ≠ Event.cycle inp) (h : applyEvent cfg mc e = Except.ok mc1) :
    mc1.bankStates = mc.bankStates ∧ mc1.powerDown = mc.powerDown := by
  rcases applyEvent_ok cfg mc mc1 e h with ⟨inp, _, he, _⟩ | ⟨tq, rt, rw, rfl⟩
  · exact absurd he (hne inp)
  · exact ⟨rfl, rfl⟩

/-- Induction along a run in whose cycles `P` holds. -/
theorem alongRun_induction (cfg : Config) (P : MemoryController → CycleInput → Bool)
    (Q : MemoryController → Prop)
    (hcyc : ∀ mc inp mc1, Q mc → P mc inp = true → update cfg inp mc = Except.ok mc1 →
      Q { mc1 with currentClockCycle := mc1.currentClockCycle + 1 })
    (hoth : ∀ mc e mc1, Q mc → (∀ inp, e ≠ Event.cycle inp) →
      applyEvent cfg mc e = Except.ok mc1 → Q mc1) :
    ∀ (es : List Event) (mc mc1 : MemoryController), Q mc → alongRun cfg P mc es = true →
      run cfg mc es = Except.ok mc1 → Q mc1
  | [], mc, mc1, hq, _, h => by
    simp only [run, Except.ok.injEq] at h
    rw [← h]
    exact hq
  | e :: es, mc, mc1, hq, hp, h => by
    obtain ⟨mc2, h2, hr⟩ := run_cons_ok cfg mc mc1 e es h
    simp only [alongRun, h2, Bool.and_eq_true] at hp
    refine alongRun_induction cfg P Q hcyc hoth es mc2 mc1 ?_ hp.2 hr
    rcases cycle_or_other e with ⟨inp, rfl⟩ | hne
    · obtain ⟨m3, hu, rfl⟩ := applyEvent_cycle_ok cfg mc mc2 inp h2
      exact hcyc mc inp m3 hq hp.1 hu
    · exact hoth mc e mc2 hq hne h2

theorem alongRun_and (cfg : Config) (P1 P2 : MemoryController → CycleInput → Bool) :
    ∀ (es : List Event) (mc : MemoryController), alongRun cfg P1 mc es = true →
      alongRun cfg P2 mc es = true →
      alongRun cfg (fun m i => P1 m i && P2 m i) mc es = true
  | [], _, _, _ => rfl
  | e :: es, mc, h1, h2 => by
    simp only [alongRun, Bool.and_eq_true] at h1 h2 ⊢
    refine ⟨?_, ?_⟩
    · cases e <;> simp_all
    · cases h : applyEvent cfg mc e with
      | error err => rfl
      | ok m1 =>
        rw [h] at h1 h2
        exact alongRun_and cfg P1 P2 es m1 h1.2 h2.2

theorem BankInv_init (cfg : Config) (boot : Boot)
    (hboot : (boot.bank0.currentBankState = CurrentBankState.Idle ∨
      boot.bank0.currentBankState = CurrentBankState.PowerDown) →
      boot.bank0.stateChangeCountdown = 0) :
    BankInv cfg (MemoryController.init cfg boot).powerDown
      (MemoryController.init cfg boot).bankStates := by
  constructor
  · intro i j _ hp
    simp [MemoryController.init] at hp
  · intro i j hs
    exact hboot hs

/-- The bank invariant holds along every run from the constructor in which the command
queue obeys its issue rule. -/
theorem BankInv_run (cfg : Config) (boot : Boot) (es : List Event) (mc : MemoryController)
    (hboot : (boot.bank0.currentBankState = CurrentBankState.Idle ∨
      boot.bank0.currentBankState = CurrentBankState.PowerDown) →
      boot.bank0.stateChangeCountdown = 0)
    (hrule : alongRun cfg (obeysIssueRule cfg) (MemoryController.init cfg boot) es = true)
    (hrun : run cfg (MemoryController.init cfg boot) es = Except.ok mc) :
    BankInv cfg mc.powerDown mc.bankStates := by
  refine alongRun_induction cfg (obeysIssueRule cfg)
    (fun m => BankInv cfg m.powerDown m.bankStates) ?_ ?_ es _ mc (BankInv_init cfg boot hboot)
    hrule hrun
  · intro m inp m1 hq hp hu
    exact BankInv_update cfg inp m m1 hq hp hu
  · intro m e m1 hq hne h
    obtain ⟨e1, e2⟩ := applyEvent_other_bank cfg m m1 e hne h
    show BankInv cfg m1.powerDown m1.bankStates
    rw [e1, e2]
    exact hq

/-- An open row stays open along a run in whose cycles the issue rule is obeyed and none of
the closing events happens. -/
theorem RowOpen_run (cfg : Config) (r b R : Nat) (es : List Event) (mc mc1 : MemoryController)
    (hb : b < cfg.NUM_BANKS) (hinv : BankInv cfg mc.powerDown mc.bankStates)
    (hopen : RowOpen r b R mc.bankStates)
    (hrule : alongRun cfg (obeysIssueRule cfg) mc es = true)
    (hkeep : alongRun cfg (keepsOpen r b) mc es = true)
    (hrun : run cfg mc es = Except.ok mc1) :
    BankInv cfg mc1.powerDown mc1.bankStates ∧ RowOpen r b R mc1.bankStates := by
  refine alongRun_induction cfg (fun m i => obeysIssueRule cfg m i && keepsOpen r b m i)
    (fun m => BankInv cfg m.powerDown m.bankStates ∧ RowOpen r b R m.bankStates) ?_ ?_ es mc mc1
    ⟨hinv, hopen⟩ (alongRun_and cfg _ _ es mc hrule hkeep) hrun
  · intro m inp m1 hq hp hu
    simp only [Bool.and_eq_true] at hp
    exact ⟨BankInv_update cfg inp m m1 hq.1 hp.1 hu,
      RowOpen_update cfg inp r b R m m1 hq.1 hp.1 hp.2 hb hq.2 hu⟩
  · intro m e m1 hq hne h
    obtain ⟨e1, e2⟩ := applyEvent_other_bank cfg m m1 e hne h
    show BankInv cfg m1.powerDown m1.bankStates ∧ RowOpen r b R m1.bankStates
    rw [e1, e2]
    exact hq

theorem timingUpdate_ACTIVATE_eq (cfg : Config) (c : Nat) (p : BusPacket)
    (bs : Nat → Nat → BankState) (hty : p.busPacketType = BusPacketType.ACTIVATE) :
    timingUpdate cfg c p bs = Except.ok
      (forBanksOfRank cfg p.rank
        (fun i b1 => if i ≠ p.bank then
                       { b1 with nextActivate := max (c + cfg.tRRD) b1.nextActivate }
                     else b1)
        (set2 bs p.rank p.bank
          { bs p.rank p.bank with
            currentBankState := CurrentBankState.RowActive,
            lastCommand := BusPacketType.ACTIVATE,
            openRowAddress := p.row,
            nextActivate := max (c + cfg.tRC) (bs p.rank p.bank).nextActivate,
            nextPrecharge := max (c + cfg.tRAS) (bs p.rank p.bank).nextPrecharge,
            nextRead := max (c + (cfg.tRCD - cfg.AL)) (bs p.rank p.bank).nextRead,
            nextWrite := max (c + (cfg.tRCD - cfg.AL)) (bs p.rank p.bank).nextWrite })) := by
  simp only [timingUpdate, hty]

/-- The ACTIVATE case of the timing updater: the addressed bank, the other banks of its
rank and the other ranks. -/
theorem timingUpdate_ACTIVATE_effects (cfg : Config) (c : Nat) (p : BusPacket)
    (bs : Nat → Nat → BankState) (hty : p.busPacketType = BusPacketType.ACTIVATE) :
    ∃ bs1, timingUpdate cfg c p bs = Except.ok bs1 ∧
      (bs1 p.rank p.bank).currentBankState = CurrentBankState.RowActive ∧
      (bs1 p.rank p.bank).openRowAddress = p.row ∧
      (bs1 p.rank p.bank).nextActivate = max (bs p.rank p.bank).nextActivate (c + cfg.tRC) ∧
      (bs1 p.rank p.bank).nextPrecharge = max (bs p.rank p.bank).nextPrecharge (c + cfg.tRAS) ∧
      (bs1 p.rank p.bank).nextRead
        = max (bs p.rank p.bank).nextRead (c + (cfg.tRCD - cfg.AL)) ∧
      (bs1 p.rank p.bank).nextWrite
        = max (bs p.rank p.bank).nextWrite (c + (cfg.tRCD - cfg.AL)) ∧
      (∀ j, j < cfg.NUM_BANKS → j ≠ p.bank →
        (bs1 p.rank j).nextActivate = max (bs p.rank j).nextActivate (c + cfg.tRRD)) ∧
      (∀ i j, i ≠ p.rank → bs1 i j = bs i j) := by
  refine ⟨_, timingUpdate_ACTIVATE_eq cfg c p bs hty, ?_, ?_, ?_, ?_, ?_, ?_, ?_, ?_⟩
  all_goals simp only [forBanksOfRank_apply, set2]
  · split <;> simp
  · split <;> simp
  · split <;> simp [max_comm]
  · split <;> simp [max_comm]
  · split <;> simp [max_comm]
  · split <;> simp [max_comm]
  · intro j hj hne
    simp [hj, hne, max_comm]
  · intro i j hne
    simp [hne]

/-! ## The timing updater and the countdown phase, continued -/

theorem timingUpdate_WRITE_eq (cfg : Config) (c : Nat) (p : BusPacket)
    (bs : Nat → Nat → BankState) (hty : p.busPacketType = BusPacketType.WRITE) :
    timingUpdate cfg c p bs = Except.ok
      (forBanks cfg (fun i _ b => writeOthers cfg c p.rank i b)
        (set2 bs p.rank p.bank (writeSame cfg c BusPacketType.WRITE (bs p.rank p.bank)))) := by
  simp only [timingUpdate, hty]

theorem timingUpdate_PRECHARGE_eq (cfg : Config) (c : Nat) (p : BusPacket)
    (bs : Nat → Nat → BankState) (hty : p.busPacketType = BusPacketType.PRECHARGE) :
    timingUpdate cfg c p bs = Except.ok
      (set2 bs p.rank p.bank
        { bs p.rank p.bank with
          currentBankState := CurrentBankState.Precharging,
          lastCommand := BusPacketType.PRECHARGE,
          stateChangeCountdown := cfg.tRP,
          nextActivate := max (c + cfg.tRP) (bs p.rank p.bank).nextActivate }) := by
  simp only [timingUpdate, hty]

theorem timingUpdate_REFRESH_eq (cfg : Config) (c : Nat) (p : BusPacket)
    (bs : Nat → Nat → BankState) (hty : p.busPacketType = BusPacketType.REFRESH) :
    timingUpdate cfg c p bs = Except.ok
      (forBanksOfRank cfg p.rank
        (fun _ b1 => { b1 with nextActivate := c + cfg.tRFC,
                               currentBankState := CurrentBankState.Refreshing,
                               lastCommand := BusPacketType.REFRESH,
                               stateChangeCountdown := cfg.tRFC }) bs) := by
  simp only [timingUpdate, hty]

theorem readOthers_mono (cfg : Config) (c r i : Nat) (b : BankState) :
    b.nextRead ≤ (readOthers cfg c r i b).nextRead ∧
    b.nextWrite ≤ (readOthers cfg c r i b).nextWrite := by
  unfold readOthers
  split
  · split <;> simp
  · simp

theorem writeOthers_mono (cfg : Config) (c r i : Nat) (b : BankState) :
    b.nextRead ≤ (writeOthers cfg c r i b).nextRead ∧
    b.nextWrite ≤ (writeOthers cfg c r i b).nextWrite := by
  unfold writeOthers
  split
  · split <;> simp
  · simp

theorem DeadlinesLe_refl (a : BankState) : DeadlinesLe a a :=
  ⟨Nat.le_refl _, Nat.le_refl _, Nat.le_refl _, Nat.le_refl _⟩

theorem DeadlinesLe_trans (a b c : BankState) (h1 : DeadlinesLe a b) (h2 : DeadlinesLe b c) :
    DeadlinesLe a c :=
  ⟨Nat.le_trans h1.1 h2.1, Nat.le_trans h1.2.1 h2.2.1, Nat.le_trans h1.2.2.1 h2.2.2.1,
    Nat.le_trans h1.2.2.2 h2.2.2.2⟩

theorem DeadlinesLe_readOthers (cfg : Config) (c r i : Nat) (b : BankState) :
    DeadlinesLe b (readOthers cfg c r i b) := by
  obtain ⟨k1, _, _, _, _, k6, _⟩ := readOthers_keeps cfg c r i b
  obtain ⟨m1, m2⟩ := readOthers_mono cfg c r i b
  exact ⟨m1, m2, by rw [k1], by rw [k6]⟩

theorem DeadlinesLe_writeOthers (cfg : Config) (c r i : Nat) (b : BankState) :
    DeadlinesLe b (writeOthers cfg c r i b) := by
  obtain ⟨k1, _, _, _, _, k6, _⟩ := writeOthers_keeps cfg c r i b
  obtain ⟨m1, m2⟩ := writeOthers_mono cfg c r i b
  exact ⟨m1, m2, by rw [k1], by rw [k6]⟩

theorem DeadlinesLe_readSame (cfg : Config) (c : Nat) (ty : BusPacketType) (b : BankState) :
    DeadlinesLe b (readSame cfg c ty b) := by
  unfold readSame DeadlinesLe
  split
  · simp
  · split <;> simp

theorem DeadlinesLe_writeSame (cfg : Config) (c : Nat) (ty : BusPacketType) (b : BankState) :
    DeadlinesLe b (writeSame cfg c ty b) := by
  unfold writeSame DeadlinesLe
  split
  · simp
  · split <;> simp

theorem DeadlinesLe_forBanks (cfg : Config) (f : Nat → Nat → BankState → BankState)
    (hf : ∀ i j b, DeadlinesLe b (f i j b)) (bs : Nat → Nat → BankState) (i j : Nat) :
    DeadlinesLe (bs i j) (forBanks cfg f bs i j) := by
  simp only [forBanks, mapRange2]
  split
  · exact hf i j _
  · exact DeadlinesLe_refl _

theorem DeadlinesLe_set2 (bs : Nat → Nat → BankState) (r b : Nat) (v : BankState)
    (hv : DeadlinesLe (bs r b) v) (i j : Nat) : DeadlinesLe (bs i j) (set2 bs r b v i j) := by
  simp only [set2]
  split
  · rename_i h
    rw [h.1, h.2]
    exact hv
  · exact DeadlinesLe_refl _

theorem DeadlinesLe_forBanksOfRank (cfg : Config) (r : Nat) (f : Nat → BankState → BankState)
    (hf : ∀ j b, DeadlinesLe b (f j b)) (bs : Nat → Nat → BankState) (i j : Nat) :
    DeadlinesLe (bs i j) (forBanksOfRank cfg r f bs i j) := by
  rw [forBanksOfRank_apply]
  split
  · rename_i h
    rw [h]
    split
    · exact hf j _
    · exact DeadlinesLe_refl _
  · exact DeadlinesLe_refl _

/-- The countdown phase never writes a deadline or the open row of a bank. -/
theorem stepBankState_keeps (cfg : Config) (b : BankState) :
    (stepBankState cfg b).nextRead = b.nextRead ∧
    (stepBankState cfg b).nextWrite = b.nextWrite ∧
    (stepBankState cfg b).nextActivate = b.nextActivate ∧
    (stepBankState cfg b).nextPrecharge = b.nextPrecharge ∧
    (stepBankState cfg b).nextPowerUp = b.nextPowerUp ∧
    (stepBankState cfg b).openRowAddress = b.openRowAddress := by
  rcases stepBankState_cases cfg b with ⟨_, e⟩ | ⟨_, e⟩ | ⟨_, _, e⟩ | ⟨_, _, e⟩ |
      ⟨_, _, _, _, _, e⟩ <;> rw [e] <;> exact ⟨rfl, rfl, rfl, rfl, rfl, rfl⟩

theorem updateBankStates_apply (cfg : Config) (mc : MemoryController) (i j : Nat)
    (hi : i < cfg.NUM_RANKS) (hj : j < cfg.NUM_BANKS) :
    (updateBankStates cfg mc).bankStates i j = stepBankState cfg (mc.bankStates i j) := by
  simp [updateBankStates, forBanks, mapRange2, hi, hj]

/-! ## The epoch boundary: completion of the rank placement, and the epoch clock -/

theorem pqTop_some : ∀ (q : List (Nat × Nat)), q ≠ [] → ∃ m, pqTop q = some m
  | [], h => absurd rfl h
  | x :: xs, _ => by
    simp only [pqTop]
    split
    · exact ⟨x, rfl⟩
    · split
      · exact ⟨x, rfl⟩
      · exact ⟨_, rfl⟩

theorem topThreeLoop_total : ∀ (n : Nat) (q : List (Nat × Nat)), n ≤ q.length →
    ∃ l, topThreeLoop n q = Except.ok l ∧ l.length = n
  | 0, _, _ => ⟨[], rfl, rfl⟩
  | n + 1, q, h => by
    have hq : q ≠ [] := by
      intro e
      rw [e] at h
      simp at h
    obtain ⟨m, hm⟩ := pqTop_some q hq
    have hmem := pqTop_mem q m hm
    have hlen : (q.erase m).length = q.length - 1 := List.length_erase_of_mem hmem
    obtain ⟨l, hl, hll⟩ := topThreeLoop_total n (q.erase m) (by omega)
    refine ⟨m.2 :: l, ?_, by simp [hll]⟩
    simp only [topThreeLoop, hm, hl]

theorem selectTopThree_total (cfg : Config) (pk : Nat → Nat) (h : 3 ≤ cfg.NUM_RANKS) :
    ∃ l, selectTopThree cfg pk = Except.ok l ∧ l.length = 3 := by
  unfold selectTopThree
  exact topThreeLoop_total 3 _ (by simpa using h)

theorem unsetRows_set2 (rb : Nat) (s : Nat → Nat → Nat) (i y : Nat) (hi : i < 3)
    (hs : s i 0 = rb) (hy : y ≠ rb) : unsetRows rb (set2 s i 0 y) + 1 = unsetRows rb s := by
  have h3 : i = 0 ∨ i = 1 ∨ i = 2 := by omega
  rcases h3 with rfl | rfl | rfl <;> simp [unsetRows, set2, hs, hy] <;> omega

theorem stickyScan_some (prev : Nat) : ∀ (l : List Nat) (y : Nat) (rest : List Nat),
    stickyScan prev l = some (y, rest) →
    y ∈ l ∧ rest.length + 1 = l.length ∧ ∀ x ∈ rest, x ∈ l
  | [], y, rest, h => by simp [stickyScan] at h
  | x :: xs, y, rest, h => by
    simp only [stickyScan] at h
    split at h
    · simp only [Option.some.injEq, Prod.mk.injEq] at h
      obtain ⟨rfl, rfl⟩ := h
      exact ⟨by simp, rfl, fun z hz => List.mem_cons_of_mem _ hz⟩
    · split at h
      · cases h
      · rename_i y1 r1 h1
        simp only [Option.some.injEq, Prod.mk.injEq] at h
        obtain ⟨rfl, rfl⟩ := h
        obtain ⟨a1, a2, a3⟩ := stickyScan_some prev xs y1 r1 h1
        refine ⟨List.mem_cons_of_mem _ a1, by simp [a2], ?_⟩
        intro z hz
        rcases List.mem_cons.mp hz with rfl | hz
        · simp
        · exact List.mem_cons_of_mem _ (a3 z hz)

/-- State of the rank placement after the stickiness pass has handled the rows below `n`:
the rows from `n` on are unset, and there are as many unset rows as ranks left. -/
theorem stickyRow_inv (rb : Nat) (prevSch : Nat → Nat → Nat) (n : Nat)
    (st : (Nat → Nat → Nat) × List Nat) (hn : n < 3)
    (h1 : ∀ k, n ≤ k → k < 3 → st.1 k 0 = rb)
    (h2 : unsetRows rb st.1 = st.2.length) (h3 : ∀ x ∈ st.2, x ≠ rb) :
    (∀ k, n + 1 ≤ k → k < 3 → (stickyRow prevSch n st).1 k 0 = rb) ∧
    unsetRows rb (stickyRow prevSch n st).1 = (stickyRow prevSch n st).2.length ∧
    (∀ x ∈ (stickyRow prevSch n st).2, x ≠ rb) := by
  unfold stickyRow
  split
  · exact ⟨fun k hk hk3 => h1 k (by omega) hk3, h2, h3⟩
  · rename_i y rest hs
    obtain ⟨a1, a2, a3⟩ := stickyScan_some _ _ _ _ hs
    refine ⟨?_, ?_, ?_⟩
    · intro k hk hk3
      have hne : ¬ (k = n) := by omega
      simp only [set2, hne, false_and, if_false]
      exact h1 k (by omega) hk3
    · have := unsetRows_set2 rb st.1 n y hn (h1 n (Nat.le_refl _) hn) (h3 y a1)
      show unsetRows rb (set2 st.1 n 0 y) = rest.length
      omega
    · intro x hx
      exact h3 x (a3 x hx)

theorem fillRow_total (rb j : Nat) (st : (Nat → Nat → Nat) × List Nat) (hj : j < 3)
    (h2 : unsetRows rb st.1 = st.2.length) (h3 : ∀ x ∈ st.2, x ≠ rb) :
    ∃ st1, fillRow rb j st = Except.ok st1 ∧ unsetRows rb st1.1 = st1.2.length ∧
      (∀ x ∈ st1.2, x ≠ rb) := by
  unfold fillRow
  split
  · rename_i hs
    cases hl : st.2 with
    | nil =>
      exfalso
      rw [hl] at h2
      have h4 : j = 0 ∨ j = 1 ∨ j = 2 := by omega
      rcases h4 with rfl | rfl | rfl <;> simp [unsetRows, hs] at h2
    | cons x rest =>
      refine ⟨(set2 st.1 j 0 x, rest), rfl, ?_, ?_⟩
      · have hx : x ≠ rb := h3 x (by rw [hl]; simp)
        have := unsetRows_set2 rb st.1 j x hj hs hx
        rw [hl] at h2
        simp only [List.length_cons] at h2
        show unsetRows rb (set2 st.1 j 0 x) = rest.length
        omega
      · intro z hz
        exact h3 z (by rw [hl]; exact List.mem_cons_of_mem _ hz)
  · exact ⟨st, rfl, h2, h3⟩

theorem fillInner_total (rb : Nat) (st : (Nat → Nat → Nat) × List Nat)
    (h2 : unsetRows rb st.1 = st.2.length) (h3 : ∀ x ∈ st.2, x ≠ rb) :
    ∃ st1, fillInner rb st = Except.ok st1 ∧ unsetRows rb st1.1 = st1.2.length ∧
      (∀ x ∈ st1.2, x ≠ rb) := by
  obtain ⟨s0, e0, a0, b0⟩ := fillRow_total rb 0 st (by omega) h2 h3
  obtain ⟨s1, e1, a1, b1⟩ := fillRow_total rb 1 s0 (by omega) a0 b0
  obtain ⟨s2, e2, a2, b2⟩ := fillRow_total rb 2 s1 (by omega) a1 b1
  exact ⟨s2, by simp only [fillInner, e0, e1, e2], a2, b2⟩

theorem fillOuter_total (rb : Nat) : ∀ (n i : Nat) (st : (Nat → Nat → Nat) × List Nat),
    unsetRows rb st.1 = st.2.length → (∀ x ∈ st.2, x ≠ rb) →
    ∃ st1, fillOuter rb n i st = Except.ok st1
  | 0, _, st, _, _ => ⟨st, rfl⟩
  | n + 1, i, st, h2, h3 => by
    simp only [fillOuter]
    split
    · obtain ⟨s1, e1, a1, b1⟩ := fillInner_total rb st h2 h3
      rw [e1]
      exact fillOuter_total rb n (i + 1) s1 a1 b1
    · exact ⟨st, rfl⟩

theorem placeRanks_total (cfg : Config) (prevSch : Nat → Nat → Nat)
    (st : (Nat → Nat → Nat) × List Nat) (h1 : ∀ k, k < 3 → st.1 k 0 = RB_MAX cfg)
    (h2 : st.2.length = 3) (h3 : ∀ x ∈ st.2, x ≠ RB_MAX cfg) :
    ∃ st1, placeRanks cfg prevSch st = Except.ok st1 := by
  unfold placeRanks
  dsimp only
  have u : unsetRows (RB_MAX cfg) st.1 = st.2.length := by
    simp [unsetRows, h1 0, h1 1, h1 2, h2]
  obtain ⟨a1, a2, a3⟩ := stickyRow_inv (RB_MAX cfg) prevSch 0 st (by omega)
    (fun k _ hk => h1 k hk) u h3
  obtain ⟨b1, b2, b3⟩ := stickyRow_inv (RB_MAX cfg) prevSch 1 _ (by omega) a1 a2 a3
  obtain ⟨c1, c2, c3⟩ := stickyRow_inv (RB_MAX cfg) prevSch 2 _ (by omega) b1 b2 b3
  exact fillOuter_total (RB_MAX cfg) _ 0 _ c2 c3

/-- `constructSchedule` completes at an epoch start when there are at least three ranks. -/
theorem constructSchedule_total (cfg : Config) (mc : MemoryController) (clk : Nat)
    (h : 3 ≤ cfg.NUM_RANKS) : ∃ mc1, constructSchedule cfg mc clk = Except.ok mc1 := by
  unfold constructSchedule
  split
  · exact ⟨mc, rfl⟩
  · dsimp only
    obtain ⟨l, hl, hlen⟩ := selectTopThree_total cfg
      (pktsInRank cfg (drain cfg (epochAdvance cfg mc clk))) h
    rw [hl]
    dsimp only
    obtain ⟨st1, hst⟩ := placeRanks_total cfg
      (drain cfg (epochAdvance cfg mc clk)).prevSch
      ((drain cfg (epochAdvance cfg mc clk)).sch, l)
      (by
        intro k hk
        simp [drain, epochAdvance, mapRange2, hk])
      hlen
      (fun x hx => lt_ranks_ne_RB_MAX cfg x (selectTopThree_lt cfg _ l hl x hx))
    rw [hst]
    exact ⟨_, rfl⟩

theorem EpochClock_step (cfg : Config) (hl : 1 ≤ cfg.CYCLE_LENGTH)
    (mc : MemoryController) (e : Event) (mc1 : MemoryController)
    (hI : EpochClock cfg mc) (h : applyEvent cfg mc e = Except.ok mc1) : EpochClock cfg mc1 := by
  rcases applyEvent_ok cfg mc mc1 e h with ⟨inp, mc2, _, hu, rfl⟩ | ⟨tq, rt, rw, rfl⟩
  · obtain ⟨m, h1, h3, h4⟩ := hI
    obtain ⟨u1, u2, u3⟩ := update_epoch cfg inp mc mc2 hu
    by_cases hc : mc.currentClockCycle = mc.epochStart
    · obtain ⟨e1, e2⟩ := u3 hc
      refine ⟨m + 1, ?_, ?_, ?_⟩
      · show mc2.epochStart = _
        rw [e1, hc, h1, Nat.mul_succ]
      · show mc2.currentClockCycle + 1 ≤ _
        rw [u1, hc, h1, Nat.mul_succ]
        omega
      · intro _
        show _ < mc2.currentClockCycle + 1
        rw [u1, hc, h1]
        simp
    · obtain ⟨e1, e2⟩ := u2 hc
      refine ⟨m, ?_, ?_, ?_⟩
      · show mc2.epochStart = _
        rw [e1, h1]
      · show mc2.currentClockCycle + 1 ≤ _
        rw [u1]
        rw [h1] at hc
        omega
      · intro hm
        show _ < mc2.currentClockCycle + 1
        rw [u1]
        have := h4 hm
        omega
  · exact hI

theorem EpochClock_reachable (cfg : Config) (boot : Boot) (hl : 1 ≤ cfg.CYCLE_LENGTH)
    (mc : MemoryController) (h : Reachable cfg boot mc) : EpochClock cfg mc :=
  reachable_induction cfg boot (EpochClock cfg)
    ⟨0, by simp [MemoryController.init], by simp [MemoryController.init], by omega⟩
    (fun mc e mc1 hI he => EpochClock_step cfg hl mc e mc1 hI he) mc h

/-- In a reachable state the clock is at the epoch start exactly when it is a multiple of
`CYCLE_LENGTH`. -/
theorem epochStart_iff_dvd (cfg : Config) (boot : Boot) (hl : 1 ≤ cfg.CYCLE_LENGTH)
    (mc : MemoryController) (h : Reachable cfg boot mc) :
    mc.currentClockCycle = mc.epochStart ↔ cfg.CYCLE_LENGTH ∣ mc.currentClockCycle := by
  obtain ⟨m, h1, h3, h4⟩ := EpochClock_reachable cfg boot hl mc h
  constructor
  · intro e
    rw [e, h1]
    exact Dvd.intro _ rfl
  · rintro ⟨k, hk⟩
    rw [h1, hk]
    rw [hk] at h3 h4
    have a1 : k ≤ m := Nat.le_of_mul_le_mul_left h3 (by omega)
    rcases Nat.eq_or_lt_of_le a1 with heq | hlt
    · rw [heq]
    · exfalso
      have := h4 (by omega)
      have b : cfg.CYCLE_LENGTH * k ≤ cfg.CYCLE_LENGTH * (m - 1) :=
        Nat.mul_le_mul_left _ (by omega)
      omega

/-! ## The return phase -/

theorem scanFirst_none {α : Type} (ok : α → Bool) :
    ∀ (l : List α) (s : Nat), (∀ y ∈ l, ok y = false) → scanFirst ok l s = none
  | [], _, _ => rfl
  | y :: ys, s, h => by
    have hy : ok y = false := h y (by simp)
    simp only [scanFirst, hy]
    exact scanFirst_none ok ys (s + 1) (fun z hz => h z (List.mem_cons_of_mem _ hz))

/-- The scan stops at the lowest index whose element is accepted. -/
theorem scanFirst_first {α : Type} (ok : α → Bool) :
    ∀ (l : List α) (s i : Nat) (x : α), l[i]? = some x → ok x = true →
      (∀ k u, k < i → l[k]? = some u → ok u = false) → scanFirst ok l s = some (s + i, x)
  | [], _, i, x, h, _, _ => by simp at h
  | y :: ys, s, 0, x, h, hx, _ => by
    simp only [List.getElem?_cons_zero, Option.some.injEq] at h
    subst h
    simp [scanFirst, hx]
  | y :: ys, s, i + 1, x, h, hx, hlow => by
    have hy : ok y = false := hlow 0 y (by omega) (by simp)
    simp only [List.getElem?_cons_succ] at h
    simp only [scanFirst, hy]
    have ih := scanFirst_first ok ys (s + 1) i x h hx
      (fun k u hk hu => hlow (k + 1) u (by omega) (by simpa using hu))
    rw [ih]
    have e : s + 1 + i = s + (i + 1) := by omega
    rw [e]
    simp

theorem latencyValue_exact (clk timeAdded : Nat) (h1 : timeAdded ≤ clk)
    (h2 : clk - timeAdded < 4294967296) : latencyValue clk timeAdded = clk - timeAdded := by
  unfold latencyValue
  have e : clk + (4294967296 - timeAdded % 4294967296)
      = (clk - timeAdded) + 4294967296 * (timeAdded / 4294967296 + 1) := by
    have := Nat.div_add_mod timeAdded 4294967296
    have := Nat.mod_lt timeAdded (show 0 < 4294967296 by omega)
    omega
  rw [e, Nat.add_mul_mod_self_left, Nat.mod_eq_of_lt h2]

theorem returnStep_found (cfg : Config) (mc : MemoryController) (h : Transaction)
    (rest : List Transaction) (i : Nat) (t : Transaction)
    (hrt : mc.returnTransaction = h :: rest)
    (hs : scanFirst (fun (t : Transaction) => decide (t.address = h.address))
      mc.pendingReadTransactions 0 = some (i, t))
    (hH : cfg.HISTOGRAM_BIN_SIZE ≠ 0) :
    ∃ m, insertHistogram cfg mc (latencyValue mc.currentClockCycle t.timeAdded)
          (cfg.addressMapping h.address).rank (cfg.addressMapping h.address).bank t.core
          t.isPrefetch = Except.ok m ∧
      returnStep cfg mc = Except.ok
        { m.emit [ExtCall.returnReadData t.address] with
          pendingReadTransactions := mc.pendingReadTransactions.eraseIdx i
          returnTransaction := rest } := by
  have hm : ∃ m, insertHistogram cfg mc (latencyValue mc.currentClockCycle t.timeAdded)
      (cfg.addressMapping h.address).rank (cfg.addressMapping h.address).bank t.core
      t.isPrefetch = Except.ok m := by
    unfold insertHistogram
    dsimp only
    rw [if_neg hH]
    exact ⟨_, rfl⟩
  obtain ⟨m, hm⟩ := hm
  refine ⟨m, hm, ?_⟩
  simp only [returnStep, hrt, hs, hm]

/-- With a bin size of zero the return phase stops in `insertHistogram` as soon as a
pending read matches. -/
theorem returnStep_zero (cfg : Config) (mc : MemoryController) (h : Transaction)
    (rest : List Transaction) (i : Nat) (t : Transaction)
    (hrt : mc.returnTransaction = h :: rest)
    (hs : scanFirst (fun (t : Transaction) => decide (t.address = h.address))
      mc.pendingReadTransactions 0 = some (i, t))
    (hH : cfg.HISTOGRAM_BIN_SIZE = 0) :
    returnStep cfg mc = Except.error Err.divisionByZero := by
  have hm : insertHistogram cfg mc (latencyValue mc.currentClockCycle t.timeAdded)
      (cfg.addressMapping h.address).rank (cfg.addressMapping h.address).bank t.core
      t.isPrefetch = Except.error Err.divisionByZero := by
    unfold insertHistogram
    dsimp only
    rw [if_pos hH]
  simp only [returnStep, hrt, hs, hm]

/-! ## The bus slots: frames, the pop phase and the ways an update stops -/

theorem wireView_updateBankStates (cfg : Config) (mc : MemoryController) :
    wireView (updateBankStates cfg mc) = wireView mc := rfl

theorem wireView_refreshStep (cfg : Config) (mc : MemoryController) :
    wireView (refreshStep cfg mc) = wireView mc := by
  unfold refreshStep
  dsimp only
  split
  · rfl
  · split <;> rfl

theorem wireView_constructSchedule (cfg : Config) (mc mc1 : MemoryController) (clk : Nat)
    (h : constructSchedule cfg mc clk = Except.ok mc1) : wireView mc1 = wireView mc := by
  unfold constructSchedule at h
  split at h
  · cases h
    rfl
  · dsimp only at h
    split at h
    · cases h
    · split at h
      · cases h
      · cases h
        rfl

theorem wireView_dispatchDemand (cfg : Config) (inp : CycleInput) (mc mc1 : MemoryController)
    (e : Bool) (h : dispatchDemand cfg inp mc = Except.ok (e, mc1)) :
    wireView mc1 = wireView mc := by
  unfold dispatchDemand at h
  dsimp only at h
  split at h
  · cases h
    rfl
  · split at h
    · cases h
    · split at h
      · cases h
      · simp only [Except.ok.injEq, Prod.mk.injEq] at h
        obtain ⟨_, h⟩ := h
        subst h
        split <;> rfl

theorem wireView_dispatchPrefetch (cfg : Config) (inp : CycleInput)
    (mc mc1 : MemoryController) (h : dispatchPrefetch cfg inp mc = Except.ok mc1) :
    wireView mc1 = wireView mc := by
  unfold dispatchPrefetch at h
  dsimp only at h
  split at h
  · cases h
    rfl
  · split at h
    · cases h
    · simp only [Except.ok.injEq] at h
      subst h
      split <;> rfl

theorem wireView_dispatchReq (cfg : Config) (inp : CycleInput) (mc mc1 : MemoryController)
    (clk : Nat) (h : dispatchReq cfg inp mc clk = Except.ok mc1) :
    wireView mc1 = wireView mc := by
  unfold dispatchReq at h
  split at h
  · cases h
    rfl
  · split at h
    · cases h
    · rename_i e mcd hd
      have h1 := wireView_dispatchDemand cfg inp mc mcd e hd
      split at h
      · split at h
        · cases h
        · rename_i mcp hp
          have h2 := wireView_dispatchPrefetch cfg inp mcd mcp hp
          cases h
          rw [← h1, ← h2]
          rfl
      · cases h
        rw [← h1]
        rfl

theorem wireView_powerRank (cfg : Config) (inp : CycleInput) (i : Nat) (mc : MemoryController) :
    wireView (powerRank cfg inp i mc) = wireView mc := by
  unfold powerRank
  dsimp only
  split
  · split
    · split <;> rfl
    · split <;> rfl
  · rfl

theorem wireView_powerStep (cfg : Config) (inp : CycleInput) (mc : MemoryController) :
    wireView (powerStep cfg inp mc) = wireView mc := by
  unfold powerStep
  induction cfg.NUM_RANKS with
  | zero => rfl
  | succ n ih => simp only [forLoop, wireView_powerRank, ih]

theorem wireView_returnStep (cfg : Config) (mc mc1 : MemoryController)
    (h : returnStep cfg mc = Except.ok mc1) : wireView mc1 = wireView mc := by
  rcases returnStep_ok cfg mc mc1 h with ⟨_, rfl⟩ | ⟨hd, rest, i, t, m, _, _, hm, rfl⟩
  · rfl
  · obtain ⟨_, e, _⟩ := insertHistogram_ok cfg mc m _ _ _ _ _ hm
    rw [e]
    rfl

theorem wireView_refreshDecrement (cfg : Config) (mc : MemoryController) :
    wireView (refreshDecrement cfg mc) = wireView mc := rfl

/-- The command bus countdown, by cases. -/
theorem cmdBusCountdown_cases (mc : MemoryController) :
    (mc.outgoingCmdPacket = none ∧ cmdBusCountdown mc = mc) ∨
    (∃ p, mc.outgoingCmdPacket = some p ∧ dec32 mc.cmdCyclesLeft ≠ 0 ∧
      cmdBusCountdown mc = { mc with cmdCyclesLeft := dec32 mc.cmdCyclesLeft }) ∨
    (∃ p, mc.outgoingCmdPacket = some p ∧ dec32 mc.cmdCyclesLeft = 0 ∧
      cmdBusCountdown mc =
        { mc with cmdCyclesLeft := 0, outgoingCmdPacket := none,
                  trace := mc.trace ++
                    [(mc.currentClockCycle, ExtCall.rankReceiveFromBus p.rank p)] }) := by
  unfold cmdBusCountdown
  split
  · rename_i h
    exact Or.inl ⟨h, rfl⟩
  · rename_i p h
    dsimp only
    split
    · rename_i h0
      right; right
      refine ⟨p, h, h0, ?_⟩
      simp [MemoryController.emit, h0]
    · rename_i h0
      right; left
      exact ⟨p, h, h0, rfl⟩

/-- The phases before the pop leave the command bus as the countdown left it. -/
theorem cmd_before_pop (cfg : Config) (mc mc2 : MemoryController)
    (h2 : writeDataStep cfg (dataBusCountdown (cmdBusCountdown (updateBankStates cfg mc)))
      = Except.ok mc2) :
    (refreshStep cfg mc2).outgoingCmdPacket
      = (cmdBusCountdown (updateBankStates cfg mc)).outgoingCmdPacket ∧
    (refreshStep cfg mc2).cmdCyclesLeft
      = (cmdBusCountdown (updateBankStates cfg mc)).cmdCyclesLeft := by
  have a := wireView_refreshStep cfg mc2
  simp only [wireView, Prod.mk.injEq] at a
  have b : mc2.outgoingCmdPacket
      = (dataBusCountdown (cmdBusCountdown (updateBankStates cfg mc))).outgoingCmdPacket ∧
      mc2.cmdCyclesLeft
      = (dataBusCountdown (cmdBusCountdown (updateBankStates cfg mc))).cmdCyclesLeft := by
    unfold writeDataStep at h2
    dsimp only at h2
    split at h2
    · split at h2
      · split at h2
        · cases h2
        · split at h2
          · cases h2
          · cases h2
            exact ⟨rfl, rfl⟩
      · cases h2
        exact ⟨rfl, rfl⟩
    · cases h2
      exact ⟨rfl, rfl⟩
  have c : ∀ m : MemoryController, (dataBusCountdown m).outgoingCmdPacket = m.outgoingCmdPacket ∧
      (dataBusCountdown m).cmdCyclesLeft = m.cmdCyclesLeft := by
    intro m
    unfold dataBusCountdown
    dsimp only
    split
    · exact ⟨rfl, rfl⟩
    · split <;> exact ⟨rfl, rfl⟩
  rw [a.1, a.2.1, b.1, b.2, (c _).1, (c _).2]
  exact ⟨rfl, rfl⟩

/-- The phases after the pop leave both bus slots and the write-data FIFO as they are. -/
theorem wire_after_pop (cfg : Config) (inp : CycleInput) (mc3 mc4 mc5 mc6 : MemoryController)
    (h4 : constructSchedule cfg mc3 mc3.currentClockCycle = Except.ok mc4)
    (h5 : dispatchReq cfg inp mc4 mc4.currentClockCycle = Except.ok mc5)
    (h6 : returnStep cfg (powerStep cfg inp mc5) = Except.ok mc6) :
    wireView (refreshDecrement cfg mc6) = wireView mc3 := by
  rw [wireView_refreshDecrement, wireView_returnStep cfg _ _ h6, wireView_powerStep,
    wireView_dispatchReq cfg inp _ _ _ h5, wireView_constructSchedule cfg _ _ _ h4]

theorem timingUpdate_total (cfg : Config) (c : Nat) (p : BusPacket)
    (bs : Nat → Nat → BankState) (hty : p.busPacketType ≠ BusPacketType.DATA) :
    ∃ bs1, timingUpdate cfg c p bs = Except.ok bs1 := by
  unfold timingUpdate
  dsimp only
  cases h : p.busPacketType <;> first
    | exact ⟨_, rfl⟩
    | exact absurd h hty

theorem timingUpdate_err (cfg : Config) (c : Nat) (p : BusPacket)
    (bs : Nat → Nat → BankState) (e : Err) (h : timingUpdate cfg c p bs = Except.error e) :
    e = Err.unknownCommand ∧ p.busPacketType = BusPacketType.DATA := by
  unfold timingUpdate at h
  dsimp only at h
  cases hty : p.busPacketType <;> simp only [hty] at h <;> cases h
  exact ⟨rfl, rfl⟩

theorem popStep_fires (cfg : Config) (inp : CycleInput) (mc : MemoryController)
    (p : BusPacket) (bs1 : Nat → Nat → BankState) (hp : inp.popped = some p)
    (hbs : timingUpdate cfg mc.currentClockCycle p mc.bankStates = Except.ok bs1)
    (ho : mc.outgoingCmdPacket = none) :
    popStep cfg inp mc = Except.ok
      { pushWriteData cfg p mc with bankStates := bs1, outgoingCmdPacket := some p,
                                    cmdCyclesLeft := cfg.tCMD } := by
  simp only [popStep, hp, hbs, ho, ne_eq, not_true_eq_false, if_false]

theorem pushWriteData_fifo (cfg : Config) (inp : CycleInput) (p : BusPacket)
    (mc : MemoryController) (hp : inp.popped = some p) :
    (pushWriteData cfg p mc).writeDataToSend = mc.writeDataToSend ++ poppedWrite inp ∧
    (pushWriteData cfg p mc).writeDataCountdown
      = mc.writeDataCountdown ++ (poppedWrite inp).map (fun _ => cfg.WL) ∧
    (pushWriteData cfg p mc).outgoingDataPacket = mc.outgoingDataPacket ∧
    (pushWriteData cfg p mc).dataCyclesLeft = mc.dataCyclesLeft := by
  unfold pushWriteData poppedWrite
  rw [hp]
  dsimp only
  split <;> simp [dataPacketOf]

/-- The pop phase when the command queue hands out a command. -/
theorem popStep_some (cfg : Config) (inp : CycleInput) (mc : MemoryController)
    (p : BusPacket) (hp : inp.popped = some p) (hty : p.busPacketType ≠ BusPacketType.DATA) :
    (mc.outgoingCmdPacket ≠ none ∧ popStep cfg inp mc = Except.error Err.cmdBusCollision) ∨
    (mc.outgoingCmdPacket = none ∧
      ∃ mc1, popStep cfg inp mc = Except.ok mc1 ∧ mc1.outgoingCmdPacket = some p ∧
        mc1.cmdCyclesLeft = cfg.tCMD ∧ mc1.outgoingDataPacket = mc.outgoingDataPacket ∧
        mc1.dataCyclesLeft = mc.dataCyclesLeft ∧
        mc1.writeDataToSend = mc.writeDataToSend ++ poppedWrite inp ∧
        mc1.writeDataCountdown
          = mc.writeDataCountdown ++ (poppedWrite inp).map (fun _ => cfg.WL)) := by
  obtain ⟨bs1, hbs⟩ := timingUpdate_total cfg mc.currentClockCycle p mc.bankStates hty
  by_cases ho : mc.outgoingCmdPacket = none
  · right
    obtain ⟨f1, f2, f3, f4⟩ := pushWriteData_fifo cfg inp p mc hp
    exact ⟨ho, _, popStep_fires cfg inp mc p bs1 hp hbs ho, rfl, rfl, f3, f4, f1, f2⟩
  · left
    exact ⟨ho, by simp only [popStep, hp, hbs, ne_eq, ho, not_false_eq_true, if_true]⟩

theorem popStep_none (cfg : Config) (inp : CycleInput) (mc : MemoryController)
    (hp : inp.popped = none) : popStep cfg inp mc = Except.ok mc := by
  simp only [popStep, hp]

theorem popStep_err (cfg : Config) (inp : CycleInput) (mc : MemoryController) (e : Err)
    (h : popStep cfg inp mc = Except.error e) :
    e = Err.unknownCommand ∨ e = Err.cmdBusCollision := by
  unfold popStep at h
  split at h
  · cases h
  · split at h
    · rename_i e1 h1
      cases h
      exact Or.inl (timingUpdate_err cfg _ _ _ _ h1).1
    · split at h
      · cases h
        exact Or.inr rfl
      · cases h

theorem writeDataStep_err (cfg : Config) (mc : MemoryController) (e : Err)
    (h : writeDataStep cfg mc = Except.error e) :
    e = Err.dataBusCollision ∨ e = Err.emptyContainer := by
  unfold writeDataStep at h
  dsimp only at h
  split at h
  · split at h
    · split at h
      · cases h
        exact Or.inl rfl
      · split at h
        · cases h
          exact Or.inr rfl
        · cases h
    · cases h
  · cases h

theorem topThreeLoop_err : ∀ (n : Nat) (q : List (Nat × Nat)) (e : Err),
    topThreeLoop n q = Except.error e → e = Err.emptyContainer
  | 0, _, e, h => by simp [topThreeLoop] at h
  | n + 1, q, e, h => by
    simp only [topThreeLoop] at h
    split at h
    · cases h
      rfl
    · split at h
      · rename_i e1 h1
        cases h
        exact topThreeLoop_err n _ _ h1
      · cases h

theorem fillRow_err (rb j : Nat) (st : (Nat → Nat → Nat) × List Nat) (e : Err)
    (h : fillRow rb j st = Except.error e) : e = Err.emptyContainer := by
  unfold fillRow at h
  split at h
  · split at h
    · cases h
      rfl
    · cases h
  · cases h

theorem fillInner_err (rb : Nat) (st : (Nat → Nat → Nat) × List Nat) (e : Err)
    (h : fillInner rb st = Except.error e) : e = Err.emptyContainer := by
  unfold fillInner at h
  split at h
  · rename_i e1 h1
    cases h
    exact fillRow_err _ _ _ _ h1
  · split at h
    · rename_i e1 h1
      cases h
      exact fillRow_err _ _ _ _ h1
    · exact fillRow_err _ _ _ _ h

theorem fillOuter_err (rb : Nat) : ∀ (n i : Nat) (st : (Nat → Nat → Nat) × List Nat) (e : Err),
    fillOuter rb n i st = Except.error e → e = Err.emptyContainer
  | 0, _, _, e, h => by simp [fillOuter] at h
  | n + 1, i, st, e, h => by
    simp only [fillOuter] at h
    split at h
    · split at h
      · rename_i e1 h1
        cases h
        exact fillInner_err _ _ _ h1
      · exact fillOuter_err rb n _ _ _ h
    · cases h

theorem constructSchedule_err (cfg : Config) (mc : MemoryController) (clk : Nat) (e : Err)
    (h : constructSchedule cfg mc clk = Except.error e) : e = Err.emptyContainer := by
  unfold constructSchedule at h
  split at h
  · cases h
  · dsimp only at h
    split at h
    · rename_i e1 h1
      cases h
      exact topThreeLoop_err _ _ _ h1
    · split at h
      · rename_i e1 h1
        cases h
        unfold placeRanks at h1
        exact fillOuter_err _ _ _ _ _ h1
      · cases h

theorem getBusPacketType_err (t : Transaction) (e : Err)
    (h : getBusPacketType t = Except.error e) : e = Err.badTransactionType := by
  unfold getBusPacketType at h
  split at h
  · cases h
  · cases h
  · cases h
    rfl

theorem returnStep_err (cfg : Config) (mc : MemoryController) (e : Err)
    (h : returnStep cfg mc = Except.error e) :
    e = Err.noMatchingTransaction ∨ e = Err.divisionByZero := by
  unfold returnStep at h
  split at h
  · cases h
  · split at h
    · cases h
      exact Or.inl rfl
    · dsimp only at h
      split at h
      · rename_i e1 h1
        cases h
        unfold insertHistogram at h1
        dsimp only at h1
        split at h1
        · cases h1
          exact Or.inr rfl
        · cases h1
      · cases h

theorem scanFirst_mem {α : Type} (ok : α → Bool) :
    ∀ (l : List α) (s i : Nat) (x : α), scanFirst ok l s = some (i, x) → x ∈ l
  | [], s, i, x, h => by simp [scanFirst] at h
  | y :: ys, s, i, x, h => by
    simp only [scanFirst] at h
    split at h
    · simp only [Option.some.injEq, Prod.mk.injEq] at h
      rw [← h.2]
      simp
    · exact List.mem_cons_of_mem _ (scanFirst_mem ok ys (s + 1) i x h)

/-- The demand loop stops the simulation only on a prefetch found in a per-rank queue or on
a transaction that is neither a read nor a write. -/
theorem dispatchDemand_err (cfg : Config) (inp : CycleInput) (mc : MemoryController) (e : Err)
    (h : dispatchDemand cfg inp mc = Except.error e) :
    (e = Err.assertionFailed ∧
      ∃ t ∈ mc.rankQ mc.turn (mc.sch mc.rankIndx 0), t.isPrefetch = true) ∨
    e = Err.badTransactionType := by
  unfold dispatchDemand at h
  dsimp only at h
  split at h
  · cases h
  · rename_i i t hs
    split at h
    · rename_i hp
      cases h
      left
      exact ⟨rfl, t, scanFirst_mem _ _ _ _ _ hs, hp⟩
    · split at h
      · rename_i e1 h1
        cases h
        exact Or.inr (getBusPacketType_err _ _ h1)
      · cases h

theorem dispatchPrefetch_err (cfg : Config) (inp : CycleInput) (mc : MemoryController) (e : Err)
    (h : dispatchPrefetch cfg inp mc = Except.error e) : e = Err.badTransactionType := by
  unfold dispatchPrefetch at h
  dsimp only at h
  split at h
  · cases h
  · split at h
    · rename_i e1 h1
      cases h
      exact getBusPacketType_err _ _ h1
    · cases h

theorem dispatchReq_err (cfg : Config) (inp : CycleInput) (mc : MemoryController) (clk : Nat)
    (e : Err) (h : dispatchReq cfg inp mc clk = Except.error e) :
    (e = Err.assertionFailed ∧
      ∃ t ∈ mc.rankQ mc.turn (mc.sch mc.rankIndx 0), t.isPrefetch = true) ∨
    e = Err.badTransactionType := by
  unfold dispatchReq at h
  split at h
  · cases h
  · split at h
    · rename_i e1 h1
      cases h
      exact dispatchDemand_err cfg inp mc _ h1
    · split at h
      · split at h
        · rename_i e1 h1
          cases h
          exact Or.inr (dispatchPrefetch_err cfg inp _ _ h1)
        · cases h
      · cases h

/-- Decomposition of an `update()` that stops the simulation: the phase that stops it. -/
theorem update_err (cfg : Config) (inp : CycleInput) (mc : MemoryController) (e : Err)
    (h : update cfg inp mc = Except.error e) :
    writeDataStep cfg (dataBusCountdown (cmdBusCountdown (updateBankStates cfg mc)))
      = Except.error e ∨
    ∃ mc2, writeDataStep cfg (dataBusCountdown (cmdBusCountdown (updateBankStates cfg mc)))
        = Except.ok mc2 ∧
      (popStep cfg inp (refreshStep cfg mc2) = Except.error e ∨
       ∃ mc3, popStep cfg inp (refreshStep cfg mc2) = Except.ok mc3 ∧
         (constructSchedule cfg mc3 mc3.currentClockCycle = Except.error e ∨
          ∃ mc4, constructSchedule cfg mc3 mc3.currentClockCycle = Except.ok mc4 ∧
            (dispatchReq cfg inp mc4 mc4.currentClockCycle = Except.error e ∨
             ∃ mc5, dispatchReq cfg inp mc4 mc4.currentClockCycle = Except.ok mc5 ∧
               returnStep cfg (powerStep cfg inp mc5) = Except.error e))) := by
  unfold update at h
  simp only at h
  split at h
  · rename_i e1 h1
    cases h
    exact Or.inl h1
  · rename_i mc2 h2
    right
    refine ⟨mc2, h2, ?_⟩
    split at h
    · rename_i e1 h1
      cases h
      exact Or.inl h1
    · rename_i mc3 h3
      right
      refine ⟨mc3, h3, ?_⟩
      split at h
      · rename_i e1 h1
        cases h
        exact Or.inl h1
      · rename_i mc4 h4
        right
        refine ⟨mc4, h4, ?_⟩
        split at h
        · rename_i e1 h1
          cases h
          exact Or.inl h1
        · rename_i mc5 h5
          right
          refine ⟨mc5, h5, ?_⟩
          split at h
          · rename_i e1 h1
            cases h
            exact h1
          · cases h

/-- An `update()` whose pop phase stops the simulation stops with the error of that
phase. -/
theorem update_pop_error (cfg : Config) (inp : CycleInput) (mc mc2 : MemoryController)
    (e : Err)
    (h2 : writeDataStep cfg (dataBusCountdown (cmdBusCountdown (updateBankStates cfg mc)))
      = Except.ok mc2)
    (h3 : popStep cfg inp (refreshStep cfg mc2) = Except.error e) :
    update cfg inp mc = Except.error e := by
  unfold update
  simp only [h2, h3]

/-- The command bus after a successful `update()`. -/
theorem update_cmd (cfg : Config) (inp : CycleInput) (mc mc1 : MemoryController)
    (h : update cfg inp mc = Except.ok mc1) :
    (inp.popped = none →
      mc1.outgoingCmdPacket = (cmdBusCountdown (updateBankStates cfg mc)).outgoingCmdPacket ∧
      mc1.cmdCyclesLeft = (cmdBusCountdown (updateBankStates cfg mc)).cmdCyclesLeft) ∧
    (∀ p, inp.popped = some p →
      (cmdBusCountdown (updateBankStates cfg mc)).outgoingCmdPacket = none ∧
      mc1.outgoingCmdPacket = some p ∧ mc1.cmdCyclesLeft = cfg.tCMD) := by
  obtain ⟨mc2, mc3, mc4, mc5, mc6, h2, h3, h4, h5, h6, rfl⟩ := update_ok cfg inp mc mc1 h
  have w := wire_after_pop cfg inp mc3 mc4 mc5 mc6 h4 h5 h6
  simp only [wireView, Prod.mk.injEq] at w
  obtain ⟨c1, c2⟩ := cmd_before_pop cfg mc mc2 h2
  constructor
  · intro hp
    rw [popStep_none cfg inp _ hp] at h3
    cases h3
    rw [w.1, w.2.1, c1, c2]
    exact ⟨rfl, rfl⟩
  · intro p hp
    have hty : p.busPacketType ≠ BusPacketType.DATA := by
      intro hd
      unfold popStep at h3
      rw [hp] at h3
      dsimp only at h3
      have ht : timingUpdate cfg (refreshStep cfg mc2).currentClockCycle p
          (refreshStep cfg mc2).bankStates = Except.error Err.unknownCommand := by
        simp only [timingUpdate, hd]
      rw [ht] at h3
      cases h3
    rcases popStep_some cfg inp (refreshStep cfg mc2) p hp hty with ⟨_, e⟩ | ⟨ho, m, e, o1, o2, _⟩
    · rw [e] at h3
      cases h3
    · rw [e] at h3
      cases h3
      rw [w.1, w.2.1, ← c1]
      exact ⟨ho, o1, o2⟩

theorem cycleCount_other (e : Event) (es : List Event) (hne : ∀ inp, e ≠ Event.cycle inp) :
    cycleCount (e :: es) = cycleCount es := by
  cases e with
  | cycle inp => exact absurd rfl (hne inp)
  | addTransaction t => rfl
  | receiveFromBus p => rfl
  | rankClearsRefreshWaiting r => rfl

theorem applyEvent_other_wire (cfg : Config) (mc mc1 : MemoryController) (e : Event)
    (hne : ∀ inp, e ≠ Event.cycle inp) (h : applyEvent cfg mc e = Except.ok mc1) :
    wireView mc1 = wireView mc ∧ mc1.currentClockCycle = mc.currentClockCycle ∧
    mc1.trace = mc.trace ∧ mc1.bankStates = mc.bankStates := by
  rcases applyEvent_ok cfg mc mc1 e h with ⟨inp, _, he, _⟩ | ⟨tq, rt, rw, rfl⟩
  · exact absurd he (hne inp)
  · exact ⟨rfl, rfl, rfl, rfl⟩

/-- A cycle with a packet on the command bus that is not due yet: nothing is popped, and
the countdown goes down by one. -/
theorem onBus_update (cfg : Config) (inp : CycleInput) (mc mc1 : MemoryController)
    (p : BusPacket) (k : Nat) (ho : mc.outgoingCmdPacket = some p)
    (hk : mc.cmdCyclesLeft = k + 2) (h : update cfg inp mc = Except.ok mc1) :
    mc1.outgoingCmdPacket = some p ∧ mc1.cmdCyclesLeft = k + 1 := by
  have hc : (cmdBusCountdown (updateBankStates cfg mc)).outgoingCmdPacket = some p ∧
      (cmdBusCountdown (updateBankStates cfg mc)).cmdCyclesLeft = k + 1 := by
    have hd : dec32 (updateBankStates cfg mc).cmdCyclesLeft = k + 1 := by
      show dec32 mc.cmdCyclesLeft = k + 1
      rw [hk]
      simp [dec32]
    rcases cmdBusCountdown_cases (updateBankStates cfg mc) with ⟨e, _⟩ | ⟨q, e, _, e2⟩ |
        ⟨q, _, e1, _⟩
    · have : (updateBankStates cfg mc).outgoingCmdPacket = some p := ho
      rw [this] at e
      cases e
    · rw [e2]
      exact ⟨ho, hd⟩
    · rw [hd] at e1
      cases e1
  obtain ⟨u1, u2⟩ := update_cmd cfg inp mc mc1 h
  cases hp : inp.popped with
  | none =>
    obtain ⟨a, b⟩ := u1 hp
    rw [a, b]
    exact hc
  | some q =>
    have := (u2 q hp).1
    rw [hc.1] at this
    cases this

/-- A packet on the command bus with `k` more cycles to go than the run has cycles. -/
theorem onBus_run (cfg : Config) (p : BusPacket) : ∀ (es : List Event)
    (mc mc1 : MemoryController) (k : Nat), mc.outgoingCmdPacket = some p →
    mc.cmdCyclesLeft = cycleCount es + k + 1 → run cfg mc es = Except.ok mc1 →
    mc1.outgoingCmdPacket = some p ∧ mc1.cmdCyclesLeft = k + 1 ∧
    mc1.currentClockCycle = mc.currentClockCycle + cycleCount es
  | [], mc, mc1, k, ho, hk, h => by
    simp only [run, Except.ok.injEq] at h
    subst h
    simp only [cycleCount] at hk ⊢
    exact ⟨ho, by omega, rfl⟩
  | e :: es, mc, mc1, k, ho, hk, h => by
    obtain ⟨m2, h2, hr⟩ := run_cons_ok cfg mc mc1 e es h
    rcases cycle_or_other e with ⟨inp, rfl⟩ | hne
    · obtain ⟨m3, hu, rfl⟩ := applyEvent_cycle_ok cfg mc m2 inp h2
      simp only [cycleCount] at hk ⊢
      obtain ⟨a, b⟩ := onBus_update cfg inp mc m3 p (cycleCount es + k) ho (by omega) hu
      obtain ⟨c1, c2, c3⟩ := onBus_run cfg p es
        { m3 with currentClockCycle := m3.currentClockCycle + 1 } mc1 k a (by rw [b]) hr
      refine ⟨c1, c2, ?_⟩
      rw [c3]
      show m3.currentClockCycle + 1 + cycleCount es = _
      rw [(update_epoch cfg inp mc m3 hu).1]
      omega
    · obtain ⟨w, c, _, _⟩ := applyEvent_other_wire cfg mc m2 e hne h2
      simp only [wireView, Prod.mk.injEq] at w
      rw [cycleCount_other e es hne] at hk ⊢
      obtain ⟨c1, c2, c3⟩ := onBus_run cfg p es m2 mc1 k (by rw [w.1, ho]) (by rw [w.2.1, hk]) hr
      exact ⟨c1, c2, by rw [c3, c]⟩

/-! ## The per-core, per-rank queues hold the demand of their core and rank -/

theorem RankQInv_congr (cfg : Config) (a b : MemoryController) (h : b.rankQ = a.rankQ)
    (hi : RankQInv cfg a) : RankQInv cfg b := by
  intro c r t ht
  rw [h] at ht
  exact hi c r t ht

theorem RankQInv_drain (cfg : Config) (mc : MemoryController) (hi : RankQInv cfg mc) :
    RankQInv cfg (drain cfg mc) := by
  intro c r t ht
  by_cases hc : c = mc.turn
  · have e : (drain cfg mc).rankQ c r = mc.rankQ mc.turn r ++
        (ownerDemand mc.turn mc.transactionQueue).filter
          (fun t => decide ((cfg.addressMapping t.address).rank = r)) := by
      simp only [drain, set1, hc, if_true, drainLoop_queues]
    rw [e] at ht
    simp only [List.mem_append, List.mem_filter, ownerDemand, Bool.and_eq_true,
      decide_eq_true_eq, Bool.not_eq_true', Bool.not_eq_eq_eq_not, Bool.not_true] at ht
    rcases ht with ht | ⟨⟨_, h1, h2⟩, h3⟩
    · rw [hc]
      exact hi _ r t ht
    · rw [hc]
      exact ⟨h1, h2, h3⟩
  · have e : (drain cfg mc).rankQ c r = mc.rankQ c r := by
      simp only [drain, set1, hc, if_false]
    rw [e] at ht
    exact hi c r t ht

theorem RankQInv_constructSchedule (cfg : Config) (mc mc1 : MemoryController) (clk : Nat)
    (hi : RankQInv cfg mc) (h : constructSchedule cfg mc clk = Except.ok mc1) :
    RankQInv cfg mc1 := by
  unfold constructSchedule at h
  split at h
  · cases h
    exact hi
  · dsimp only at h
    split at h
    · cases h
    · split at h
      · cases h
      · cases h
        exact RankQInv_congr cfg (drain cfg (epochAdvance cfg mc clk)) _ rfl
          (RankQInv_drain cfg _ (RankQInv_congr cfg mc _ rfl hi))

theorem RankQInv_dispatchDemand (cfg : Config) (inp : CycleInput) (mc mc1 : MemoryController)
    (e : Bool) (hi : RankQInv cfg mc) (h : dispatchDemand cfg inp mc = Except.ok (e, mc1)) :
    RankQInv cfg mc1 := by
  rcases dispatchDemand_fields cfg inp mc mc1 e h with ⟨_, _, rfl⟩ | ⟨i, t, _, _, _, hq⟩
  · exact hi
  · intro c r u hu
    rw [hq] at hu
    generalize set2 mc.sch mc.rankIndx mc.bankIndx (cfg.addressMapping t.address).bank
      mc.rankIndx 0 = X at hu
    simp only [set2] at hu
    split at hu
    · rename_i hc
      rw [hc.1, hc.2]
      exact hi _ _ u (List.mem_of_mem_eraseIdx hu)
    · exact hi c r u hu

theorem RankQInv_dispatchReq (cfg : Config) (inp : CycleInput) (mc mc1 : MemoryController)
    (clk : Nat) (hi : RankQInv cfg mc) (h : dispatchReq cfg inp mc clk = Except.ok mc1) :
    RankQInv cfg mc1 := by
  unfold dispatchReq at h
  split at h
  · cases h
    exact hi
  · split at h
    · cases h
    · rename_i e mcd hd
      have h1 := RankQInv_dispatchDemand cfg inp mc mcd e hi hd
      split at h
      · split at h
        · cases h
        · rename_i mcp hp
          have h2 := (dispatchPrefetch_ok cfg inp mcd mcp hp).2.2.2.2.2.2.2.2
          cases h
          exact RankQInv_congr cfg mcd _ h2 h1
      · cases h
        exact h1

/-- The state on which an `update()` calls `dispatchReq`, when it gets that far. -/
theorem RankQInv_at_dispatch (cfg : Config) (inp : CycleInput) (mc mc2 mc3 mc4 : MemoryController)
    (hi : RankQInv cfg mc)
    (h2 : writeDataStep cfg (dataBusCountdown (cmdBusCountdown (updateBankStates cfg mc)))
      = Except.ok mc2)
    (h3 : popStep cfg inp (refreshStep cfg mc2) = Except.ok mc3)
    (h4 : constructSchedule cfg mc3 mc3.currentClockCycle = Except.ok mc4) :
    RankQInv cfg mc4 := by
  have v : schedView mc3 = schedView mc := by
    rw [schedView_popStep cfg inp _ _ h3, schedView_refreshStep, schedView_writeDataStep cfg _ _ h2,
      schedView_dataBusCountdown, schedView_cmdBusCountdown, schedView_updateBankStates]
  simp only [schedView, Prod.mk.injEq] at v
  exact RankQInv_constructSchedule cfg mc3 mc4 _
    (RankQInv_congr cfg mc mc3 v.2.2.2.2.2.2.2.2.1 hi) h4

theorem RankQInv_step (cfg : Config) (mc : MemoryController) (e : Event)
    (mc1 : MemoryController) (hi : RankQInv cfg mc)
    (h : applyEvent cfg mc e = Except.ok mc1) : RankQInv cfg mc1 := by
  rcases applyEvent_ok cfg mc mc1 e h with ⟨inp, m, _, hu, rfl⟩ | ⟨tq, rt, rw, rfl⟩
  · obtain ⟨mc2, mc3, mc4, mc5, mc6, h2, h3, h4, h5, h6, rfl⟩ := update_ok cfg inp mc m hu
    have i4 := RankQInv_at_dispatch cfg inp mc mc2 mc3 mc4 hi h2 h3 h4
    have i5 := RankQInv_dispatchReq cfg inp mc4 mc5 _ i4 h5
    have v : schedView (refreshDecrement cfg mc6) = schedView mc5 := by
      rw [schedView_refreshDecrement, schedView_returnStep cfg _ _ h6, schedView_powerStep]
    simp only [schedView, Prod.mk.injEq] at v
    exact RankQInv_congr cfg mc5 _ v.2.2.2.2.2.2.2.2.1 i5
  · exact hi

theorem RankQInv_reachable (cfg : Config) (boot : Boot) (mc : MemoryController)
    (h : Reachable cfg boot mc) : RankQInv cfg mc :=
  reachable_induction cfg boot (RankQInv cfg)
    (by
      intro c r t ht
      simp [MemoryController.init] at ht)
    (fun mc e mc1 hI he => RankQInv_step cfg mc e mc1 hI he) mc h

/-- A demand loop that dispatches enqueues the command pair of a transaction of the queue
`rankQ[turn][sch[rankIndx][0]]`. -/
theorem dispatchDemand_pair (cfg : Config) (inp : CycleInput) (mc mc1 : MemoryController)
    (e : Bool) (h : dispatchDemand cfg inp mc = Except.ok (e, mc1)) :
    (e = true ∧ mc1 = mc) ∨
    (e = false ∧ ∃ t bp, t ∈ mc.rankQ mc.turn (mc.sch mc.rankIndx 0) ∧
      mc1.trace = mc.trace ++ (commandPair cfg t bp).map (fun c => (mc.currentClockCycle, c))) := by
  unfold dispatchDemand at h
  dsimp only at h
  split at h
  · simp only [Except.ok.injEq, Prod.mk.injEq] at h
    exact Or.inl ⟨h.1.symm, h.2.symm⟩
  · rename_i i t hs
    split at h
    · cases h
    · split at h
      · cases h
      · rename_i bp hbp
        simp only [Except.ok.injEq, Prod.mk.injEq] at h
        obtain ⟨h1, h2⟩ := h
        subst h2
        refine Or.inr ⟨h1.symm, t, bp, scanFirst_mem _ _ _ _ _ hs, ?_⟩
        split <;> rfl

theorem commandPair_rank (cfg : Config) (t : Transaction) (bp : BusPacketType) (q : BusPacket)
    (h : ExtCall.enqueue q ∈ commandPair cfg t bp) :
    q.rank = (cfg.addressMapping t.address).rank ∧ q.physicalAddress = t.address := by
  simp only [commandPair, List.mem_cons, ExtCall.enqueue.injEq, List.mem_singleton,
    List.not_mem_nil, or_false] at h
  rcases h with h | h <;> subst h <;> exact ⟨rfl, rfl⟩

/-! ## The write-data FIFO -/

theorem writeDataStep_cases (cfg : Config) (m m2 : MemoryController)
    (h : writeDataStep cfg m = Except.ok m2) :
    ((m.writeDataCountdown.map dec32).head? = some 0 ∧ m.outgoingDataPacket = none ∧
      ∃ d rest, m.writeDataToSend = d :: rest ∧ m2.writeDataToSend = rest ∧
        m2.writeDataCountdown = (m.writeDataCountdown.map dec32).tail ∧
        m2.outgoingDataPacket = some d ∧ m2.dataCyclesLeft = cfg.BL / 2) ∨
    ((m.writeDataCountdown.map dec32).head? ≠ some 0 ∧
      m2.writeDataToSend = m.writeDataToSend ∧
      m2.writeDataCountdown = m.writeDataCountdown.map dec32 ∧
      m2.outgoingDataPacket = m.outgoingDataPacket ∧ m2.dataCyclesLeft = m.dataCyclesLeft) := by
  unfold writeDataStep at h
  split at h
  · dsimp only at h
    split at h
    · rename_i h0
      split at h
      · cases h
      · rename_i ho
        split at h
        · cases h
        · rename_i d rest hd
          cases h
          exact Or.inl ⟨h0, by simpa using ho, d, rest, hd, rfl, rfl, rfl, rfl⟩
    · rename_i h0
      cases h
      exact Or.inr ⟨h0, rfl, rfl, rfl, rfl⟩
  · rename_i hl
    cases h
    have e : m.writeDataCountdown = [] := by
      cases hc : m.writeDataCountdown with
      | nil => rfl
      | cons a l => rw [hc] at hl; simp at hl
    refine Or.inr ⟨by rw [e]; simp, rfl, by rw [e]; rfl, rfl, rfl⟩

/-- The write-data step when the head countdown reaches zero: a collision if the data bus
is occupied, the head packet on the bus for `BL/2` cycles otherwise. -/
theorem writeDataStep_head (cfg : Config) (m : MemoryController) (d : BusPacket)
    (rest : List BusPacket) (h0 : (m.writeDataCountdown.map dec32).head? = some 0)
    (hs : m.writeDataToSend = d :: rest) :
    (m.outgoingDataPacket ≠ none → writeDataStep cfg m = Except.error Err.dataBusCollision) ∧
    (m.outgoingDataPacket = none → ∃ m2, writeDataStep cfg m = Except.ok m2 ∧
      m2.outgoingDataPacket = some d ∧ m2.dataCyclesLeft = cfg.BL / 2 ∧
      m2.writeDataToSend = rest) := by
  have hl : m.writeDataCountdown.length > 0 := by
    cases hc : m.writeDataCountdown with
    | nil => rw [hc] at h0; simp at h0
    | cons a l => simp
  constructor
  · intro ho
    unfold writeDataStep
    rw [if_pos hl]
    dsimp only
    rw [if_pos h0, if_pos ho]
  · intro ho
    unfold writeDataStep
    rw [if_pos hl]
    dsimp only
    rw [if_pos h0, if_neg (by simpa using ho), hs]
    exact ⟨_, rfl, rfl, rfl, rfl⟩

theorem fifo_before_step (cfg : Config) (mc : MemoryController) :
    (dataBusCountdown (cmdBusCountdown (updateBankStates cfg mc))).writeDataToSend
      = mc.writeDataToSend ∧
    (dataBusCountdown (cmdBusCountdown (updateBankStates cfg mc))).writeDataCountdown
      = mc.writeDataCountdown := by
  have a : ∀ m : MemoryController, (dataBusCountdown m).writeDataToSend = m.writeDataToSend ∧
      (dataBusCountdown m).writeDataCountdown = m.writeDataCountdown := by
    intro m
    unfold dataBusCountdown
    split
    · exact ⟨rfl, rfl⟩
    · dsimp only
      split <;> exact ⟨rfl, rfl⟩
  have b : ∀ m : MemoryController, (cmdBusCountdown m).writeDataToSend = m.writeDataToSend ∧
      (cmdBusCountdown m).writeDataCountdown = m.writeDataCountdown := by
    intro m
    rcases cmdBusCountdown_cases m with ⟨_, e⟩ | ⟨_, _, _, e⟩ | ⟨_, _, _, e⟩ <;> rw [e] <;>
      exact ⟨rfl, rfl⟩
  rw [(a _).1, (a _).2, (b _).1, (b _).2]
  exact ⟨rfl, rfl⟩

theorem popStep_fifo (cfg : Config) (inp : CycleInput) (mc mc1 : MemoryController)
    (h : popStep cfg inp mc = Except.ok mc1) :
    mc1.writeDataToSend = mc.writeDataToSend ++ poppedWrite inp ∧
    mc1.writeDataCountdown = mc.writeDataCountdown ++ (poppedWrite inp).map (fun _ => cfg.WL) ∧
    mc1.outgoingDataPacket = mc.outgoingDataPacket ∧ mc1.dataCyclesLeft = mc.dataCyclesLeft := by
  cases hp : inp.popped with
  | none =>
    rw [popStep_none cfg inp mc hp] at h
    cases h
    simp [poppedWrite, hp]
  | some p =>
    have f := pushWriteData_fifo cfg inp p mc hp
    unfold popStep at h
    rw [hp] at h
    dsimp only at h
    split at h
    · cases h
    · split at h
      · cases h
      · cases h
        exact f

/-- What a successful update does to the write-data FIFO and the data bus slot after its
write-data step. -/
theorem update_fifo (cfg : Config) (inp : CycleInput) (mc mc1 : MemoryController)
    (h : update cfg inp mc = Except.ok mc1) :
    ∃ m2, writeDataStep cfg (dataBusCountdown (cmdBusCountdown (updateBankStates cfg mc)))
        = Except.ok m2 ∧
      mc1.writeDataToSend = m2.writeDataToSend ++ poppedWrite inp ∧
      mc1.writeDataCountdown
        = m2.writeDataCountdown ++ (poppedWrite inp).map (fun _ => cfg.WL) ∧
      mc1.outgoingDataPacket = m2.outgoingDataPacket ∧ mc1.dataCyclesLeft = m2.dataCyclesLeft := by
  obtain ⟨mc2, mc3, mc4, mc5, mc6, h2, h3, h4, h5, h6, rfl⟩ := update_ok cfg inp mc mc1 h
  have w := wire_after_pop cfg inp mc3 mc4 mc5 mc6 h4 h5 h6
  simp only [wireView, Prod.mk.injEq] at w
  obtain ⟨f1, f2, f3, f4⟩ := popStep_fifo cfg inp _ mc3 h3
  have r := wireView_refreshStep cfg mc2
  simp only [wireView, Prod.mk.injEq] at r
  refine ⟨mc2, h2, ?_, ?_, ?_, ?_⟩
  · rw [w.2.2.2.2.1, f1, r.2.2.2.2.1]
  · rw [w.2.2.2.2.2, f2, r.2.2.2.2.2]
  · rw [w.2.2.1, f3, r.2.2.1]
  · rw [w.2.2.2.1, f4, r.2.2.2.1]

/-- The two cases of a successful update for the write-data FIFO. -/
theorem update_fifo_cases (cfg : Config) (inp : CycleInput) (mc mc1 : MemoryController)
    (h : update cfg inp mc = Except.ok mc1) :
    ((mc.writeDataCountdown.map dec32).head? = some 0 ∧
      ∃ d rest, mc.writeDataToSend = d :: rest ∧
        mc1.writeDataToSend = rest ++ poppedWrite inp ∧
        mc1.writeDataCountdown = (mc.writeDataCountdown.map dec32).tail ++
          (poppedWrite inp).map (fun _ => cfg.WL) ∧
        mc1.outgoingDataPacket = some d ∧ mc1.dataCyclesLeft = cfg.BL / 2) ∨
    ((mc.writeDataCountdown.map dec32).head? ≠ some 0 ∧
      mc1.writeDataToSend = mc.writeDataToSend ++ poppedWrite inp ∧
      mc1.writeDataCountdown = mc.writeDataCountdown.map dec32 ++
          (poppedWrite inp).map (fun _ => cfg.WL) ∧
      mc1.outgoingDataPacket
        = (dataBusCountdown (cmdBusCountdown (updateBankStates cfg mc))).outgoingDataPacket ∧
      mc1.dataCyclesLeft
        = (dataBusCountdown (cmdBusCountdown (updateBankStates cfg mc))).dataCyclesLeft) := by
  obtain ⟨m2, h2, g1, g2, g3, g4⟩ := update_fifo cfg inp mc mc1 h
  obtain ⟨b1, b2⟩ := fifo_before_step cfg mc
  rcases writeDataStep_cases cfg _ m2 h2 with ⟨h0, _, d, rest, e1, e2, e3, e4, e5⟩ |
      ⟨h0, e1, e2, e3, e4⟩
  · rw [b2] at h0 e3
    rw [b1] at e1
    exact Or.inl ⟨h0, d, rest, e1, by rw [g1, e2], by rw [g2, e3], by rw [g3, e4],
      by rw [g4, e5]⟩
  · rw [b2] at h0 e2
    rw [b1] at e1
    exact Or.inr ⟨h0, by rw [g1, e1], by rw [g2, e2], by rw [g3, e3], by rw [g4, e4]⟩

theorem poppedWrite_cases (inp : CycleInput) :
    poppedWrite inp = [] ∨ ∃ p, inp.popped = some p ∧
      (p.busPacketType = BusPacketType.WRITE ∨ p.busPacketType = BusPacketType.WRITE_P) ∧
      poppedWrite inp = [dataPacketOf p] := by
  unfold poppedWrite
  split
  · exact Or.inl rfl
  · rename_i p hp
    split
    · rename_i hty
      exact Or.inr ⟨p, hp, hty, rfl⟩
    · exact Or.inl rfl

theorem dec32_pos (x : Nat) (h : 1 ≤ x) : dec32 x = x - 1 := by
  unfold dec32
  rw [if_neg (by omega)]

/-- One step of a strictly increasing countdown list with values in `1..W`: after the
decrement and the removal of a head that reached zero the values are in `1..W-1`. -/
theorem ladder_step (W : Nat) : ∀ (l : List Nat), l.Pairwise (fun a b => a < b) →
    (∀ x ∈ l, 1 ≤ x ∧ x ≤ W) →
    ((l.map dec32).head? = some 0 →
      (l.map dec32).tail.Pairwise (fun a b => a < b) ∧
      ∀ x ∈ (l.map dec32).tail, 1 ≤ x ∧ x + 1 ≤ W) ∧
    ((l.map dec32).head? ≠ some 0 →
      (l.map dec32).Pairwise (fun a b => a < b) ∧
      ∀ x ∈ l.map dec32, 1 ≤ x ∧ x + 1 ≤ W)
  | [], _, _ => by simp
  | c :: cs, hp, hb => by
    have hc := hb c (List.mem_cons_self _ _)
    rw [List.pairwise_cons] at hp
    obtain ⟨hlt, hps⟩ := hp
    have hmap : (cs.map dec32).Pairwise (fun a b => a < b) := by
      rw [List.pairwise_map]
      refine List.Pairwise.imp_of_mem ?_ hps
      intro a b ha hb' hab
      rw [dec32_pos a (hb a (List.mem_cons_of_mem _ ha)).1,
        dec32_pos b (hb b (List.mem_cons_of_mem _ hb')).1]
      have := (hb a (List.mem_cons_of_mem _ ha)).1
      omega
    have htail : ∀ x ∈ cs.map dec32, 1 ≤ x ∧ x + 1 ≤ W := by
      intro x hx
      rw [List.mem_map] at hx
      obtain ⟨y, hy, rfl⟩ := hx
      have h1 := hlt y hy
      have h2 := hb y (List.mem_cons_of_mem _ hy)
      rw [dec32_pos y h2.1]
      omega
    constructor
    · intro _
      simp only [List.map_cons, List.tail_cons]
      exact ⟨hmap, htail⟩
    · intro h0
      simp only [List.map_cons, List.head?_cons, ne_eq, Option.some.injEq] at h0
      rw [dec32_pos c hc.1] at h0
      simp only [List.map_cons, List.pairwise_cons, List.mem_cons]
      refine ⟨⟨?_, hmap⟩, ?_⟩
      · intro x hx
        have := htail x hx
        rw [List.mem_map] at hx
        obtain ⟨y, hy, rfl⟩ := hx
        have h1 := hlt y hy
        have h2 := hb y (List.mem_cons_of_mem _ hy)
        rw [dec32_pos y h2.1, dec32_pos c hc.1]
        omega
      · intro x hx
        rcases hx with rfl | hx
        · rw [dec32_pos c hc.1]
          omega
        · exact htail x hx

theorem ladder_push (W : Nat) (hW : 1 ≤ W) (l : List Nat) (pw : List BusPacket)
    (hpw : pw.length ≤ 1) (hp : l.Pairwise (fun a b => a < b))
    (hb : ∀ x ∈ l, 1 ≤ x ∧ x + 1 ≤ W) :
    (l ++ pw.map (fun _ => W)).Pairwise (fun a b => a < b) ∧
    ∀ x ∈ l ++ pw.map (fun _ => W), 1 ≤ x ∧ x ≤ W := by
  match pw, hpw with
  | [], _ =>
    simp only [List.map_nil, List.append_nil]
    exact ⟨hp, fun x hx => ⟨(hb x hx).1, by have := (hb x hx).2; omega⟩⟩
  | [d], _ =>
    simp only [List.map_cons, List.map_nil]
    constructor
    · rw [List.pairwise_append]
      refine ⟨hp, List.pairwise_singleton _ _, ?_⟩
      intro a ha b hb'
      rw [List.mem_singleton] at hb'
      have := (hb a ha).2
      omega
    · intro x hx
      rw [List.mem_append, List.mem_singleton] at hx
      rcases hx with hx | rfl
      · exact ⟨(hb x hx).1, by have := (hb x hx).2; omega⟩
      · exact ⟨hW, le_refl _⟩
  | _ :: _ :: _, h =>
    simp at h

theorem poppedWrite_length (inp : CycleInput) : (poppedWrite inp).length ≤ 1 := by
  rcases poppedWrite_cases inp with e | ⟨p, _, _, e⟩ <;> rw [e] <;> simp

theorem FifoInv_update (cfg : Config) (hW : 1 ≤ cfg.WL) (inp : CycleInput)
    (mc mc1 : MemoryController) (hi : FifoInv cfg mc) (h : update cfg inp mc = Except.ok mc1) :
    FifoInv cfg mc1 := by
  obtain ⟨hl, hp, hb⟩ := hi
  obtain ⟨s1, s2⟩ := ladder_step cfg.WL mc.writeDataCountdown hp hb
  rcases update_fifo_cases cfg inp mc mc1 h with ⟨h0, d, rest, e1, e2, e3, _, _⟩ |
      ⟨h0, e2, e3, _, _⟩
  · obtain ⟨a, b⟩ := s1 h0
    obtain ⟨c1, c2⟩ := ladder_push cfg.WL hW _ (poppedWrite inp) (poppedWrite_length inp) a b
    refine ⟨?_, by rw [e3]; exact c1, by rw [e3]; exact c2⟩
    rw [e2, e3]
    rw [e1] at hl
    simp only [List.length_append, List.length_tail, List.length_map, List.length_cons] at hl ⊢
    omega
  · obtain ⟨a, b⟩ := s2 h0
    obtain ⟨c1, c2⟩ := ladder_push cfg.WL hW _ (poppedWrite inp) (poppedWrite_length inp) a b
    refine ⟨?_, by rw [e3]; exact c1, by rw [e3]; exact c2⟩
    rw [e2, e3]
    simp only [List.length_append, List.length_map]
    omega

theorem applyEvent_other_fifo (cfg : Config) (mc mc1 : MemoryController) (e : Event)
    (hne : ∀ inp, e ≠ Event.cycle inp) (h : applyEvent cfg mc e = Except.ok mc1) :
    mc1.writeDataToSend = mc.writeDataToSend ∧
    mc1.writeDataCountdown = mc.writeDataCountdown ∧
    mc1.outgoingDataPacket = mc.outgoingDataPacket ∧
    mc1.dataCyclesLeft = mc.dataCyclesLeft := by
  obtain ⟨w, _, _, _⟩ := applyEvent_other_wire cfg mc mc1 e hne h
  simp only [wireView, Prod.mk.injEq] at w
  exact ⟨w.2.2.2.2.1, w.2.2.2.2.2, w.2.2.1, w.2.2.2.1⟩

theorem FifoInv_step (cfg : Config) (hW : 1 ≤ cfg.WL) (mc : MemoryController) (e : Event)
    (mc1 : MemoryController) (hi : FifoInv cfg mc)
    (h : applyEvent cfg mc e = Except.ok mc1) : FifoInv cfg mc1 := by
  rcases cycle_or_other e with ⟨inp, rfl⟩ | hne
  · obtain ⟨m3, hu, rfl⟩ := applyEvent_cycle_ok cfg mc mc1 inp h
    exact FifoInv_update cfg hW inp mc m3 hi hu
  · obtain ⟨a, b, _, _⟩ := applyEvent_other_fifo cfg mc mc1 e hne h
    unfold FifoInv
    rw [a, b]
    exact hi

theorem FifoInv_init (cfg : Config) (boot : Boot) :
    FifoInv cfg (MemoryController.init cfg boot) := by
  refine ⟨rfl, ?_, ?_⟩
  · exact List.Pairwise.nil
  · intro x hx
    simp [MemoryController.init] at hx

theorem FifoInv_reachable (cfg : Config) (hW : 1 ≤ cfg.WL) (boot : Boot)
    (mc : MemoryController) (h : Reachable cfg boot mc) : FifoInv cfg mc :=
  reachable_induction cfg boot (FifoInv cfg) (FifoInv_init cfg boot)
    (fun mc e mc1 hI he => FifoInv_step cfg hW mc e mc1 hI he) mc h

/-- The two vectors of the write-data FIFO have the same length in every reachable state. -/
theorem fifo_lengths (cfg : Config) (boot : Boot) (mc : MemoryController)
    (h : Reachable cfg boot mc) :
    mc.writeDataCountdown.length = mc.writeDataToSend.length := by
  refine reachable_induction cfg boot
    (fun m => m.writeDataCountdown.length = m.writeDataToSend.length) rfl ?_ mc h
  intro m e m1 hi he
  rcases cycle_or_other e with ⟨inp, rfl⟩ | hne
  · obtain ⟨m3, hu, rfl⟩ := applyEvent_cycle_ok cfg m m1 inp he
    show m3.writeDataCountdown.length = m3.writeDataToSend.length
    rcases update_fifo_cases cfg inp m m3 hu with ⟨h0, d, rest, e1, e2, e3, _, _⟩ |
        ⟨h0, e2, e3, _, _⟩
    · rw [e2, e3]
      rw [e1] at hi
      simp only [List.length_append, List.length_tail, List.length_map, List.length_cons] at hi ⊢
      omega
    · rw [e2, e3]
      simp only [List.length_append, List.length_map]
      omega
  · obtain ⟨a, b, _, _⟩ := applyEvent_other_fifo cfg m m1 e hne he
    rw [a, b]
    exact hi

theorem getElem?_append_some {α : Type} (l r : List α) (i : Nat) (x : α)
    (h : l[i]? = some x) : (l ++ r)[i]? = some x := by
  have hlt : i < l.length := by
    by_contra hc
    rw [List.getElem?_eq_none (by omega)] at h
    cases h
  rw [List.getElem?_append_left hlt]
  exact h

/-- A packet in the FIFO whose countdown is at least two stays in the FIFO over an update,
with the countdown one lower. -/
theorem tracked_update (cfg : Config) (inp : CycleInput) (mc mc1 : MemoryController)
    (d : BusPacket) (i v : Nat) (hs : mc.writeDataToSend[i]? = some d)
    (hc : mc.writeDataCountdown[i]? = some (v + 2)) (h : update cfg inp mc = Except.ok mc1) :
    ∃ j : Nat, mc1.writeDataToSend[j]? = some d ∧ mc1.writeDataCountdown[j]? = some (v + 1) := by
  have hd : dec32 (v + 2) = v + 1 := by simp [dec32]
  rcases update_fifo_cases cfg inp mc mc1 h with ⟨h0, a, rest, e1, e2, e3, _, _⟩ |
      ⟨h0, e2, e3, _, _⟩
  · cases hcd : mc.writeDataCountdown with
    | nil => rw [hcd] at hc; simp at hc
    | cons c cs =>
      rw [hcd] at hc h0 e3
      rw [e1] at hs
      cases i with
      | zero =>
        simp only [List.getElem?_cons_zero, Option.some.injEq] at hc
        simp only [List.map_cons, List.head?_cons, Option.some.injEq] at h0
        rw [hc, hd] at h0
        cases h0
      | succ j =>
        simp only [List.getElem?_cons_succ] at hc hs
        refine ⟨j, ?_, ?_⟩
        · rw [e2]
          exact getElem?_append_some _ _ _ _ hs
        · rw [e3]
          apply getElem?_append_some
          simp only [List.map_cons, List.tail_cons, List.getElem?_map, hc, Option.map_some', hd]
  · refine ⟨i, ?_, ?_⟩
    · rw [e2]
      exact getElem?_append_some _ _ _ _ hs
    · rw [e3]
      apply getElem?_append_some
      simp only [List.getElem?_map, hc, Option.map_some', hd]

/-- A packet in the FIFO with a countdown above the number of cycles of a run is still in
the FIFO after the run, with the countdown lowered by that number. -/
theorem tracked_run (cfg : Config) (hW : 1 ≤ cfg.WL) (d : BusPacket) : ∀ (es : List Event)
    (mc mc1 : MemoryController) (i v : Nat), FifoInv cfg mc →
    mc.writeDataToSend[i]? = some d →
    mc.writeDataCountdown[i]? = some (cycleCount es + v + 1) →
    run cfg mc es = Except.ok mc1 →
    (∃ j : Nat, mc1.writeDataToSend[j]? = some d ∧ mc1.writeDataCountdown[j]? = some (v + 1)) ∧
    mc1.currentClockCycle = mc.currentClockCycle + cycleCount es ∧ FifoInv cfg mc1
  | [], mc, mc1, i, v, hi, hs, hc, h => by
    simp only [run, Except.ok.injEq] at h
    subst h
    simp only [cycleCount] at hc ⊢
    exact ⟨⟨i, hs, by rw [hc]; congr 1; omega⟩, rfl, hi⟩
  | e :: es, mc, mc1, i, v, hi, hs, hc, h => by
    obtain ⟨m2, h2, hr⟩ := run_cons_ok cfg mc mc1 e es h
    have hi2 := FifoInv_step cfg hW mc e m2 hi h2
    rcases cycle_or_other e with ⟨inp, rfl⟩ | hne
    · obtain ⟨m3, hu, rfl⟩ := applyEvent_cycle_ok cfg mc m2 inp h2
      simp only [cycleCount] at hc ⊢
      obtain ⟨j, a, b⟩ := tracked_update cfg inp mc m3 d i (cycleCount es + v) hs
        (by rw [hc]; congr 1; omega) hu
      obtain ⟨c1, c2, c3⟩ := tracked_run cfg hW d es
        { m3 with currentClockCycle := m3.currentClockCycle + 1 } mc1 j v hi2 a
        (by rw [show ({ m3 with currentClockCycle := m3.currentClockCycle + 1 } :
          MemoryController).writeDataCountdown = m3.writeDataCountdown from rfl, b]) hr
      refine ⟨c1, ?_, c3⟩
      rw [c2]
      show m3.currentClockCycle + 1 + cycleCount es = _
      rw [(update_epoch cfg inp mc m3 hu).1]
      omega
    · obtain ⟨a, b, _, _⟩ := applyEvent_other_fifo cfg mc m2 e hne h2
      obtain ⟨_, c, _, _⟩ := applyEvent_other_wire cfg mc m2 e hne h2
      rw [cycleCount_other e es hne] at hc ⊢
      obtain ⟨c1, c2, c3⟩ := tracked_run cfg hW d es m2 mc1 i v hi2 (by rw [a, hs])
        (by rw [b, hc]) hr
      exact ⟨c1, by rw [c2, c], c3⟩

/-- A packet of the FIFO whose countdown is 1 is the head of the FIFO. -/
theorem tracked_head (cfg : Config) (mc : MemoryController) (d : BusPacket) (j : Nat)
    (hi : FifoInv cfg mc) (hs : mc.writeDataToSend[j]? = some d)
    (hc : mc.writeDataCountdown[j]? = some 1) :
    (mc.writeDataCountdown.map dec32).head? = some 0 ∧
    ∃ rest, mc.writeDataToSend = d :: rest := by
  obtain ⟨_, hp, hb⟩ := hi
  have hj : j = 0 := by
    by_contra hne
    cases hcd : mc.writeDataCountdown with
    | nil => rw [hcd] at hc; simp at hc
    | cons c cs =>
      rw [hcd] at hc hp hb
      obtain ⟨k, rfl⟩ : ∃ k, j = k + 1 := ⟨j - 1, by omega⟩
      simp only [List.getElem?_cons_succ] at hc
      rw [List.pairwise_cons] at hp
      have h1 := hp.1 1 (List.getElem?_mem hc)
      have h2 := (hb c (List.mem_cons_self _ _)).1
      omega
  subst hj
  constructor
  · cases hcd : mc.writeDataCountdown with
    | nil => rw [hcd] at hc; simp at hc
    | cons c cs =>
      rw [hcd] at hc
      simp only [List.getElem?_cons_zero, Option.some.injEq] at hc
      simp [hc, dec32]
  · cases hsd : mc.writeDataToSend with
    | nil => rw [hsd] at hs; simp at hs
    | cons a rest =>
      rw [hsd] at hs
      simp only [List.getElem?_cons_zero, Option.some.injEq] at hs
      exact ⟨rest, by rw [hs]⟩

/-- The packets placed by a run followed by those still waiting are the packets that were
waiting followed by those of the writes popped in the run. -/
theorem fifo_order (cfg : Config) : ∀ (es : List Event) (mc mc2 : MemoryController),
    run cfg mc es = Except.ok mc2 →
    dataPlaced cfg mc es ++ mc2.writeDataToSend = mc.writeDataToSend ++ writesPopped es
  | [], mc, mc2, h => by
    simp only [run, Except.ok.injEq] at h
    subst h
    simp [dataPlaced, writesPopped]
  | e :: es, mc, mc2, h => by
    obtain ⟨m2, h2, hr⟩ := run_cons_ok cfg mc mc2 e es h
    have ih := fifo_order cfg es m2 mc2 hr
    have hd : dataPlaced cfg mc (e :: es) = placedIn mc e ++ dataPlaced cfg m2 es := by
      simp only [dataPlaced, h2]
    rw [hd, List.append_assoc, ih]
    rcases cycle_or_other e with ⟨inp, rfl⟩ | hne
    · obtain ⟨m3, hu, rfl⟩ := applyEvent_cycle_ok cfg mc m2 inp h2
      show placedNow mc ++ (m3.writeDataToSend ++ writesPopped es)
        = mc.writeDataToSend ++ (poppedWrite inp ++ writesPopped es)
      rcases update_fifo_cases cfg inp mc m3 hu with ⟨h0, a, rest, e1, e2, _, _, _⟩ |
          ⟨h0, e2, _, _, _⟩
      · rw [e2]
        unfold placedNow
        rw [if_pos h0, e1]
        simp
      · rw [e2]
        unfold placedNow
        rw [if_neg h0]
        simp
    · obtain ⟨a, _, _, _⟩ := applyEvent_other_fifo cfg mc m2 e hne h2
      rw [a]
      cases e with
      | cycle inp => exact absurd rfl (hne inp)
      | addTransaction t => rfl
      | receiveFromBus p => rfl
      | rankClearsRefreshWaiting r => rfl

/-- The write-data step of an update and `placedNow`: the packet named by `placedNow` is
on the data bus with `dataCyclesLeft = BL/2` after the update; when there is none, the data
bus slot is as the data bus countdown of the update left it. -/
theorem placedNow_update (cfg : Config) (inp : CycleInput) (mc mc1 : MemoryController)
    (h : update cfg inp mc = Except.ok mc1) :
    (∀ d, placedNow mc = [d] →
      mc1.outgoingDataPacket = some d ∧ mc1.dataCyclesLeft = cfg.BL / 2) ∧
    (placedNow mc = [] →
      mc1.outgoingDataPacket
        = (dataBusCountdown (cmdBusCountdown (updateBankStates cfg mc))).outgoingDataPacket ∧
      mc1.dataCyclesLeft
        = (dataBusCountdown (cmdBusCountdown (updateBankStates cfg mc))).dataCyclesLeft) := by
  rcases update_fifo_cases cfg inp mc mc1 h with ⟨h0, a, rest, e1, _, _, e4, e5⟩ |
      ⟨h0, _, _, e4, e5⟩
  · have hp : placedNow mc = [a] := by
      unfold placedNow
      rw [if_pos h0, e1]
      rfl
    constructor
    · intro d hd
      rw [hp] at hd
      simp only [List.cons.injEq, and_true] at hd
      rw [← hd]
      exact ⟨e4, e5⟩
    · intro hd
      rw [hp] at hd
      cases hd
  · have hp : placedNow mc = [] := by
      unfold placedNow
      rw [if_neg h0]
    constructor
    · intro d hd
      rw [hp] at hd
      cases hd
    · intro _
      exact ⟨e4, e5⟩

theorem poppedWrite_write (inp : CycleInput) (p : BusPacket) (hp : inp.popped = some p)
    (hty : p.busPacketType = BusPacketType.WRITE ∨ p.busPacketType = BusPacketType.WRITE_P) :
    poppedWrite inp = [dataPacketOf p] := by
  unfold poppedWrite
  rw [hp]
  dsimp only
  rw [if_pos hty]

/-! ## The auto-precharge timeline of a bank -/

theorem trace_emit (mc : MemoryController) (cs : List ExtCall) :
    mc.trace ⊆ (mc.emit cs).trace :=
  List.subset_append_left _ _

theorem trace_cmdBusCountdown (mc : MemoryController) :
    mc.trace ⊆ (cmdBusCountdown mc).trace := by
  rcases cmdBusCountdown_cases mc with ⟨_, e⟩ | ⟨_, _, _, e⟩ | ⟨_, _, _, e⟩ <;> rw [e]
  · exact List.Subset.refl _
  · exact List.Subset.refl _
  · exact List.subset_append_left _ _

theorem trace_dataBusCountdown (mc : MemoryController) :
    mc.trace ⊆ (dataBusCountdown mc).trace := by
  unfold dataBusCountdown
  split
  · exact List.Subset.refl _
  · dsimp only
    split
    · exact List.subset_append_left _ _
    · exact List.Subset.refl _

theorem trace_writeDataStep (cfg : Config) (mc mc1 : MemoryController)
    (h : writeDataStep cfg mc = Except.ok mc1) : mc1.trace = mc.trace := by
  unfold writeDataStep at h
  split at h
  · dsimp only at h
    split at h
    · split at h
      · cases h
      · split at h
        · cases h
        · cases h
          rfl
    · cases h
      rfl
  · cases h
    rfl

theorem trace_refreshStep (cfg : Config) (mc : MemoryController) :
    mc.trace ⊆ (refreshStep cfg mc).trace := by
  unfold refreshStep
  split
  · exact List.subset_append_left _ _
  · split
    · exact List.subset_append_left _ _
    · exact List.Subset.refl _

theorem trace_popStep (cfg : Config) (inp : CycleInput) (mc mc1 : MemoryController)
    (h : popStep cfg inp mc = Except.ok mc1) : mc1.trace = mc.trace := by
  unfold popStep at h
  split at h
  · cases h
    rfl
  · split at h
    · cases h
    · split at h
      · cases h
      · cases h
        unfold pushWriteData
        split <;> rfl

theorem trace_constructSchedule (cfg : Config) (mc mc1 : MemoryController) (clk : Nat)
    (h : constructSchedule cfg mc clk = Except.ok mc1) : mc1.trace = mc.trace := by
  unfold constructSchedule at h
  split at h
  · cases h
    rfl
  · dsimp only at h
    split at h
    · cases h
    · split at h
      · cases h
      · cases h
        rfl

theorem trace_dispatchDemand (cfg : Config) (inp : CycleInput) (mc mc1 : MemoryController)
    (e : Bool) (h : dispatchDemand cfg inp mc = Except.ok (e, mc1)) :
    mc.trace ⊆ mc1.trace := by
  rcases dispatchDemand_pair cfg inp mc mc1 e h with ⟨_, rfl⟩ | ⟨_, t, bp, _, ht⟩
  · exact List.Subset.refl _
  · rw [ht]
    exact List.subset_append_left _ _

theorem trace_dispatchPrefetch (cfg : Config) (inp : CycleInput) (mc mc1 : MemoryController)
    (h : dispatchPrefetch cfg inp mc = Except.ok mc1) : mc.trace ⊆ mc1.trace := by
  unfold dispatchPrefetch at h
  dsimp only at h
  split at h
  · cases h
    exact List.Subset.refl _
  · split at h
    · cases h
    · cases h
      split <;> exact List.subset_append_left _ _

theorem trace_dispatchReq (cfg : Config) (inp : CycleInput) (mc mc1 : MemoryController)
    (clk : Nat) (h : dispatchReq cfg inp mc clk = Except.ok mc1) : mc.trace ⊆ mc1.trace := by
  unfold dispatchReq at h
  split at h
  · cases h
    exact List.Subset.refl _
  · split at h
    · cases h
    · rename_i e mcd hd
      have h1 := trace_dispatchDemand cfg inp mc mcd e hd
      split at h
      · split at h
        · cases h
        · rename_i mcp hp
          cases h
          exact List.Subset.trans h1 (trace_dispatchPrefetch cfg inp mcd mcp hp)
      · cases h
        exact h1

theorem trace_returnStep (cfg : Config) (mc mc1 : MemoryController)
    (h : returnStep cfg mc = Except.ok mc1) : mc.trace ⊆ mc1.trace := by
  rcases returnStep_ok cfg mc mc1 h with ⟨_, rfl⟩ | ⟨hd, rest, i, t, m, _, _, hm, rfl⟩
  · exact List.Subset.refl _
  · obtain ⟨_, e, _⟩ := insertHistogram_ok cfg mc m _ _ _ _ _ hm
    rw [e]
    exact List.subset_append_left _ _

/-- What the power-state governor does for rank `i`: it changes no countdown, last command
or open row; it changes the state of no bank of another rank; and it changes the state of
a bank of rank `i` only with a call of `powerDown()` or `powerUp()` on that rank. -/
theorem powerRank_trace (cfg : Config) (inp : CycleInput) (i : Nat) (mc : MemoryController) :
    mc.trace ⊆ (powerRank cfg inp i mc).trace ∧
    (powerRank cfg inp i mc).currentClockCycle = mc.currentClockCycle ∧
    (∀ a j, ((powerRank cfg inp i mc).bankStates a j).stateChangeCountdown
        = (mc.bankStates a j).stateChangeCountdown ∧
      ((powerRank cfg inp i mc).bankStates a j).lastCommand = (mc.bankStates a j).lastCommand ∧
      (a ≠ i → ((powerRank cfg inp i mc).bankStates a j).currentBankState
        = (mc.bankStates a j).currentBankState)) ∧
    ((powerRank cfg inp i mc).bankStates = mc.bankStates ∨
      (mc.currentClockCycle, ExtCall.rankPowerDown i) ∈ (powerRank cfg inp i mc).trace ∨
      (mc.currentClockCycle, ExtCall.rankPowerUp i) ∈ (powerRank cfg inp i mc).trace) := by
  unfold powerRank
  split
  · split
    · split
      · refine ⟨trace_emit _ _, rfl, ?_, Or.inr (Or.inl ?_)⟩
        · intro a j
          dsimp only [MemoryController.emit]
          rw [forBanksOfRank_apply]
          refine ⟨?_, ?_, ?_⟩
          · split
            · rename_i ha
              split <;> rw [ha]
            · rfl
          · split
            · rename_i ha
              split <;> rw [ha]
            · rfl
          · intro ha
            rw [if_neg ha]
        · simp [MemoryController.emit]
      · exact ⟨List.Subset.refl _, rfl, fun a j => ⟨rfl, rfl, fun _ => rfl⟩, Or.inl rfl⟩
    · split
      · refine ⟨trace_emit _ _, rfl, ?_, Or.inr (Or.inr ?_)⟩
        · intro a j
          dsimp only [MemoryController.emit]
          rw [forBanksOfRank_apply]
          refine ⟨?_, ?_, ?_⟩
          · split
            · rename_i ha
              split <;> rw [ha]
            · rfl
          · split
            · rename_i ha
              split <;> rw [ha]
            · rfl
          · intro ha
            rw [if_neg ha]
        · simp [MemoryController.emit]
      · exact ⟨List.Subset.refl _, rfl, fun a j => ⟨rfl, rfl, fun _ => rfl⟩, Or.inl rfl⟩
  · exact ⟨List.Subset.refl _, rfl, fun a j => ⟨rfl, rfl, fun _ => rfl⟩, Or.inl rfl⟩

/-- The same for the loop over the first `n` ranks. -/
theorem powerLoop_trace (cfg : Config) (inp : CycleInput) (mc : MemoryController) (r b : Nat) :
    ∀ n, mc.trace ⊆ (forLoop (powerRank cfg inp) n mc).trace ∧
    (forLoop (powerRank cfg inp) n mc).currentClockCycle = mc.currentClockCycle ∧
    ((forLoop (powerRank cfg inp) n mc).bankStates r b).stateChangeCountdown
      = (mc.bankStates r b).stateChangeCountdown ∧
    ((forLoop (powerRank cfg inp) n mc).bankStates r b).lastCommand
      = (mc.bankStates r b).lastCommand ∧
    (((forLoop (powerRank cfg inp) n mc).bankStates r b).currentBankState
        = (mc.bankStates r b).currentBankState ∨
      (mc.currentClockCycle, ExtCall.rankPowerDown r)
        ∈ (forLoop (powerRank cfg inp) n mc).trace ∨
      (mc.currentClockCycle, ExtCall.rankPowerUp r)
        ∈ (forLoop (powerRank cfg inp) n mc).trace)
  | 0 => ⟨List.Subset.refl _, rfl, rfl, rfl, Or.inl rfl⟩
  | n + 1 => by
    obtain ⟨i1, i2, i3, i4, i5⟩ := powerLoop_trace cfg inp mc r b n
    obtain ⟨p1, p2, p3, p4⟩ := powerRank_trace cfg inp n (forLoop (powerRank cfg inp) n mc)
    obtain ⟨q1, q2, q3⟩ := p3 r b
    simp only [forLoop]
    refine ⟨List.Subset.trans i1 p1, by rw [p2, i2], by rw [q1, i3], by rw [q2, i4], ?_⟩
    rcases i5 with i5 | i5 | i5
    · by_cases hn : r = n
      · subst hn
        rcases p4 with p4 | p4 | p4
        · left
          rw [p4, i5]
        · right; left
          rw [← i2]
          exact p4
        · right; right
          rw [← i2]
          exact p4
      · left
        rw [q3 hn, i5]
    · exact Or.inr (Or.inl (p1 i5))
    · exact Or.inr (Or.inr (p1 i5))

/-- The trace of a successful update extends the trace before it. -/
theorem trace_update (cfg : Config) (inp : CycleInput) (mc mc1 : MemoryController)
    (h : update cfg inp mc = Except.ok mc1) : mc.trace ⊆ mc1.trace := by
  obtain ⟨mc2, mc3, mc4, mc5, mc6, h2, h3, h4, h5, h6, rfl⟩ := update_ok cfg inp mc mc1 h
  have a1 : mc.trace ⊆ mc2.trace := by
    rw [trace_writeDataStep cfg _ mc2 h2]
    exact List.Subset.trans (trace_cmdBusCountdown (updateBankStates cfg mc))
      (trace_dataBusCountdown _)
  have a2 : mc2.trace ⊆ mc3.trace := by
    rw [trace_popStep cfg inp _ mc3 h3]
    exact trace_refreshStep cfg mc2
  have a3 : mc3.trace ⊆ mc5.trace := by
    have := trace_dispatchReq cfg inp mc4 mc5 _ h5
    rw [trace_constructSchedule cfg mc3 mc4 _ h4] at this
    exact this
  have a4 : mc5.trace ⊆ mc6.trace :=
    List.Subset.trans (powerLoop_trace cfg inp mc5 0 0 cfg.NUM_RANKS).1
      (trace_returnStep cfg _ mc6 h6)
  exact List.Subset.trans a1 (List.Subset.trans a2 (List.Subset.trans a3 a4))

theorem trace_run (cfg : Config) (es : List Event) (mc mc1 : MemoryController)
    (h : run cfg mc es = Except.ok mc1) : mc.trace ⊆ mc1.trace := by
  refine run_induction cfg (fun m => mc.trace ⊆ m.trace) ?_ es mc mc1 (List.Subset.refl _) h
  intro m e m1 hi he
  rcases cycle_or_other e with ⟨inp, rfl⟩ | hne
  · obtain ⟨m3, hu, rfl⟩ := applyEvent_cycle_ok cfg m m1 inp he
    exact List.Subset.trans hi (trace_update cfg inp m m3 hu)
  · obtain ⟨_, _, t, _⟩ := applyEvent_other_wire cfg m m1 e hne he
    rw [t]
    exact hi

theorem timingUpdate_autopre (cfg : Config) (c : Nat) (p : BusPacket)
    (bs bs1 : Nat → Nat → BankState)
    (hty : p.busPacketType = BusPacketType.READ_P ∨ p.busPacketType = BusPacketType.WRITE_P)
    (h : timingUpdate cfg c p bs = Except.ok bs1) :
    (bs1 p.rank p.bank).lastCommand = p.busPacketType ∧
    (bs1 p.rank p.bank).stateChangeCountdown = preDelay cfg p.busPacketType := by
  rcases hty with hty | hty
  · rw [timingUpdate_READ_P_eq cfg c p bs hty] at h
    cases h
    rw [hty]
    constructor
    · rw [set2_same]
      simp only [clampToActivate, forBanks]
      rw [mapRange2_proj BankState.lastCommand _ _ _ _
        (fun i _ x => (readOthers_keeps cfg c p.rank i x).2.1), set2_same]
      simp [readSame]
    · rw [set2_same]
      simp only [clampToActivate, forBanks]
      rw [mapRange2_proj BankState.stateChangeCountdown _ _ _ _
        (fun i _ x => (readOthers_keeps cfg c p.rank i x).2.2.1), set2_same]
      simp [readSame, preDelay]
  · rw [timingUpdate_WRITE_P_eq cfg c p bs hty] at h
    cases h
    rw [hty]
    constructor
    · rw [set2_same]
      simp only [clampToActivate, forBanks]
      rw [mapRange2_proj BankState.lastCommand _ _ _ _
        (fun i _ x => (writeOthers_keeps cfg c p.rank i x).2.1), set2_same]
      simp [writeSame]
    · rw [set2_same]
      simp only [clampToActivate, forBanks]
      rw [mapRange2_proj BankState.stateChangeCountdown _ _ _ _
        (fun i _ x => (writeOthers_keeps cfg c p.rank i x).2.2.1), set2_same]
      simp [writeSame, preDelay]

theorem AutoPre_congr (cfg : Config) (D : Nat) (ty : BusPacketType) (k : Nat)
    (a b : BankState) (h1 : b.currentBankState = a.currentBankState)
    (h2 : b.lastCommand = a.lastCommand)
    (h3 : b.stateChangeCountdown = a.stateChangeCountdown) (h : AutoPre cfg D ty k a) :
    AutoPre cfg D ty k b := by
  unfold AutoPre at h ⊢
  rw [h1, h2, h3]
  exact h

/-- One pass of the bank-state loop moves the bank one step along the timeline. -/
theorem AutoPre_step (cfg : Config) (D : Nat) (ty : BusPacketType) (k : Nat) (b : BankState)
    (hty : ty = BusPacketType.READ_P ∨ ty = BusPacketType.WRITE_P)
    (hRP : 1 ≤ cfg.tRP) (hk : k < D + cfg.tRP) (h : AutoPre cfg D ty k b) :
    AutoPre cfg D ty (k + 1) (stepBankState cfg b) := by
  obtain ⟨a1, a2, _⟩ := h
  by_cases hkD : k < D
  · obtain ⟨c1, c2⟩ := a1 hkD
    rcases stepBankState_cases cfg b with ⟨e, _⟩ | ⟨e, s⟩ | ⟨e, _, s⟩ | ⟨e, l, _⟩ | ⟨e, l, l2, _⟩
    · omega
    · rw [s]
      refine ⟨fun _ => ⟨by show b.stateChangeCountdown - 1 = _; omega, c2⟩, ?_, ?_⟩
      · intro h1 _
        omega
      · intro h1
        omega
    · rw [s]
      refine ⟨fun h1 => by omega, ?_, ?_⟩
      · intro _ _
        refine ⟨rfl, rfl, ?_⟩
        show cfg.tRP = _
        omega
      · intro h1
        omega
    · rw [c2] at l
      rcases hty with hty | hty <;> rw [hty] at l <;> rcases l with l | l <;> cases l
    · rw [c2] at l l2
      rcases hty with hty | hty
      · exact absurd hty l
      · exact absurd hty l2
  · obtain ⟨c1, c2, c3⟩ := a2 (by omega) hk
    rcases stepBankState_cases cfg b with ⟨e, _⟩ | ⟨e, s⟩ | ⟨e, l, _⟩ | ⟨e, _, s⟩ | ⟨e, _, _, _, l, _⟩
    · omega
    · rw [s]
      refine ⟨fun h1 => by omega, ?_, ?_⟩
      · intro _ _
        refine ⟨c1, c2, ?_⟩
        show b.stateChangeCountdown - 1 = _
        omega
      · intro h1
        omega
    · rw [c2] at l
      rcases l with l | l <;> cases l
    · rw [s]
      refine ⟨fun h1 => by omega, ?_, ?_⟩
      · intro _ h1
        omega
      · intro _
        exact ⟨rfl, rfl⟩
    · exact absurd c2 l

/-- The bank states through a successful update, with the trace of the power-state
governor. -/
theorem update_bank_trace (cfg : Config) (inp : CycleInput) (mc mc1 : MemoryController)
    (h : update cfg inp mc = Except.ok mc1) :
    ∃ m3 m5 : MemoryController,
      ((inp.popped = none ∧ m3.bankStates = (updateBankStates cfg mc).bankStates) ∨
       (∃ p, inp.popped = some p ∧
         timingUpdate cfg mc.currentClockCycle p (updateBankStates cfg mc).bankStates
           = Except.ok m3.bankStates)) ∧
      m5.bankStates = m3.bankStates ∧ m5.currentClockCycle = mc.currentClockCycle ∧
      mc1.bankStates = (powerStep cfg inp m5).bankStates ∧
      (powerStep cfg inp m5).trace ⊆ mc1.trace := by
  obtain ⟨mc2, mc3, mc4, mc5, mc6, h2, h3, h4, h5, h6, rfl⟩ := update_ok cfg inp mc mc1 h
  have v2 : bankView (refreshStep cfg mc2) = bankView (updateBankStates cfg mc) := by
    rw [bankView_refreshStep, bankView_writeDataStep cfg _ _ h2, bankView_dataBusCountdown,
      bankView_cmdBusCountdown]
  simp only [bankView, Prod.mk.injEq] at v2
  obtain ⟨v21, v22, v23⟩ := v2
  have v5 : bankView mc5 = bankView mc3 := by
    rw [bankView_dispatchReq cfg inp _ _ _ h5, bankView_constructSchedule cfg _ _ _ h4]
  simp only [bankView, Prod.mk.injEq] at v5
  have v6 := bankView_returnStep cfg _ _ h6
  simp only [bankView, Prod.mk.injEq] at v6
  have hp := powerDown_popStep cfg inp _ _ h3
  refine ⟨mc3, mc5, ?_, v5.2.1, ?_, ?_, ?_⟩
  · rcases popStep_bank cfg inp _ _ h3 with ⟨e1, e2⟩ | ⟨p, e1, e2⟩
    · left
      exact ⟨e1, by rw [e2, v22]⟩
    · right
      refine ⟨p, e1, ?_⟩
      rw [v21, v22] at e2
      exact e2
  · rw [v5.1, hp.2, v21]
    rfl
  · show mc6.bankStates = _
    exact v6.2.1
  · exact trace_returnStep cfg _ mc6 h6

/-- An update that pops no command for the bank and does not power-cycle its rank moves
the bank one step along the timeline. -/
theorem AutoPre_update (cfg : Config) (inp : CycleInput) (mc mc1 : MemoryController)
    (D : Nat) (ty : BusPacketType) (k r b : Nat)
    (hty : ty = BusPacketType.READ_P ∨ ty = BusPacketType.WRITE_P)
    (hRP : 1 ≤ cfg.tRP) (hr : r < cfg.NUM_RANKS) (hb : b < cfg.NUM_BANKS)
    (hk : k < D + cfg.tRP) (hA : AutoPre cfg D ty k (mc.bankStates r b))
    (hq : ∀ q, inp.popped = some q → q.rank = r →
      q.bank ≠ b ∧ q.busPacketType ≠ BusPacketType.REFRESH)
    (hpd : (mc.currentClockCycle, ExtCall.rankPowerDown r) ∉ mc1.trace)
    (hpu : (mc.currentClockCycle, ExtCall.rankPowerUp r) ∉ mc1.trace)
    (h : update cfg inp mc = Except.ok mc1) :
    AutoPre cfg D ty (k + 1) (mc1.bankStates r b) := by
  obtain ⟨m3, m5, hpop, e5, c5, e6, t6⟩ := update_bank_trace cfg inp mc mc1 h
  have s1 : AutoPre cfg D ty (k + 1) ((updateBankStates cfg mc).bankStates r b) := by
    rw [updateBankStates_apply cfg mc r b hr hb]
    exact AutoPre_step cfg D ty k _ hty hRP hk hA
  have s3 : AutoPre cfg D ty (k + 1) (m3.bankStates r b) := by
    rcases hpop with ⟨_, e⟩ | ⟨p, e1, e2⟩
    · rw [e]
      exact s1
    · have hij : r ≠ p.rank ∨ (b ≠ p.bank ∧ p.busPacketType ≠ BusPacketType.REFRESH) := by
        by_cases hpr : p.rank = r
        · obtain ⟨x, y⟩ := hq p e1 hpr
          exact Or.inr ⟨fun hh => x hh.symm, y⟩
        · exact Or.inl (fun hh => hpr hh.symm)
      obtain ⟨f1, _, f3, f4⟩ := timingUpdate_other cfg _ p _ _ e2 r b hij
      exact AutoPre_congr cfg D ty (k + 1) _ _ f1 f3 f4 s1
  obtain ⟨_, _, g3, g4, g5⟩ := powerLoop_trace cfg inp m5 r b cfg.NUM_RANKS
  rw [e6]
  rw [← e5] at s3
  rcases g5 with g5 | g5 | g5
  · exact AutoPre_congr cfg D ty (k + 1) _ _ g5 g4 g3 s3
  · rw [c5] at g5
    exact absurd (t6 g5) hpd
  · rw [c5] at g5
    exact absurd (t6 g5) hpu

/-- A run without commands for the bank and without power calls on its rank moves the bank
along the timeline by its number of cycles. -/
theorem AutoPre_run (cfg : Config) (D : Nat) (ty : BusPacketType) (r b : Nat)
    (hty : ty = BusPacketType.READ_P ∨ ty = BusPacketType.WRITE_P) (hRP : 1 ≤ cfg.tRP)
    (hr : r < cfg.NUM_RANKS) (hb : b < cfg.NUM_BANKS) :
    ∀ (es : List Event) (m0 m : MemoryController) (k0 : Nat),
    AutoPre cfg D ty k0 (m0.bankStates r b) → run cfg m0 es = Except.ok m →
    (∀ q ∈ popsOf es, q.rank = r → q.bank ≠ b ∧ q.busPacketType ≠ BusPacketType.REFRESH) →
    (∀ c, m0.currentClockCycle ≤ c →
      (c, ExtCall.rankPowerDown r) ∉ m.trace ∧ (c, ExtCall.rankPowerUp r) ∉ m.trace) →
    k0 + cycleCount es ≤ D + cfg.tRP →
    AutoPre cfg D ty (k0 + cycleCount es) (m.bankStates r b) ∧
    m.currentClockCycle = m0.currentClockCycle + cycleCount es
  | [], m0, m, k0, hA, h, _, _, _ => by
    simp only [run, Except.ok.injEq] at h
    subst h
    exact ⟨hA, rfl⟩
  | e :: es, m0, m, k0, hA, h, hq, hpw, hk => by
    obtain ⟨m2, h2, hrest⟩ := run_cons_ok cfg m0 m e es h
    have htr := trace_run cfg es m2 m hrest
    rcases cycle_or_other e with ⟨inp, rfl⟩ | hne
    · obtain ⟨m3, hu, rfl⟩ := applyEvent_cycle_ok cfg m0 m2 inp h2
      simp only [cycleCount] at hk ⊢
      have hclk := (update_epoch cfg inp m0 m3 hu).1
      have hA1 : AutoPre cfg D ty (k0 + 1) (m3.bankStates r b) := by
        refine AutoPre_update cfg inp m0 m3 D ty k0 r b hty hRP hr hb (by omega) hA ?_ ?_ ?_ hu
        · intro q hqp
          refine hq q ?_
          simp only [popsOf, List.mem_append]
          left
          rw [hqp]
          simp
        · intro hm
          exact (hpw _ (le_refl _)).1 (htr hm)
        · intro hm
          exact (hpw _ (le_refl _)).2 (htr hm)
      obtain ⟨c1, c2⟩ := AutoPre_run cfg D ty r b hty hRP hr hb es
        { m3 with currentClockCycle := m3.currentClockCycle + 1 } m (k0 + 1) hA1 hrest
        (fun q hq1 => hq q (by
          simp only [popsOf, List.mem_append]
          exact Or.inr hq1))
        (fun c hc => hpw c (by
          have : m3.currentClockCycle + 1 ≤ c := hc
          omega))
        (by omega)
      refine ⟨?_, ?_⟩
      · rw [show k0 + (cycleCount es + 1) = k0 + 1 + cycleCount es by omega]
        exact c1
      · rw [c2]
        show m3.currentClockCycle + 1 + cycleCount es = _
        omega
    · obtain ⟨hbk, _⟩ := applyEvent_other_bank cfg m0 m2 e hne h2
      obtain ⟨_, hc, _, _⟩ := applyEvent_other_wire cfg m0 m2 e hne h2
      rw [cycleCount_other e es hne] at hk ⊢
      have hpo : popsOf (e :: es) = popsOf es := by
        cases e with
        | cycle inp => exact absurd rfl (hne inp)
        | addTransaction t => rfl
        | receiveFromBus p => rfl
        | rankClearsRefreshWaiting r => rfl
      rw [hpo] at hq
      obtain ⟨c1, c2⟩ := AutoPre_run cfg D ty r b hty hRP hr hb es m2 m k0
        (by rw [hbk]; exact hA) hrest hq (fun c hcc => hpw c (by rw [← hc]; exact hcc)) hk
      exact ⟨c1, by rw [c2, hc]⟩

/-- The clock after a run is the clock before it plus the number of its cycles. -/
theorem run_clock (cfg : Config) : ∀ (es : List Event) (mc m : MemoryController),
    run cfg mc es = Except.ok m → m.currentClockCycle = mc.currentClockCycle + cycleCount es
  | [], mc, m, h => by
    simp only [run, Except.ok.injEq] at h
    subst h
    rfl
  | e :: es, mc, m, h => by
    obtain ⟨m2, h2, hrest⟩ := run_cons_ok cfg mc m e es h
    have ih := run_clock cfg es m2 m hrest
    rcases cycle_or_other e with ⟨inp, rfl⟩ | hne
    · obtain ⟨m3, hu, rfl⟩ := applyEvent_cycle_ok cfg mc m2 inp h2
      have hclk := (update_epoch cfg inp mc m3 hu).1
      rw [ih]
      show m3.currentClockCycle + 1 + cycleCount es = _
      simp only [cycleCount]
      omega
    · obtain ⟨_, hc, _, _⟩ := applyEvent_other_wire cfg mc m2 e hne h2
      rw [ih, hc, cycleCount_other e es hne]

/-! ## The drain of constructSchedule -/

/-- The transactions that the drain loop leaves in the queue: those of another core and the
prefetches, in queue order. -/
theorem drainLoop_rest (cfg : Config) (turn : Nat) :
    ∀ (tq : List Transaction) (rq : Nat → List Transaction),
      (drainLoop cfg turn tq rq).1
        = tq.filter (fun t => decide (t.core ≠ turn) || t.isPrefetch)
  | [], _ => rfl
  | t :: ts, rq => by
    unfold drainLoop
    split
    · rename_i h
      rw [drainLoop_rest cfg turn ts]
      rw [List.filter_cons_of_neg]
      simp [h.1, h.2]
    · rename_i h
      dsimp only
      rw [drainLoop_rest cfg turn ts rq]
      rw [List.filter_cons_of_pos]
      by_cases hc : t.core = turn
      · have : t.isPrefetch = true := by
          cases hp : t.isPrefetch with
          | true => rfl
          | false => exact absurd ⟨hc, hp⟩ h
        simp [this]
      · simp [hc]

/-- The queue and the per-rank queues after a firing of `constructSchedule` are those the
drain loop leaves. -/
theorem constructSchedule_drain (cfg : Config) (mc mc1 : MemoryController) (clk : Nat)
    (hf : clk = mc.epochStart) (h : constructSchedule cfg mc clk = Except.ok mc1) :
    mc1.turn = (if mc.turn = cfg.NUM_CPU - 1 then 0 else mc.turn + 1) ∧
    mc1.transactionQueue = (drainLoop cfg mc1.turn mc.transactionQueue (mc.rankQ mc1.turn)).1 ∧
    mc1.rankQ = set1 mc.rankQ mc1.turn
      (drainLoop cfg mc1.turn mc.transactionQueue (mc.rankQ mc1.turn)).2 := by
  unfold constructSchedule at h
  rw [if_neg (by simpa using hf)] at h
  dsimp only at h
  split at h
  · cases h
  · split at h
    · cases h
    · cases h
      exact ⟨rfl, rfl, rfl⟩

/-! ## The slot cursor of dispatchReq -/

/-- What an `update()` does to the slot cursor and the dispatch tick. -/
theorem update_cursor (cfg : Config) (inp : CycleInput) (mc mc1 : MemoryController)
    (h : update cfg inp mc = Except.ok mc1) :
    (mc.currentClockCycle ≠ mc.dispatchTick →
      mc1.dispatchTick = mc.dispatchTick ∧ mc1.rankIndx = mc.rankIndx ∧
      mc1.bankIndx = mc.bankIndx) ∧
    (mc.currentClockCycle = mc.dispatchTick →
      mc1.dispatchTick = mc.dispatchTick + cfg.T_RANK ∧
      mc1.rankIndx = (if mc.rankIndx = 2 then 0 else mc.rankIndx + 1) ∧
      mc1.bankIndx = (if mc.rankIndx = 2 then (if mc.bankIndx = 3 then 1 else mc.bankIndx + 1)
                      else mc.bankIndx)) := by
  obtain ⟨mc3, mc4, mc5, v3, h4, h5, v5⟩ := update_sched cfg inp mc mc1 h
  simp only [schedView, Prod.mk.injEq] at v3 v5
  obtain ⟨c1, c2, c3, c4, _, _⟩ := constructSchedule_ok cfg mc3 mc4 _ h4
  obtain ⟨_, _, _, _, d1, d2⟩ := dispatchReq_ok cfg inp mc4 mc5 _ h5
  have k1 : mc4.currentClockCycle = mc.currentClockCycle := by rw [c1, v3.1]
  have k2 : mc4.dispatchTick = mc.dispatchTick := by rw [c2, v3.2.2.1]
  have k3 : mc4.rankIndx = mc.rankIndx := by rw [c3, v3.2.2.2.1]
  have k4 : mc4.bankIndx = mc.bankIndx := by rw [c4, v3.2.2.2.2.1]
  constructor
  · intro hne
    have := d1 (by rw [k1, k2]; exact hne)
    subst this
    exact ⟨by rw [v5.2.2.1, k2], by rw [v5.2.2.2.1, k3], by rw [v5.2.2.2.2.1, k4]⟩
  · intro he
    obtain ⟨e1, e2, e3, _⟩ := d2 (by rw [k1, k2]; exact he)
    exact ⟨by rw [v5.2.2.1, e1, k2], by rw [v5.2.2.2.1, e2, k3],
      by rw [v5.2.2.2.2.1, e3, k3, k4]⟩

theorem cursor_next (n : Nat) :
    (if n % 3 = 2 then 0 else n % 3 + 1) = (n + 1) % 3 ∧
    (if n % 3 = 2 then (if 1 + (n / 3) % 3 = 3 then 1 else 1 + (n / 3) % 3 + 1)
      else 1 + (n / 3) % 3) = 1 + ((n + 1) / 3) % 3 := by
  constructor
  · split <;> omega
  · split
    · split <;> omega
    · omega

theorem CursorAt_step (cfg : Config) (mc : MemoryController) (e : Event)
    (mc1 : MemoryController) (n : Nat) (hI : CursorAt cfg n mc)
    (h : applyEvent cfg mc e = Except.ok mc1) : CursorAt cfg (n + firesIn mc e) mc1 := by
  obtain ⟨i1, i2, i3⟩ := hI
  rcases cycle_or_other e with ⟨inp, rfl⟩ | hne
  · obtain ⟨m3, hu, rfl⟩ := applyEvent_cycle_ok cfg mc mc1 inp h
    obtain ⟨u1, u2⟩ := update_cursor cfg inp mc m3 hu
    show m3.rankIndx = _ ∧ m3.bankIndx = _ ∧ m3.dispatchTick = _
    by_cases hf : mc.currentClockCycle = mc.dispatchTick
    · obtain ⟨a, b, c⟩ := u2 hf
      simp only [firesIn, if_pos hf]
      obtain ⟨n1, n2⟩ := cursor_next n
      refine ⟨?_, ?_, ?_⟩
      · rw [b, i1]
        exact n1
      · rw [c, i1, i2]
        exact n2
      · rw [a, i3, Nat.add_mul, Nat.one_mul]
    · obtain ⟨a, b, c⟩ := u1 hf
      simp only [firesIn, if_neg hf, Nat.add_zero]
      exact ⟨by rw [b, i1], by rw [c, i2], by rw [a, i3]⟩
  · have hs := applyEvent_other cfg mc mc1 e hne h
    have hz : firesIn mc e = 0 := by
      cases e with
      | cycle inp => exact absurd rfl (hne inp)
      | addTransaction t => rfl
      | receiveFromBus p => rfl
      | rankClearsRefreshWaiting r => rfl
    rw [hz, Nat.add_zero]
    exact ⟨by rw [hs.2.2.2.1, i1], by rw [hs.2.2.2.2.1, i2], by rw [hs.2.2.1, i3]⟩

theorem CursorAt_run (cfg : Config) : ∀ (es : List Event) (mc mc1 : MemoryController)
    (n : Nat), CursorAt cfg n mc → run cfg mc es = Except.ok mc1 →
    CursorAt cfg (n + firings cfg mc es) mc1
  | [], mc, mc1, n, hI, h => by
    simp only [run, Except.ok.injEq] at h
    subst h
    exact hI
  | e :: es, mc, mc1, n, hI, h => by
    obtain ⟨m2, h2, hr⟩ := run_cons_ok cfg mc mc1 e es h
    have := CursorAt_run cfg es m2 mc1 _ (CursorAt_step cfg mc e m2 n hI h2) hr
    have hf : firings cfg mc (e :: es) = firesIn mc e + firings cfg m2 es := by
      simp only [firings, h2]
    rw [hf, ← Nat.add_assoc]
    exact this

theorem CursorAt_init (cfg : Config) (boot : Boot) :
    CursorAt cfg 0 (MemoryController.init cfg boot) := by
  refine ⟨rfl, rfl, ?_⟩
  simp [MemoryController.init]

/-- In every reachable state the cursor points at a slot of the schedule. -/
theorem cursor_reachable (cfg : Config) (boot : Boot) (mc : MemoryController)
    (hr : Reachable cfg boot mc) : mc.rankIndx < 3 ∧ 1 ≤ mc.bankIndx ∧ mc.bankIndx ≤ 3 := by
  obtain ⟨es0, h0⟩ := hr
  obtain ⟨a, b, _⟩ := CursorAt_run cfg es0 _ mc 0 (CursorAt_init cfg boot) h0
  omega

/-! ## The two loops of dispatchReq -/

/-- What a front-to-back scan returns: the first accepted element, with its index. -/
theorem scanFirst_some {α : Type} (ok : α → Bool) :
    ∀ (l : List α) (s i : Nat) (x : α), scanFirst ok l s = some (i, x) →
      ∃ k, i = s + k ∧ l[k]? = some x ∧ ok x = true ∧
        ∀ j u, j < k → l[j]? = some u → ok u = false
  | [], s, i, x, h => by simp [scanFirst] at h
  | y :: ys, s, i, x, h => by
    unfold scanFirst at h
    split at h
    · rename_i hy
      simp only [Option.some.injEq, Prod.mk.injEq] at h
      obtain ⟨rfl, rfl⟩ := h
      exact ⟨0, rfl, by simp, hy, fun j u hj => by omega⟩
    · rename_i hy
      obtain ⟨k, e, g, o, f⟩ := scanFirst_some ok ys (s + 1) i x h
      refine ⟨k + 1, by omega, by simpa using g, o, ?_⟩
      intro j u hj hu
      cases j with
      | zero =>
        simp only [List.getElem?_cons_zero, Option.some.injEq] at hu
        rw [← hu]
        simpa using hy
      | succ j =>
        simp only [List.getElem?_cons_succ] at hu
        exact f j u (by omega) hu

theorem scanFirst_none_iff {α : Type} (ok : α → Bool) :
    ∀ (l : List α) (s : Nat), scanFirst ok l s = none → ∀ y ∈ l, ok y = false
  | [], _, _ => by simp
  | y :: ys, s, h => by
    unfold scanFirst at h
    split at h
    · cases h
    · rename_i hy
      intro z hz
      rcases List.mem_cons.mp hz with rfl | hz
      · simpa using hy
      · exact scanFirst_none_iff ok ys (s + 1) h z hz

/-- The demand loop, by the result of its scan. -/
theorem dispatchDemand_cases (cfg : Config) (inp : CycleInput) (mc m : MemoryController)
    (e : Bool) (h : dispatchDemand cfg inp mc = Except.ok (e, m)) :
    ((∀ u ∈ demandQueue mc, accepts cfg inp mc u = false) ∧ e = true ∧ m = mc) ∨
    (∃ i t bp, (demandQueue mc)[i]? = some t ∧ accepts cfg inp mc t = true ∧
      (∀ j u, j < i → (demandQueue mc)[j]? = some u → accepts cfg inp mc u = false) ∧
      getBusPacketType t = Except.ok bp ∧ e = false ∧
      m.sch = set2 mc.sch mc.rankIndx mc.bankIndx (cfg.addressMapping t.address).bank ∧
      m.rankQ = set2 mc.rankQ mc.turn
        (set2 mc.sch mc.rankIndx mc.bankIndx (cfg.addressMapping t.address).bank mc.rankIndx 0)
        ((mc.rankQ mc.turn
          (set2 mc.sch mc.rankIndx mc.bankIndx (cfg.addressMapping t.address).bank
            mc.rankIndx 0)).eraseIdx i) ∧
      m.trace = mc.trace ++ [(mc.currentClockCycle, ExtCall.enqueue (activateOf cfg t)),
        (mc.currentClockCycle, ExtCall.enqueue (columnOf cfg t bp))] ∧
      m.pendingReadTransactions =
        (if t.transactionType = TransactionType.DATA_READ then mc.pendingReadTransactions ++ [t]
         else mc.pendingReadTransactions) ∧
      m.transactionQueue = mc.transactionQueue ∧ m.prevSch = mc.prevSch) := by
  unfold dispatchDemand at h
  dsimp only at h
  split at h
  · rename_i hs
    simp only [Except.ok.injEq, Prod.mk.injEq] at h
    exact Or.inl ⟨scanFirst_none_iff _ _ _ hs, h.1.symm, h.2.symm⟩
  · rename_i i t hs
    obtain ⟨k, ek, g, o, f⟩ := scanFirst_some _ _ _ _ _ hs
    rw [Nat.zero_add] at ek
    subst ek
    split at h
    · cases h
    · split at h
      · cases h
      · rename_i bp hbp
        simp only [Except.ok.injEq, Prod.mk.injEq] at h
        obtain ⟨h1, h2⟩ := h
        subst h2
        refine Or.inr ⟨i, t, bp, g, o, f, hbp, h1.symm, ?_, ?_, ?_, ?_, ?_, ?_⟩
        · split <;> rfl
        · split <;> rfl
        · split <;> rfl
        · by_cases hr : t.transactionType = TransactionType.DATA_READ
          · simp only [if_pos hr]
            rfl
          · simp only [if_neg hr]
            rfl
        · split <;> rfl
        · split <;> rfl

/-- The prefetch loop, by the result of its scan. -/
theorem dispatchPrefetch_cases (cfg : Config) (inp : CycleInput) (mc m : MemoryController)
    (h : dispatchPrefetch cfg inp mc = Except.ok m) :
    ((∀ u ∈ mc.transactionQueue, backfills cfg inp u = false) ∧ m = mc) ∨
    (∃ i t bp, mc.transactionQueue[i]? = some t ∧ backfills cfg inp t = true ∧
      (∀ j u, j < i → mc.transactionQueue[j]? = some u → backfills cfg inp u = false) ∧
      getBusPacketType t = Except.ok bp ∧
      m.transactionQueue = mc.transactionQueue.eraseIdx i ∧
      m.trace = mc.trace ++ [(mc.currentClockCycle, ExtCall.enqueue (activateOf cfg t)),
        (mc.currentClockCycle, ExtCall.enqueue (columnOf cfg t bp))] ∧
      m.pendingReadTransactions =
        (if t.transactionType = TransactionType.DATA_READ then mc.pendingReadTransactions ++ [t]
         else mc.pendingReadTransactions)) := by
  unfold dispatchPrefetch at h
  dsimp only at h
  split at h
  · rename_i hs
    cases h
    exact Or.inl ⟨scanFirst_none_iff _ _ _ hs, rfl⟩
  · rename_i i t hs
    obtain ⟨k, ek, g, o, f⟩ := scanFirst_some _ _ _ _ _ hs
    rw [Nat.zero_add] at ek
    subst ek
    split at h
    · cases h
    · rename_i bp hbp
      cases h
      refine Or.inr ⟨i, t, bp, g, o, f, hbp, ?_, ?_, ?_⟩
      · split <;> rfl
      · split <;> rfl
      · by_cases hr : t.transactionType = TransactionType.DATA_READ
        · simp only [if_pos hr]
          rfl
        · simp only [if_neg hr]
          rfl

/-- A firing of `dispatchReq` is the demand loop, the prefetch loop if the slot stayed
empty, and the cursor update. -/
theorem dispatchReq_fire (cfg : Config) (inp : CycleInput) (mc mc1 : MemoryController)
    (clk : Nat) (hf : clk = mc.dispatchTick)
    (h : dispatchReq cfg inp mc clk = Except.ok mc1) :
    (∃ m, dispatchDemand cfg inp mc = Except.ok (false, m) ∧ mc1 = advanceSlot cfg m) ∨
    (∃ m, dispatchDemand cfg inp mc = Except.ok (true, mc) ∧
      dispatchPrefetch cfg inp mc = Except.ok m ∧ mc1 = advanceSlot cfg m) := by
  unfold dispatchReq at h
  rw [if_neg (by simpa using hf)] at h
  split at h
  · cases h
  · rename_i e m hd
    cases e with
    | false =>
      simp only [Bool.false_eq_true, if_false, Except.ok.injEq] at h
      exact Or.inl ⟨m, hd, h.symm⟩
    | true =>
      simp only [if_true] at h
      have hm : m = mc := by
        rcases dispatchDemand_cases cfg inp mc m true hd with ⟨_, _, e⟩ | ⟨_, _, _, _, _, _, _, e, _⟩
        · exact e
        · cases e
      subst hm
      split at h
      · cases h
      · rename_i m2 hp
        cases h
        exact Or.inr ⟨m2, hd, hp, rfl⟩

theorem dispatchDemand_total (cfg : Config) (inp : CycleInput) (mc : MemoryController)
    (hq : ∀ u ∈ demandQueue mc,
      u.isPrefetch = false ∧ u.transactionType ≠ TransactionType.RETURN_DATA) :
    ∃ e m, dispatchDemand cfg inp mc = Except.ok (e, m) := by
  unfold dispatchDemand
  dsimp only
  split
  · exact ⟨_, _, rfl⟩
  · rename_i i t hs
    obtain ⟨p1, p2⟩ := hq t (scanFirst_mem _ _ _ _ _ hs)
    rw [if_neg (by simp [p1])]
    cases ht : t.transactionType with
    | DATA_READ => simp only [getBusPacketType, ht]; exact ⟨_, _, rfl⟩
    | DATA_WRITE => simp only [getBusPacketType, ht]; exact ⟨_, _, rfl⟩
    | RETURN_DATA => exact absurd ht p2

theorem dispatchPrefetch_total (cfg : Config) (inp : CycleInput) (mc : MemoryController)
    (hq : ∀ u ∈ mc.transactionQueue, u.transactionType ≠ TransactionType.RETURN_DATA) :
    ∃ m, dispatchPrefetch cfg inp mc = Except.ok m := by
  unfold dispatchPrefetch
  dsimp only
  split
  · exact ⟨_, rfl⟩
  · rename_i i t hs
    have p2 := hq t (scanFirst_mem _ _ _ _ _ hs)
    cases ht : t.transactionType with
    | DATA_READ => simp only [getBusPacketType, ht]; exact ⟨_, rfl⟩
    | DATA_WRITE => simp only [getBusPacketType, ht]; exact ⟨_, rfl⟩
    | RETURN_DATA => exact absurd ht p2

theorem dispatchReq_total (cfg : Config) (inp : CycleInput) (mc : MemoryController)
    (clk : Nat)
    (hq : ∀ u ∈ demandQueue mc,
      u.isPrefetch = false ∧ u.transactionType ≠ TransactionType.RETURN_DATA)
    (hp : ∀ u ∈ mc.transactionQueue, u.transactionType ≠ TransactionType.RETURN_DATA) :
    ∃ m, dispatchReq cfg inp mc clk = Except.ok m := by
  unfold dispatchReq
  split
  · exact ⟨_, rfl⟩
  · obtain ⟨e, m, hd⟩ := dispatchDemand_total cfg inp mc hq
    rw [hd]
    dsimp only
    cases e with
    | false => exact ⟨_, rfl⟩
    | true =>
      have hm : m = mc := by
        rcases dispatchDemand_cases cfg inp mc m true hd with ⟨_, _, e⟩ | ⟨_, _, _, _, _, _, _, e, _⟩
        · exact e
        · cases e
      subst hm
      obtain ⟨m2, hp2⟩ := dispatchPrefetch_total cfg inp m hp
      simp only [if_true, hp2]
      exact ⟨_, rfl⟩

/-- The cursor of the state on which an `update()` from a reachable state calls
`dispatchReq` points at a slot of the schedule. -/
theorem cursor_at_dispatch (cfg : Config) (boot : Boot) (mc : MemoryController)
    (hr : Reachable cfg boot mc) (inp : CycleInput) (mc2 mc3 mc4 : MemoryController)
    (h2 : writeDataStep cfg (dataBusCountdown (cmdBusCountdown (updateBankStates cfg mc)))
      = Except.ok mc2)
    (h3 : popStep cfg inp (refreshStep cfg mc2) = Except.ok mc3)
    (h4 : constructSchedule cfg mc3 mc3.currentClockCycle = Except.ok mc4) :
    mc4.rankIndx < 3 ∧ 1 ≤ mc4.bankIndx ∧ mc4.bankIndx ≤ 3 := by
  have v : schedView mc3 = schedView mc := by
    rw [schedView_popStep cfg inp _ _ h3, schedView_refreshStep, schedView_writeDataStep cfg _ _ h2,
      schedView_dataBusCountdown, schedView_cmdBusCountdown, schedView_updateBankStates]
  simp only [schedView, Prod.mk.injEq] at v
  obtain ⟨_, _, c3, c4, _, _⟩ := constructSchedule_ok cfg mc3 mc4 _ h4
  have := cursor_reachable cfg boot mc hr
  rw [c3, c4, v.2.2.2.1, v.2.2.2.2.1]
  exact this

/-! ## The top-3 selection of constructSchedule -/

theorem pairLess_irrefl (a : Nat × Nat) : pairLess a a = false := by
  simp [pairLess]

theorem pairLess_trans (a b c : Nat × Nat) (h1 : pairLess a b = true)
    (h2 : pairLess b c = true) : pairLess a c = true := by
  simp only [pairLess, Bool.or_eq_true, Bool.and_eq_true, decide_eq_true_eq] at h1 h2 ⊢
  omega

/-- `q.top()` is an element of the queue below which no element of the queue lies. -/
theorem pqTop_max : ∀ (q : List (Nat × Nat)) (m : Nat × Nat), pqTop q = some m →
    m ∈ q ∧ ∀ x ∈ q, pairLess m x = false
  | [], m, h => by simp [pqTop] at h
  | x :: xs, m, h => by
    unfold pqTop at h
    split at h
    · rename_i hn
      simp only [Option.some.injEq] at h
      subst h
      have hx : xs = [] := by
        cases xs with
        | nil => rfl
        | cons y ys =>
          obtain ⟨z, hz⟩ := pqTop_some (y :: ys) (by simp)
          rw [hz] at hn
          cases hn
      subst hx
      refine ⟨List.mem_cons_self _ _, ?_⟩
      intro y hy
      simp only [List.mem_singleton] at hy
      subst hy
      exact pairLess_irrefl _
    · rename_i m1 hm1
      obtain ⟨i1, i2⟩ := pqTop_max xs m1 hm1
      split at h
      · rename_i hl
        simp only [Option.some.injEq] at h
        subst h
        refine ⟨List.mem_cons_self _ _, ?_⟩
        intro y hy
        rcases List.mem_cons.mp hy with rfl | hy
        · exact pairLess_irrefl _
        · cases hxy : pairLess x y with
          | false => rfl
          | true =>
            have := pairLess_trans m1 x y hl hxy
            rw [i2 y hy] at this
            cases this
      · rename_i hl
        simp only [Option.some.injEq] at h
        subst h
        refine ⟨List.mem_cons_of_mem _ i1, ?_⟩
        intro y hy
        rcases List.mem_cons.mp hy with rfl | hy
        · simpa using hl
        · exact i2 y hy

theorem rankBefore_of_not_less (count : Nat → Nat) (a b : Nat)
    (h : pairLess (count a, a) (count b, b) = false) : rankBefore count a b = true := by
  simp only [pairLess, Bool.or_eq_false_iff, Bool.and_eq_false_iff, decide_eq_false_iff_not]
    at h
  simp only [rankBefore, Bool.or_eq_true, Bool.and_eq_true, decide_eq_true_eq]
  omega

theorem rankBefore_total (count : Nat → Nat) (a b : Nat) :
    rankBefore count a b = true ∨ rankBefore count b a = true := by
  simp only [rankBefore, Bool.or_eq_true, Bool.and_eq_true, decide_eq_true_eq]
  omega

theorem rankBefore_trans (count : Nat → Nat) (a b c : Nat) (h1 : rankBefore count a b = true)
    (h2 : rankBefore count b c = true) : rankBefore count a c = true := by
  simp only [rankBefore, Bool.or_eq_true, Bool.and_eq_true, decide_eq_true_eq] at h1 h2 ⊢
  omega

theorem rankBefore_antisymm (count : Nat → Nat) (a b : Nat) (h1 : rankBefore count a b = true)
    (h2 : rankBefore count b a = true) : a = b := by
  simp only [rankBefore, Bool.or_eq_true, Bool.and_eq_true, decide_eq_true_eq] at h1 h2
  omega

/-- The sorted list of the specification starts with any element that comes before all
others. -/
theorem insertionSort_head (count : Nat → Nat) (l : List Nat) (m : Nat) (hm : m ∈ l)
    (hmax : ∀ x ∈ l, rankBefore count m x = true) :
    l.insertionSort (fun a b => rankBefore count a b = true)
      = m :: (l.erase m).insertionSort (fun a b => rankBefore count a b = true) := by
  haveI : IsTotal Nat (fun a b => rankBefore count a b = true) :=
    ⟨fun a b => rankBefore_total count a b⟩
  haveI : IsTrans Nat (fun a b => rankBefore count a b = true) :=
    ⟨fun a b c => rankBefore_trans count a b c⟩
  haveI : IsAntisymm Nat (fun a b => rankBefore count a b = true) :=
    ⟨fun a b => rankBefore_antisymm count a b⟩
  apply List.eq_of_perm_of_sorted (r := fun a b => rankBefore count a b = true)
  · exact (List.perm_insertionSort _ l).trans
      ((List.perm_cons_erase hm).trans
        (List.Perm.cons m (List.perm_insertionSort _ (l.erase m)).symm))
  · exact List.sorted_insertionSort _ l
  · rw [List.sorted_cons]
    refine ⟨?_, List.sorted_insertionSort _ _⟩
    intro b hb
    have hb1 : b ∈ l.erase m := (List.perm_insertionSort _ (l.erase m)).subset hb
    exact hmax b (List.mem_of_mem_erase hb1)

theorem erase_pair (count : Nat → Nat) (m : Nat) : ∀ (l : List Nat),
    (l.map (fun i => (count i, i))).erase (count m, m)
      = (l.erase m).map (fun i => (count i, i))
  | [] => rfl
  | a :: l => by
    by_cases h : a = m
    · subst h
      simp
    · have h1 : ((count a, a) == (count m, m)) = false := by
        rw [beq_eq_false_iff_ne]
        intro hc
        exact h (Prod.mk.inj hc).2
      have h2 : (a == m) = false := by
        rw [beq_eq_false_iff_ne]
        exact h
      rw [List.map_cons, List.erase_cons, h1, List.erase_cons, h2]
      simp only [Bool.false_eq_true, if_false, List.map_cons]
      rw [erase_pair count m l]

/-- Taking the top of the priority queue `n` times gives the first `n` elements of the
sorted list of the specification. -/
theorem topThreeLoop_sorted (count : Nat → Nat) : ∀ (n : Nat) (l : List Nat),
    l.Nodup → n ≤ l.length →
    topThreeLoop n (l.map (fun i => (count i, i)))
      = Except.ok ((l.insertionSort (fun a b => rankBefore count a b = true)).take n)
  | 0, l, _, _ => by simp [topThreeLoop]
  | n + 1, l, hnd, hlen => by
    have hne : l.map (fun i => (count i, i)) ≠ [] := by
      intro hc
      rw [List.map_eq_nil_iff] at hc
      rw [hc] at hlen
      simp at hlen
    obtain ⟨p, hp⟩ := pqTop_some _ hne
    obtain ⟨hmem, hmax⟩ := pqTop_max _ p hp
    rw [List.mem_map] at hmem
    obtain ⟨m, hm, rfl⟩ := hmem
    have herase := erase_pair count m l
    have hR : ∀ x ∈ l, rankBefore count m x = true := by
      intro x hx
      exact rankBefore_of_not_less count m x (hmax _ (List.mem_map_of_mem _ hx))
    have ih := topThreeLoop_sorted count n (l.erase m) (hnd.erase m)
      (by rw [List.length_erase_of_mem hm]; omega)
    unfold topThreeLoop
    rw [hp]
    dsimp only
    rw [herase, ih, insertionSort_head count l m hm hR]
    rfl

theorem selectTopThree_sorted (cfg : Config) (pk count : Nat → Nat)
    (hpk : ∀ i, i < cfg.NUM_RANKS → pk i = count i) (hR : 3 ≤ cfg.NUM_RANKS) :
    selectTopThree cfg pk = Except.ok (topThreeSpec cfg.NUM_RANKS count) := by
  unfold selectTopThree topThreeSpec
  have e : (List.range cfg.NUM_RANKS).map (fun i => (pk i, i))
      = (List.range cfg.NUM_RANKS).map (fun i => (count i, i)) := by
    apply List.map_congr_left
    intro i hi
    rw [hpk i (List.mem_range.mp hi)]
  rw [e]
  exact topThreeLoop_sorted count 3 _ (List.nodup_range _) (by rw [List.length_range]; exact hR)

theorem topThreeSpec_props (n : Nat) (count : Nat → Nat) (hn : 3 ≤ n) :
    (topThreeSpec n count).length = 3 ∧ (topThreeSpec n count).Nodup ∧
    ∀ x ∈ topThreeSpec n count, x < n := by
  unfold topThreeSpec
  have hp := List.perm_insertionSort (fun a b => rankBefore count a b = true) (List.range n)
  refine ⟨?_, ?_, ?_⟩
  · rw [List.length_take, List.length_insertionSort, List.length_range]
    omega
  · exact List.Nodup.sublist (List.take_sublist _ _) (hp.nodup_iff.mpr (List.nodup_range n))
  · intro x hx
    exact List.mem_range.mp (hp.subset (List.mem_of_mem_take hx))

/-! ## The rank placement of constructSchedule: stickiness pass and fill pass -/

theorem placedRanks_set2 (rb : Nat) (s : Nat → Nat → Nat) (i y : Nat) (hi : i < 3)
    (hs : s i 0 = rb) (hy : y ≠ rb) :
    (placedRanks rb (set2 s i 0 y)).Perm (y :: placedRanks rb s) := by
  have h3 : i = 0 ∨ i = 1 ∨ i = 2 := by omega
  rw [List.perm_iff_count]
  intro a
  rcases h3 with rfl | rfl | rfl <;>
    by_cases h0 : s 0 0 = rb <;> by_cases h1 : s 1 0 = rb <;> by_cases h2 : s 2 0 = rb <;>
    simp [placedRanks, set2, hs, hy, h0, h1, h2, List.count_cons] <;> omega

theorem stickyScan_perm (prev : Nat) : ∀ (l : List Nat) (y : Nat) (rest : List Nat),
    stickyScan prev l = some (y, rest) → y = prev ∧ l.Perm (y :: rest)
  | [], y, rest, h => by simp [stickyScan] at h
  | x :: xs, y, rest, h => by
    simp only [stickyScan] at h
    split at h
    · rename_i hx
      simp only [Option.some.injEq, Prod.mk.injEq] at h
      obtain ⟨rfl, rfl⟩ := h
      exact ⟨hx.symm, List.Perm.refl _⟩
    · split at h
      · cases h
      · rename_i y1 r1 h1
        simp only [Option.some.injEq, Prod.mk.injEq] at h
        obtain ⟨rfl, rfl⟩ := h
        obtain ⟨a1, a2⟩ := stickyScan_perm prev xs y1 r1 h1
        exact ⟨a1, (List.Perm.cons x a2).trans (List.Perm.swap _ _ _)⟩

/-- The scan of the stickiness pass finds `prev` when it is in the list. -/
theorem stickyScan_found (prev : Nat) : ∀ (l : List Nat), prev ∈ l →
    ∃ rest, stickyScan prev l = some (prev, rest)
  | [], h => by simp at h
  | x :: xs, h => by
    simp only [stickyScan]
    by_cases hx : prev = x
    · rw [if_pos hx]
      exact ⟨xs, by rw [hx]⟩
    · rw [if_neg hx]
      have hm : prev ∈ xs := by
        rcases List.mem_cons.mp h with e | e
        · exact absurd e hx
        · exact e
      obtain ⟨rest, hr⟩ := stickyScan_found prev xs hm
      rw [hr]
      exact ⟨x :: rest, rfl⟩

/-- One row of the stickiness pass keeps the placed ranks together with the ranks left a
rearrangement of the top-3. -/
theorem stickyRow_perm (rb : Nat) (prevSch : Nat → Nat → Nat) (n : Nat)
    (st : (Nat → Nat → Nat) × List Nat) (hn : n < 3)
    (h1 : ∀ k, n ≤ k → k < 3 → st.1 k 0 = rb) (h3 : ∀ x ∈ st.2, x ≠ rb) :
    (placedRanks rb (stickyRow prevSch n st).1 ++ (stickyRow prevSch n st).2).Perm
      (placedRanks rb st.1 ++ st.2) := by
  unfold stickyRow
  split
  · exact List.Perm.refl _
  · rename_i y rest hs
    obtain ⟨_, hp⟩ := stickyScan_perm _ _ _ _ hs
    obtain ⟨a1, _, _⟩ := stickyScan_some _ _ _ _ hs
    have hq := placedRanks_set2 rb st.1 n y hn (h1 n (Nat.le_refl _) hn) (h3 y a1)
    show (placedRanks rb (set2 st.1 n 0 y) ++ rest).Perm _
    refine (List.Perm.append_right rest hq).trans ?_
    refine List.Perm.trans ?_ (List.Perm.append_left _ hp.symm)
    exact (List.perm_middle).symm

/-- The inner loop of the fill pass, entered with as many ranks left as rows unset: it
completes, leaves no rank, gives the ranks left, in their order, to the unset rows, in
increasing order, and leaves the other rows as they are. -/
theorem fillInner_spec (rb : Nat) (s : Nat → Nat → Nat) (rest : List Nat)
    (h : unsetRows rb s = rest.length) :
    ∃ s1, fillInner rb (s, rest) = Except.ok (s1, []) ∧
      (unsetRowList rb s).map (fun j => s1 j 0) = rest ∧
      (∀ j, s j 0 ≠ rb → s1 j 0 = s j 0) ∧
      (∀ a b, b ≠ 0 → s1 a b = s a b) := by
  by_cases h0 : s 0 0 = rb <;> by_cases h1 : s 1 0 = rb <;> by_cases h2 : s 2 0 = rb <;>
    rcases rest with _ | ⟨x, _ | ⟨y, _ | ⟨z, _ | ⟨w, r⟩⟩⟩⟩ <;>
    simp [unsetRows, h0, h1, h2] at h <;>
    simp [fillInner, fillRow, set2, h0, h1, h2, unsetRowList, List.filter]
  all_goals
    refine ⟨fun j hj => ?_, fun a b hb => by simp [hb]⟩
    by_cases e0 : j = 0 <;> by_cases e1 : j = 1 <;> by_cases e2 : j = 2 <;> simp_all

theorem fillRow_perm (rb j : Nat) (st st1 : (Nat → Nat → Nat) × List Nat) (hj : j < 3)
    (h3 : ∀ x ∈ st.2, x ≠ rb) (h : fillRow rb j st = Except.ok st1) :
    (placedRanks rb st1.1 ++ st1.2).Perm (placedRanks rb st.1 ++ st.2) := by
  unfold fillRow at h
  split at h
  · rename_i hs
    split at h
    · cases h
    · rename_i x rest hl
      cases h
      have hq := placedRanks_set2 rb st.1 j x hj hs (h3 x (by rw [hl]; simp))
      show (placedRanks rb (set2 st.1 j 0 x) ++ rest).Perm _
      rw [hl]
      exact (List.Perm.append_right rest hq).trans (List.perm_middle).symm
  · cases h
    exact List.Perm.refl _

theorem fillInner_perm (rb : Nat) (st st1 : (Nat → Nat → Nat) × List Nat)
    (h3 : ∀ x ∈ st.2, x ≠ rb) (h : fillInner rb st = Except.ok st1) :
    (placedRanks rb st1.1 ++ st1.2).Perm (placedRanks rb st.1 ++ st.2) := by
  unfold fillInner at h
  split at h
  · cases h
  · rename_i s0 e0
    split at h
    · cases h
    · rename_i s1 e1
      have p0 := fillRow_perm rb 0 st s0 (by omega) h3 e0
      have m0 : ∀ x ∈ s0.2, x ≠ rb := by
        intro x hx
        have : x ∈ placedRanks rb st.1 ++ st.2 := p0.subset (List.mem_append_right _ hx)
        rcases List.mem_append.mp this with hm | hm
        · simp only [placedRanks, List.mem_append] at hm
          rcases hm with (hm | hm) | hm <;> split at hm <;> simp at hm <;> subst hm <;>
            assumption
        · exact h3 x hm
      have p1 := fillRow_perm rb 1 s0 s1 (by omega) m0 e1
      have m1 : ∀ x ∈ s1.2, x ≠ rb := by
        intro x hx
        have : x ∈ placedRanks rb s0.1 ++ s0.2 := p1.subset (List.mem_append_right _ hx)
        rcases List.mem_append.mp this with hm | hm
        · simp only [placedRanks, List.mem_append] at hm
          rcases hm with (hm | hm) | hm <;> split at hm <;> simp at hm <;> subst hm <;>
            assumption
        · exact m0 x hm
      exact (fillRow_perm rb 2 s1 st1 (by omega) m1 h).trans (p1.trans p0)

theorem unsetRowList_length (rb : Nat) (s : Nat → Nat → Nat) :
    (unsetRowList rb s).length = unsetRows rb s := by
  by_cases h0 : s 0 0 = rb <;> by_cases h1 : s 1 0 = rb <;> by_cases h2 : s 2 0 = rb <;>
    simp [unsetRowList, unsetRows, List.filter, h0, h1, h2]

theorem placedRanks_full (rb : Nat) (s : Nat → Nat → Nat)
    (h : (placedRanks rb s).length = 3) :
    placedRanks rb s = [s 0 0, s 1 0, s 2 0] ∧ ∀ i, i < 3 → s i 0 ≠ rb := by
  by_cases h0 : s 0 0 = rb <;> by_cases h1 : s 1 0 = rb <;> by_cases h2 : s 2 0 = rb <;>
    simp [placedRanks, h0, h1, h2] at h
  refine ⟨by simp [placedRanks, h0, h1, h2], ?_⟩
  intro i hi
  have h3 : i = 0 ∨ i = 1 ∨ i = 2 := by omega
  rcases h3 with rfl | rfl | rfl <;> assumption

/-- The fill pass, entered with as many ranks left as rows unset. -/
theorem fillOuter_spec (rb : Nat) (s : Nat → Nat → Nat) (rest : List Nat)
    (h : unsetRows rb s = rest.length) (h3 : ∀ x ∈ rest, x ≠ rb) :
    ∃ s1, fillOuter rb rest.length 0 (s, rest) = Except.ok (s1, []) ∧
      (unsetRowList rb s).map (fun j => s1 j 0) = rest ∧
      (∀ j, s j 0 ≠ rb → s1 j 0 = s j 0) ∧
      (∀ a b, b ≠ 0 → s1 a b = s a b) ∧
      (placedRanks rb s1).Perm (placedRanks rb s ++ rest) := by
  cases rest with
  | nil =>
    refine ⟨s, rfl, ?_, fun _ _ => rfl, fun _ _ _ => rfl, by simp⟩
    have := unsetRowList_length rb s
    rw [h] at this
    rw [List.length_eq_zero.mp this]
    rfl
  | cons x r =>
    obtain ⟨s1, e, p1, p2, p3⟩ := fillInner_spec rb s (x :: r) h
    have pp := fillInner_perm rb (s, x :: r) (s1, []) h3 e
    refine ⟨s1, ?_, p1, p2, p3, by simpa using pp⟩
    simp only [List.length_cons, fillOuter, Nat.zero_lt_succ, if_true, e]
    cases r.length with
    | zero => rfl
    | succ n => simp [fillOuter]

/-- The stickiness pass, entered with the reset schedule and the top-3. -/
theorem sticky_pass (rb : Nat) (prevSch : Nat → Nat → Nat) (sch0 : Nat → Nat → Nat)
    (top3 : List Nat) (h0 : ∀ i, i < 3 → sch0 i 0 = rb) (hlen : top3.length = 3)
    (hne : ∀ x ∈ top3, x ≠ rb) :
    unsetRows rb (forLoop (stickyRow prevSch) 3 (sch0, top3)).1
      = (forLoop (stickyRow prevSch) 3 (sch0, top3)).2.length ∧
    (∀ x ∈ (forLoop (stickyRow prevSch) 3 (sch0, top3)).2, x ≠ rb) ∧
    (placedRanks rb (forLoop (stickyRow prevSch) 3 (sch0, top3)).1 ++
      (forLoop (stickyRow prevSch) 3 (sch0, top3)).2).Perm top3 ∧
    (∀ a b, b ≠ 0 → (forLoop (stickyRow prevSch) 3 (sch0, top3)).1 a b = sch0 a b) := by
  have u : unsetRows rb sch0 = top3.length := by
    simp [unsetRows, h0 0, h0 1, h0 2, hlen]
  obtain ⟨a1, a2, a3⟩ := stickyRow_inv rb prevSch 0 (sch0, top3) (by omega)
    (fun k _ hk => h0 k hk) u hne
  obtain ⟨b1, b2, b3⟩ := stickyRow_inv rb prevSch 1 _ (by omega) a1 a2 a3
  obtain ⟨c1, c2, c3⟩ := stickyRow_inv rb prevSch 2 _ (by omega) b1 b2 b3
  have q0 := stickyRow_perm rb prevSch 0 (sch0, top3) (by omega) (fun k _ hk => h0 k hk) hne
  have q1 := stickyRow_perm rb prevSch 1 _ (by omega) a1 a3
  have q2 := stickyRow_perm rb prevSch 2 _ (by omega) b1 b3
  have e0 : placedRanks rb sch0 = [] := by
    simp [placedRanks, h0 0, h0 1, h0 2]
  refine ⟨c2, c3, ?_, ?_⟩
  · have := q2.trans (q1.trans q0)
    simp only [e0, List.nil_append] at this
    exact this
  · intro a b hb
    simp only [forLoop]
    rw [stickyRow_col _ _ _ _ _ hb, stickyRow_col _ _ _ _ _ hb, stickyRow_col _ _ _ _ _ hb]

/-- The rank placement of `constructSchedule`: stickiness pass, then fill pass. -/
theorem placeRanks_spec (cfg : Config) (prevSch sch0 : Nat → Nat → Nat) (top3 : List Nat)
    (h0 : ∀ i, i < 3 → sch0 i 0 = RB_MAX cfg) (hlen : top3.length = 3)
    (hne : ∀ x ∈ top3, x ≠ RB_MAX cfg) :
    ∃ s1, placeRanks cfg prevSch (sch0, top3) = Except.ok (s1, []) ∧
      (unsetRowList (RB_MAX cfg) (forLoop (stickyRow prevSch) 3 (sch0, top3)).1).map
        (fun j => s1 j 0) = (forLoop (stickyRow prevSch) 3 (sch0, top3)).2 ∧
      (∀ j, (forLoop (stickyRow prevSch) 3 (sch0, top3)).1 j 0 ≠ RB_MAX cfg →
        s1 j 0 = (forLoop (stickyRow prevSch) 3 (sch0, top3)).1 j 0) ∧
      (∀ a b, b ≠ 0 → s1 a b = sch0 a b) ∧
      [s1 0 0, s1 1 0, s1 2 0].Perm top3 ∧
      (∀ i, i < 3 → s1 i 0 ≠ RB_MAX cfg) := by
  obtain ⟨k1, k2, k3, k4⟩ := sticky_pass (RB_MAX cfg) prevSch sch0 top3 h0 hlen hne
  obtain ⟨s1, e, p1, p2, p3, p4⟩ := fillOuter_spec (RB_MAX cfg) _ _ k1 k2
  have hp : (placedRanks (RB_MAX cfg) s1).Perm top3 := p4.trans k3
  obtain ⟨f1, f2⟩ := placedRanks_full (RB_MAX cfg) s1 (by rw [hp.length_eq, hlen])
  refine ⟨s1, ?_, p1, p2, ?_, ?_, f2⟩
  · unfold placeRanks
    exact e
  · intro a b hb
    rw [p3 a b hb, k4 a b hb]
  · rw [← f1]
    exact hp

/-- A firing of `constructSchedule` with at least three ranks, spelled out: the top-3, the
state after the stickiness pass and the schedule after the fill pass. -/
theorem constructSchedule_fire (cfg : Config) (mc : MemoryController) (clk : Nat)
    (hR : 3 ≤ cfg.NUM_RANKS) (hf : clk = mc.epochStart) :
    ∃ top3 s1, selectTopThree cfg (pktsInRank cfg (drain cfg (epochAdvance cfg mc clk)))
        = Except.ok top3 ∧
      top3.length = 3 ∧ top3.Nodup ∧ (∀ x ∈ top3, x < cfg.NUM_RANKS) ∧
      placeRanks cfg (drain cfg (epochAdvance cfg mc clk)).prevSch
        ((drain cfg (epochAdvance cfg mc clk)).sch, top3) = Except.ok (s1, []) ∧
      constructSchedule cfg mc clk
        = Except.ok { drain cfg (epochAdvance cfg mc clk) with sch := s1 } ∧
      (unsetRowList (RB_MAX cfg)
          (forLoop (stickyRow (drain cfg (epochAdvance cfg mc clk)).prevSch) 3
            ((drain cfg (epochAdvance cfg mc clk)).sch, top3)).1).map (fun j => s1 j 0)
        = (forLoop (stickyRow (drain cfg (epochAdvance cfg mc clk)).prevSch) 3
            ((drain cfg (epochAdvance cfg mc clk)).sch, top3)).2 ∧
      (∀ j, (forLoop (stickyRow (drain cfg (epochAdvance cfg mc clk)).prevSch) 3
            ((drain cfg (epochAdvance cfg mc clk)).sch, top3)).1 j 0 ≠ RB_MAX cfg →
        s1 j 0 = (forLoop (stickyRow (drain cfg (epochAdvance cfg mc clk)).prevSch) 3
            ((drain cfg (epochAdvance cfg mc clk)).sch, top3)).1 j 0) ∧
      (∀ a b, b ≠ 0 → s1 a b = (drain cfg (epochAdvance cfg mc clk)).sch a b) ∧
      [s1 0 0, s1 1 0, s1 2 0].Perm top3 ∧
      (∀ i, i < 3 → s1 i 0 ≠ RB_MAX cfg) := by
  obtain ⟨top3, hsel, hlen⟩ := selectTopThree_total cfg
    (pktsInRank cfg (drain cfg (epochAdvance cfg mc clk))) hR
  have hlt := selectTopThree_lt cfg _ top3 hsel
  have h0 : ∀ i, i < 3 → (drain cfg (epochAdvance cfg mc clk)).sch i 0 = RB_MAX cfg := by
    intro i hi
    simp [drain, epochAdvance, mapRange2, hi]
  obtain ⟨s1, e, p1, p2, p3, p4, p5⟩ := placeRanks_spec cfg
    (drain cfg (epochAdvance cfg mc clk)).prevSch (drain cfg (epochAdvance cfg mc clk)).sch
    top3 h0 hlen (fun x hx => lt_ranks_ne_RB_MAX cfg x (hlt x hx))
  have hnd : top3.Nodup := by
    have e1 := selectTopThree_sorted cfg _
      (pktsInRank cfg (drain cfg (epochAdvance cfg mc clk))) (fun _ _ => rfl) hR
    rw [hsel] at e1
    cases e1
    exact (topThreeSpec_props _ _ hR).2.1
  refine ⟨top3, s1, hsel, hlen, hnd, hlt, e, ?_, p1, p2, p3, p4, p5⟩
  unfold constructSchedule
  rw [if_neg (by simpa using hf)]
  dsimp only
  rw [hsel]
  dsimp only
  rw [e]

theorem stickyRow_other (prevSch : Nat → Nat → Nat) (n : Nat)
    (st : (Nat → Nat → Nat) × List Nat) (k : Nat) (hk : k ≠ n) :
    (stickyRow prevSch n st).1 k 0 = st.1 k 0 := by
  unfold stickyRow
  split
  · rfl
  · show set2 st.1 n 0 _ k 0 = _
    simp [set2, hk]

theorem stickyRow_hit (prevSch : Nat → Nat → Nat) (n : Nat)
    (st : (Nat → Nat → Nat) × List Nat) (h : prevSch n 0 ∈ st.2) :
    (stickyRow prevSch n st).1 n 0 = prevSch n 0 := by
  obtain ⟨rest, hr⟩ := stickyScan_found (prevSch n 0) st.2 h
  unfold stickyRow
  rw [hr]
  show set2 st.1 n 0 _ n 0 = _
  simp [set2]

theorem stickyRow_mem (prevSch : Nat → Nat → Nat) (n : Nat)
    (st : (Nat → Nat → Nat) × List Nat) (x : Nat) (hx : x ∈ st.2) (hne : x ≠ prevSch n 0) :
    x ∈ (stickyRow prevSch n st).2 := by
  unfold stickyRow
  split
  · exact hx
  · rename_i y rest hs
    obtain ⟨hy, hp⟩ := stickyScan_perm _ _ _ _ hs
    have := hp.subset hx
    rcases List.mem_cons.mp this with e | e
    · rw [hy] at e
      exact absurd e hne
    · exact e

/-- The stickiness pass gives every row whose previous rank is in the top-3 that rank,
when the previous ranks of different rows that are in the top-3 are different. -/
theorem sticky_keeps (prevSch sch0 : Nat → Nat → Nat) (top3 : List Nat)
    (hd : ∀ i j, i < 3 → j < 3 → i ≠ j → prevSch i 0 = prevSch j 0 → prevSch i 0 ∉ top3)
    (i : Nat) (hi : i < 3) (hm : prevSch i 0 ∈ top3) :
    (forLoop (stickyRow prevSch) 3 (sch0, top3)).1 i 0 = prevSch i 0 := by
  simp only [forLoop]
  have h3 : i = 0 ∨ i = 1 ∨ i = 2 := by omega
  rcases h3 with rfl | rfl | rfl
  · rw [stickyRow_other _ _ _ _ (by omega), stickyRow_other _ _ _ _ (by omega)]
    exact stickyRow_hit prevSch 0 (sch0, top3) hm
  · rw [stickyRow_other _ _ _ _ (by omega)]
    apply stickyRow_hit
    apply stickyRow_mem _ _ _ _ hm
    intro e
    exact hd 1 0 (by omega) (by omega) (by omega) e hm
  · apply stickyRow_hit
    apply stickyRow_mem
    · apply stickyRow_mem _ _ _ _ hm
      intro e
      exact hd 2 0 (by omega) (by omega) (by omega) e hm
    · intro e
      exact hd 2 1 (by omega) (by omega) (by omega) e hm

theorem ColInv_constructSchedule (cfg : Config) (hR : 3 ≤ cfg.NUM_RANKS)
    (mc mc1 : MemoryController) (clk : Nat) (hi : ColInv cfg mc)
    (h : constructSchedule cfg mc clk = Except.ok mc1) : ColInv cfg mc1 := by
  by_cases hf : clk = mc.epochStart
  · obtain ⟨top3, s1, _, _, hnd, _, _, hc, _, _, _, p4, _⟩ :=
      constructSchedule_fire cfg mc clk hR hf
    rw [hc] at h
    cases h
    refine ⟨?_, hi.2⟩
    intro i j h1 h2 hne he
    exfalso
    have hn : [s1 0 0, s1 1 0, s1 2 0].Nodup := p4.nodup_iff.mpr hnd
    simp only [List.nodup_cons, List.mem_cons, List.mem_singleton, List.not_mem_nil,
      not_or, not_false_eq_true, List.nodup_nil, and_true] at hn
    have e : s1 i 0 = s1 j 0 := he
    have a : i = 0 ∨ i = 1 ∨ i = 2 := by omega
    have b : j = 0 ∨ j = 1 ∨ j = 2 := by omega
    rcases a with rfl | rfl | rfl <;> rcases b with rfl | rfl | rfl <;>
      first | exact hne rfl | exact hn.1.1 e | exact hn.1.2 e | exact hn.2 e |
        exact hn.1.1 e.symm | exact hn.1.2 e.symm | exact hn.2 e.symm
  · obtain ⟨_, _, _, _, c5, _⟩ := constructSchedule_ok cfg mc mc1 clk h
    rw [c5 hf]
    exact hi

theorem ColInv_dispatchReq (cfg : Config) (inp : CycleInput) (mc mc1 : MemoryController)
    (clk : Nat) (hi : ColInv cfg mc) (h : dispatchReq cfg inp mc clk = Except.ok mc1) :
    ColInv cfg mc1 := by
  obtain ⟨_, _, _, _, d1, d2⟩ := dispatchReq_ok cfg inp mc mc1 clk h
  by_cases hf : clk = mc.dispatchTick
  · obtain ⟨_, _, e3, e4⟩ := d2 hf
    have hb : 1 ≤ mc1.bankIndx := by
      rw [e3]
      have := hi.2
      split <;> [split <;> omega; exact this]
    have hcol : ∀ a, mc1.sch a 0 = mc.sch a 0 := by
      intro a
      rcases e4 with e | ⟨b, _, e⟩
      · rw [e]
      · rw [e]
        have := hi.2
        simp only [set2]
        rw [if_neg]
        omega
    refine ⟨?_, hb⟩
    intro i j h1 h2 hne he
    rw [hcol i, hcol j] at he
    rw [hcol i]
    exact hi.1 i j h1 h2 hne he
  · rw [d1 hf]
    exact hi

theorem ColInv_step (cfg : Config) (hR : 3 ≤ cfg.NUM_RANKS) (mc : MemoryController)
    (e : Event) (mc1 : MemoryController) (hi : ColInv cfg mc)
    (h : applyEvent cfg mc e = Except.ok mc1) : ColInv cfg mc1 := by
  rcases cycle_or_other e with ⟨inp, rfl⟩ | hne
  · obtain ⟨m, hu, rfl⟩ := applyEvent_cycle_ok cfg mc mc1 inp h
    obtain ⟨mc3, mc4, mc5, v3, h4, h5, v5⟩ := update_sched cfg inp mc m hu
    simp only [schedView, Prod.mk.injEq] at v3 v5
    have i3 : ColInv cfg mc3 := by
      unfold ColInv
      rw [v3.2.2.2.2.2.2.1, v3.2.2.2.2.1]
      exact hi
    have i5 := ColInv_dispatchReq cfg inp mc4 mc5 _
      (ColInv_constructSchedule cfg hR mc3 mc4 _ i3 h4) h5
    show (∀ i j, i < 3 → j < 3 → i ≠ j → m.sch i 0 = m.sch j 0 → m.sch i 0 = RB_MAX cfg) ∧
      1 ≤ m.bankIndx
    rw [v5.2.2.2.2.2.2.1, v5.2.2.2.2.1]
    exact i5
  · have hs := applyEvent_other cfg mc mc1 e hne h
    unfold ColInv
    rw [hs.2.2.2.2.2.2.1, hs.2.2.2.2.1]
    exact hi

theorem ColInv_reachable (cfg : Config) (hR : 3 ≤ cfg.NUM_RANKS) (boot : Boot)
    (mc : MemoryController) (h : Reachable cfg boot mc) : ColInv cfg mc :=
  reachable_induction cfg boot (ColInv cfg)
    ⟨fun _ _ _ _ _ _ => rfl, by simp [MemoryController.init]⟩
    (fun mc e mc1 hI he => ColInv_step cfg hR mc e mc1 hI he) mc h

/-! ## The power-state governor -/

/-- The governor's iteration for another rank leaves the fields of rank `i` as they are. -/
theorem powerRank_frame (cfg : Config) (inp : CycleInput) (k i : Nat) (mc : MemoryController)
    (hk : k ≠ i) :
    (powerRank cfg inp k mc).powerDown i = mc.powerDown i ∧
    (powerRank cfg inp k mc).bankStates i = mc.bankStates i ∧
    (powerRank cfg inp k mc).refreshWaiting = mc.refreshWaiting ∧
    (powerRank cfg inp k mc).currentClockCycle = mc.currentClockCycle := by
  have hik : ¬ i = k := fun h => hk h.symm
  unfold powerRank
  split
  · split
    · split
      · refine ⟨?_, ?_, rfl, rfl⟩
        · show set1 mc.powerDown k true i = _
          simp [set1, hik]
        · show forBanksOfRank cfg k _ mc.bankStates i = _
          simp [forBanksOfRank, hik]
      · exact ⟨rfl, rfl, rfl, rfl⟩
    · split
      · refine ⟨?_, ?_, rfl, rfl⟩
        · show set1 mc.powerDown k false i = _
          simp [set1, hik]
        · show forBanksOfRank cfg k _ mc.bankStates i = _
          simp [forBanksOfRank, hik]
      · exact ⟨rfl, rfl, rfl, rfl⟩
  · exact ⟨rfl, rfl, rfl, rfl⟩

theorem powerLoop_below (cfg : Config) (inp : CycleInput) (i : Nat) (mc : MemoryController) :
    ∀ n, n ≤ i →
    (forLoop (powerRank cfg inp) n mc).powerDown i = mc.powerDown i ∧
    (forLoop (powerRank cfg inp) n mc).bankStates i = mc.bankStates i ∧
    (forLoop (powerRank cfg inp) n mc).refreshWaiting = mc.refreshWaiting ∧
    (forLoop (powerRank cfg inp) n mc).currentClockCycle = mc.currentClockCycle
  | 0, _ => ⟨rfl, rfl, rfl, rfl⟩
  | n + 1, h => by
    obtain ⟨a, b, c, d⟩ := powerLoop_below cfg inp i mc n (by omega)
    obtain ⟨a1, b1, c1, d1⟩ := powerRank_frame cfg inp n i (forLoop (powerRank cfg inp) n mc)
      (by omega)
    simp only [forLoop]
    exact ⟨by rw [a1, a], by rw [b1, b], by rw [c1, c], by rw [d1, d]⟩

theorem powerLoop_above (cfg : Config) (inp : CycleInput) (i : Nat) (mc : MemoryController) :
    ∀ n, i < n →
    (forLoop (powerRank cfg inp) n mc).powerDown i
      = (powerRank cfg inp i (forLoop (powerRank cfg inp) i mc)).powerDown i ∧
    (forLoop (powerRank cfg inp) n mc).bankStates i
      = (powerRank cfg inp i (forLoop (powerRank cfg inp) i mc)).bankStates i
  | 0, h => by omega
  | n + 1, h => by
    by_cases hn : n = i
    · subst hn
      exact ⟨rfl, rfl⟩
    · obtain ⟨a, b⟩ := powerLoop_above cfg inp i mc n (by omega)
      obtain ⟨a1, b1, _, _⟩ := powerRank_frame cfg inp n i (forLoop (powerRank cfg inp) n mc) hn
      simp only [forLoop]
      exact ⟨by rw [a1, a], by rw [b1, b]⟩

/-- The governor's iteration for rank `i` when the first test fails and the rank can power
up. -/
theorem powerRank_exit (cfg : Config) (inp : CycleInput) (i : Nat) (mc : MemoryController)
    (hlp : cfg.USE_LOW_POWER = true)
    (hbusy : inp.isEmpty i = false ∨ mc.refreshWaiting i = true)
    (hpd : mc.powerDown i = true)
    (hup : (mc.bankStates i 0).nextPowerUp ≤ mc.currentClockCycle) :
    (powerRank cfg inp i mc).powerDown i = false ∧
    (∀ j, j < cfg.NUM_BANKS →
      ((powerRank cfg inp i mc).bankStates i j).currentBankState = CurrentBankState.Idle ∧
      ((powerRank cfg inp i mc).bankStates i j).nextActivate
        = mc.currentClockCycle + cfg.tXP) ∧
    (powerRank cfg inp i mc).trace
      = mc.trace ++ [(mc.currentClockCycle, ExtCall.rankPowerUp i)] := by
  unfold powerRank
  rw [if_pos hlp]
  have h1 : ¬ (inp.isEmpty i = true ∧ mc.refreshWaiting i = false) := by
    rintro ⟨a, b⟩
    rcases hbusy with h | h
    · rw [a] at h
      cases h
    · rw [b] at h
      cases h
  rw [if_neg h1, if_pos ⟨hup, hpd⟩]
  refine ⟨?_, ?_, rfl⟩
  · show set1 mc.powerDown i false i = false
    simp [set1]
  · intro j hj
    show (forBanksOfRank cfg i _ mc.bankStates i j).currentBankState = _ ∧
      (forBanksOfRank cfg i _ mc.bankStates i j).nextActivate = _
    rw [forBanksOfRank_apply]
    simp [hj]

/-- The governor's iteration for rank `i` when the command queue of the rank is empty and
no refresh is waiting: the rank does not power up. -/
theorem powerRank_stays (cfg : Config) (inp : CycleInput) (i : Nat) (mc : MemoryController)
    (hidle : inp.isEmpty i = true ∧ mc.refreshWaiting i = false)
    (hpd : mc.powerDown i = true) :
    (powerRank cfg inp i mc).powerDown i = true := by
  unfold powerRank
  repeat' split
  all_goals
    first
    | exact hpd
    | exact absurd hidle (by assumption)
    | (show set1 mc.powerDown i true i = true
       simp [set1])

/-- The governor of one cycle for a rank that can power up and has work or a refresh
waiting. -/
theorem powerStep_exit (cfg : Config) (inp : CycleInput) (i : Nat) (mc : MemoryController)
    (hlp : cfg.USE_LOW_POWER = true) (hi : i < cfg.NUM_RANKS)
    (hbusy : inp.isEmpty i = false ∨ mc.refreshWaiting i = true)
    (hpd : mc.powerDown i = true)
    (hup : (mc.bankStates i 0).nextPowerUp ≤ mc.currentClockCycle) :
    (powerStep cfg inp mc).powerDown i = false ∧
    ∀ j, j < cfg.NUM_BANKS →
      ((powerStep cfg inp mc).bankStates i j).currentBankState = CurrentBankState.Idle ∧
      ((powerStep cfg inp mc).bankStates i j).nextActivate
        = mc.currentClockCycle + cfg.tXP := by
  obtain ⟨a, b, c, d⟩ := powerLoop_below cfg inp i mc i (Nat.le_refl _)
  obtain ⟨e1, e2⟩ := powerLoop_above cfg inp i mc cfg.NUM_RANKS hi
  obtain ⟨x1, x2, _⟩ := powerRank_exit cfg inp i (forLoop (powerRank cfg inp) i mc) hlp
    (by rw [c]; exact hbusy) (by rw [a]; exact hpd) (by rw [b, d]; exact hup)
  unfold powerStep
  rw [e1, e2]
  refine ⟨x1, ?_⟩
  intro j hj
  rw [← d]
  exact x2 j hj

/-! ## Data bus collision freedom -/

/-- The data bus slot after the countdowns at the start of an update. -/
theorem dataBus_before_step (cfg : Config) (mc : MemoryController) :
    (mc.outgoingDataPacket = none →
      (dataBusCountdown (cmdBusCountdown (updateBankStates cfg mc))).outgoingDataPacket = none) ∧
    (mc.outgoingDataPacket ≠ none → dec32 mc.dataCyclesLeft = 0 →
      (dataBusCountdown (cmdBusCountdown (updateBankStates cfg mc))).outgoingDataPacket = none) ∧
    (mc.outgoingDataPacket ≠ none → dec32 mc.dataCyclesLeft ≠ 0 →
      (dataBusCountdown (cmdBusCountdown (updateBankStates cfg mc))).outgoingDataPacket ≠ none ∧
      (dataBusCountdown (cmdBusCountdown (updateBankStates cfg mc))).dataCyclesLeft
        = dec32 mc.dataCyclesLeft) := by
  have b : (cmdBusCountdown (updateBankStates cfg mc)).outgoingDataPacket
        = mc.outgoingDataPacket ∧
      (cmdBusCountdown (updateBankStates cfg mc)).dataCyclesLeft = mc.dataCyclesLeft := by
    rcases cmdBusCountdown_cases (updateBankStates cfg mc) with ⟨_, e⟩ | ⟨_, _, _, e⟩ |
      ⟨_, _, _, e⟩ <;> rw [e] <;> exact ⟨rfl, rfl⟩
  generalize cmdBusCountdown (updateBankStates cfg mc) = m at b
  obtain ⟨b1, b2⟩ := b
  unfold dataBusCountdown
  cases ho : m.outgoingDataPacket with
  | none =>
    rw [ho] at b1
    dsimp only
    refine ⟨fun _ => ho, fun _ _ => ho, fun h _ => absurd b1.symm h⟩
  | some p =>
    rw [ho] at b1
    dsimp only
    refine ⟨fun h => ?_, fun _ hd => ?_, fun _ hd => ?_⟩
    · rw [h] at b1
      cases b1
    · rw [b2, if_pos hd]
    · rw [b2, if_neg hd]
      exact ⟨by simp, rfl⟩

theorem writeDataStep_collision (cfg : Config) (m : MemoryController)
    (h : writeDataStep cfg m = Except.error Err.dataBusCollision) :
    (m.writeDataCountdown.map dec32).head? = some 0 ∧ m.outgoingDataPacket ≠ none := by
  unfold writeDataStep at h
  split at h
  · dsimp only at h
    split at h
    · rename_i h0
      split at h
      · rename_i ho
        exact ⟨h0, ho⟩
      · split at h <;> cases h
    · cases h
  · cases h

/-- The error of an update is a data bus collision only if its write-data step finds the
bus occupied when the head countdown reaches zero. -/
theorem update_collision (cfg : Config) (inp : CycleInput) (mc : MemoryController)
    (h : update cfg inp mc = Except.error Err.dataBusCollision) :
    (mc.writeDataCountdown.map dec32).head? = some 0 ∧
    (dataBusCountdown (cmdBusCountdown (updateBankStates cfg mc))).outgoingDataPacket ≠ none := by
  rcases update_err cfg inp mc _ h with e1 | ⟨m2, _, e3⟩
  · obtain ⟨a, b⟩ := writeDataStep_collision cfg _ e1
    rw [(fifo_before_step cfg mc).2] at a
    exact ⟨a, b⟩
  · rcases e3 with e3 | ⟨m3, _, e4⟩
    · rcases popStep_err cfg inp _ _ e3 with e | e <;> cases e
    · rcases e4 with e4 | ⟨m4, _, e5⟩
      · cases constructSchedule_err cfg _ _ _ e4
      · rcases e5 with e5 | ⟨m5, _, e6⟩
        · rcases dispatchReq_err cfg inp _ _ _ e5 with ⟨e, _⟩ | e <;> cases e
        · rcases returnStep_err cfg _ _ e6 with e | e <;> cases e

/-- One step of a countdown list with gaps of at least `B`. -/
theorem gap_step (B W g : Nat) (hB : 1 ≤ B) : ∀ (l : List Nat),
    l.Pairwise (fun a b => a + B ≤ b) → (∀ c ∈ l, 1 ≤ c ∧ c + g ≤ W + 1) →
    ((l.map dec32).head? = some 0 →
      l.head? = some 1 ∧ g ≤ W ∧
      (l.map dec32).tail.Pairwise (fun a b => a + B ≤ b) ∧
      ∀ c ∈ (l.map dec32).tail, B ≤ c ∧ 1 ≤ c ∧ c + (g + 1) ≤ W + 1) ∧
    ((l.map dec32).head? ≠ some 0 →
      (l.map dec32).Pairwise (fun a b => a + B ≤ b) ∧
      (∀ c ∈ l.map dec32, 1 ≤ c ∧ c + (g + 1) ≤ W + 1) ∧
      ∀ d, (∀ c ∈ l, d ≤ c) → ∀ c ∈ l.map dec32, d - 1 ≤ c)
  | [], _, _ => by simp
  | c :: cs, hp, hb => by
    have hc := hb c (List.mem_cons_self _ _)
    rw [List.pairwise_cons] at hp
    obtain ⟨hlt, hps⟩ := hp
    have hmap : (cs.map dec32).Pairwise (fun a b => a + B ≤ b) := by
      rw [List.pairwise_map]
      refine List.Pairwise.imp_of_mem ?_ hps
      intro a b ha hb' hab
      rw [dec32_pos a (hb a (List.mem_cons_of_mem _ ha)).1,
        dec32_pos b (hb b (List.mem_cons_of_mem _ hb')).1]
      have := (hb a (List.mem_cons_of_mem _ ha)).1
      omega
    have htail : ∀ x ∈ cs.map dec32, c - 1 + B ≤ x ∧ x + (g + 1) ≤ W + 1 := by
      intro x hx
      rw [List.mem_map] at hx
      obtain ⟨y, hy, rfl⟩ := hx
      have h1 := hlt y hy
      have h2 := hb y (List.mem_cons_of_mem _ hy)
      rw [dec32_pos y h2.1]
      omega
    constructor
    · intro h0
      simp only [List.map_cons, List.head?_cons, Option.some.injEq] at h0
      rw [dec32_pos c hc.1] at h0
      have hc1 : c = 1 := by omega
      simp only [List.map_cons, List.tail_cons, List.head?_cons, hc1, true_and]
      refine ⟨by omega, hmap, ?_⟩
      intro x hx
      have := htail x hx
      omega
    · intro h0
      simp only [List.map_cons, List.head?_cons, ne_eq, Option.some.injEq] at h0
      rw [dec32_pos c hc.1] at h0
      simp only [List.map_cons, List.pairwise_cons, List.mem_cons]
      refine ⟨⟨?_, hmap⟩, ?_, ?_⟩
      · intro x hx
        have := htail x hx
        rw [dec32_pos c hc.1]
        omega
      · intro x hx
        rcases hx with rfl | hx
        · rw [dec32_pos c hc.1]
          omega
        · have := htail x hx
          omega
      · intro d hd x hx
        rcases hx with rfl | hx
        · rw [dec32_pos c hc.1]
          have := hd c (Or.inl rfl)
          omega
        · have := htail x hx
          have := hd c (Or.inl rfl)
          omega

/-- Pushing the countdown `W` of a new write at the tail, `g >= B` cycles after the last
write, or pushing nothing. -/
theorem gap_push (B W g : Nat) (hW : 1 ≤ W) (l : List Nat) (pw : List BusPacket)
    (hpw : pw.length ≤ 1) (hg : pw ≠ [] → B ≤ g)
    (hp : l.Pairwise (fun a b => a + B ≤ b))
    (hb : ∀ c ∈ l, 1 ≤ c ∧ c + (g + 1) ≤ W + 1) :
    (l ++ pw.map (fun _ => W)).Pairwise (fun a b => a + B ≤ b) ∧
    ∀ c ∈ l ++ pw.map (fun _ => W),
      1 ≤ c ∧ c + (if pw.isEmpty then g + 1 else 1) ≤ W + 1 := by
  match pw, hpw, hg with
  | [], _, _ =>
    simp only [List.map_nil, List.append_nil, List.isEmpty_nil, if_true]
    exact ⟨hp, hb⟩
  | [d], _, hg =>
    have hBg := hg (by simp)
    simp only [List.map_cons, List.map_nil, List.isEmpty_cons, Bool.false_eq_true, if_false]
    constructor
    · rw [List.pairwise_append]
      refine ⟨hp, List.pairwise_singleton _ _, ?_⟩
      intro a ha b hb'
      rw [List.mem_singleton] at hb'
      have := (hb a ha).2
      omega
    · intro x hx
      rw [List.mem_append, List.mem_singleton] at hx
      rcases hx with hx | rfl
      · have := hb x hx
        omega
      · omega
  | _ :: _ :: _, h, _ =>
    simp at h

theorem mem_pushed (W x : Nat) (pw : List BusPacket) (h : x ∈ pw.map (fun _ => W)) :
    x = W ∧ pw ≠ [] := by
  rw [List.mem_map] at h
  obtain ⟨a, ha, e⟩ := h
  exact ⟨e.symm, List.ne_nil_of_mem ha⟩

theorem gap_after (g : Nat) (pw : List BusPacket) :
    (pw = [] ∧ (if pw.isEmpty then g + 1 else 1) = g + 1) ∨
    (pw ≠ [] ∧ (if pw.isEmpty then g + 1 else 1) = 1) := by
  cases pw with
  | nil => exact Or.inl ⟨rfl, rfl⟩
  | cons a l => exact Or.inr ⟨by simp, rfl⟩

/-- An update from a state with the bus invariant, with a write popped only `BL/2` cycles or
more after the last one, does not take the data bus collision branch and keeps the
invariant. -/
theorem BusInv_update (cfg : Config) (inp : CycleInput) (mc : MemoryController) (g : Nat)
    (hW : 1 ≤ cfg.WL) (hB : 1 ≤ cfg.BL / 2) (hi : BusInv cfg g mc)
    (hg : poppedWrite inp ≠ [] → cfg.BL / 2 ≤ g) :
    update cfg inp mc ≠ Except.error Err.dataBusCollision ∧
    ∀ mc1, update cfg inp mc = Except.ok mc1 →
      BusInv cfg (if (poppedWrite inp).isEmpty then g + 1 else 1) mc1 := by
  obtain ⟨hl, hp, hb, ho⟩ := hi
  obtain ⟨gs0, gs1⟩ := gap_step (cfg.BL / 2) cfg.WL g hB mc.writeDataCountdown hp hb
  obtain ⟨d1, d2, d3⟩ := dataBus_before_step cfg mc
  have hpw : (poppedWrite inp).length ≤ 1 := by
    rcases poppedWrite_cases inp with e | ⟨p, _, _, e⟩ <;> rw [e] <;> simp
  constructor
  · intro he
    obtain ⟨h0, hbusy⟩ := update_collision cfg inp mc he
    obtain ⟨hh, _⟩ := gs0 h0
    by_cases hn : mc.outgoingDataPacket = none
    · exact hbusy (d1 hn)
    · obtain ⟨o1, _, o3, _⟩ := ho hn
      have h1 := o3 1 (List.mem_of_mem_head? hh)
      have hd : mc.dataCyclesLeft = 1 := by omega
      exact hbusy (d2 hn (by rw [hd]; rfl))
  · intro mc1 h
    rcases update_fifo_cases cfg inp mc mc1 h with ⟨h0, d, rest, e1, e2, e3, e4, e5⟩ |
        ⟨h0, e2, e3, e4, e5⟩
    · obtain ⟨hh, hgW, hpt, hbt⟩ := gs0 h0
      obtain ⟨q1, q2⟩ := gap_push (cfg.BL / 2) cfg.WL g hW _ (poppedWrite inp) hpw hg hpt
        (fun c hc => (hbt c hc).2)
      refine ⟨?_, ?_, ?_, ?_⟩
      · rw [e2, e3]
        rw [e1] at hl
        simp only [List.length_append, List.length_tail, List.length_map, List.length_cons]
          at hl ⊢
        omega
      · rw [e3]
        exact q1
      · rw [e3]
        exact q2
      · intro _
        rw [e5, e3]
        refine ⟨hB, le_refl _, ?_, ?_⟩
        · intro c hc
          rw [List.mem_append] at hc
          rcases hc with hc | hc
          · exact (hbt c hc).1
          · obtain ⟨rfl, hne⟩ := mem_pushed _ _ _ hc
            have := hg hne
            omega
        · rcases gap_after g (poppedWrite inp) with ⟨_, e⟩ | ⟨_, e⟩ <;> rw [e] <;> omega
    · obtain ⟨hpm, hbm, hmin⟩ := gs1 h0
      obtain ⟨q1, q2⟩ := gap_push (cfg.BL / 2) cfg.WL g hW _ (poppedWrite inp) hpw hg hpm hbm
      refine ⟨?_, ?_, ?_, ?_⟩
      · rw [e2, e3]
        simp only [List.length_append, List.length_map]
        omega
      · rw [e3]
        exact q1
      · rw [e3]
        exact q2
      · intro hbusy
        rw [e4] at hbusy
        have hn : mc.outgoingDataPacket ≠ none := fun hn => hbusy (d1 hn)
        have hd : dec32 mc.dataCyclesLeft ≠ 0 := fun hd => hbusy (d2 hn hd)
        obtain ⟨o1, o2, o3, o4⟩ := ho hn
        rw [e5, (d3 hn hd).2, e3]
        rw [dec32_pos _ o1] at hd ⊢
        refine ⟨by omega, by omega, ?_, ?_⟩
        · intro c hc
          rw [List.mem_append] at hc
          rcases hc with hc | hc
          · exact hmin _ o3 c hc
          · obtain ⟨rfl, hne⟩ := mem_pushed _ _ _ hc
            have := hg hne
            omega
        · rcases gap_after g (poppedWrite inp) with ⟨_, e⟩ | ⟨hne, e⟩
          · rw [e]
            omega
          · rw [e]
            omega

theorem BusInv_init (cfg : Config) (boot : Boot) (g : Nat) :
    BusInv cfg g (MemoryController.init cfg boot) := by
  refine ⟨rfl, ?_, ?_, ?_⟩
  · simp [MemoryController.init]
  · intro x hx
    simp [MemoryController.init] at hx
  · intro h
    exact absurd rfl h

theorem BusInv_other (cfg : Config) (g : Nat) (mc mc1 : MemoryController) (e : Event)
    (hne : ∀ inp, e ≠ Event.cycle inp) (h : applyEvent cfg mc e = Except.ok mc1)
    (hi : BusInv cfg g mc) : BusInv cfg g mc1 := by
  obtain ⟨a, b, c, d⟩ := applyEvent_other_fifo cfg mc mc1 e hne h
  unfold BusInv
  rw [a, b, c, d]
  exact hi

theorem spaced_other (B g : Nat) (e : Event) (es : List Event)
    (hne : ∀ inp, e ≠ Event.cycle inp) : spaced B (e :: es) g = spaced B es g := by
  cases e with
  | cycle inp => exact absurd rfl (hne inp)
  | _ => rfl

/-- Along a spaced run the bus invariant holds, for some gap that allows the next cycle of
a spaced continuation. -/
theorem BusInv_run (cfg : Config) (hW : 1 ≤ cfg.WL) (hB : 1 ≤ cfg.BL / 2) (inp : CycleInput) :
    ∀ (es : List Event) (g : Nat) (mc mc1 : MemoryController), BusInv cfg g mc →
      spaced (cfg.BL / 2) (es ++ [Event.cycle inp]) g = true →
      run cfg mc es = Except.ok mc1 →
      ∃ g1, BusInv cfg g1 mc1 ∧ (poppedWrite inp ≠ [] → cfg.BL / 2 ≤ g1)
  | [], g, mc, mc1, hi, hs, h => by
    simp only [run, Except.ok.injEq] at h
    rw [← h]
    refine ⟨g, hi, fun hne => ?_⟩
    simp only [List.nil_append, spaced] at hs
    have : (poppedWrite inp).isEmpty = false := by
      cases hq : poppedWrite inp with
      | nil => exact absurd hq hne
      | cons a l => rfl
    simp only [this, Bool.false_eq_true, if_false, Bool.and_true, decide_eq_true_eq] at hs
    exact hs
  | e :: es, g, mc, mc1, hi, hs, h => by
    obtain ⟨m, hm, hr⟩ := run_cons_ok cfg mc mc1 e es h
    rcases cycle_or_other e with ⟨i, rfl⟩ | hne
    · obtain ⟨m2, hu, rfl⟩ := applyEvent_cycle_ok cfg mc m i hm
      simp only [List.cons_append, spaced] at hs
      rcases gap_after g (poppedWrite i) with ⟨he, eg⟩ | ⟨he, eg⟩
      · have hi1 := (BusInv_update cfg i mc g hW hB hi (fun hne => absurd he hne)).2 m2 hu
        rw [eg] at hi1
        simp only [he, List.isEmpty_nil, if_true] at hs
        refine BusInv_run cfg hW hB inp es (g + 1) _ mc1 ?_ hs hr
        exact hi1
      · have hemp : (poppedWrite i).isEmpty = false := by
          cases hq : poppedWrite i with
          | nil => exact absurd hq he
          | cons a l => rfl
        simp only [hemp, Bool.false_eq_true, if_false, Bool.and_eq_true, decide_eq_true_eq]
          at hs
        have hi1 := (BusInv_update cfg i mc g hW hB hi (fun _ => hs.1)).2 m2 hu
        rw [eg] at hi1
        refine BusInv_run cfg hW hB inp es 1 _ mc1 ?_ hs.2 hr
        exact hi1
    · rw [List.cons_append, spaced_other _ _ _ _ hne] at hs
      exact BusInv_run cfg hW hB inp es g m mc1 (BusInv_other cfg g mc m e hne hm hi) hs hr

theorem BusInv_fifo (cfg : Config) (g : Nat) (hB : 1 ≤ cfg.BL / 2) (mc : MemoryController)
    (hi : BusInv cfg g mc) :
    (∀ c ∈ mc.writeDataCountdown, 1 ≤ c) ∧
    mc.writeDataCountdown.Pairwise (fun a b => a < b) :=
  ⟨fun c hc => (hi.2.2.1 c hc).1, hi.2.1.imp (fun h => by omega)⟩

/-! ## Two epochs at different clocks -/

theorem nextOwner_inj (cfg : Config) (a b : MemoryController)
    (h : nextOwner cfg a = nextOwner cfg b) : a.turn = b.turn := by
  unfold nextOwner at h
  split at h <;> split at h <;> omega

set_option maxRecDepth 1000000

/-- C1: `addTransaction(t)` returns true exactly when `transactionQueue` holds fewer than
`TRANS_QUEUE_DEPTH` entries, the boolean `WillAcceptTransaction()` returns; when it
returns true, `t` is appended at the tail of `transactionQueue` with `timeAdded` set to
`currentClockCycle` and nothing else changes; when it returns false, the controller and
`t` are unchanged. -/
theorem addTransaction_contract (cfg : Config) (mc : MemoryController) (t : Transaction) :
    (addTransaction cfg mc t).1 = WillAcceptTransaction cfg mc ∧
    ((addTransaction cfg mc t).1 = true ↔ mc.transactionQueue.length < cfg.TRANS_QUEUE_DEPTH) ∧
    addTransaction cfg mc t =
      if mc.transactionQueue.length < cfg.TRANS_QUEUE_DEPTH then
        (true,
         { mc with transactionQueue :=
             mc.transactionQueue ++ [{ t with timeAdded := mc.currentClockCycle }] },
         { t with timeAdded := mc.currentClockCycle })
      else (false, mc, t) := by
  unfold addTransaction WillAcceptTransaction
  by_cases h : mc.transactionQueue.length < cfg.TRANS_QUEUE_DEPTH <;> simp [h]

/-- C3, as stated, fails: with `CYCLE_LENGTH = 100` and one dispatch slot per cycle, three
demand reads of core 1 (banks 5, 3, 3 of rank 2) and ten cycles lead from the constructor
to a state whose row 0 holds bank 3 twice, in columns 1 and 2. -/
theorem sch_row_repeats_bank :
    run exampleConfig (MemoryController.init exampleConfig exampleBoot) repeatRun
      = Except.ok (stateAfter exampleConfig exampleBoot repeatRun) ∧
    (stateAfter exampleConfig exampleBoot repeatRun).sch 0 1 = 3 ∧
    (stateAfter exampleConfig exampleBoot repeatRun).sch 0 2 = 3 ∧
    (3 : Nat) ≠ RB_MAX exampleConfig := by
  refine ⟨rfl, ?_, ?_, ?_⟩ <;> decide

/-- C3 (amended): when an epoch is exactly nine dispatch slots long
(`CYCLE_LENGTH = 9 * T_RANK`, `T_RANK >= 1`), in every reachable state and for every row
`i` in {0,1,2} the bank entries of `sch[i][1..3]` that are set (different from `RB_MAX`)
are pairwise distinct. -/
theorem sch_rows_distinct_aligned (cfg : Config) (boot : Boot) (mc : MemoryController)
    (hT : 1 ≤ cfg.T_RANK) (hL : cfg.CYCLE_LENGTH = 9 * cfg.T_RANK)
    (hr : Reachable cfg boot mc) :
    ∀ i k1 k2, i < 3 → 1 ≤ k1 → k1 ≤ 3 → 1 ≤ k2 → k2 ≤ 3 → k1 ≠ k2 →
      mc.sch i k1 ≠ RB_MAX cfg → mc.sch i k2 ≠ RB_MAX cfg → mc.sch i k1 ≠ mc.sch i k2 := by
  have h := reachable_induction cfg boot (SlotInv cfg 1) (SlotInv_init cfg boot)
    (fun m e m1 hI he => SlotInv_step cfg hT hL m e m1 hI he) mc hr
  obtain ⟨m, _, _, _, _, _, _, h6⟩ := h
  exact h6

/-- Witness of C3 (amended): the run of the counterexample, with epochs of nine slots. -/
theorem sch_rows_distinct_aligned_witness :
    1 ≤ alignedConfig.T_RANK ∧ alignedConfig.CYCLE_LENGTH = 9 * alignedConfig.T_RANK ∧
    Reachable alignedConfig exampleBoot (stateAfter alignedConfig exampleBoot repeatRun) ∧
    ∀ i k1 k2, i < 3 → 1 ≤ k1 → k1 ≤ 3 → 1 ≤ k2 → k2 ≤ 3 → k1 ≠ k2 →
      (stateAfter alignedConfig exampleBoot repeatRun).sch i k1 ≠ RB_MAX alignedConfig →
      (stateAfter alignedConfig exampleBoot repeatRun).sch i k2 ≠ RB_MAX alignedConfig →
      (stateAfter alignedConfig exampleBoot repeatRun).sch i k1
        ≠ (stateAfter alignedConfig exampleBoot repeatRun).sch i k2 :=
  ⟨by decide, by decide, ⟨repeatRun, rfl⟩,
    sch_rows_distinct_aligned alignedConfig exampleBoot _ (by decide) (by decide)
      ⟨repeatRun, rfl⟩⟩

/-- C4: `noBankViolation(b)` returns true if and only if (1) `b` differs from every
`sch[rankIndx][k]` with `1 <= k <= bankIndx-1`, and (2) either
`sch[rankIndx][0] != prevSch[rankIndx][0]`, or `b` differs from every `prevSch[rankIndx][k]`
with `bankIndx+1 <= k <= 3`.  It is a function of the state and returns a boolean only, so
it modifies nothing.  (The statement holds for every cursor, in particular for `rankIndx`
in {0,1,2} and `bankIndx` in {1,2,3}.) -/
theorem noBankViolation_spec (mc : MemoryController) (b : Nat) :
    noBankViolation mc b = true ↔
      (∀ k, 1 ≤ k → k ≤ mc.bankIndx - 1 → b ≠ mc.sch mc.rankIndx k) ∧
      (mc.sch mc.rankIndx 0 ≠ mc.prevSch mc.rankIndx 0 ∨
        ∀ k, mc.bankIndx + 1 ≤ k → k ≤ 3 → b ≠ mc.prevSch mc.rankIndx k) :=
  noBankViolation_iff mc b

/-- C5: when a READ for bank `(r, b)` is popped at clock `c`, the timing updater sets
`nextPrecharge` of that bank to the maximum of its old value and `c + READ_TO_PRE_DELAY`
(so it is at least `c + READ_TO_PRE_DELAY`); every other bank of rank `r` gets
`nextRead = max(old, c + max(tCCD, BL/2))` and `nextWrite = max(old, c + READ_TO_WRITE_DELAY)`;
every bank of another rank that is RowActive gets `nextRead = max(old, c + BL/2 + tRTRS)` and
`nextWrite = max(old, c + READ_TO_WRITE_DELAY)`; banks of other ranks that are not RowActive
are unchanged. -/
theorem timingUpdate_READ (cfg : Config) (c : Nat) (p : BusPacket) (bs : Nat → Nat → BankState)
    (hty : p.busPacketType = BusPacketType.READ) (hr : p.rank < cfg.NUM_RANKS) :
    ∃ bs1, timingUpdate cfg c p bs = Except.ok bs1 ∧
      (bs1 p.rank p.bank).nextPrecharge
        = max (bs p.rank p.bank).nextPrecharge (c + cfg.READ_TO_PRE_DELAY) ∧
      c + cfg.READ_TO_PRE_DELAY ≤ (bs1 p.rank p.bank).nextPrecharge ∧
      (∀ j, j < cfg.NUM_BANKS → j ≠ p.bank →
        (bs1 p.rank j).nextRead = max (bs p.rank j).nextRead (c + max cfg.tCCD (cfg.BL / 2)) ∧
        (bs1 p.rank j).nextWrite = max (bs p.rank j).nextWrite (c + cfg.READ_TO_WRITE_DELAY)) ∧
      (∀ i j, i < cfg.NUM_RANKS → i ≠ p.rank → j < cfg.NUM_BANKS →
        (bs i j).currentBankState = CurrentBankState.RowActive →
        (bs1 i j).nextRead = max (bs i j).nextRead (c + cfg.BL / 2 + cfg.tRTRS) ∧
        (bs1 i j).nextWrite = max (bs i j).nextWrite (c + cfg.READ_TO_WRITE_DELAY)) ∧
      (∀ i j, i ≠ p.rank → (bs i j).currentBankState ≠ CurrentBankState.RowActive →
        bs1 i j = bs i j) := by
  refine ⟨_, timingUpdate_READ_eq cfg c p bs hty, ?_, ?_, ?_, ?_, ?_⟩
  · simp only [forBanks, mapRange2, set2, readSame, readOthers]
    split <;> simp [max_comm]
  · simp only [forBanks, mapRange2, set2, readSame, readOthers]
    split <;> simp
  · intro j hj hne
    simp [forBanks, mapRange2, set2, readSame, readOthers, hr, hj, hne, max_comm]
  · intro i j hi hne hj hact
    simp [forBanks, mapRange2, set2, readSame, readOthers, hi, hj, hne, hact, max_comm]
  · intro i j hne hact
    simp only [forBanks, mapRange2, set2, readSame, readOthers]
    simp [hne, hact]


/-- Witness of C5: a READ for bank 2 of rank 1 popped at clock 40. -/
theorem timingUpdate_READ_witness :
    (examplePacket BusPacketType.READ).busPacketType = BusPacketType.READ ∧
    (examplePacket BusPacketType.READ).rank < exampleConfig.NUM_RANKS ∧
    ∃ bs1, timingUpdate exampleConfig 40 (examplePacket BusPacketType.READ)
        (fun _ _ => exampleBoot.bank0) = Except.ok bs1 ∧
      40 + exampleConfig.READ_TO_PRE_DELAY ≤ (bs1 1 2).nextPrecharge := by
  refine ⟨rfl, by decide, ?_⟩
  obtain ⟨bs1, h1, _, h3, _⟩ := timingUpdate_READ exampleConfig 40
    (examplePacket BusPacketType.READ) (fun _ _ => exampleBoot.bank0) rfl (by decide)
  exact ⟨bs1, h1, h3⟩

/-- C6: when an ACTIVATE for bank `(r, b)` with row `R` is popped at clock `c`, the timing
updater makes the bank RowActive with `openRowAddress = R`,
`nextActivate = max(old, c + tRC)`, `nextPrecharge = max(old, c + tRAS)`,
`nextRead = max(old, c + (tRCD - AL))` and `nextWrite = max(old, c + (tRCD - AL))`; every
other bank of rank `r` gets `nextActivate = max(old, c + tRRD)`; banks of other ranks are
unchanged; and the bank is RowActive with `openRowAddress = R` after this cycle and after
every later cycle, as long as no PRECHARGE is popped for it, no REFRESH is popped for its
rank and no auto-precharge countdown of it expires.  The run starts at the constructor, with
no state change pending on a bank that starts idle or powered down, and the command queue
obeys its issue rule in every cycle; `AL <= tRCD`, so that the unsigned difference
`tRCD - AL` does not wrap. -/
theorem activate_opens_row (cfg : Config) (boot : Boot) (es es2 : List Event)
    (mc mc1 mc2 : MemoryController) (inp : CycleInput) (p : BusPacket)
    (hAL : cfg.AL ≤ cfg.tRCD)
    (hboot : (boot.bank0.currentBankState = CurrentBankState.Idle ∨
      boot.bank0.currentBankState = CurrentBankState.PowerDown) →
      boot.bank0.stateChangeCountdown = 0)
    (hrun : run cfg (MemoryController.init cfg boot) es = Except.ok mc)
    (hrule : alongRun cfg (obeysIssueRule cfg) (MemoryController.init cfg boot) es = true)
    (hpop : inp.popped = some p) (hty : p.busPacketType = BusPacketType.ACTIVATE)
    (hiss : obeysIssueRule cfg mc inp = true)
    (hcyc : applyEvent cfg mc (Event.cycle inp) = Except.ok mc1)
    (hrun2 : run cfg mc1 es2 = Except.ok mc2)
    (hrule2 : alongRun cfg (obeysIssueRule cfg) mc1 es2 = true)
    (hkeep : alongRun cfg (keepsOpen p.rank p.bank) mc1 es2 = true) :
    (∃ bs1, timingUpdate cfg mc.currentClockCycle p (updateBankStates cfg mc).bankStates
        = Except.ok bs1 ∧
      (bs1 p.rank p.bank).currentBankState = CurrentBankState.RowActive ∧
      (bs1 p.rank p.bank).openRowAddress = p.row ∧
      (bs1 p.rank p.bank).nextActivate
        = max ((updateBankStates cfg mc).bankStates p.rank p.bank).nextActivate
            (mc.currentClockCycle + cfg.tRC) ∧
      (bs1 p.rank p.bank).nextPrecharge
        = max ((updateBankStates cfg mc).bankStates p.rank p.bank).nextPrecharge
            (mc.currentClockCycle + cfg.tRAS) ∧
      (bs1 p.rank p.bank).nextRead
        = max ((updateBankStates cfg mc).bankStates p.rank p.bank).nextRead
            (mc.currentClockCycle + (cfg.tRCD - cfg.AL)) ∧
      (bs1 p.rank p.bank).nextWrite
        = max ((updateBankStates cfg mc).bankStates p.rank p.bank).nextWrite
            (mc.currentClockCycle + (cfg.tRCD - cfg.AL)) ∧
      (∀ j, j < cfg.NUM_BANKS → j ≠ p.bank →
        (bs1 p.rank j).nextActivate
          = max ((updateBankStates cfg mc).bankStates p.rank j).nextActivate
              (mc.currentClockCycle + cfg.tRRD)) ∧
      (∀ i j, i ≠ p.rank → bs1 i j = (updateBankStates cfg mc).bankStates i j)) ∧
    (mc1.bankStates p.rank p.bank).currentBankState = CurrentBankState.RowActive ∧
    (mc1.bankStates p.rank p.bank).openRowAddress = p.row ∧
    (mc2.bankStates p.rank p.bank).currentBankState = CurrentBankState.RowActive ∧
    (mc2.bankStates p.rank p.bank).openRowAddress = p.row := by
  have _ := hAL
  have i0 := BankInv_run cfg boot es mc hboot hrule hrun
  obtain ⟨m3, hu, rfl⟩ := applyEvent_cycle_ok cfg mc mc1 inp hcyc
  obtain ⟨hb, o1⟩ := RowOpen_update_activate cfg inp p mc m3 i0 hiss hpop hty hu
  have i1 := BankInv_update cfg inp mc m3 i0 hiss hu
  obtain ⟨_, o2⟩ := RowOpen_run cfg p.rank p.bank p.row es2
    { m3 with currentClockCycle := m3.currentClockCycle + 1 } mc2 hb i1 o1 hrule2 hkeep hrun2
  exact ⟨timingUpdate_ACTIVATE_effects cfg mc.currentClockCycle p _ hty, o1.1, o1.2.1, o2.1,
    o2.2.1⟩

/-- Witness of C6: from the constructor, an ACTIVATE for row 7 of bank 2 of rank 1 is popped
in cycle 0; a quiet cycle, a READ for the bank and another quiet cycle follow; the bank is
RowActive with row 7 open at the end. -/
theorem activate_opens_row_witness :
    (stateAfter exampleConfig exampleBoot
      (Event.cycle (popInput (examplePacket BusPacketType.ACTIVATE)) :: openRowRun)).currentClockCycle
      = 4 ∧
    ((stateAfter exampleConfig exampleBoot
      (Event.cycle (popInput (examplePacket BusPacketType.ACTIVATE)) :: openRowRun)).bankStates
        1 2).currentBankState = CurrentBankState.RowActive ∧
    ((stateAfter exampleConfig exampleBoot
      (Event.cycle (popInput (examplePacket BusPacketType.ACTIVATE)) :: openRowRun)).bankStates
        1 2).openRowAddress = 7 :=
  ⟨by decide,
   (activate_opens_row exampleConfig exampleBoot [] openRowRun
      (MemoryController.init exampleConfig exampleBoot)
      (stateAfter exampleConfig exampleBoot
        [Event.cycle (popInput (examplePacket BusPacketType.ACTIVATE))])
      (stateAfter exampleConfig exampleBoot
        (Event.cycle (popInput (examplePacket BusPacketType.ACTIVATE)) :: openRowRun))
      (popInput (examplePacket BusPacketType.ACTIVATE)) (examplePacket BusPacketType.ACTIVATE)
      (by decide) (fun _ => rfl) rfl rfl rfl rfl (by decide) rfl rfl (by decide)
      (by decide)).2.2.2.1,
   (activate_opens_row exampleConfig exampleBoot [] openRowRun
      (MemoryController.init exampleConfig exampleBoot)
      (stateAfter exampleConfig exampleBoot
        [Event.cycle (popInput (examplePacket BusPacketType.ACTIVATE))])
      (stateAfter exampleConfig exampleBoot
        (Event.cycle (popInput (examplePacket BusPacketType.ACTIVATE)) :: openRowRun))
      (popInput (examplePacket BusPacketType.ACTIVATE)) (examplePacket BusPacketType.ACTIVATE)
      (by decide) (fun _ => rfl) rfl rfl rfl rfl (by decide) rfl rfl (by decide)
      (by decide)).2.2.2.2⟩

/-- C7: immediately after a READ_P (resp. WRITE_P) for bank `(r, b)` is popped at clock
`c`, that bank has `nextActivate = max(old, c + READ_AUTOPRE_DELAY)` (resp.
`c + WRITE_AUTOPRE_DELAY`), `lastCommand = READ_P` (resp. `WRITE_P`),
`stateChangeCountdown = READ_TO_PRE_DELAY` (resp. `WRITE_TO_PRE_DELAY`) and
`nextRead = nextWrite = nextActivate`. -/
theorem timingUpdate_autoprecharge (cfg : Config) (c : Nat) (p : BusPacket)
    (bs : Nat → Nat → BankState) :
    (p.busPacketType = BusPacketType.READ_P →
      ∃ bs1, timingUpdate cfg c p bs = Except.ok bs1 ∧
        (bs1 p.rank p.bank).nextActivate
          = max (bs p.rank p.bank).nextActivate (c + cfg.READ_AUTOPRE_DELAY) ∧
        (bs1 p.rank p.bank).lastCommand = BusPacketType.READ_P ∧
        (bs1 p.rank p.bank).stateChangeCountdown = cfg.READ_TO_PRE_DELAY ∧
        (bs1 p.rank p.bank).nextRead = (bs1 p.rank p.bank).nextActivate ∧
        (bs1 p.rank p.bank).nextWrite = (bs1 p.rank p.bank).nextActivate) ∧
    (p.busPacketType = BusPacketType.WRITE_P →
      ∃ bs1, timingUpdate cfg c p bs = Except.ok bs1 ∧
        (bs1 p.rank p.bank).nextActivate
          = max (bs p.rank p.bank).nextActivate (c + cfg.WRITE_AUTOPRE_DELAY) ∧
        (bs1 p.rank p.bank).lastCommand = BusPacketType.WRITE_P ∧
        (bs1 p.rank p.bank).stateChangeCountdown = cfg.WRITE_TO_PRE_DELAY ∧
        (bs1 p.rank p.bank).nextRead = (bs1 p.rank p.bank).nextActivate ∧
        (bs1 p.rank p.bank).nextWrite = (bs1 p.rank p.bank).nextActivate) := by
  constructor
  · intro hty
    refine ⟨_, timingUpdate_READ_P_eq cfg c p bs hty, ?_, ?_, ?_, ?_, ?_⟩
    · rw [set2_same]
      simp only [clampToActivate, forBanks]
      rw [mapRange2_proj BankState.nextActivate _ _ _ _
        (fun i _ x => (readOthers_keeps cfg c p.rank i x).1), set2_same]
      simp [readSame, max_comm]
    · rw [set2_same]
      simp only [clampToActivate, forBanks]
      rw [mapRange2_proj BankState.lastCommand _ _ _ _
        (fun i _ x => (readOthers_keeps cfg c p.rank i x).2.1), set2_same]
      simp [readSame]
    · rw [set2_same]
      simp only [clampToActivate, forBanks]
      rw [mapRange2_proj BankState.stateChangeCountdown _ _ _ _
        (fun i _ x => (readOthers_keeps cfg c p.rank i x).2.2.1), set2_same]
      simp [readSame]
    · rw [set2_same]
      simp [clampToActivate]
    · rw [set2_same]
      simp [clampToActivate]
  · intro hty
    refine ⟨_, timingUpdate_WRITE_P_eq cfg c p bs hty, ?_, ?_, ?_, ?_, ?_⟩
    · rw [set2_same]
      simp only [clampToActivate, forBanks]
      rw [mapRange2_proj BankState.nextActivate _ _ _ _
        (fun i _ x => (writeOthers_keeps cfg c p.rank i x).1), set2_same]
      simp [writeSame, max_comm]
    · rw [set2_same]
      simp only [clampToActivate, forBanks]
      rw [mapRange2_proj BankState.lastCommand _ _ _ _
        (fun i _ x => (writeOthers_keeps cfg c p.rank i x).2.1), set2_same]
      simp [writeSame]
    · rw [set2_same]
      simp only [clampToActivate, forBanks]
      rw [mapRange2_proj BankState.stateChangeCountdown _ _ _ _
        (fun i _ x => (writeOthers_keeps cfg c p.rank i x).2.2.1), set2_same]
      simp [writeSame]
    · rw [set2_same]
      simp [clampToActivate]
    · rw [set2_same]
      simp [clampToActivate]

/-- Witness of C7: a READ_P and a WRITE_P for bank 2 of rank 1 popped at clock 40. -/
theorem timingUpdate_autoprecharge_witness :
    (∃ bs1, timingUpdate exampleConfig 40 (examplePacket BusPacketType.READ_P)
        (fun _ _ => exampleBoot.bank0) = Except.ok bs1 ∧
      (bs1 1 2).stateChangeCountdown = exampleConfig.READ_TO_PRE_DELAY) ∧
    (∃ bs1, timingUpdate exampleConfig 40 (examplePacket BusPacketType.WRITE_P)
        (fun _ _ => exampleBoot.bank0) = Except.ok bs1 ∧
      (bs1 1 2).stateChangeCountdown = exampleConfig.WRITE_TO_PRE_DELAY) := by
  have h := timingUpdate_autoprecharge exampleConfig 40
  constructor
  · obtain ⟨bs1, h1, _, _, h4, _⟩ := (h (examplePacket BusPacketType.READ_P)
      (fun _ _ => exampleBoot.bank0)).1 rfl
    exact ⟨bs1, h1, h4⟩
  · obtain ⟨bs1, h1, _, _, h4, _⟩ := (h (examplePacket BusPacketType.WRITE_P)
      (fun _ _ => exampleBoot.bank0)).2 rfl
    exact ⟨bs1, h1, h4⟩

/-- C8, as stated, fails: with low power on, `REFRESH_PERIOD/tCK = 8`, 4 ranks and
`tXP = 4`, rank 0 is due at the cycles 2, 10, 18, ..., but the controller sets its
`refreshWaiting` already at cycle 1, where rank 0 is powered down and its countdown is
1 <= tXP. -/
theorem refreshWaiting_set_early :
    run lowPowerConfig (MemoryController.init lowPowerConfig exampleBoot)
        (List.replicate 2 (Event.cycle quietInput))
      = Except.ok (stateAfter lowPowerConfig exampleBoot (List.replicate 2 (Event.cycle quietInput))) ∧
    1 ≤ lowPowerConfig.REFRESH_PERIOD_CYCLES / lowPowerConfig.NUM_RANKS ∧
    (1, ExtCall.setRefreshWaiting 0) ∈
      (stateAfter lowPowerConfig exampleBoot (List.replicate 2 (Event.cycle quietInput))).trace ∧
    ¬ ∃ k, 1 = lowPowerConfig.REFRESH_PERIOD_CYCLES / lowPowerConfig.NUM_RANKS * (0 + 1)
      + k * lowPowerConfig.REFRESH_PERIOD_CYCLES := by
  refine ⟨rfl, by decide, by decide, ?_⟩
  rintro ⟨k, hk⟩
  have h8 : lowPowerConfig.REFRESH_PERIOD_CYCLES = 8 := rfl
  have h4 : lowPowerConfig.NUM_RANKS = 4 := rfl
  rw [h8, h4] at hk
  omega

/-- C8 (amended): writing `P` for `REFRESH_PERIOD/tCK` and `N` for `NUM_RANKS` (integer
division, `P/N >= 1`), in every run from the constructor with `update()` once per cycle
the controller signals `commandQueue.needRefresh(i)` exactly at the cycles
`(P/N)*(i+1) + k*P`, `k = 0,1,2,...`, and at no other cycle; at each of these cycles it
sets `refreshWaiting` of rank `i`, and with `USE_LOW_POWER` off it sets it at no other
cycle (with low power on, the early arming of a powered-down rank is not covered); no
`refreshCountdown` is ever negative; with `P = 7800` and `N = 4` the insertions up to
cycle 9750 are rank 0 at 1950, rank 1 at 3900, rank 2 at 5850, rank 3 at 7800 and rank 0
again at 9750. -/
theorem refresh_round_robin (cfg : Config) (boot : Boot) (mc : MemoryController)
    (hQ : 1 ≤ cfg.REFRESH_PERIOD_CYCLES / cfg.NUM_RANKS) (hr : Reachable cfg boot mc) :
    (∀ c i, (c, ExtCall.needRefresh i) ∈ mc.trace ↔
      (i < cfg.NUM_RANKS ∧ c < mc.currentClockCycle ∧
        ∃ k, c = cfg.REFRESH_PERIOD_CYCLES / cfg.NUM_RANKS * (i + 1)
          + k * cfg.REFRESH_PERIOD_CYCLES)) ∧
    (∀ c i, (c, ExtCall.needRefresh i) ∈ mc.trace →
      (c, ExtCall.setRefreshWaiting i) ∈ mc.trace) ∧
    (cfg.USE_LOW_POWER = false → ∀ c i, (c, ExtCall.setRefreshWaiting i) ∈ mc.trace →
      (c, ExtCall.needRefresh i) ∈ mc.trace) ∧
    (∀ i, 0 ≤ mc.refreshCountdown i) ∧
    (cfg.REFRESH_PERIOD_CYCLES = 7800 → cfg.NUM_RANKS = 4 →
      ∀ c i, c ≤ 9750 → c < mc.currentClockCycle →
        ((c, ExtCall.needRefresh i) ∈ mc.trace ↔
          (c = 1950 ∧ i = 0) ∨ (c = 3900 ∧ i = 1) ∨ (c = 5850 ∧ i = 2) ∨
          (c = 7800 ∧ i = 3) ∨ (c = 9750 ∧ i = 0))) := by
  have hI := RefreshInv_reachable cfg boot hQ mc hr
  have hnn := RefreshInv_nonneg cfg hQ mc _ hI
  obtain ⟨k, j, hj, r1, r2, r3, r5, r4, t1, t2, t3⟩ := hI
  have m1 : ∀ c i, (c, ExtCall.needRefresh i) ∈ mc.trace ↔
      (i < cfg.NUM_RANKS ∧ c < mc.currentClockCycle ∧
        ∃ k, c = cfg.REFRESH_PERIOD_CYCLES / cfg.NUM_RANKS * (i + 1)
          + k * cfg.REFRESH_PERIOD_CYCLES) := by
    intro c i
    rw [← (refreshCalls_mem_trace mc c i).1]
    exact t1 c i
  refine ⟨m1, ?_, ?_, hnn, ?_⟩
  · intro c i h
    rw [← (refreshCalls_mem_trace mc c i).2]
    rw [← (refreshCalls_mem_trace mc c i).1] at h
    exact t2 c i h
  · intro hoff c i h
    rw [← (refreshCalls_mem_trace mc c i).1]
    rw [← (refreshCalls_mem_trace mc c i).2] at h
    exact t3 hoff c i h
  · intro hP hN c i hc hlt
    rw [m1 c i, hP, hN]
    have hdiv : 7800 / 4 = 1950 := by norm_num
    rw [hdiv]
    constructor
    · rintro ⟨hi, _, k1, hk1⟩
      omega
    · intro h
      refine ⟨by omega, hlt, ?_⟩
      rcases h with h | h | h | h | h
      · exact ⟨0, by omega⟩
      · exact ⟨0, by omega⟩
      · exact ⟨0, by omega⟩
      · exact ⟨0, by omega⟩
      · exact ⟨1, by omega⟩

/-- Witness of C8 (amended): three cycles with a refresh period of 8 cycles and 4 ranks;
rank 0 is signalled at cycle 2. -/
theorem refresh_round_robin_witness :
    1 ≤ lowPowerConfig.REFRESH_PERIOD_CYCLES / lowPowerConfig.NUM_RANKS ∧
    Reachable lowPowerConfig exampleBoot
      (stateAfter lowPowerConfig exampleBoot (List.replicate 3 (Event.cycle quietInput))) ∧
    (2, ExtCall.needRefresh 0) ∈
      (stateAfter lowPowerConfig exampleBoot (List.replicate 3 (Event.cycle quietInput))).trace :=
  ⟨by decide, ⟨List.replicate 3 (Event.cycle quietInput), rfl⟩,
    ((refresh_round_robin lowPowerConfig exampleBoot _ (by decide)
      ⟨List.replicate 3 (Event.cycle quietInput), rfl⟩).1 2 0).mpr
      ⟨by decide, by decide, 0, by decide⟩⟩

/-- C9, as stated, fails: with `NUM_CPU = 3` and `CYCLE_LENGTH = 100`, the owner selected
at the epoch start of cycle 100 (the update of the state reached after 100 cycles) is core
2, not core 1: the first epoch starts at cycle 0 and already moves `turn` from 0 to 1. -/
theorem turn_at_cycle_100 :
    exampleConfig.NUM_CPU = 3 ∧ exampleConfig.CYCLE_LENGTH = 100 ∧
    run exampleConfig (MemoryController.init exampleConfig exampleBoot)
        (List.replicate 100 (Event.cycle quietInput))
      = Except.ok (stateAfter exampleConfig exampleBoot (List.replicate 100 (Event.cycle quietInput))) ∧
    (stateAfter exampleConfig exampleBoot
      (List.replicate 100 (Event.cycle quietInput))).currentClockCycle = 100 * 1 ∧
    update exampleConfig quietInput
        (stateAfter exampleConfig exampleBoot (List.replicate 100 (Event.cycle quietInput)))
      = Except.ok (updated exampleConfig quietInput
          (stateAfter exampleConfig exampleBoot (List.replicate 100 (Event.cycle quietInput)))) ∧
    (updated exampleConfig quietInput
      (stateAfter exampleConfig exampleBoot (List.replicate 100 (Event.cycle quietInput)))).turn
      ≠ 1 % 3 := by
  refine ⟨rfl, rfl, rfl, ?_, rfl, ?_⟩ <;> decide

/-- C9 (amended): with `NUM_CPU = 3` and `CYCLE_LENGTH = 100`, from the constructor with
`update()` once per cycle, the epoch starts are the cycles 0, 100, 200, ... and the owner
`turn` selected at them is 1, 2, 0, 1, 2, 0, ...: the update of cycle `100*k` is an epoch
start and selects the owner `(k+1) mod 3`, for every `k >= 0`. -/
theorem turn_rotation (cfg : Config) (boot : Boot) (mc mc1 : MemoryController)
    (inp : CycleInput) (k : Nat) (hcpu : cfg.NUM_CPU = 3) (hlen : cfg.CYCLE_LENGTH = 100)
    (hr : Reachable cfg boot mc) (hc : mc.currentClockCycle = 100 * k)
    (hu : update cfg inp mc = Except.ok mc1) :
    mc.epochStart = mc.currentClockCycle ∧ mc1.turn = (k + 1) % 3 ∧
    mc1.epochStart = 100 * (k + 1) := by
  have h := epoch_owner cfg boot (by omega) (by omega) mc mc1 inp k hr (by rw [hc, hlen]) hu
  rw [hcpu, hlen] at h
  exact h

/-- Witness of C9 (amended): the epoch start at cycle 100 selects core 2. -/
theorem turn_rotation_witness :
    exampleConfig.NUM_CPU = 3 ∧ exampleConfig.CYCLE_LENGTH = 100 ∧
    (updated exampleConfig quietInput
      (stateAfter exampleConfig exampleBoot (List.replicate 100 (Event.cycle quietInput)))).turn
      = (1 + 1) % 3 :=
  ⟨rfl, rfl,
    (turn_rotation exampleConfig exampleBoot
      (stateAfter exampleConfig exampleBoot (List.replicate 100 (Event.cycle quietInput)))
      (updated exampleConfig quietInput
        (stateAfter exampleConfig exampleBoot (List.replicate 100 (Event.cycle quietInput))))
      quietInput 1 rfl rfl ⟨List.replicate 100 (Event.cycle quietInput), rfl⟩ (by decide)
      rfl).2.1⟩

/-- C10, as stated, fails: at the epoch boundary of cycle 9 of this run, `prevSch[0][0]`
is 2 after the copy and the top-3 ranks are 2, 5, 1 in priority order, but rank 1 is sticky
in row 1 (`prevSch[1][0] = 1`), so `constructSchedule` leaves `sch[1][0] = 1` and
`sch[2][0] = 5`. -/
theorem sticky_rows_swap :
    run sixRankConfig (MemoryController.init sixRankConfig exampleBoot) stickyRun
      = Except.ok (stateAfter sixRankConfig exampleBoot stickyRun) ∧
    (stateAfter sixRankConfig exampleBoot stickyRun).epochStart = 9 ∧
    (epochAdvance sixRankConfig (stateAfter sixRankConfig exampleBoot stickyRun) 9).prevSch 0 0 = 2 ∧
    selectTopThree sixRankConfig (pktsInRank sixRankConfig (drain sixRankConfig
      (epochAdvance sixRankConfig (stateAfter sixRankConfig exampleBoot stickyRun) 9)))
      = Except.ok [2, 5, 1] ∧
    constructSchedule sixRankConfig (stateAfter sixRankConfig exampleBoot stickyRun) 9
      = Except.ok (scheduled sixRankConfig (stateAfter sixRankConfig exampleBoot stickyRun) 9) ∧
    (scheduled sixRankConfig (stateAfter sixRankConfig exampleBoot stickyRun) 9).sch 0 0 = 2 ∧
    (scheduled sixRankConfig (stateAfter sixRankConfig exampleBoot stickyRun) 9).sch 1 0 = 1 ∧
    (scheduled sixRankConfig (stateAfter sixRankConfig exampleBoot stickyRun) 9).sch 2 0 = 5 := by
  refine ⟨rfl, ?_, ?_, rfl, rfl, ?_, ?_, ?_⟩ <;> decide

/-- C10 (amended): for every state at an epoch boundary in which, after the copy of `sch`
into `prevSch`, `prevSch[0][0] = 2`, `prevSch[1][0] != 1` and `prevSch[2][0] != 5`, and the
top-3 ranks by demand are 2, 5, 1 in priority order, `constructSchedule` leaves
`sch[0][0] = 2`, `sch[1][0] = 5` and `sch[2][0] = 1`. -/
theorem stickiness_scenario (cfg : Config) (mc : MemoryController) (clk : Nat)
    (hclk : clk = mc.epochStart)
    (htop : selectTopThree cfg (pktsInRank cfg (drain cfg (epochAdvance cfg mc clk)))
      = Except.ok [2, 5, 1])
    (hp0 : (epochAdvance cfg mc clk).prevSch 0 0 = 2)
    (hp1 : (epochAdvance cfg mc clk).prevSch 1 0 ≠ 1)
    (hp2 : (epochAdvance cfg mc clk).prevSch 2 0 ≠ 5) :
    ∃ mc1, constructSchedule cfg mc clk = Except.ok mc1 ∧
      mc1.prevSch = (epochAdvance cfg mc clk).prevSch ∧
      mc1.sch 0 0 = 2 ∧ mc1.sch 1 0 = 5 ∧ mc1.sch 2 0 = 1 := by
  have hlt := selectTopThree_lt cfg _ _ htop
  have h2 := lt_ranks_ne_RB_MAX cfg 2 (hlt 2 (by simp))
  have h5 := lt_ranks_ne_RB_MAX cfg 5 (hlt 5 (by simp))
  have h1 := lt_ranks_ne_RB_MAX cfg 1 (hlt 1 (by simp))
  obtain ⟨st, hst, s0, s1, s2⟩ := placeRanks_251 cfg (drain cfg (epochAdvance cfg mc clk)).prevSch
    (drain cfg (epochAdvance cfg mc clk)).sch h2 h5 h1
    (fun i hi => by simp [drain, epochAdvance, mapRange2, hi]) hp0 hp1 hp2
  refine ⟨{ drain cfg (epochAdvance cfg mc clk) with sch := st.1 }, ?_, rfl, s0, s1, s2⟩
  unfold constructSchedule
  simp only [hclk, ne_eq, not_true_eq_false, if_false]
  rw [← hclk, htop]
  simp only [hst]

/-- Witness of C10 (amended): the epoch boundary of cycle 9 after a first epoch that served
the ranks 2, 4, 3. -/
theorem stickiness_scenario_witness :
    (9 : Nat) = (stateAfter sixRankConfig exampleBoot stickyWitnessRun).epochStart ∧
    ∃ mc1, constructSchedule sixRankConfig (stateAfter sixRankConfig exampleBoot stickyWitnessRun) 9
        = Except.ok mc1 ∧
      mc1.prevSch = (epochAdvance sixRankConfig
        (stateAfter sixRankConfig exampleBoot stickyWitnessRun) 9).prevSch ∧
      mc1.sch 0 0 = 2 ∧ mc1.sch 1 0 = 5 ∧ mc1.sch 2 0 = 1 :=
  ⟨by decide,
    stickiness_scenario sixRankConfig (stateAfter sixRankConfig exampleBoot stickyWitnessRun) 9
      (by decide) rfl (by decide) (by decide) (by decide)⟩

/-- C11: command bus collision.  In an `update()` that reaches the pop and in which the
command queue yields a packet (a command, not a DATA packet), the update stops with the
command-bus-collision error if and only if `outgoingCmdPacket` is still non-null after the
command-bus countdown step of this cycle; otherwise the popped packet becomes
`outgoingCmdPacket` with `cmdCyclesLeft = tCMD` and, for `tCMD >= 1`, it stays on the bus
until the update exactly `tCMD` cycles later, whose countdown step hands it to its
destination rank and leaves `outgoingCmdPacket` null (at the end of that update
`outgoingCmdPacket` is what that update pops, null if nothing). -/
theorem command_bus (cfg : Config) (mc mc2 : MemoryController) (inp : CycleInput)
    (p : BusPacket) (hpop : inp.popped = some p)
    (hty : p.busPacketType ≠ BusPacketType.DATA)
    (hw : writeDataStep cfg (dataBusCountdown (cmdBusCountdown (updateBankStates cfg mc)))
      = Except.ok mc2) :
    (update cfg inp mc = Except.error Err.cmdBusCollision ↔
      (cmdBusCountdown (updateBankStates cfg mc)).outgoingCmdPacket ≠ none) ∧
    (∀ mc1, applyEvent cfg mc (Event.cycle inp) = Except.ok mc1 →
      mc1.outgoingCmdPacket = some p ∧ mc1.cmdCyclesLeft = cfg.tCMD ∧
      (1 ≤ cfg.tCMD → ∀ es m2, run cfg mc1 es = Except.ok m2 → cycleCount es < cfg.tCMD →
        m2.outgoingCmdPacket = some p ∧ m2.cmdCyclesLeft = cfg.tCMD - cycleCount es ∧
        m2.currentClockCycle = mc.currentClockCycle + 1 + cycleCount es ∧
        (cycleCount es + 1 = cfg.tCMD →
          (cmdBusCountdown (updateBankStates cfg m2)).outgoingCmdPacket = none ∧
          (cmdBusCountdown (updateBankStates cfg m2)).trace
            = m2.trace ++ [(mc.currentClockCycle + cfg.tCMD,
                ExtCall.rankReceiveFromBus p.rank p)] ∧
          ∀ inp2 m3, update cfg inp2 m2 = Except.ok m3 →
            m3.outgoingCmdPacket = inp2.popped))) := by
  obtain ⟨c1, c2⟩ := cmd_before_pop cfg mc mc2 hw
  constructor
  · constructor
    · intro he
      rcases update_err cfg inp mc _ he with e1 | ⟨m2, e2, e3⟩
      · rw [hw] at e1
        cases e1
      · rw [hw] at e2
        cases e2
        rcases e3 with e3 | ⟨m3, _, e4⟩
        · rcases popStep_some cfg inp (refreshStep cfg mc2) p hpop hty with ⟨ho, _⟩ |
              ⟨_, m, e, _⟩
          · rw [← c1]
            exact ho
          · rw [e] at e3
            cases e3
        · rcases e4 with e4 | ⟨m4, _, e5⟩
          · cases constructSchedule_err cfg _ _ _ e4
          · rcases e5 with e5 | ⟨m5, _, e6⟩
            · rcases dispatchReq_err cfg inp _ _ _ e5 with ⟨e, _⟩ | e <;> cases e
            · rcases returnStep_err cfg _ _ e6 with e | e <;> cases e
    · intro ho
      rcases popStep_some cfg inp (refreshStep cfg mc2) p hpop hty with ⟨_, e⟩ | ⟨hn, _⟩
      · exact update_pop_error cfg inp mc mc2 _ hw e
      · rw [c1] at hn
        exact absurd hn ho
  · intro mc1 hcyc
    obtain ⟨m3, hu, rfl⟩ := applyEvent_cycle_ok cfg mc mc1 inp hcyc
    obtain ⟨_, a2, a3⟩ := (update_cmd cfg inp mc m3 hu).2 p hpop
    refine ⟨a2, a3, ?_⟩
    intro ht es m2 hr hlt
    obtain ⟨b1, b2, b3⟩ := onBus_run cfg p es
      { m3 with currentClockCycle := m3.currentClockCycle + 1 } m2
      (cfg.tCMD - cycleCount es - 1) a2
      (by show m3.cmdCyclesLeft = _; rw [a3]; omega) hr
    have hclk : m2.currentClockCycle = mc.currentClockCycle + 1 + cycleCount es := by
      rw [b3]
      show m3.currentClockCycle + 1 + cycleCount es = _
      rw [(update_epoch cfg inp mc m3 hu).1]
    refine ⟨b1, by rw [b2]; omega, hclk, ?_⟩
    intro hlast
    have hd : dec32 (updateBankStates cfg m2).cmdCyclesLeft = 0 := by
      show dec32 m2.cmdCyclesLeft = 0
      rw [b2]
      have : cfg.tCMD - cycleCount es - 1 + 1 = 1 := by omega
      rw [this]
      rfl
    have hcount : (cmdBusCountdown (updateBankStates cfg m2)).outgoingCmdPacket = none ∧
        (cmdBusCountdown (updateBankStates cfg m2)).trace
          = m2.trace ++ [(m2.currentClockCycle, ExtCall.rankReceiveFromBus p.rank p)] := by
      rcases cmdBusCountdown_cases (updateBankStates cfg m2) with ⟨e, _⟩ | ⟨q, _, e1, _⟩ |
          ⟨q, e, _, e2⟩
      · have : (updateBankStates cfg m2).outgoingCmdPacket = some p := b1
        rw [this] at e
        cases e
      · exact absurd hd e1
      · have : (updateBankStates cfg m2).outgoingCmdPacket = some p := b1
        rw [this] at e
        cases e
        rw [e2]
        exact ⟨rfl, rfl⟩
    refine ⟨hcount.1, ?_, ?_⟩
    · rw [hcount.2, hclk]
      have : mc.currentClockCycle + 1 + cycleCount es = mc.currentClockCycle + cfg.tCMD := by
        omega
      rw [this]
    · intro inp2 m3' hu2
      obtain ⟨u1, u2⟩ := update_cmd cfg inp2 m2 m3' hu2
      cases hp2 : inp2.popped with
      | none => rw [(u1 hp2).1, hcount.1]
      | some q => exact (u2 q hp2).2.1

/-- Witness of C11: with `tCMD = 3`, an ACTIVATE popped in cycle 0 is on the command bus
with one cycle left after the updates of cycles 1 and 2, the countdown step of cycle 3
clears the bus, and a second pop in cycle 1 stops the simulation with the collision
error. -/
theorem command_bus_witness :
    (stateAfter threeCmdConfig exampleBoot (busRun 2)).outgoingCmdPacket
      = some (examplePacket BusPacketType.ACTIVATE) ∧
    (stateAfter threeCmdConfig exampleBoot (busRun 2)).cmdCyclesLeft = 1 ∧
    (cmdBusCountdown (updateBankStates threeCmdConfig
      (stateAfter threeCmdConfig exampleBoot (busRun 2)))).outgoingCmdPacket = none ∧
    update threeCmdConfig (popInput (examplePacket BusPacketType.READ))
      (stateAfter threeCmdConfig exampleBoot (busRun 0))
      = Except.error Err.cmdBusCollision := by
  have h := (command_bus threeCmdConfig (MemoryController.init threeCmdConfig exampleBoot) _
    (popInput (examplePacket BusPacketType.ACTIVATE)) (examplePacket BusPacketType.ACTIVATE)
    rfl (by decide) rfl).2 (stateAfter threeCmdConfig exampleBoot (busRun 0)) rfl
  have h2 := h.2.2 (by decide) (List.replicate 2 (Event.cycle quietInput))
    (stateAfter threeCmdConfig exampleBoot (busRun 2)) rfl (by decide)
  refine ⟨h2.1, h2.2.1, (h2.2.2.2 (by decide)).1, ?_⟩
  exact (command_bus threeCmdConfig (stateAfter threeCmdConfig exampleBoot (busRun 0)) _
    (popInput (examplePacket BusPacketType.READ)) (examplePacket BusPacketType.READ)
    rfl (by decide) rfl).1.mpr (by decide)

/-- C12: the write-data FIFO.  In every reachable state `writeDataCountdown` and
`writeDataToSend` have the same length.  Over every run, the DATA packets put on the data
bus, followed by those still waiting, are the packets that were waiting followed by the
DATA packets of the WRITE and WRITE_P commands popped in the run, in the order of the pops;
the packet `placedNow` names for an update is on the data bus with `dataCyclesLeft = BL/2`
after that update.  For `WL >= 1`, a WRITE or WRITE_P popped in the update of cycle `t`
appends one DATA packet with its address, rank, bank, row, column and data, with countdown
`WL`; `k < WL` cycles later the packet is still waiting with countdown `WL - k`, and the
update of cycle `t + WL` finds it at the head with the countdown reaching zero: its
write-data step stops on a data bus collision if the data bus is occupied and otherwise
puts the packet on the data bus with `dataCyclesLeft = BL/2`, where it is at the end of that
update. -/
theorem write_data_fifo (cfg : Config) (boot : Boot) (mc : MemoryController)
    (hr : Reachable cfg boot mc) :
    mc.writeDataCountdown.length = mc.writeDataToSend.length ∧
    (∀ es mc2, run cfg mc es = Except.ok mc2 →
      dataPlaced cfg mc es ++ mc2.writeDataToSend = mc.writeDataToSend ++ writesPopped es) ∧
    (∀ inp mc1, update cfg inp mc = Except.ok mc1 →
      (∀ d, placedNow mc = [d] →
        mc1.outgoingDataPacket = some d ∧ mc1.dataCyclesLeft = cfg.BL / 2) ∧
      (placedNow mc = [] →
        mc1.outgoingDataPacket
          = (dataBusCountdown (cmdBusCountdown (updateBankStates cfg mc))).outgoingDataPacket ∧
        mc1.dataCyclesLeft
          = (dataBusCountdown (cmdBusCountdown (updateBankStates cfg mc))).dataCyclesLeft)) ∧
    (1 ≤ cfg.WL → ∀ inp p mc1, inp.popped = some p →
      (p.busPacketType = BusPacketType.WRITE ∨ p.busPacketType = BusPacketType.WRITE_P) →
      applyEvent cfg mc (Event.cycle inp) = Except.ok mc1 →
      (∃ m2, writeDataStep cfg (dataBusCountdown (cmdBusCountdown (updateBankStates cfg mc)))
          = Except.ok m2 ∧
        mc1.writeDataToSend = m2.writeDataToSend ++
          [{ busPacketType := BusPacketType.DATA, physicalAddress := p.physicalAddress,
             column := p.column, row := p.row, rank := p.rank, bank := p.bank,
             data := p.data }] ∧
        mc1.writeDataCountdown = m2.writeDataCountdown ++ [cfg.WL]) ∧
      ∀ es m, run cfg mc1 es = Except.ok m → cycleCount es < cfg.WL →
        m.currentClockCycle = mc.currentClockCycle + 1 + cycleCount es ∧
        (∃ j : Nat, m.writeDataToSend[j]? = some (dataPacketOf p) ∧
          m.writeDataCountdown[j]? = some (cfg.WL - cycleCount es)) ∧
        (cycleCount es + 1 = cfg.WL →
          m.currentClockCycle = mc.currentClockCycle + cfg.WL ∧
          placedNow m = [dataPacketOf p] ∧
          ((dataBusCountdown (cmdBusCountdown (updateBankStates cfg m))).outgoingDataPacket
              ≠ none →
            writeDataStep cfg (dataBusCountdown (cmdBusCountdown (updateBankStates cfg m)))
              = Except.error Err.dataBusCollision) ∧
          ((dataBusCountdown (cmdBusCountdown (updateBankStates cfg m))).outgoingDataPacket
              = none →
            ∃ m2, writeDataStep cfg
                (dataBusCountdown (cmdBusCountdown (updateBankStates cfg m))) = Except.ok m2 ∧
              m2.outgoingDataPacket = some (dataPacketOf p) ∧
              m2.dataCyclesLeft = cfg.BL / 2) ∧
          ∀ inp2 m3, update cfg inp2 m = Except.ok m3 →
            m3.outgoingDataPacket = some (dataPacketOf p) ∧
            m3.dataCyclesLeft = cfg.BL / 2)) := by
  refine ⟨fifo_lengths cfg boot mc hr, fun es mc2 h => fifo_order cfg es mc mc2 h,
    fun inp mc1 h => placedNow_update cfg inp mc mc1 h, ?_⟩
  intro hW inp p mc1 hp hty h1
  have hi := FifoInv_reachable cfg hW boot mc hr
  have hi1 := FifoInv_step cfg hW mc _ mc1 hi h1
  obtain ⟨m3, hu, rfl⟩ := applyEvent_cycle_ok cfg mc mc1 inp h1
  obtain ⟨m2, h2, g1, g2, _, _⟩ := update_fifo cfg inp mc m3 hu
  rw [poppedWrite_write inp p hp hty] at g1 g2
  have hclk := (update_epoch cfg inp mc m3 hu).1
  refine ⟨⟨m2, h2, g1, g2⟩, ?_⟩
  intro es m hrun hk
  have hlen : m2.writeDataCountdown.length = m2.writeDataToSend.length := by
    have := hi1.1
    rw [show ({ m3 with currentClockCycle := m3.currentClockCycle + 1 } :
        MemoryController).writeDataCountdown = m3.writeDataCountdown from rfl,
      show ({ m3 with currentClockCycle := m3.currentClockCycle + 1 } :
        MemoryController).writeDataToSend = m3.writeDataToSend from rfl, g1, g2] at this
    simpa using this
  have hs : ({ m3 with currentClockCycle := m3.currentClockCycle + 1 } :
      MemoryController).writeDataToSend[m2.writeDataToSend.length]?
        = some (dataPacketOf p) := by
    show m3.writeDataToSend[m2.writeDataToSend.length]? = _
    rw [g1]
    simp
  have hc : ({ m3 with currentClockCycle := m3.currentClockCycle + 1 } :
      MemoryController).writeDataCountdown[m2.writeDataToSend.length]?
        = some (cycleCount es + (cfg.WL - cycleCount es - 1) + 1) := by
    show m3.writeDataCountdown[m2.writeDataToSend.length]? = _
    rw [g2, ← hlen]
    simp
    omega
  obtain ⟨⟨j, t1, t2⟩, t3, t4⟩ := tracked_run cfg hW (dataPacketOf p) es _ m _
    (cfg.WL - cycleCount es - 1) hi1 hs hc hrun
  have hv : cfg.WL - cycleCount es - 1 + 1 = cfg.WL - cycleCount es := by omega
  rw [hv] at t2
  have hck : m.currentClockCycle = mc.currentClockCycle + 1 + cycleCount es := by
    rw [t3]
    show m3.currentClockCycle + 1 + cycleCount es = _
    rw [hclk]
  refine ⟨hck, ⟨j, t1, t2⟩, ?_⟩
  intro hlast
  have hone : cfg.WL - cycleCount es = 1 := by omega
  rw [hone] at t2
  obtain ⟨h0, rest, hd⟩ := tracked_head cfg m (dataPacketOf p) j t4 t1 t2
  have hpl : placedNow m = [dataPacketOf p] := by
    unfold placedNow
    rw [if_pos h0, hd]
    rfl
  obtain ⟨b1, b2⟩ := fifo_before_step cfg m
  obtain ⟨w1, w2⟩ := writeDataStep_head cfg
    (dataBusCountdown (cmdBusCountdown (updateBankStates cfg m))) (dataPacketOf p) rest
    (by rw [b2]; exact h0) (by rw [b1]; exact hd)
  refine ⟨by omega, hpl, w1, ?_, ?_⟩
  · intro ho
    obtain ⟨m2, a, b, c, _⟩ := w2 ho
    exact ⟨m2, a, b, c⟩
  · intro inp2 m3 hu3
    exact (placedNow_update cfg inp2 m m3 hu3).1 _ hpl

/-- Witness of C12: with `WL = 5`, a WRITE popped in the update of cycle 0 is, after four
more cycles, named by `placedNow` for the update of cycle 5, and is on the data bus with
`dataCyclesLeft = BL/2 = 4` after that update. -/
theorem write_data_fifo_witness :
    Reachable exampleConfig exampleBoot (MemoryController.init exampleConfig exampleBoot) ∧
    1 ≤ exampleConfig.WL ∧
    (stateAfter exampleConfig exampleBoot (writeRun 4)).currentClockCycle = 5 ∧
    placedNow (stateAfter exampleConfig exampleBoot (writeRun 4))
      = [dataPacketOf (examplePacket BusPacketType.WRITE)] ∧
    (updated exampleConfig quietInput
        (stateAfter exampleConfig exampleBoot (writeRun 4))).outgoingDataPacket
      = some (dataPacketOf (examplePacket BusPacketType.WRITE)) ∧
    (updated exampleConfig quietInput
        (stateAfter exampleConfig exampleBoot (writeRun 4))).dataCyclesLeft = 4 := by
  have a := ((write_data_fifo exampleConfig exampleBoot _ ⟨[], rfl⟩).2.2.2 (by decide)
    (popInput (examplePacket BusPacketType.WRITE)) (examplePacket BusPacketType.WRITE)
    (stateAfter exampleConfig exampleBoot (writeRun 0)) rfl (Or.inl rfl) rfl).2
    (List.replicate 4 (Event.cycle quietInput))
    (stateAfter exampleConfig exampleBoot (writeRun 4)) rfl (by decide)
  obtain ⟨a1, a2, _, _, a5⟩ := a.2.2 (by decide)
  obtain ⟨b1, b2⟩ := a5 quietInput
    (updated exampleConfig quietInput (stateAfter exampleConfig exampleBoot (writeRun 4))) rfl
  exact ⟨⟨[], rfl⟩, by decide, a1, a2, b1, b2⟩

/-- C13: read return.  In the return phase of an `update()` with `returnTransaction`
non-empty, only its head `h` is processed: if no pending read has the address of `h` the
update stops with a fatal error; otherwise, when `HISTOGRAM_BIN_SIZE` is not zero, the
pending read `t` at the lowest index `i` with that address is removed (all other pending
reads keep their relative order), its latency `currentClockCycle - timeAdded`, as received by
`insertHistogram`, is added to the latency total of its core (the total of demand reads or
of prefetches, the totals of other cores staying as they are), and `h` is removed from
`returnTransaction`.  With `HISTOGRAM_BIN_SIZE = 0` a match stops the update in the
division of `insertHistogram`. -/
theorem returnStep_contract (cfg : Config) (mc : MemoryController) (h : Transaction)
    (rest : List Transaction) (hrt : mc.returnTransaction = h :: rest) :
    ((∀ t ∈ mc.pendingReadTransactions, t.address ≠ h.address) →
      returnStep cfg mc = Except.error Err.noMatchingTransaction) ∧
    (∀ i t, mc.pendingReadTransactions[i]? = some t → t.address = h.address →
      (∀ k u, k < i → mc.pendingReadTransactions[k]? = some u → u.address ≠ h.address) →
      (cfg.HISTOGRAM_BIN_SIZE = 0 →
        returnStep cfg mc = Except.error Err.divisionByZero) ∧
      (0 < cfg.HISTOGRAM_BIN_SIZE →
      ∃ mc1, returnStep cfg mc = Except.ok mc1 ∧
        mc1.pendingReadTransactions = mc.pendingReadTransactions.eraseIdx i ∧
        mc1.returnTransaction = rest ∧
        (t.isPrefetch = false →
          mc1.totalLatency t.core
            = mc.totalLatency t.core + latencyValue mc.currentClockCycle t.timeAdded ∧
          (∀ c, c ≠ t.core → mc1.totalLatency c = mc.totalLatency c) ∧
          mc1.totalLatencyPref = mc.totalLatencyPref) ∧
        (t.isPrefetch = true →
          mc1.totalLatencyPref t.core
            = mc.totalLatencyPref t.core + latencyValue mc.currentClockCycle t.timeAdded ∧
          (∀ c, c ≠ t.core → mc1.totalLatencyPref c = mc.totalLatencyPref c) ∧
          mc1.totalLatency = mc.totalLatency) ∧
        (t.timeAdded ≤ mc.currentClockCycle →
          mc.currentClockCycle - t.timeAdded < 4294967296 →
          latencyValue mc.currentClockCycle t.timeAdded
            = mc.currentClockCycle - t.timeAdded))) := by
  constructor
  · intro hnone
    have hs := scanFirst_none (fun (t : Transaction) => decide (t.address = h.address))
      mc.pendingReadTransactions 0 (fun y hy => by simpa using hnone y hy)
    simp only [returnStep, hrt, hs]
  · intro i t hi ht hlow
    have hs := scanFirst_first (fun (t : Transaction) => decide (t.address = h.address))
      mc.pendingReadTransactions 0 i t hi (by simpa using ht)
      (fun k u hk hu => by simpa using hlow k u hk hu)
    rw [Nat.zero_add] at hs
    refine ⟨fun hz => returnStep_zero cfg mc h rest i t hrt hs hz, fun hH => ?_⟩
    obtain ⟨m, hm, hr⟩ := returnStep_found cfg mc h rest i t hrt hs (by omega)
    obtain ⟨_, _, t0, t1⟩ := insertHistogram_ok cfg mc m _ _ _ _ _ hm
    refine ⟨_, hr, rfl, rfl, ?_, ?_, ?_⟩
    · intro hp
      obtain ⟨u1, u2⟩ := t0 hp
      refine ⟨?_, ?_, ?_⟩
      · show m.totalLatency t.core = _
        rw [u1]
        simp [set1]
      · intro c hc
        show m.totalLatency c = _
        rw [u1]
        simp [set1, hc]
      · exact u2
    · intro hp
      obtain ⟨u1, u2⟩ := t1 hp
      refine ⟨?_, ?_, ?_⟩
      · show m.totalLatencyPref t.core = _
        rw [u1]
        simp [set1]
      · intro c hc
        show m.totalLatencyPref c = _
        rw [u1]
        simp [set1, hc]
      · exact u2
    · exact latencyValue_exact _ _

/-- Witness of C13: of the two pending reads for address 7 the one at index 1 is removed,
and its latency 40 is added to the total of core 1 (`HISTOGRAM_BIN_SIZE` is 10). -/
theorem returnStep_contract_witness :
    0 < exampleConfig.HISTOGRAM_BIN_SIZE ∧
    ∃ mc1, returnStep exampleConfig returningController = Except.ok mc1 ∧
      mc1.pendingReadTransactions
        = [{ demandRead 5 1 with timeAdded := 10 },
           { demandRead 7 1 with timeAdded := 10, data := 3 }] ∧
      mc1.returnTransaction = [] ∧
      mc1.totalLatency 1 = 40 := by
  obtain ⟨mc1, h1, h2, h3, h4, _, h6⟩ :=
    ((returnStep_contract exampleConfig returningController
      { transactionType := TransactionType.RETURN_DATA, address := 7, data := 0, core := 0,
        isPrefetch := false, timeAdded := 0 } [] rfl).2 1
      { demandRead 7 1 with timeAdded := 10 } rfl rfl
      (by
        intro k u hk hu
        have hk0 : k = 0 := by omega
        subst hk0
        simp only [returningController, List.getElem?_cons_zero, Option.some.injEq] at hu
        subst hu
        decide)).2 (by decide)
  exact ⟨by decide, mc1, h1, h2, h3,
    ((h4 rfl).1.trans (congrArg _ (h6 (by decide) (by decide))))⟩

/-- C14: in every reachable state, every transaction stored in `rankQ[c][r]` has core `c`,
is not a prefetch and has an address that maps to rank `r`; consequently no `update()`
stops on `assert(!transaction->isPrefetch)`, and whenever the demand loop of `dispatchReq`
enqueues a command pair, the pair is built from a transaction of the current owner `turn`
and both packets target the scheduled rank `sch[rankIndx][0]`. -/
theorem rankQ_invariant (cfg : Config) (boot : Boot) (mc : MemoryController)
    (hr : Reachable cfg boot mc) :
    (∀ c r t, t ∈ mc.rankQ c r →
      t.core = c ∧ t.isPrefetch = false ∧ (cfg.addressMapping t.address).rank = r) ∧
    (∀ inp, update cfg inp mc ≠ Except.error Err.assertionFailed) ∧
    (∀ inp mc2 mc3 mc4,
      writeDataStep cfg (dataBusCountdown (cmdBusCountdown (updateBankStates cfg mc)))
        = Except.ok mc2 →
      popStep cfg inp (refreshStep cfg mc2) = Except.ok mc3 →
      constructSchedule cfg mc3 mc3.currentClockCycle = Except.ok mc4 →
      ∀ e mc5, dispatchDemand cfg inp mc4 = Except.ok (e, mc5) →
        (e = true ∧ mc5 = mc4) ∨
        (e = false ∧ ∃ t bp, t.core = mc4.turn ∧ t.isPrefetch = false ∧
          (cfg.addressMapping t.address).rank = mc4.sch mc4.rankIndx 0 ∧
          mc5.trace = mc4.trace ++
            (commandPair cfg t bp).map (fun c => (mc4.currentClockCycle, c)) ∧
          ∀ q, ExtCall.enqueue q ∈ commandPair cfg t bp →
            q.rank = mc4.sch mc4.rankIndx 0)) := by
  have hi := RankQInv_reachable cfg boot mc hr
  refine ⟨hi, ?_, ?_⟩
  · intro inp he
    rcases update_err cfg inp mc _ he with e1 | ⟨m2, h2, e3⟩
    · rcases writeDataStep_err cfg _ _ e1 with e | e <;> cases e
    · rcases e3 with e3 | ⟨m3, h3, e4⟩
      · rcases popStep_err cfg inp _ _ e3 with e | e <;> cases e
      · rcases e4 with e4 | ⟨m4, h4, e5⟩
        · cases constructSchedule_err cfg _ _ _ e4
        · have i4 := RankQInv_at_dispatch cfg inp mc m2 m3 m4 hi h2 h3 h4
          rcases e5 with e5 | ⟨m5, _, e6⟩
          · rcases dispatchReq_err cfg inp _ _ _ e5 with ⟨_, t, ht, hp⟩ | e
            · have := (i4 _ _ t ht).2.1
              rw [hp] at this
              cases this
            · cases e
          · rcases returnStep_err cfg _ _ e6 with e | e <;> cases e
  · intro inp mc2 mc3 mc4 h2 h3 h4 e mc5 hd
    have i4 := RankQInv_at_dispatch cfg inp mc mc2 mc3 mc4 hi h2 h3 h4
    rcases dispatchDemand_pair cfg inp mc4 mc5 e hd with a | ⟨a, t, bp, ht, htr⟩
    · exact Or.inl a
    · obtain ⟨k1, k2, k3⟩ := i4 _ _ t ht
      refine Or.inr ⟨a, t, bp, k1, k2, k3, htr, ?_⟩
      intro q hq
      rw [(commandPair_rank cfg t bp q hq).1, k3]

/-- Witness of C14: after three demand reads of core 1 to rank 2 and one cycle without room
in the command queue, the three reads wait in `rankQ[1][2]`, and the invariant holds. -/
theorem rankQ_invariant_witness :
    Reachable exampleConfig exampleBoot (stateAfter exampleConfig exampleBoot (heldRun 1 0)) ∧
    ((stateAfter exampleConfig exampleBoot (heldRun 1 0)).rankQ 1 2).length = 3 ∧
    (∀ c r t, t ∈ (stateAfter exampleConfig exampleBoot (heldRun 1 0)).rankQ c r →
      t.core = c ∧ t.isPrefetch = false ∧ (exampleConfig.addressMapping t.address).rank = r) ∧
    (∀ inp, update exampleConfig inp (stateAfter exampleConfig exampleBoot (heldRun 1 0))
      ≠ Except.error Err.assertionFailed) :=
  ⟨⟨heldRun 1 0, rfl⟩, by decide,
    (rankQ_invariant exampleConfig exampleBoot _ ⟨heldRun 1 0, rfl⟩).1,
    (rankQ_invariant exampleConfig exampleBoot _ ⟨heldRun 1 0, rfl⟩).2.1⟩

/-- C15, as stated, fails: on banks with `nextActivate = 500` and `nextRead = nextWrite =
900`, a REFRESH for rank 1 popped at clock 40 sets `nextActivate` of bank 2 of rank 1 to
`40 + tRFC = 147`, below its old value, and a READ_P for that bank popped at clock 40 sets
`nextRead` and `nextWrite` to the new `nextActivate`, 500, below their old value 900. -/
theorem deadline_decreases :
    timingUpdate exampleConfig 40 (examplePacket BusPacketType.REFRESH) (fun _ _ => lateBank)
      = Except.ok (timed exampleConfig 40 (examplePacket BusPacketType.REFRESH)
          (fun _ _ => lateBank)) ∧
    (timed exampleConfig 40 (examplePacket BusPacketType.REFRESH)
      (fun _ _ => lateBank) 1 2).nextActivate = 147 ∧
    lateBank.nextActivate = 500 ∧
    timingUpdate exampleConfig 40 (examplePacket BusPacketType.READ_P) (fun _ _ => lateBank)
      = Except.ok (timed exampleConfig 40 (examplePacket BusPacketType.READ_P)
          (fun _ _ => lateBank)) ∧
    (timed exampleConfig 40 (examplePacket BusPacketType.READ_P)
      (fun _ _ => lateBank) 1 2).nextRead = 500 ∧
    (timed exampleConfig 40 (examplePacket BusPacketType.READ_P)
      (fun _ _ => lateBank) 1 2).nextWrite = 500 ∧
    lateBank.nextRead = 900 ∧ lateBank.nextWrite = 900 := by
  refine ⟨rfl, ?_, ?_, rfl, ?_, ?_, ?_, ?_⟩ <;> decide

/-- C15 (amended): deadline monotonicity of the timing updater.  For a popped READ, WRITE,
ACTIVATE or PRECHARGE, every clock value and every bank of every rank, each of `nextRead`,
`nextWrite`, `nextActivate` and `nextPrecharge` after the update is at least its value
before.  For READ_P and WRITE_P the same holds for `nextActivate` and `nextPrecharge` of
every bank and for all four deadlines of every bank other than the addressed one, whose
`nextRead` and `nextWrite` are set to its new `nextActivate`.  For REFRESH, `nextRead`,
`nextWrite` and `nextPrecharge` of every bank are unchanged, `nextActivate` of every bank of
the rank is set to `currentClockCycle + tRFC`, and banks of other ranks are unchanged. -/
theorem timingUpdate_deadlines (cfg : Config) (c : Nat) (p : BusPacket)
    (bs : Nat → Nat → BankState) :
    ((p.busPacketType = BusPacketType.READ ∨ p.busPacketType = BusPacketType.WRITE ∨
      p.busPacketType = BusPacketType.ACTIVATE ∨ p.busPacketType = BusPacketType.PRECHARGE) →
      ∃ bs1, timingUpdate cfg c p bs = Except.ok bs1 ∧
        ∀ i j, DeadlinesLe (bs i j) (bs1 i j)) ∧
    ((p.busPacketType = BusPacketType.READ_P ∨ p.busPacketType = BusPacketType.WRITE_P) →
      ∃ bs1, timingUpdate cfg c p bs = Except.ok bs1 ∧
        (∀ i j, (bs i j).nextActivate ≤ (bs1 i j).nextActivate ∧
          (bs i j).nextPrecharge ≤ (bs1 i j).nextPrecharge) ∧
        (∀ i j, ¬ (i = p.rank ∧ j = p.bank) → DeadlinesLe (bs i j) (bs1 i j)) ∧
        (bs1 p.rank p.bank).nextRead = (bs1 p.rank p.bank).nextActivate ∧
        (bs1 p.rank p.bank).nextWrite = (bs1 p.rank p.bank).nextActivate) ∧
    (p.busPacketType = BusPacketType.REFRESH →
      ∃ bs1, timingUpdate cfg c p bs = Except.ok bs1 ∧
        (∀ i j, (bs1 i j).nextRead = (bs i j).nextRead ∧
          (bs1 i j).nextWrite = (bs i j).nextWrite ∧
          (bs1 i j).nextPrecharge = (bs i j).nextPrecharge) ∧
        (∀ j, j < cfg.NUM_BANKS → (bs1 p.rank j).nextActivate = c + cfg.tRFC) ∧
        (∀ i j, i ≠ p.rank → bs1 i j = bs i j)) := by
  refine ⟨?_, ?_, ?_⟩
  · rintro (hty | hty | hty | hty)
    · refine ⟨_, timingUpdate_READ_eq cfg c p bs hty, fun i j => ?_⟩
      exact DeadlinesLe_trans _ _ _
        (DeadlinesLe_set2 bs p.rank p.bank _ (DeadlinesLe_readSame cfg c _ _) i j)
        (DeadlinesLe_forBanks cfg _ (fun a _ x => DeadlinesLe_readOthers cfg c p.rank a x) _ i j)
    · refine ⟨_, timingUpdate_WRITE_eq cfg c p bs hty, fun i j => ?_⟩
      exact DeadlinesLe_trans _ _ _
        (DeadlinesLe_set2 bs p.rank p.bank _ (DeadlinesLe_writeSame cfg c _ _) i j)
        (DeadlinesLe_forBanks cfg _ (fun a _ x => DeadlinesLe_writeOthers cfg c p.rank a x) _
          i j)
    · refine ⟨_, timingUpdate_ACTIVATE_eq cfg c p bs hty, fun i j => ?_⟩
      refine DeadlinesLe_trans _ _ _
        (DeadlinesLe_set2 bs p.rank p.bank _ ?_ i j)
        (DeadlinesLe_forBanksOfRank cfg _ _ ?_ _ i j)
      · simp [DeadlinesLe]
      · intro a x
        split
        · simp [DeadlinesLe]
        · exact DeadlinesLe_refl _
    · refine ⟨_, timingUpdate_PRECHARGE_eq cfg c p bs hty, fun i j => ?_⟩
      refine DeadlinesLe_set2 bs p.rank p.bank _ ?_ i j
      simp [DeadlinesLe]
  · rintro (hty | hty)
    · have key : ∀ i j, DeadlinesLe (bs i j)
          (forBanks cfg (fun a _ x => readOthers cfg c p.rank a x)
            (set2 bs p.rank p.bank (readSame cfg c BusPacketType.READ_P (bs p.rank p.bank)))
            i j) := fun i j =>
        DeadlinesLe_trans _ _ _
          (DeadlinesLe_set2 bs p.rank p.bank _ (DeadlinesLe_readSame cfg c _ _) i j)
          (DeadlinesLe_forBanks cfg _ (fun a _ x => DeadlinesLe_readOthers cfg c p.rank a x) _
            i j)
      refine ⟨_, timingUpdate_READ_P_eq cfg c p bs hty, ?_, ?_, ?_, ?_⟩
      · intro i j
        have h := key i j
        simp only [set2]
        split
        · rename_i e
          rw [e.1, e.2] at h ⊢
          exact ⟨h.2.2.1, h.2.2.2⟩
        · exact ⟨h.2.2.1, h.2.2.2⟩
      · intro i j hne
        simp only [set2, hne, if_false]
        exact key i j
      · simp [set2, clampToActivate]
      · simp [set2, clampToActivate]
    · have key : ∀ i j, DeadlinesLe (bs i j)
          (forBanks cfg (fun a _ x => writeOthers cfg c p.rank a x)
            (set2 bs p.rank p.bank (writeSame cfg c BusPacketType.WRITE_P (bs p.rank p.bank)))
            i j) := fun i j =>
        DeadlinesLe_trans _ _ _
          (DeadlinesLe_set2 bs p.rank p.bank _ (DeadlinesLe_writeSame cfg c _ _) i j)
          (DeadlinesLe_forBanks cfg _ (fun a _ x => DeadlinesLe_writeOthers cfg c p.rank a x) _
            i j)
      refine ⟨_, timingUpdate_WRITE_P_eq cfg c p bs hty, ?_, ?_, ?_, ?_⟩
      · intro i j
        have h := key i j
        simp only [set2]
        split
        · rename_i e
          rw [e.1, e.2] at h ⊢
          exact ⟨h.2.2.1, h.2.2.2⟩
        · exact ⟨h.2.2.1, h.2.2.2⟩
      · intro i j hne
        simp only [set2, hne, if_false]
        exact key i j
      · simp [set2, clampToActivate]
      · simp [set2, clampToActivate]
  · intro hty
    refine ⟨_, timingUpdate_REFRESH_eq cfg c p bs hty, ?_, ?_, ?_⟩
    · intro i j
      rw [forBanksOfRank_apply]
      split
      · rename_i e
        rw [e]
        split <;> exact ⟨rfl, rfl, rfl⟩
      · exact ⟨rfl, rfl, rfl⟩
    · intro j hj
      simp [forBanksOfRank_apply, hj]
    · intro i j hne
      simp [forBanksOfRank_apply, hne]

/-- Witness of C15 (amended): a WRITE and a READ_P for bank 2 of rank 1 and a REFRESH for
rank 1, popped at clock 40 on the banks with late deadlines. -/
theorem timingUpdate_deadlines_witness :
    (∃ bs1, timingUpdate exampleConfig 40 (examplePacket BusPacketType.WRITE)
        (fun _ _ => lateBank) = Except.ok bs1 ∧ DeadlinesLe lateBank (bs1 1 3)) ∧
    (∃ bs1, timingUpdate exampleConfig 40 (examplePacket BusPacketType.READ_P)
        (fun _ _ => lateBank) = Except.ok bs1 ∧ (bs1 1 2).nextRead = (bs1 1 2).nextActivate) ∧
    (∃ bs1, timingUpdate exampleConfig 40 (examplePacket BusPacketType.REFRESH)
        (fun _ _ => lateBank) = Except.ok bs1 ∧
      (bs1 1 2).nextActivate = 40 + exampleConfig.tRFC) := by
  have h := timingUpdate_deadlines exampleConfig 40
  refine ⟨?_, ?_, ?_⟩
  · obtain ⟨bs1, h1, h2⟩ := (h (examplePacket BusPacketType.WRITE)
      (fun _ _ => lateBank)).1 (Or.inr (Or.inl rfl))
    exact ⟨bs1, h1, h2 1 3⟩
  · obtain ⟨bs1, h1, _, _, h4, _⟩ := (h (examplePacket BusPacketType.READ_P)
      (fun _ _ => lateBank)).2.1 (Or.inl rfl)
    exact ⟨bs1, h1, h4⟩
  · obtain ⟨bs1, h1, _, h3, _⟩ := (h (examplePacket BusPacketType.REFRESH)
      (fun _ _ => lateBank)).2.2 rfl
    exact ⟨bs1, h1, h3 2 (by decide)⟩

/-- C16: when a WRITE for bank `(r, b)` is popped at clock `c`, the timing updater sets
`nextPrecharge` of that bank to `max(old, c + WRITE_TO_PRE_DELAY)`; every other bank of rank
`r` gets `nextWrite = max(old, c + max(BL/2, tCCD))` and
`nextRead = max(old, c + WRITE_TO_READ_DELAY_B)`; every bank of another rank that is
RowActive gets `nextWrite = max(old, c + BL/2 + tRTRS)` and
`nextRead = max(old, c + WRITE_TO_READ_DELAY_R)`; banks of other ranks that are not RowActive
are unchanged. -/
theorem timingUpdate_WRITE (cfg : Config) (c : Nat) (p : BusPacket) (bs : Nat → Nat → BankState)
    (hty : p.busPacketType = BusPacketType.WRITE) (hr : p.rank < cfg.NUM_RANKS) :
    ∃ bs1, timingUpdate cfg c p bs = Except.ok bs1 ∧
      (bs1 p.rank p.bank).nextPrecharge
        = max (bs p.rank p.bank).nextPrecharge (c + cfg.WRITE_TO_PRE_DELAY) ∧
      (∀ j, j < cfg.NUM_BANKS → j ≠ p.bank →
        (bs1 p.rank j).nextWrite = max (bs p.rank j).nextWrite (c + max (cfg.BL / 2) cfg.tCCD) ∧
        (bs1 p.rank j).nextRead = max (bs p.rank j).nextRead (c + cfg.WRITE_TO_READ_DELAY_B)) ∧
      (∀ i j, i < cfg.NUM_RANKS → i ≠ p.rank → j < cfg.NUM_BANKS →
        (bs i j).currentBankState = CurrentBankState.RowActive →
        (bs1 i j).nextWrite = max (bs i j).nextWrite (c + cfg.BL / 2 + cfg.tRTRS) ∧
        (bs1 i j).nextRead = max (bs i j).nextRead (c + cfg.WRITE_TO_READ_DELAY_R)) ∧
      (∀ i j, i ≠ p.rank → (bs i j).currentBankState ≠ CurrentBankState.RowActive →
        bs1 i j = bs i j) := by
  refine ⟨_, timingUpdate_WRITE_eq cfg c p bs hty, ?_, ?_, ?_, ?_⟩
  · simp only [forBanks, mapRange2, set2, writeSame, writeOthers]
    split <;> simp [max_comm]
  · intro j hj hne
    simp [forBanks, mapRange2, set2, writeSame, writeOthers, hr, hj, hne, max_comm]
  · intro i j hi hne hj hact
    simp [forBanks, mapRange2, set2, writeSame, writeOthers, hi, hj, hne, hact, max_comm]
  · intro i j hne hact
    simp only [forBanks, mapRange2, set2, writeSame, writeOthers]
    simp [hne, hact]

/-- Witness of C16: a WRITE for bank 2 of rank 1 popped at clock 40. -/
theorem timingUpdate_WRITE_witness :
    (examplePacket BusPacketType.WRITE).busPacketType = BusPacketType.WRITE ∧
    (examplePacket BusPacketType.WRITE).rank < exampleConfig.NUM_RANKS ∧
    ∃ bs1, timingUpdate exampleConfig 40 (examplePacket BusPacketType.WRITE)
        (fun _ _ => exampleBoot.bank0) = Except.ok bs1 ∧
      (bs1 1 2).nextPrecharge = 40 + exampleConfig.WRITE_TO_PRE_DELAY ∧
      (bs1 1 3).nextWrite = 44 := by
  refine ⟨rfl, by decide, ?_⟩
  obtain ⟨bs1, h1, h2, h3, _⟩ := timingUpdate_WRITE exampleConfig 40
    (examplePacket BusPacketType.WRITE) (fun _ _ => exampleBoot.bank0) rfl (by decide)
  refine ⟨bs1, h1, ?_, ?_⟩
  · exact h2.trans (by decide)
  · exact (h3 3 (by decide) (by decide)).1.trans (by decide)

/-- C17: when a PRECHARGE for bank `(r, b)` is popped at clock `c`, the bank becomes
Precharging with `lastCommand = PRECHARGE`, `stateChangeCountdown = tRP` and
`nextActivate = max(old, c + tRP)`, and no other bank changes; when a REFRESH for rank `r`
is popped at clock `c`, every bank of rank `r` becomes Refreshing with
`lastCommand = REFRESH`, `stateChangeCountdown = tRFC` and `nextActivate = c + tRFC`, and no
bank of another rank changes. -/
theorem timingUpdate_row_closing (cfg : Config) (c : Nat) (p : BusPacket)
    (bs : Nat → Nat → BankState) :
    (p.busPacketType = BusPacketType.PRECHARGE →
      ∃ bs1, timingUpdate cfg c p bs = Except.ok bs1 ∧
        (bs1 p.rank p.bank).currentBankState = CurrentBankState.Precharging ∧
        (bs1 p.rank p.bank).lastCommand = BusPacketType.PRECHARGE ∧
        (bs1 p.rank p.bank).stateChangeCountdown = cfg.tRP ∧
        (bs1 p.rank p.bank).nextActivate = max (bs p.rank p.bank).nextActivate (c + cfg.tRP) ∧
        (∀ i j, ¬ (i = p.rank ∧ j = p.bank) → bs1 i j = bs i j)) ∧
    (p.busPacketType = BusPacketType.REFRESH →
      ∃ bs1, timingUpdate cfg c p bs = Except.ok bs1 ∧
        (∀ j, j < cfg.NUM_BANKS →
          (bs1 p.rank j).currentBankState = CurrentBankState.Refreshing ∧
          (bs1 p.rank j).lastCommand = BusPacketType.REFRESH ∧
          (bs1 p.rank j).stateChangeCountdown = cfg.tRFC ∧
          (bs1 p.rank j).nextActivate = c + cfg.tRFC) ∧
        (∀ i j, i ≠ p.rank → bs1 i j = bs i j)) := by
  constructor
  · intro hty
    refine ⟨_, timingUpdate_PRECHARGE_eq cfg c p bs hty, ?_, ?_, ?_, ?_, ?_⟩
    · simp [set2]
    · simp [set2]
    · simp [set2]
    · simp [set2, max_comm]
    · intro i j hne
      simp [set2, hne]
  · intro hty
    refine ⟨_, timingUpdate_REFRESH_eq cfg c p bs hty, ?_, ?_⟩
    · intro j hj
      simp [forBanksOfRank_apply, hj]
    · intro i j hne
      simp [forBanksOfRank_apply, hne]

/-- Witness of C17: a PRECHARGE for bank 2 of rank 1 and a REFRESH for rank 1 popped at
clock 40. -/
theorem timingUpdate_row_closing_witness :
    (∃ bs1, timingUpdate exampleConfig 40 (examplePacket BusPacketType.PRECHARGE)
        (fun _ _ => exampleBoot.bank0) = Except.ok bs1 ∧
      (bs1 1 2).currentBankState = CurrentBankState.Precharging ∧
      (bs1 1 2).stateChangeCountdown = exampleConfig.tRP) ∧
    (∃ bs1, timingUpdate exampleConfig 40 (examplePacket BusPacketType.REFRESH)
        (fun _ _ => exampleBoot.bank0) = Except.ok bs1 ∧
      (bs1 1 5).currentBankState = CurrentBankState.Refreshing ∧
      (bs1 1 5).nextActivate = 40 + exampleConfig.tRFC) := by
  have h := timingUpdate_row_closing exampleConfig 40
  constructor
  · obtain ⟨bs1, h1, h2, _, h4, _⟩ := (h (examplePacket BusPacketType.PRECHARGE)
      (fun _ _ => exampleBoot.bank0)).1 rfl
    exact ⟨bs1, h1, h2, h4⟩
  · obtain ⟨bs1, h1, h2, _⟩ := (h (examplePacket BusPacketType.REFRESH)
      (fun _ _ => exampleBoot.bank0)).2 rfl
    exact ⟨bs1, h1, (h2 5 (by decide)).1, (h2 5 (by decide)).2.2.2⟩

/-- C18: the per-cycle bank-state step, for every bank `(i, j)`: a countdown of 0 leaves
the bank unchanged; a countdown above 0 is decremented by one and, when it thereby reaches
0, `lastCommand` in {READ_P, WRITE_P} makes the bank Precharging with
`lastCommand = PRECHARGE` and the countdown `tRP`, `lastCommand` in {REFRESH, PRECHARGE}
makes it Idle, any other `lastCommand` leaves the state unchanged; no deadline field and no
`openRowAddress` is modified. -/
theorem updateBankStates_step (cfg : Config) (mc : MemoryController) (i j : Nat)
    (hi : i < cfg.NUM_RANKS) (hj : j < cfg.NUM_BANKS) :
    ((mc.bankStates i j).stateChangeCountdown = 0 →
      (updateBankStates cfg mc).bankStates i j = mc.bankStates i j) ∧
    (1 < (mc.bankStates i j).stateChangeCountdown →
      ((updateBankStates cfg mc).bankStates i j).stateChangeCountdown
        = (mc.bankStates i j).stateChangeCountdown - 1 ∧
      ((updateBankStates cfg mc).bankStates i j).currentBankState
        = (mc.bankStates i j).currentBankState ∧
      ((updateBankStates cfg mc).bankStates i j).lastCommand = (mc.bankStates i j).lastCommand) ∧
    ((mc.bankStates i j).stateChangeCountdown = 1 →
      ((mc.bankStates i j).lastCommand = BusPacketType.READ_P ∨
       (mc.bankStates i j).lastCommand = BusPacketType.WRITE_P) →
      ((updateBankStates cfg mc).bankStates i j).currentBankState
        = CurrentBankState.Precharging ∧
      ((updateBankStates cfg mc).bankStates i j).lastCommand = BusPacketType.PRECHARGE ∧
      ((updateBankStates cfg mc).bankStates i j).stateChangeCountdown = cfg.tRP) ∧
    ((mc.bankStates i j).stateChangeCountdown = 1 →
      ((mc.bankStates i j).lastCommand = BusPacketType.REFRESH ∨
       (mc.bankStates i j).lastCommand = BusPacketType.PRECHARGE) →
      ((updateBankStates cfg mc).bankStates i j).currentBankState = CurrentBankState.Idle ∧
      ((updateBankStates cfg mc).bankStates i j).lastCommand = (mc.bankStates i j).lastCommand ∧
      ((updateBankStates cfg mc).bankStates i j).stateChangeCountdown = 0) ∧
    ((mc.bankStates i j).stateChangeCountdown = 1 →
      (mc.bankStates i j).lastCommand ≠ BusPacketType.READ_P →
      (mc.bankStates i j).lastCommand ≠ BusPacketType.WRITE_P →
      (mc.bankStates i j).lastCommand ≠ BusPacketType.REFRESH →
      (mc.bankStates i j).lastCommand ≠ BusPacketType.PRECHARGE →
      ((updateBankStates cfg mc).bankStates i j).currentBankState
        = (mc.bankStates i j).currentBankState ∧
      ((updateBankStates cfg mc).bankStates i j).lastCommand = (mc.bankStates i j).lastCommand ∧
      ((updateBankStates cfg mc).bankStates i j).stateChangeCountdown = 0) ∧
    ((updateBankStates cfg mc).bankStates i j).nextRead = (mc.bankStates i j).nextRead ∧
    ((updateBankStates cfg mc).bankStates i j).nextWrite = (mc.bankStates i j).nextWrite ∧
    ((updateBankStates cfg mc).bankStates i j).nextActivate = (mc.bankStates i j).nextActivate ∧
    ((updateBankStates cfg mc).bankStates i j).nextPrecharge
      = (mc.bankStates i j).nextPrecharge ∧
    ((updateBankStates cfg mc).bankStates i j).nextPowerUp = (mc.bankStates i j).nextPowerUp ∧
    ((updateBankStates cfg mc).bankStates i j).openRowAddress
      = (mc.bankStates i j).openRowAddress := by
  rw [updateBankStates_apply cfg mc i j hi hj]
  refine ⟨?_, ?_, ?_, ?_, ?_, stepBankState_keeps cfg _⟩
  · intro h0
    exact stepBankState_zero cfg _ h0
  · intro h1
    rcases stepBankState_cases cfg (mc.bankStates i j) with ⟨c, _⟩ | ⟨_, e⟩ | ⟨c, _, _⟩ |
        ⟨c, _, _⟩ | ⟨c, _⟩
    · omega
    · rw [e]
      exact ⟨rfl, rfl, rfl⟩
    · omega
    · omega
    · omega
  · intro h1 hl
    rcases stepBankState_cases cfg (mc.bankStates i j) with ⟨c, _⟩ | ⟨c, _⟩ | ⟨_, _, e⟩ |
        ⟨_, l, _⟩ | ⟨_, l1, l2, _⟩
    · omega
    · omega
    · rw [e]
      exact ⟨rfl, rfl, rfl⟩
    · rcases hl with hl | hl <;> rcases l with l | l <;> rw [hl] at l <;> cases l
    · rcases hl with hl | hl
      · exact absurd hl l1
      · exact absurd hl l2
  · intro h1 hl
    rcases stepBankState_cases cfg (mc.bankStates i j) with ⟨c, _⟩ | ⟨c, _⟩ | ⟨_, l, _⟩ |
        ⟨_, _, e⟩ | ⟨_, _, _, l3, l4, _⟩
    · omega
    · omega
    · rcases hl with hl | hl <;> rcases l with l | l <;> rw [hl] at l <;> cases l
    · rw [e]
      exact ⟨rfl, rfl, rfl⟩
    · rcases hl with hl | hl
      · exact absurd hl l3
      · exact absurd hl l4
  · intro h1 n1 n2 n3 n4
    rcases stepBankState_cases cfg (mc.bankStates i j) with ⟨c, _⟩ | ⟨c, _⟩ | ⟨_, l, _⟩ |
        ⟨_, l, _⟩ | ⟨_, _, _, _, _, e⟩
    · omega
    · omega
    · rcases l with l | l
      · exact absurd l n1
      · exact absurd l n2
    · rcases l with l | l
      · exact absurd l n3
      · exact absurd l n4
    · rw [e]
      exact ⟨rfl, rfl, rfl⟩

/-- Witness of C18: bank 2 of rank 1 holds the last cycle of a READ_P countdown and becomes
Precharging with the countdown `tRP`. -/
theorem updateBankStates_step_witness :
    (1 : Nat) < exampleConfig.NUM_RANKS ∧ (2 : Nat) < exampleConfig.NUM_BANKS ∧
    ((updateBankStates exampleConfig expiringController).bankStates 1 2).currentBankState
      = CurrentBankState.Precharging ∧
    ((updateBankStates exampleConfig expiringController).bankStates 1 2).stateChangeCountdown
      = exampleConfig.tRP :=
  ⟨by decide, by decide,
   ((updateBankStates_step exampleConfig
      expiringController 1 2 (by decide) (by decide)).2.2.1 rfl
      (Or.inl rfl)).1,
   ((updateBankStates_step exampleConfig
      expiringController 1 2 (by decide) (by decide)).2.2.1 rfl
      (Or.inl rfl)).2.2⟩

/-- C19: the auto-precharge timeline.  A READ_P (resp. WRITE_P) for bank `b` of rank `r`
is popped in the update of cycle `t`, with `D = READ_TO_PRE_DELAY` (resp.
`WRITE_TO_PRE_DELAY`) at least 1 and `tRP` at least 1.  In the run that follows no command
for the bank is popped (a command for rank `r` that addresses bank `b`, or a REFRESH of rank
`r`, which addresses all its banks) and no `powerDown()` or `powerUp()` is called on rank
`r` in a cycle after `t`.  Then, `k` being the number of cycles of the run, the state `m`
after the update of cycle `t + k` has: for `k < D` the countdown `D - k` with the popped
command as last command; for `D <= k < D + tRP` the bank Precharging with
`lastCommand = PRECHARGE` (countdown `D + tRP - k`); for `k = D + tRP` the bank Idle with
`stateChangeCountdown = 0`. -/
theorem autoprecharge_timeline (cfg : Config) (inp : CycleInput) (mc mc1 : MemoryController)
    (p : BusPacket) (D : Nat) (es : List Event) (m : MemoryController)
    (hp : inp.popped = some p)
    (hty : (p.busPacketType = BusPacketType.READ_P ∧ D = cfg.READ_TO_PRE_DELAY) ∨
      (p.busPacketType = BusPacketType.WRITE_P ∧ D = cfg.WRITE_TO_PRE_DELAY))
    (hr : p.rank < cfg.NUM_RANKS) (hb : p.bank < cfg.NUM_BANKS)
    (hD : 1 ≤ D) (hRP : 1 ≤ cfg.tRP)
    (h1 : applyEvent cfg mc (Event.cycle inp) = Except.ok mc1)
    (hrun : run cfg mc1 es = Except.ok m)
    (hq : ∀ q ∈ popsOf es, q.rank = p.rank →
      q.bank ≠ p.bank ∧ q.busPacketType ≠ BusPacketType.REFRESH)
    (hpw : ∀ c, mc.currentClockCycle < c →
      (c, ExtCall.rankPowerDown p.rank) ∉ m.trace ∧
      (c, ExtCall.rankPowerUp p.rank) ∉ m.trace) :
    m.currentClockCycle = mc.currentClockCycle + 1 + cycleCount es ∧
    (cycleCount es < D →
      (m.bankStates p.rank p.bank).stateChangeCountdown = D - cycleCount es ∧
      (m.bankStates p.rank p.bank).lastCommand = p.busPacketType) ∧
    (D ≤ cycleCount es → cycleCount es < D + cfg.tRP →
      (m.bankStates p.rank p.bank).currentBankState = CurrentBankState.Precharging ∧
      (m.bankStates p.rank p.bank).lastCommand = BusPacketType.PRECHARGE ∧
      (m.bankStates p.rank p.bank).stateChangeCountdown = D + cfg.tRP - cycleCount es) ∧
    (cycleCount es = D + cfg.tRP →
      (m.bankStates p.rank p.bank).currentBankState = CurrentBankState.Idle ∧
      (m.bankStates p.rank p.bank).stateChangeCountdown = 0) := by
  have hty1 : p.busPacketType = BusPacketType.READ_P ∨ p.busPacketType = BusPacketType.WRITE_P :=
    hty.elim (fun x => Or.inl x.1) (fun x => Or.inr x.1)
  have hDd : preDelay cfg p.busPacketType = D := by
    rcases hty with ⟨a, b⟩ | ⟨a, b⟩ <;> rw [a, b] <;> rfl
  obtain ⟨m3, hu, rfl⟩ := applyEvent_cycle_ok cfg mc mc1 inp h1
  have hclk := (update_epoch cfg inp mc m3 hu).1
  have hA0 : AutoPre cfg D p.busPacketType 0 (m3.bankStates p.rank p.bank) := by
    obtain ⟨n3, n5, hpop, e5, _, e6, _⟩ := update_bank_trace cfg inp mc m3 hu
    obtain ⟨_, _, g3, g4, _⟩ := powerLoop_trace cfg inp n5 p.rank p.bank cfg.NUM_RANKS
    have f : (n3.bankStates p.rank p.bank).lastCommand = p.busPacketType ∧
        (n3.bankStates p.rank p.bank).stateChangeCountdown = D := by
      rcases hpop with ⟨e, _⟩ | ⟨q, e1, e2⟩
      · rw [hp] at e
        cases e
      · rw [hp] at e1
        cases e1
        have := timingUpdate_autopre cfg _ p _ _ hty1 e2
        rw [hDd] at this
        exact this
    refine ⟨fun _ => ?_, fun h0 => by omega, fun h0 => by omega⟩
    rw [e6]
    refine ⟨?_, ?_⟩
    · show ((powerStep cfg inp n5).bankStates p.rank p.bank).stateChangeCountdown = _
      unfold powerStep
      rw [g3, e5, f.2]
      rfl
    · show ((powerStep cfg inp n5).bankStates p.rank p.bank).lastCommand = _
      unfold powerStep
      rw [g4, e5, f.1]
  by_cases hk : cycleCount es ≤ D + cfg.tRP
  · obtain ⟨⟨a1, a2, a3⟩, c⟩ := AutoPre_run cfg D p.busPacketType p.rank p.bank hty1 hRP hr hb es
      { m3 with currentClockCycle := m3.currentClockCycle + 1 } m 0 hA0 hrun hq
      (fun c hc => hpw c (by
        have : m3.currentClockCycle + 1 ≤ c := hc
        omega))
      (by omega)
    rw [Nat.zero_add] at a1 a2 a3
    refine ⟨?_, a1, a2, a3⟩
    rw [c]
    show m3.currentClockCycle + 1 + cycleCount es = _
    rw [hclk]
  · have c := (run_clock cfg es _ m hrun)
    refine ⟨?_, fun h0 => by omega, fun _ h0 => by omega, fun h0 => by omega⟩
    rw [c]
    show m3.currentClockCycle + 1 + cycleCount es = _
    rw [hclk]

/-- Witness of C19: with `READ_TO_PRE_DELAY = 5` and `tRP = 10`, a READ_P for bank 2 of
rank 1 popped in the update of cycle 0 and followed by quiet cycles leaves the bank
Precharging after the update of cycle 5 and Idle with countdown 0 after the update of
cycle 15. -/
theorem autoprecharge_timeline_witness :
    ((stateAfter exampleConfig exampleBoot (autoPreRun 5)).bankStates 1 2).currentBankState
      = CurrentBankState.Precharging ∧
    ((stateAfter exampleConfig exampleBoot (autoPreRun 5)).bankStates 1 2).lastCommand
      = BusPacketType.PRECHARGE ∧
    ((stateAfter exampleConfig exampleBoot (autoPreRun 15)).bankStates 1 2).currentBankState
      = CurrentBankState.Idle ∧
    ((stateAfter exampleConfig exampleBoot (autoPreRun 15)).bankStates 1 2).stateChangeCountdown
      = 0 := by
  have hq : ∀ k, ∀ q ∈ popsOf (List.replicate k (Event.cycle quietInput)),
      q.rank = (examplePacket BusPacketType.READ_P).rank →
      q.bank ≠ (examplePacket BusPacketType.READ_P).bank ∧
      q.busPacketType ≠ BusPacketType.REFRESH := by
    intro k
    induction k with
    | zero =>
      intro q h
      cases h
    | succ n ih =>
      intro q h
      exact ih q h
  have hno : ∀ (m : MemoryController), (m.trace.all (fun x => !isPowerCall x.2)) = true →
      ∀ c, (MemoryController.init exampleConfig exampleBoot).currentClockCycle < c →
      (c, ExtCall.rankPowerDown (examplePacket BusPacketType.READ_P).rank) ∉ m.trace ∧
      (c, ExtCall.rankPowerUp (examplePacket BusPacketType.READ_P).rank) ∉ m.trace := by
    intro m hall c _
    rw [List.all_eq_true] at hall
    constructor <;> intro hm <;> have := hall _ hm <;> simp [isPowerCall] at this
  have a := autoprecharge_timeline exampleConfig
    (popInput (examplePacket BusPacketType.READ_P))
    (MemoryController.init exampleConfig exampleBoot)
    (stateAfter exampleConfig exampleBoot (autoPreRun 0))
    (examplePacket BusPacketType.READ_P) 5 (List.replicate 5 (Event.cycle quietInput))
    (stateAfter exampleConfig exampleBoot (autoPreRun 5)) rfl (Or.inl ⟨rfl, rfl⟩)
    (by decide) (by decide) (by decide) (by decide) rfl rfl (hq 5) (hno _ (by decide))
  have b := autoprecharge_timeline exampleConfig
    (popInput (examplePacket BusPacketType.READ_P))
    (MemoryController.init exampleConfig exampleBoot)
    (stateAfter exampleConfig exampleBoot (autoPreRun 0))
    (examplePacket BusPacketType.READ_P) 5 (List.replicate 15 (Event.cycle quietInput))
    (stateAfter exampleConfig exampleBoot (autoPreRun 15)) rfl (Or.inl ⟨rfl, rfl⟩)
    (by decide) (by decide) (by decide) (by decide) rfl rfl (hq 15) (hno _ (by decide))
  obtain ⟨a1, a2, _⟩ := a.2.2.1 (by decide) (by decide)
  obtain ⟨b1, b2⟩ := b.2.2.2 (by decide)
  exact ⟨a1, a2, b1, b2⟩

/-- C20: the epoch boundary step.  `constructSchedule(curClock)` changes nothing when
`curClock != epochStart`; when `curClock == epochStart` (and there are at least three ranks
to choose from) it completes, advances `epochStart` by `CYCLE_LENGTH`, copies the whole
table `sch` into `prevSch` and replaces `turn` by `(turn + 1) mod NUM_CPU` (for
`turn < NUM_CPU`); from the constructor with `CYCLE_LENGTH >= 1` and one `update()` per
cycle, the clock is at `epochStart` exactly at the multiples of `CYCLE_LENGTH`, and an
`update()` advances `epochStart` at these cycles and at no other. -/
theorem constructSchedule_epoch (cfg : Config) (boot : Boot) (mc : MemoryController)
    (clk : Nat) :
    (clk ≠ mc.epochStart → constructSchedule cfg mc clk = Except.ok mc) ∧
    (clk = mc.epochStart → 3 ≤ cfg.NUM_RANKS →
      ∃ mc1, constructSchedule cfg mc clk = Except.ok mc1 ∧
        mc1.epochStart = mc.epochStart + cfg.CYCLE_LENGTH ∧
        (∀ i j, i < 3 → j < 4 → mc1.prevSch i j = mc.sch i j) ∧
        (mc.turn < cfg.NUM_CPU → mc1.turn = (mc.turn + 1) % cfg.NUM_CPU)) ∧
    (1 ≤ cfg.CYCLE_LENGTH → Reachable cfg boot mc →
      (mc.currentClockCycle = mc.epochStart ↔ cfg.CYCLE_LENGTH ∣ mc.currentClockCycle) ∧
      ∀ inp mc1, update cfg inp mc = Except.ok mc1 →
        (cfg.CYCLE_LENGTH ∣ mc.currentClockCycle →
          mc1.epochStart = mc.epochStart + cfg.CYCLE_LENGTH) ∧
        (¬ cfg.CYCLE_LENGTH ∣ mc.currentClockCycle →
          mc1.epochStart = mc.epochStart ∧ mc1.turn = mc.turn)) := by
  refine ⟨?_, ?_, ?_⟩
  · intro hne
    simp [constructSchedule, hne]
  · intro heq h3
    obtain ⟨mc1, h1⟩ := constructSchedule_total cfg mc clk h3
    obtain ⟨_, _, _, _, _, c6⟩ := constructSchedule_ok cfg mc mc1 clk h1
    obtain ⟨e1, e2, e3, _⟩ := c6 heq
    refine ⟨mc1, h1, by rw [e1, heq], ?_, ?_⟩
    · intro i j hi hj
      rw [e3]
      simp [mapRange2, hi, hj]
    · intro ht
      rw [e2]
      split
      · rename_i e
        have : mc.turn + 1 = cfg.NUM_CPU := by omega
        rw [this, Nat.mod_self]
      · rename_i e
        rw [Nat.mod_eq_of_lt (by omega)]
  · intro hl hr
    have hiff := epochStart_iff_dvd cfg boot hl mc hr
    refine ⟨hiff, ?_⟩
    intro inp mc1 hu
    obtain ⟨_, u2, u3⟩ := update_epoch cfg inp mc mc1 hu
    constructor
    · intro hd
      have e := hiff.mpr hd
      rw [(u3 e).1, e]
    · intro hd
      exact u2 (fun e => hd (hiff.mp e))

/-- Witness of C20: the constructor state of the example configuration, at clocks 0
and 1. -/
theorem constructSchedule_epoch_witness :
    (0 : Nat) = (MemoryController.init exampleConfig exampleBoot).epochStart ∧
    3 ≤ exampleConfig.NUM_RANKS ∧
    (∃ mc1, constructSchedule exampleConfig (MemoryController.init exampleConfig exampleBoot) 0
        = Except.ok mc1 ∧
      mc1.epochStart = 100 ∧ mc1.turn = 1) ∧
    constructSchedule exampleConfig (MemoryController.init exampleConfig exampleBoot) 1
      = Except.ok (MemoryController.init exampleConfig exampleBoot) ∧
    ((MemoryController.init exampleConfig exampleBoot).currentClockCycle
        = (MemoryController.init exampleConfig exampleBoot).epochStart ↔
      exampleConfig.CYCLE_LENGTH ∣
        (MemoryController.init exampleConfig exampleBoot).currentClockCycle) := by
  obtain ⟨mc1, h1, h2, _, h4⟩ := (constructSchedule_epoch exampleConfig exampleBoot
    (MemoryController.init exampleConfig exampleBoot) 0).2.1 rfl (by decide)
  exact ⟨rfl, by decide, ⟨mc1, h1, h2, h4 (by decide)⟩,
    (constructSchedule_epoch exampleConfig exampleBoot
      (MemoryController.init exampleConfig exampleBoot) 1).1 (by decide),
    ((constructSchedule_epoch exampleConfig exampleBoot
      (MemoryController.init exampleConfig exampleBoot) 0).2.2 (by decide) ⟨[], rfl⟩).1⟩

/-- C21: the drain of `constructSchedule` is a stable partition.  When `constructSchedule`
fires (it completes for `NUM_RANKS >= 3`), with `turn` the owner after the advance: the
transaction queue afterwards is the subsequence, in the original order, of its former
elements with `core != turn` or `isPrefetch`; for every rank `r`, `rankQ[turn][r]`
afterwards is its former content followed by the subsequence, in the original order, of
the former queue elements with `core = turn`, not prefetch and mapped rank `r`; `rankQ[c]`
is unchanged for `c != turn`; and the queue afterwards together with the moved
transactions is a rearrangement of the former queue, so nothing is lost or duplicated. -/
theorem drain_stable_partition (cfg : Config) (mc : MemoryController) (clk : Nat)
    (hf : clk = mc.epochStart) :
    (3 ≤ cfg.NUM_RANKS → ∃ mc1, constructSchedule cfg mc clk = Except.ok mc1) ∧
    ∀ mc1, constructSchedule cfg mc clk = Except.ok mc1 →
      mc1.turn = (if mc.turn = cfg.NUM_CPU - 1 then 0 else mc.turn + 1) ∧
      mc1.transactionQueue
        = mc.transactionQueue.filter (fun t => decide (t.core ≠ mc1.turn) || t.isPrefetch) ∧
      (∀ r, mc1.rankQ mc1.turn r = mc.rankQ mc1.turn r ++
        mc.transactionQueue.filter (fun t => decide (t.core = mc1.turn) && !t.isPrefetch &&
          decide ((cfg.addressMapping t.address).rank = r))) ∧
      (∀ c, c ≠ mc1.turn → mc1.rankQ c = mc.rankQ c) ∧
      (mc1.transactionQueue ++
        mc.transactionQueue.filter (fun t => decide (t.core = mc1.turn) && !t.isPrefetch)).Perm
        mc.transactionQueue := by
  refine ⟨fun h3 => constructSchedule_total cfg mc clk h3, ?_⟩
  intro mc1 h
  obtain ⟨h1, h2, h3⟩ := constructSchedule_drain cfg mc mc1 clk hf h
  have hq : mc1.transactionQueue
      = mc.transactionQueue.filter (fun t => decide (t.core ≠ mc1.turn) || t.isPrefetch) := by
    rw [h2, drainLoop_rest]
  refine ⟨h1, hq, ?_, ?_, ?_⟩
  · intro r
    rw [h3, drainLoop_queues]
    simp only [set1, if_true, ownerDemand, List.filter_filter]
    congr 1
    apply List.filter_congr
    intro t _
    rw [Bool.and_comm]
  · intro c hc
    rw [h3]
    simp only [set1, if_neg hc]
  · rw [hq]
    have e : (fun (t : Transaction) => decide (t.core ≠ mc1.turn) || t.isPrefetch)
        = fun t => !(decide (t.core = mc1.turn) && !t.isPrefetch) := by
      funext t
      by_cases hc : t.core = mc1.turn <;> cases t.isPrefetch <;> simp [hc]
    rw [e]
    exact (List.perm_append_comm.trans
      (List.filter_append_perm
        (fun (t : Transaction) => decide (t.core = mc1.turn) && !t.isPrefetch) _))

/-- Witness of C21: the epoch start at cycle 0 with a demand read of core 2, a demand read
of core 1 and a prefetch of core 0 waiting: the read of core 1 (the new owner) moves to
`rankQ[1][2]`, the other two stay in the queue in their order. -/
theorem drain_stable_partition_witness :
    (0 : Nat) = busyDemand.epochStart ∧
    (scheduled exampleConfig busyDemand 0).turn = 1 ∧
    (scheduled exampleConfig busyDemand 0).transactionQueue
      = [demandRead 3 2, { demandRead 40 0 with isPrefetch := true }] ∧
    (scheduled exampleConfig busyDemand 0).rankQ 1 2 = [demandRead 21 1] := by
  have h := (drain_stable_partition exampleConfig busyDemand 0 rfl).2
    (scheduled exampleConfig busyDemand 0) rfl
  refine ⟨rfl, h.1.trans (by decide), h.2.1.trans (by decide), ?_⟩
  exact ((h.2.2.1 2).trans (by rw [h.1]; decide))

/-- C22: top-3 selection.  For `NUM_RANKS >= 3`, the list `topThree` that
`constructSchedule` computes after the drain (from `pktsInRank[r] = rankQ[turn][r].size()`)
is the first three elements of the rank indices `0..NUM_RANKS-1` sorted by descending
pending count and, among equal counts, by descending rank index, and it is the list with
which `constructSchedule` goes on to place the ranks; the sorted list is sorted for that
order and a rearrangement of the rank indices; the three entries are distinct valid rank
indices; with all queues empty and 4 ranks the list is 3, 2, 1. -/
theorem top_three_selection (cfg : Config) (mc : MemoryController) (clk : Nat)
    (hR : 3 ≤ cfg.NUM_RANKS) :
    selectTopThree cfg (pktsInRank cfg (drain cfg (epochAdvance cfg mc clk)))
      = Except.ok (topThreeSpec cfg.NUM_RANKS (fun r =>
          ((drain cfg (epochAdvance cfg mc clk)).rankQ
            (drain cfg (epochAdvance cfg mc clk)).turn r).length)) ∧
    (clk = mc.epochStart → ∀ mc1, constructSchedule cfg mc clk = Except.ok mc1 →
      ∃ st, placeRanks cfg (drain cfg (epochAdvance cfg mc clk)).prevSch
          ((drain cfg (epochAdvance cfg mc clk)).sch,
            topThreeSpec cfg.NUM_RANKS (fun r =>
              ((drain cfg (epochAdvance cfg mc clk)).rankQ
                (drain cfg (epochAdvance cfg mc clk)).turn r).length)) = Except.ok st ∧
        mc1 = { drain cfg (epochAdvance cfg mc clk) with sch := st.1 }) ∧
    (∀ count : Nat → Nat,
      ((List.range cfg.NUM_RANKS).insertionSort
        (fun a b => rankBefore count a b = true)).Sorted
          (fun a b => count b < count a ∨ (count b = count a ∧ b ≤ a)) ∧
      ((List.range cfg.NUM_RANKS).insertionSort
        (fun a b => rankBefore count a b = true)).Perm (List.range cfg.NUM_RANKS) ∧
      (topThreeSpec cfg.NUM_RANKS count).length = 3 ∧
      (topThreeSpec cfg.NUM_RANKS count).Nodup ∧
      ∀ x ∈ topThreeSpec cfg.NUM_RANKS count, x < cfg.NUM_RANKS) ∧
    topThreeSpec 4 (fun _ => 0) = [3, 2, 1] := by
  have hsel := selectTopThree_sorted cfg (pktsInRank cfg (drain cfg (epochAdvance cfg mc clk)))
    (fun r => ((drain cfg (epochAdvance cfg mc clk)).rankQ
      (drain cfg (epochAdvance cfg mc clk)).turn r).length)
    (by
      intro i hi
      simp only [pktsInRank, mapRange1, if_pos hi]) hR
  refine ⟨hsel, ?_, ?_, by decide⟩
  · intro hf mc1 h
    unfold constructSchedule at h
    rw [if_neg (by simpa using hf)] at h
    dsimp only at h
    rw [hsel] at h
    dsimp only at h
    split at h
    · cases h
    · rename_i st hst
      cases h
      exact ⟨st, hst, rfl⟩
  · intro count
    haveI : IsTotal Nat (fun a b => rankBefore count a b = true) :=
      ⟨fun a b => rankBefore_total count a b⟩
    haveI : IsTrans Nat (fun a b => rankBefore count a b = true) :=
      ⟨fun a b c => rankBefore_trans count a b c⟩
    obtain ⟨p1, p2, p3⟩ := topThreeSpec_props cfg.NUM_RANKS count hR
    refine ⟨?_, List.perm_insertionSort _ _, p1, p2, p3⟩
    refine List.Pairwise.imp ?_
      (List.sorted_insertionSort (fun a b => rankBefore count a b = true)
        (List.range cfg.NUM_RANKS))
    intro a b hab
    simpa [rankBefore] using hab

/-- Witness of C22: with 4 ranks and one demand read of the new owner for rank 2, the list
is 2, 3, 1. -/
theorem top_three_selection_witness :
    3 ≤ exampleConfig.NUM_RANKS ∧
    selectTopThree exampleConfig
      (pktsInRank exampleConfig (drain exampleConfig (epochAdvance exampleConfig busyDemand 0)))
      = Except.ok [2, 3, 1] :=
  ⟨by decide, (top_three_selection exampleConfig busyDemand 0 (by decide)).1.trans
    (congrArg Except.ok (by decide))⟩

/-- C23: stickiness.  With `NUM_RANKS >= 3`, `mc3` is the state on which an `update()` run
from a reachable state calls `constructSchedule`, at an epoch boundary (clock equal to
`epochStart`).  The call completes; `prevSch[i][0]` afterwards is the rank of row `i` in
the previous epoch (`sch[i][0]` before the call); and for every row `i` in {0,1,2}, if
`prevSch[i][0]` is one of the top-3 ranks of the new epoch, then `sch[i][0] = prevSch[i][0]`
after the call. -/
theorem stickiness (cfg : Config) (boot : Boot) (mc : MemoryController)
    (hR : 3 ≤ cfg.NUM_RANKS) (hr : Reachable cfg boot mc) (inp : CycleInput)
    (mc2 mc3 : MemoryController)
    (h2 : writeDataStep cfg (dataBusCountdown (cmdBusCountdown (updateBankStates cfg mc)))
      = Except.ok mc2)
    (h3 : popStep cfg inp (refreshStep cfg mc2) = Except.ok mc3)
    (hf : mc3.currentClockCycle = mc3.epochStart) :
    ∃ mc4 top3, constructSchedule cfg mc3 mc3.currentClockCycle = Except.ok mc4 ∧
      selectTopThree cfg
        (pktsInRank cfg (drain cfg (epochAdvance cfg mc3 mc3.currentClockCycle)))
        = Except.ok top3 ∧
      (∀ i, i < 3 → mc4.prevSch i 0 = mc3.sch i 0) ∧
      ∀ i, i < 3 → mc4.prevSch i 0 ∈ top3 → mc4.sch i 0 = mc4.prevSch i 0 := by
  have v : schedView mc3 = schedView mc := by
    rw [schedView_popStep cfg inp _ _ h3, schedView_refreshStep, schedView_writeDataStep cfg _ _ h2,
      schedView_dataBusCountdown, schedView_cmdBusCountdown, schedView_updateBankStates]
  simp only [schedView, Prod.mk.injEq] at v
  have hc := (ColInv_reachable cfg hR boot mc hr).1
  rw [← v.2.2.2.2.2.2.1] at hc
  obtain ⟨top3, s1, hsel, _, _, hlt, _, hcs, _, p2, _, _, _⟩ :=
    constructSchedule_fire cfg mc3 mc3.currentClockCycle hR hf
  have hprev : ∀ i, i < 3 →
      (drain cfg (epochAdvance cfg mc3 mc3.currentClockCycle)).prevSch i 0 = mc3.sch i 0 := by
    intro i hi
    simp [drain, epochAdvance, mapRange2, hi]
  refine ⟨_, top3, hcs, hsel, hprev, ?_⟩
  intro i hi hm
  have hk := sticky_keeps (drain cfg (epochAdvance cfg mc3 mc3.currentClockCycle)).prevSch
    (drain cfg (epochAdvance cfg mc3 mc3.currentClockCycle)).sch top3 (by
      intro a b ha hb hab he hin
      rw [hprev a ha, hprev b hb] at he
      rw [hprev a ha] at hin
      have := hc a b ha hb hab he
      rw [this] at hin
      exact lt_ranks_ne_RB_MAX cfg _ (hlt _ hin) rfl) i hi hm
  show s1 i 0 = _
  rw [p2 i (by
    rw [hk]
    exact lt_ranks_ne_RB_MAX cfg _ (hlt _ hm)), hk]

/-- Witness of C23: epochs of five cycles; in the first epoch the owner has three reads
for rank 2 and the rows get the ranks 2, 3, 1; at the boundary of cycle 5 the new owner has
no demand, the top-3 is 3, 2, 1 in priority order, and every row keeps its rank. -/
theorem stickiness_witness :
    3 ≤ fiveCycleConfig.NUM_RANKS ∧
    Reachable fiveCycleConfig exampleBoot
      (stateAfter fiveCycleConfig exampleBoot (heldRun 0 5)) ∧
    (afterPop fiveCycleConfig quietInput
      (stateAfter fiveCycleConfig exampleBoot (heldRun 0 5))).currentClockCycle = 5 ∧
    (afterPop fiveCycleConfig quietInput
      (stateAfter fiveCycleConfig exampleBoot (heldRun 0 5))).epochStart = 5 ∧
    schRows (atDispatch fiveCycleConfig quietInput
      (stateAfter fiveCycleConfig exampleBoot (heldRun 0 5))).prevSch
        = [[2, 3, 5, 9], [3, 9, 9, 9], [1, 9, 9, 9]] ∧
    (atDispatch fiveCycleConfig quietInput
      (stateAfter fiveCycleConfig exampleBoot (heldRun 0 5))).sch 0 0 = 2 ∧
    (atDispatch fiveCycleConfig quietInput
      (stateAfter fiveCycleConfig exampleBoot (heldRun 0 5))).sch 1 0 = 3 ∧
    (atDispatch fiveCycleConfig quietInput
      (stateAfter fiveCycleConfig exampleBoot (heldRun 0 5))).sch 2 0 = 1 := by
  obtain ⟨mc4, top3, h1, h2, _, h4⟩ := stickiness fiveCycleConfig exampleBoot
    (stateAfter fiveCycleConfig exampleBoot (heldRun 0 5)) (by decide) ⟨heldRun 0 5, rfl⟩
    quietInput
    (afterWriteData fiveCycleConfig (stateAfter fiveCycleConfig exampleBoot (heldRun 0 5)))
    (afterPop fiveCycleConfig quietInput
      (stateAfter fiveCycleConfig exampleBoot (heldRun 0 5))) rfl rfl rfl
  have e4 : atDispatch fiveCycleConfig quietInput
      (stateAfter fiveCycleConfig exampleBoot (heldRun 0 5)) = mc4 := by
    unfold atDispatch scheduled
    rw [h1]
  have e3 : top3 = [3, 2, 1] := by
    have : selectTopThree fiveCycleConfig (pktsInRank fiveCycleConfig
        (drain fiveCycleConfig (epochAdvance fiveCycleConfig
          (afterPop fiveCycleConfig quietInput
            (stateAfter fiveCycleConfig exampleBoot (heldRun 0 5)))
          (afterPop fiveCycleConfig quietInput
            (stateAfter fiveCycleConfig exampleBoot (heldRun 0 5))).currentClockCycle)))
        = Except.ok [3, 2, 1] := rfl
    rw [this] at h2
    cases h2
    rfl
  subst e3
  have p : schRows (atDispatch fiveCycleConfig quietInput
      (stateAfter fiveCycleConfig exampleBoot (heldRun 0 5))).prevSch
        = [[2, 3, 5, 9], [3, 9, 9, 9], [1, 9, 9, 9]] := by decide
  have q0 : mc4.prevSch 0 0 = 2 := by rw [← e4]; decide
  have q1 : mc4.prevSch 1 0 = 3 := by rw [← e4]; decide
  have q2 : mc4.prevSch 2 0 = 1 := by rw [← e4]; decide
  refine ⟨by decide, ⟨heldRun 0 5, rfl⟩, by decide, by decide, p, ?_, ?_, ?_⟩
  · rw [e4, h4 0 (by decide) (by rw [q0]; decide), q0]
  · rw [e4, h4 1 (by decide) (by rw [q1]; decide), q1]
  · rw [e4, h4 2 (by decide) (by rw [q2]; decide), q2]

/-- C24: the fill pass.  For `NUM_RANKS >= 3`, a firing of `constructSchedule` completes
(no read from an empty list).  With `top3` the list it selects and the state after the
stickiness pass (the schedule so far and the ranks left): the ranks left are placed, in
their order, into the rows whose column 0 is still `RB_MAX`, in increasing row order, and
the rows set by the stickiness pass are left as they are; the resulting `sch[0][0]`,
`sch[1][0]`, `sch[2][0]` are a rearrangement of the three top-3 ranks (each exactly once),
all below `NUM_RANKS` and different from `RB_MAX`; and `sch[i][1..3] = RB_MAX` for every
row `i`. -/
theorem fill_pass (cfg : Config) (mc : MemoryController) (clk : Nat)
    (hR : 3 ≤ cfg.NUM_RANKS) (hf : clk = mc.epochStart) :
    ∃ mc1 top3, constructSchedule cfg mc clk = Except.ok mc1 ∧
      selectTopThree cfg (pktsInRank cfg (drain cfg (epochAdvance cfg mc clk)))
        = Except.ok top3 ∧
      (unsetRowList (RB_MAX cfg)
          (forLoop (stickyRow (drain cfg (epochAdvance cfg mc clk)).prevSch) 3
            ((drain cfg (epochAdvance cfg mc clk)).sch, top3)).1).map (fun j => mc1.sch j 0)
        = (forLoop (stickyRow (drain cfg (epochAdvance cfg mc clk)).prevSch) 3
            ((drain cfg (epochAdvance cfg mc clk)).sch, top3)).2 ∧
      (∀ j, (forLoop (stickyRow (drain cfg (epochAdvance cfg mc clk)).prevSch) 3
            ((drain cfg (epochAdvance cfg mc clk)).sch, top3)).1 j 0 ≠ RB_MAX cfg →
        mc1.sch j 0 = (forLoop (stickyRow (drain cfg (epochAdvance cfg mc clk)).prevSch) 3
            ((drain cfg (epochAdvance cfg mc clk)).sch, top3)).1 j 0) ∧
      [mc1.sch 0 0, mc1.sch 1 0, mc1.sch 2 0].Perm top3 ∧
      top3.length = 3 ∧ top3.Nodup ∧
      (∀ i, i < 3 → mc1.sch i 0 < cfg.NUM_RANKS ∧ mc1.sch i 0 ≠ RB_MAX cfg) ∧
      (∀ i j, i < 3 → 1 ≤ j → j ≤ 3 → mc1.sch i j = RB_MAX cfg) := by
  obtain ⟨top3, s1, hsel, hlen, hnd, hlt, _, hc, p1, p2, p3, p4, p5⟩ :=
    constructSchedule_fire cfg mc clk hR hf
  refine ⟨_, top3, hc, hsel, p1, p2, p4, hlen, hnd, ?_, ?_⟩
  · intro i hi
    refine ⟨?_, p5 i hi⟩
    apply hlt
    apply p4.subset
    have h3 : i = 0 ∨ i = 1 ∨ i = 2 := by omega
    rcases h3 with rfl | rfl | rfl <;> simp
  · intro i j hi h1 h3
    show s1 i j = _
    rw [p3 i j (by omega)]
    simp only [drain, epochAdvance, mapRange2]
    rw [if_pos ⟨hi, by omega⟩]

/-- Witness of C24: at the epoch start of cycle 0 with one demand read of the new owner for
rank 2, nothing is sticky and the fill pass puts the top-3, which is 2, 3, 1, into rows 0,
1, 2. -/
theorem fill_pass_witness :
    3 ≤ exampleConfig.NUM_RANKS ∧ (0 : Nat) = busyDemand.epochStart ∧
    (scheduled exampleConfig busyDemand 0).sch 0 0 = 2 ∧
    (scheduled exampleConfig busyDemand 0).sch 1 0 = 3 ∧
    (scheduled exampleConfig busyDemand 0).sch 2 0 = 1 ∧
    ∃ mc1, constructSchedule exampleConfig busyDemand 0 = Except.ok mc1 ∧
      [mc1.sch 0 0, mc1.sch 1 0, mc1.sch 2 0].Perm [2, 3, 1] := by
  obtain ⟨mc1, top3, h1, h2, _, _, h5, _⟩ :=
    fill_pass exampleConfig busyDemand 0 (by decide) rfl
  have e : top3 = [2, 3, 1] := by
    have : selectTopThree exampleConfig (pktsInRank exampleConfig
        (drain exampleConfig (epochAdvance exampleConfig busyDemand 0)))
        = Except.ok [2, 3, 1] := rfl
    rw [this] at h2
    cases h2
    rfl
  subst e
  exact ⟨by decide, rfl, by decide, by decide, by decide, mc1, h1, h5⟩

/-- C25: demand dispatch.  `mc4` is the state on which an `update()` run from a reachable
state calls `dispatchReq`, and `dispatchReq` fires (clock equal to `dispatchTick`); `r` is
`sch[rankIndx][0]`.  If the transactions concerned are reads and writes the call completes.
When it completes: either no transaction of `rankQ[turn][r]` passes
`noBankViolation(bank) && hasRoomFor(2, rank, bank)`, and `rankQ` and `sch` are unchanged;
or the first transaction `t` in queue order that passes it (at index `i`) is removed from
`rankQ[turn][r]`, the others keeping their order and every other queue being unchanged,
`sch[rankIndx][bankIndx]` is set to its bank and no other entry of `sch` changes, exactly
two packets are enqueued, an ACTIVATE followed by the packet of the type
`getBusPacketType` gives for `t`, both with the address, rank, bank, row and column of
`t`, and `t` is appended to `pendingReadTransactions` if it is a read. -/
theorem demand_dispatch (cfg : Config) (boot : Boot) (mc : MemoryController)
    (hr : Reachable cfg boot mc) (inp : CycleInput) (mc2 mc3 mc4 : MemoryController)
    (h2 : writeDataStep cfg (dataBusCountdown (cmdBusCountdown (updateBankStates cfg mc)))
      = Except.ok mc2)
    (h3 : popStep cfg inp (refreshStep cfg mc2) = Except.ok mc3)
    (h4 : constructSchedule cfg mc3 mc3.currentClockCycle = Except.ok mc4)
    (hf : mc4.currentClockCycle = mc4.dispatchTick) :
    ((∀ u ∈ demandQueue mc4, u.transactionType ≠ TransactionType.RETURN_DATA) →
      (∀ u ∈ mc4.transactionQueue, u.transactionType ≠ TransactionType.RETURN_DATA) →
      ∃ mc5, dispatchReq cfg inp mc4 mc4.currentClockCycle = Except.ok mc5) ∧
    ∀ mc5, dispatchReq cfg inp mc4 mc4.currentClockCycle = Except.ok mc5 →
      ((∀ u ∈ mc4.rankQ mc4.turn (mc4.sch mc4.rankIndx 0), accepts cfg inp mc4 u = false) ∧
        mc5.rankQ = mc4.rankQ ∧ mc5.sch = mc4.sch) ∨
      (∃ i t bp, (mc4.rankQ mc4.turn (mc4.sch mc4.rankIndx 0))[i]? = some t ∧
        noBankViolation mc4 (cfg.addressMapping t.address).bank = true ∧
        inp.hasRoomFor 2 (cfg.addressMapping t.address).rank (cfg.addressMapping t.address).bank
          = true ∧
        (∀ j u, j < i → (mc4.rankQ mc4.turn (mc4.sch mc4.rankIndx 0))[j]? = some u →
          accepts cfg inp mc4 u = false) ∧
        getBusPacketType t = Except.ok bp ∧
        mc5.rankQ mc4.turn (mc4.sch mc4.rankIndx 0)
          = (mc4.rankQ mc4.turn (mc4.sch mc4.rankIndx 0)).eraseIdx i ∧
        (∀ c r, ¬(c = mc4.turn ∧ r = mc4.sch mc4.rankIndx 0) →
          mc5.rankQ c r = mc4.rankQ c r) ∧
        mc5.sch mc4.rankIndx mc4.bankIndx = (cfg.addressMapping t.address).bank ∧
        (∀ a k, ¬(a = mc4.rankIndx ∧ k = mc4.bankIndx) → mc5.sch a k = mc4.sch a k) ∧
        mc5.trace = mc4.trace ++
          [(mc4.currentClockCycle, ExtCall.enqueue
              { busPacketType := BusPacketType.ACTIVATE, physicalAddress := t.address,
                column := (cfg.addressMapping t.address).col,
                row := (cfg.addressMapping t.address).row,
                rank := (cfg.addressMapping t.address).rank,
                bank := (cfg.addressMapping t.address).bank, data := 0 }),
           (mc4.currentClockCycle, ExtCall.enqueue
              { busPacketType := bp, physicalAddress := t.address,
                column := (cfg.addressMapping t.address).col,
                row := (cfg.addressMapping t.address).row,
                rank := (cfg.addressMapping t.address).rank,
                bank := (cfg.addressMapping t.address).bank, data := t.data })] ∧
        mc5.pendingReadTransactions =
          (if t.transactionType = TransactionType.DATA_READ
           then mc4.pendingReadTransactions ++ [t] else mc4.pendingReadTransactions)) := by
  have hi := RankQInv_at_dispatch cfg inp mc mc2 mc3 mc4 (RankQInv_reachable cfg boot mc hr)
    h2 h3 h4
  obtain ⟨_, hb1, _⟩ := cursor_at_dispatch cfg boot mc hr inp mc2 mc3 mc4 h2 h3 h4
  constructor
  · intro hq hp
    exact dispatchReq_total cfg inp mc4 _ (fun u hu => ⟨(hi _ _ u hu).2.1, hq u hu⟩) hp
  · intro mc5 h5
    rcases dispatchReq_fire cfg inp mc4 mc5 _ hf h5 with ⟨m, hd, rfl⟩ | ⟨m, hd, hp, rfl⟩
    · rcases dispatchDemand_cases cfg inp mc4 m false hd with ⟨_, e, _⟩ |
        ⟨i, t, bp, g, o, f, hbp, _, e1, e2, e3, e4, _, _⟩
      · cases e
      · right
        have hz : set2 mc4.sch mc4.rankIndx mc4.bankIndx (cfg.addressMapping t.address).bank
            mc4.rankIndx 0 = mc4.sch mc4.rankIndx 0 := by
          simp only [set2]
          rw [if_neg]
          omega
        rw [hz] at e2
        simp only [accepts, Bool.and_eq_true] at o
        refine ⟨i, t, bp, g, o.1, o.2, f, hbp, ?_, ?_, ?_, ?_, e3, e4⟩
        · show m.rankQ _ _ = _
          rw [e2]
          simp [set2]
        · intro c r hcr
          show m.rankQ c r = _
          rw [e2]
          simp only [set2, if_neg hcr]
        · show m.sch _ _ = _
          rw [e1]
          simp [set2]
        · intro a k hak
          show m.sch a k = _
          rw [e1]
          simp only [set2, if_neg hak]
    · left
      have hn : ∀ u ∈ demandQueue mc4, accepts cfg inp mc4 u = false := by
        rcases dispatchDemand_cases cfg inp mc4 mc4 true hd with ⟨a, _, _⟩ |
          ⟨_, _, _, _, _, _, _, e, _⟩
        · exact a
        · cases e
      obtain ⟨_, _, _, _, _, _, _, p1, p2⟩ := dispatchPrefetch_ok cfg inp mc4 m hp
      exact ⟨hn, p2, p1⟩

/-- Witness of C25: one demand read of core 1 for bank 5 of rank 2 is waiting; in the
update of cycle 0 the schedule is built with rank 2 in row 0 and `dispatchReq` fires on
slot (0, 1): the read leaves `rankQ[1][2]` and `sch[0][1]` becomes 5. -/
theorem demand_dispatch_witness :
    Reachable exampleConfig exampleBoot oneDemand ∧
    (atDispatch exampleConfig quietInput oneDemand).rankQ 1 2 = [demandRead 21 1] ∧
    (dispatched exampleConfig quietInput oneDemand).rankQ 1 2 = [] ∧
    (dispatched exampleConfig quietInput oneDemand).sch 0 1 = 5 := by
  have h := (demand_dispatch exampleConfig exampleBoot oneDemand
    ⟨[Event.addTransaction (demandRead 21 1)], rfl⟩ quietInput
    (afterWriteData exampleConfig oneDemand) (afterPop exampleConfig quietInput oneDemand)
    (atDispatch exampleConfig quietInput oneDemand) rfl rfl rfl rfl).2
    (dispatched exampleConfig quietInput oneDemand) rfl
  refine ⟨⟨[Event.addTransaction (demandRead 21 1)], rfl⟩, by decide, ?_, ?_⟩
  · rcases h with ⟨h1, _⟩ | ⟨i, t, bp, _, _, _, _, _, _, _, _, _, _⟩
    · exact absurd (h1 (demandRead 21 1) (by decide)) (by decide)
    · decide
  · decide

/-- C26: prefetch backfill.  In a firing of `dispatchReq` (clock equal to `dispatchTick`)
that completes: if a demand transaction is accepted (some transaction of
`rankQ[turn][sch[rankIndx][0]]` passes the test of the demand loop), `transactionQueue`
is unchanged; if none is accepted, `sch`, `prevSch` and every `rankQ` are unchanged, and
either no transaction of `transactionQueue` is a prefetch with room for 2 entries at its
mapped rank and bank, and the queue is unchanged, or the first such transaction in queue
order is the one taken from the queue. -/
theorem prefetch_backfill (cfg : Config) (inp : CycleInput) (mc mc1 : MemoryController)
    (clk : Nat) (hf : clk = mc.dispatchTick)
    (h : dispatchReq cfg inp mc clk = Except.ok mc1) :
    ((∃ u ∈ mc.rankQ mc.turn (mc.sch mc.rankIndx 0), accepts cfg inp mc u = true) →
      mc1.transactionQueue = mc.transactionQueue) ∧
    ((∀ u ∈ mc.rankQ mc.turn (mc.sch mc.rankIndx 0), accepts cfg inp mc u = false) →
      mc1.sch = mc.sch ∧ mc1.prevSch = mc.prevSch ∧ mc1.rankQ = mc.rankQ ∧
      (((∀ u ∈ mc.transactionQueue, ¬(u.isPrefetch = true ∧
            inp.hasRoomFor 2 (cfg.addressMapping u.address).rank
              (cfg.addressMapping u.address).bank = true)) ∧
          mc1.transactionQueue = mc.transactionQueue) ∨
        (∃ i t, mc.transactionQueue[i]? = some t ∧ t.isPrefetch = true ∧
          inp.hasRoomFor 2 (cfg.addressMapping t.address).rank
            (cfg.addressMapping t.address).bank = true ∧
          (∀ j u, j < i → mc.transactionQueue[j]? = some u →
            ¬(u.isPrefetch = true ∧
              inp.hasRoomFor 2 (cfg.addressMapping u.address).rank
                (cfg.addressMapping u.address).bank = true)) ∧
          mc1.transactionQueue = mc.transactionQueue.eraseIdx i))) := by
  have hb : ∀ u : Transaction, backfills cfg inp u = false →
      ¬(u.isPrefetch = true ∧ inp.hasRoomFor 2 (cfg.addressMapping u.address).rank
        (cfg.addressMapping u.address).bank = true) := by
    intro u hu hc
    simp [backfills, hc.1, hc.2] at hu
  rcases dispatchReq_fire cfg inp mc mc1 clk hf h with ⟨m, hd, rfl⟩ | ⟨m, hd, hp, rfl⟩
  · rcases dispatchDemand_cases cfg inp mc m false hd with ⟨_, e, _⟩ |
      ⟨i, t, bp, g, o, _, _, _, _, _, _, _, etq, _⟩
    · cases e
    · constructor
      · intro _
        exact etq
      · intro hn
        have := hn t (List.getElem?_mem g)
        rw [o] at this
        cases this
  · have hn : ∀ u ∈ demandQueue mc, accepts cfg inp mc u = false := by
      rcases dispatchDemand_cases cfg inp mc mc true hd with ⟨a, _, _⟩ |
        ⟨_, _, _, _, _, _, _, e, _⟩
      · exact a
      · cases e
    constructor
    · rintro ⟨u, hu, ha⟩
      have := hn u hu
      rw [ha] at this
      cases this
    · intro _
      obtain ⟨_, _, _, _, _, _, p0, p1, p2⟩ := dispatchPrefetch_ok cfg inp mc m hp
      refine ⟨p1, p0, p2, ?_⟩
      rcases dispatchPrefetch_cases cfg inp mc m hp with ⟨a, rfl⟩ | ⟨i, t, bp, g, o, f, _, e, _⟩
      · exact Or.inl ⟨fun u hu => hb u (a u hu), rfl⟩
      · simp only [backfills, Bool.and_eq_true] at o
        exact Or.inr ⟨i, t, g, o.2, o.1, fun j u hj hu => hb u (f j u hj hu), e⟩

/-- Witness of C26: a demand read of core 2, a demand read of core 1 and a prefetch of
core 0 are waiting in the transaction queue and no schedule is built yet, so that the
owner's queues hold no demand: a firing of `dispatchReq` takes the prefetch, third in the
queue, and leaves `sch`, `prevSch` and `rankQ` as they are. -/
theorem prefetch_backfill_witness :
    (0 : Nat) = busyDemand.dispatchTick ∧
    (fired exampleConfig quietInput busyDemand).transactionQueue
      = [demandRead 3 2, demandRead 21 1] ∧
    (fired exampleConfig quietInput busyDemand).sch = busyDemand.sch ∧
    (fired exampleConfig quietInput busyDemand).prevSch = busyDemand.prevSch ∧
    (fired exampleConfig quietInput busyDemand).rankQ = busyDemand.rankQ := by
  have h := (prefetch_backfill exampleConfig quietInput busyDemand
    (fired exampleConfig quietInput busyDemand) 0 rfl rfl).2 (by decide)
  exact ⟨rfl, by decide, h.1, h.2.1, h.2.2.1⟩

/-- C27: the slot cursor.  In every reachable state `rankIndx` is in {0,1,2} and `bankIndx`
in {1,2,3}.  An `update()` in which `dispatchReq` does not fire (clock different from
`dispatchTick`) leaves the tick and the cursor as they are; a firing adds `T_RANK` to
`dispatchTick`, makes `rankIndx` become `rankIndx + 1` if `rankIndx < 2`, and otherwise
makes `rankIndx` 0 and `bankIndx` 1 if it was 3 and `bankIndx + 1` otherwise.  After a run
from the initial state with `n` firings, `rankIndx = n mod 3`,
`bankIndx = 1 + ((n div 3) mod 3)` and `dispatchTick = n * T_RANK`; and the cursor has
period 9: after a run from a reachable state the cursor is where it was if and only if the
number of firings of the run is a multiple of 9. -/
theorem slot_cursor (cfg : Config) (boot : Boot) (mc : MemoryController)
    (hr : Reachable cfg boot mc) :
    (mc.rankIndx < 3 ∧ 1 ≤ mc.bankIndx ∧ mc.bankIndx ≤ 3) ∧
    (∀ inp mc1, update cfg inp mc = Except.ok mc1 →
      (mc.currentClockCycle ≠ mc.dispatchTick →
        mc1.dispatchTick = mc.dispatchTick ∧ mc1.rankIndx = mc.rankIndx ∧
        mc1.bankIndx = mc.bankIndx) ∧
      (mc.currentClockCycle = mc.dispatchTick →
        mc1.dispatchTick = mc.dispatchTick + cfg.T_RANK ∧
        mc1.rankIndx = (if mc.rankIndx < 2 then mc.rankIndx + 1 else 0) ∧
        mc1.bankIndx = (if mc.rankIndx < 2 then mc.bankIndx
                        else if mc.bankIndx = 3 then 1 else mc.bankIndx + 1))) ∧
    (∀ es, run cfg (MemoryController.init cfg boot) es = Except.ok mc →
      mc.rankIndx = firings cfg (MemoryController.init cfg boot) es % 3 ∧
      mc.bankIndx = 1 + (firings cfg (MemoryController.init cfg boot) es / 3) % 3 ∧
      mc.dispatchTick = firings cfg (MemoryController.init cfg boot) es * cfg.T_RANK) ∧
    (∀ es mc1, run cfg mc es = Except.ok mc1 →
      ((mc1.rankIndx = mc.rankIndx ∧ mc1.bankIndx = mc.bankIndx) ↔ 9 ∣ firings cfg mc es)) := by
  obtain ⟨es0, h0⟩ := hr
  have hc := CursorAt_run cfg es0 _ mc 0 (CursorAt_init cfg boot) h0
  rw [Nat.zero_add] at hc
  have hv : mc.rankIndx < 3 ∧ 1 ≤ mc.bankIndx ∧ mc.bankIndx ≤ 3 := by
    obtain ⟨a, b, _⟩ := hc
    omega
  refine ⟨hv, ?_, ?_, ?_⟩
  · intro inp mc1 hu
    obtain ⟨u1, u2⟩ := update_cursor cfg inp mc mc1 hu
    refine ⟨u1, fun hf => ?_⟩
    obtain ⟨a, b, c⟩ := u2 hf
    refine ⟨a, ?_, ?_⟩
    · rw [b]
      by_cases h2 : mc.rankIndx = 2
      · have hlt : ¬ mc.rankIndx < 2 := by omega
        rw [if_pos h2, if_neg hlt]
      · have hlt : mc.rankIndx < 2 := by omega
        rw [if_neg h2, if_pos hlt]
    · rw [c]
      by_cases h2 : mc.rankIndx = 2
      · have hlt : ¬ mc.rankIndx < 2 := by omega
        rw [if_pos h2, if_neg hlt]
      · have hlt : mc.rankIndx < 2 := by omega
        rw [if_neg h2, if_pos hlt]
  · intro es h
    have := CursorAt_run cfg es _ mc 0 (CursorAt_init cfg boot) h
    rw [Nat.zero_add] at this
    exact this
  · intro es mc1 h
    obtain ⟨a, b, c⟩ := hc
    obtain ⟨a1, b1, _⟩ := CursorAt_run cfg es mc mc1 _ ⟨a, b, c⟩ h
    rw [a1, b1, a, b]
    omega

/-- Witness of C27: with one dispatch slot per cycle, four quiet cycles from the initial
state are four firings and leave the cursor at `rankIndx = 1`, `bankIndx = 2`. -/
theorem slot_cursor_witness :
    Reachable exampleConfig exampleBoot
      (stateAfter exampleConfig exampleBoot (List.replicate 4 (Event.cycle quietInput))) ∧
    firings exampleConfig (MemoryController.init exampleConfig exampleBoot)
      (List.replicate 4 (Event.cycle quietInput)) = 4 ∧
    (stateAfter exampleConfig exampleBoot
      (List.replicate 4 (Event.cycle quietInput))).rankIndx = 1 ∧
    (stateAfter exampleConfig exampleBoot
      (List.replicate 4 (Event.cycle quietInput))).bankIndx = 2 := by
  have h := (slot_cursor exampleConfig exampleBoot
    (stateAfter exampleConfig exampleBoot (List.replicate 4 (Event.cycle quietInput)))
    ⟨List.replicate 4 (Event.cycle quietInput), rfl⟩).2.2.1
    (List.replicate 4 (Event.cycle quietInput)) rfl
  exact ⟨⟨List.replicate 4 (Event.cycle quietInput), rfl⟩, by decide, h.1.trans (by decide), h.2.1.trans (by decide)⟩

/-- C28, as stated, fails: with low power on, after five quiet
cycles rank 0 is powered down since cycle 0 and may power up since cycle 4; in the update
of cycle 5 the entry condition does not hold (its banks are in PowerDown, not Idle), yet
the rank stays powered down, because its command queue is empty and no refresh is
waiting. -/
theorem powerdown_exit_blocked :
    idleLowPowerConfig.USE_LOW_POWER = true ∧
    Reachable idleLowPowerConfig exampleBoot (idleAfter 5) ∧
    (idleAfter 5).currentClockCycle = 5 ∧
    (quietInput.isEmpty 0 = true ∧ (idleAfter 5).refreshWaiting 0 = false) ∧
    allIdle idleLowPowerConfig (idleAfter 5) 0 = false ∧
    (idleAfter 5).powerDown 0 = true ∧
    ((idleAfter 5).bankStates 0 0).nextPowerUp = 4 ∧
    (dispatched idleLowPowerConfig quietInput (idleAfter 5)).refreshWaiting 0 = false ∧
    allIdle idleLowPowerConfig (dispatched idleLowPowerConfig quietInput (idleAfter 5)) 0
      = false ∧
    (dispatched idleLowPowerConfig quietInput (idleAfter 5)).powerDown 0 = true ∧
    ((dispatched idleLowPowerConfig quietInput (idleAfter 5)).bankStates 0 0).nextPowerUp = 4 ∧
    update idleLowPowerConfig quietInput (idleAfter 5)
      = Except.ok (updated idleLowPowerConfig quietInput (idleAfter 5)) ∧
    (updated idleLowPowerConfig quietInput (idleAfter 5)).powerDown 0 = true ∧
    ((updated idleLowPowerConfig quietInput (idleAfter 5)).bankStates 0 0).currentBankState
      = CurrentBankState.PowerDown := by
  refine ⟨rfl, ⟨List.replicate 5 (Event.cycle quietInput), rfl⟩, ?_, ⟨rfl, ?_⟩, ?_, ?_, ?_, ?_,
    ?_, ?_, ?_, rfl, ?_, ?_⟩ <;> decide

/-- C28 (amended): with `USE_LOW_POWER` set, in each cycle and for each rank `i`, whenever
the command queue for the rank is not empty or a refresh is waiting for it, and
`powerDown[i]` is true and `currentClockCycle >= bankStates[i][0].nextPowerUp` (all read
on the state `mc5` on which the update runs the governor), the rank exits power-down in
that cycle: after the update `powerDown[i]` is false and every bank of the rank is Idle
with `nextActivate = currentClockCycle + tXP`. -/
theorem powerdown_exit (cfg : Config) (inp : CycleInput)
    (mc mc2 mc3 mc4 mc5 mc1 : MemoryController) (i : Nat)
    (hlp : cfg.USE_LOW_POWER = true) (hi : i < cfg.NUM_RANKS)
    (h2 : writeDataStep cfg (dataBusCountdown (cmdBusCountdown (updateBankStates cfg mc)))
      = Except.ok mc2)
    (h3 : popStep cfg inp (refreshStep cfg mc2) = Except.ok mc3)
    (h4 : constructSchedule cfg mc3 mc3.currentClockCycle = Except.ok mc4)
    (h5 : dispatchReq cfg inp mc4 mc4.currentClockCycle = Except.ok mc5)
    (hu : update cfg inp mc = Except.ok mc1)
    (hbusy : inp.isEmpty i = false ∨ mc5.refreshWaiting i = true)
    (hpd : mc5.powerDown i = true)
    (hup : (mc5.bankStates i 0).nextPowerUp ≤ mc5.currentClockCycle) :
    mc5.currentClockCycle = mc.currentClockCycle ∧
    mc1.powerDown i = false ∧
    ∀ j, j < cfg.NUM_BANKS →
      (mc1.bankStates i j).currentBankState = CurrentBankState.Idle ∧
      (mc1.bankStates i j).nextActivate = mc.currentClockCycle + cfg.tXP := by
  have hc : mc5.currentClockCycle = mc.currentClockCycle := by
    have v5 : bankView mc5 = bankView mc3 := by
      rw [bankView_dispatchReq cfg inp _ _ _ h5, bankView_constructSchedule cfg _ _ _ h4]
    have v2 : bankView (refreshStep cfg mc2) = bankView (updateBankStates cfg mc) := by
      rw [bankView_refreshStep, bankView_writeDataStep cfg _ _ h2, bankView_dataBusCountdown,
        bankView_cmdBusCountdown]
    simp only [bankView, Prod.mk.injEq] at v5 v2
    rw [v5.1, (powerDown_popStep cfg inp _ _ h3).2, v2.1]
    rfl
  obtain ⟨p1, p2⟩ := powerStep_exit cfg inp i mc5 hlp hi hbusy hpd hup
  unfold update at hu
  simp only [h2, h3, h4, h5] at hu
  split at hu
  · cases hu
  · rename_i mc6 h6
    cases hu
    have v6 := bankView_returnStep cfg _ _ h6
    simp only [bankView, Prod.mk.injEq] at v6
    refine ⟨hc, ?_, ?_⟩
    · show mc6.powerDown i = false
      rw [v6.2.2]
      exact p1
    · intro j hj
      show (mc6.bankStates i j).currentBankState = _ ∧ (mc6.bankStates i j).nextActivate = _
      rw [v6.2.1, ← hc]
      exact p2 j hj

/-- Witness of C28 (amended): after five quiet cycles with low power on, rank 0 is powered
down and may power up; in the update of cycle 5 its command queue is not empty, and the
rank exits power-down: `powerDown[0]` is false and bank 0 is Idle with
`nextActivate = 5 + tXP = 9`. -/
theorem powerdown_exit_witness :
    (updated idleLowPowerConfig fullInput (idleAfter 5)).powerDown 0 = false ∧
    ((updated idleLowPowerConfig fullInput (idleAfter 5)).bankStates 0 0).currentBankState
      = CurrentBankState.Idle ∧
    ((updated idleLowPowerConfig fullInput (idleAfter 5)).bankStates 0 0).nextActivate = 9 := by
  have h := powerdown_exit idleLowPowerConfig fullInput (idleAfter 5)
    (afterWriteData idleLowPowerConfig (idleAfter 5))
    (afterPop idleLowPowerConfig fullInput (idleAfter 5))
    (atDispatch idleLowPowerConfig fullInput (idleAfter 5))
    (dispatched idleLowPowerConfig fullInput (idleAfter 5))
    (updated idleLowPowerConfig fullInput (idleAfter 5)) 0 rfl (by decide) rfl rfl rfl rfl rfl
    (Or.inl rfl) (by decide) (by decide)
  exact ⟨h.2.1, (h.2.2 0 (by decide)).1, ((h.2.2 0 (by decide)).2).trans (by decide)⟩

/-- C29: with `WL >= 1` and `BL/2 >= 1`, along a run from the constructor whose WRITE and
WRITE_P pops (the next update's included) are at least `BL/2` cycles apart, the next
`update()` does not take the data bus collision branch, and the entries of
`writeDataCountdown` are all at least 1 and strictly increasing from head to tail, in the
state reached and at the end of that update. -/
theorem data_bus_collision_free (cfg : Config) (boot : Boot) (es : List Event)
    (inp : CycleInput) (mc : MemoryController) (hW : 1 ≤ cfg.WL) (hB : 1 ≤ cfg.BL / 2)
    (hs : spaced (cfg.BL / 2) (es ++ [Event.cycle inp]) (cfg.BL / 2) = true)
    (hr : run cfg (MemoryController.init cfg boot) es = Except.ok mc) :
    update cfg inp mc ≠ Except.error Err.dataBusCollision ∧
    ((∀ c ∈ mc.writeDataCountdown, 1 ≤ c) ∧
      mc.writeDataCountdown.Pairwise (fun a b => a < b)) ∧
    ∀ mc1, update cfg inp mc = Except.ok mc1 →
      (∀ c ∈ mc1.writeDataCountdown, 1 ≤ c) ∧
      mc1.writeDataCountdown.Pairwise (fun a b => a < b) := by
  obtain ⟨g, hi, hg⟩ := BusInv_run cfg hW hB inp es (cfg.BL / 2) _ mc
    (BusInv_init cfg boot _) hs hr
  obtain ⟨a, b⟩ := BusInv_update cfg inp mc g hW hB hi hg
  exact ⟨a, BusInv_fifo cfg g hB mc hi, fun mc1 h => BusInv_fifo cfg _ hB mc1 (b mc1 h)⟩

/-- Witness of C29: with `WL = 5` and `BL/2 = 4`, a WRITE popped in cycle 0 and another in
cycle 4: the update of cycle 4 does not abort and leaves the countdowns 1 and 5. -/
theorem data_bus_collision_free_witness :
    1 ≤ exampleConfig.WL ∧ 1 ≤ exampleConfig.BL / 2 ∧
    spaced (exampleConfig.BL / 2)
      (writeRun 3 ++ [Event.cycle (popInput (examplePacket BusPacketType.WRITE))])
      (exampleConfig.BL / 2) = true ∧
    run exampleConfig (MemoryController.init exampleConfig exampleBoot) (writeRun 3)
      = Except.ok (stateAfter exampleConfig exampleBoot (writeRun 3)) ∧
    update exampleConfig (popInput (examplePacket BusPacketType.WRITE))
        (stateAfter exampleConfig exampleBoot (writeRun 3))
      = Except.ok (updated exampleConfig (popInput (examplePacket BusPacketType.WRITE))
          (stateAfter exampleConfig exampleBoot (writeRun 3))) ∧
    (updated exampleConfig (popInput (examplePacket BusPacketType.WRITE))
        (stateAfter exampleConfig exampleBoot (writeRun 3))).writeDataCountdown = [1, 5] ∧
    update exampleConfig (popInput (examplePacket BusPacketType.WRITE))
        (stateAfter exampleConfig exampleBoot (writeRun 3))
      ≠ Except.error Err.dataBusCollision ∧
    (∀ c ∈ (updated exampleConfig (popInput (examplePacket BusPacketType.WRITE))
        (stateAfter exampleConfig exampleBoot (writeRun 3))).writeDataCountdown, 1 ≤ c) ∧
    (updated exampleConfig (popInput (examplePacket BusPacketType.WRITE))
        (stateAfter exampleConfig exampleBoot (writeRun 3))).writeDataCountdown.Pairwise
      (fun a b => a < b) := by
  have a := data_bus_collision_free exampleConfig exampleBoot (writeRun 3)
    (popInput (examplePacket BusPacketType.WRITE))
    (stateAfter exampleConfig exampleBoot (writeRun 3)) (by decide) (by decide) (by decide) rfl
  have b := a.2.2 _ rfl
  exact ⟨by decide, by decide, by decide, rfl, rfl, by decide, a.1, b.1, b.2⟩

end DRAMSim
